import Mathlib

/-!
# gnome-keyring: key derivation, key expressions, agent operations and ASN.1 times

A shallow embedding of `common/gkr-crypto.c`, of the parsing and the operations of
`daemon/gpg-agent/gkd-gpg-agent-ops.c`, and of the integer and time functions of
`egg/egg-asn1.c`.

Conventions of the embedding
* A byte or a character is a `Nat` (its unsigned value, `0 .. 255`); a C string is the
  list of the bytes in memory, read up to the first zero byte.
* A pointer argument that may be `NULL` is an `Option`.
* An output buffer is a list of cells, `none` for a cell still holding its allocation
  value and `some b` for a cell that has been stored to.
* The primitives of libgcrypt and glib are not part of the repository.  The digest and
  HMAC functions are parameters (`HashAlgo`); the multi-precision integer routines and
  the UTF-8 routines are written after the documented behaviour of those libraries.
-/

namespace GkrCrypto

/-! ## Hex codec -/

/-- The table `HEXC`: the character codes of `0123456789abcdef`. -/
def HEXC : List Nat := [48, 49, 50, 51, 52, 53, 54, 55, 56, 57, 97, 98, 99, 100, 101, 102]

/-- C `isspace` in the C locale: space, and the control characters TAB .. CR. -/
def isspace (c : Nat) : Bool := c == 32 || (9 ≤ c && c ≤ 13)

/-- C `tolower` in the C locale. -/
def tolower (c : Nat) : Nat := if 65 ≤ c ∧ c ≤ 90 then c + 32 else c

/-- C `strchr (s, c)` as the offset of the first match: the terminating zero byte of `s`
belongs to the string, so `c = 0` is found at offset `s.length`. -/
def strchr (s : List Nat) (c : Nat) : Option Nat :=
  if c ∈ s ++ [0] then some ((s ++ [0]).indexOf c) else none

/-- The `while (n_data > 0)` loop of `gkr_crypto_hex_encode`; `encoded` is what has been
stored through the moving pointer `encoded++`. -/
def hex_encode_loop : List Nat → List Nat → List Nat
  | [], encoded => encoded
  | d :: data, encoded =>
    let j1 := (d >>> 4) &&& 0xf
    let encoded1 := encoded ++ [HEXC.getD j1 0]
    let j2 := d &&& 0xf
    hex_encode_loop data (encoded1 ++ [HEXC.getD j2 0])

/-- The function `gkr_crypto_hex_encode (data, n_data, encoded, n_encoded)`: the returned
boolean and the characters stored into `encoded`. -/
def gkr_crypto_hex_encode (data : List Nat) (n_encoded : Nat) : Bool × List Nat :=
  if n_encoded ≥ data.length * 2 + 1 then (true, hex_encode_loop data []) else (false, [])

/-- The store `mem[i] = v` into a buffer whose first cells are listed in `mem`. -/
def store (mem : List Nat) (i v : Nat) : List Nat := mem.take i ++ [v] ++ mem.drop (i + 1)

/-- Local state of `gkr_crypto_hex_decode`: the cells of `decoded` stored so far (in address
order), the counter `*n_decoded` (also the offset of the moving pointer `decoded`), and
the nibble flag `state`. -/
structure HexState where
  decoded : List Nat
  n_decoded : Nat
  state : Nat
deriving DecidableEq, Repr

/-- The `while (n_data > 0)` loop of `gkr_crypto_hex_decode`. -/
def hex_decode_loop : List Nat → HexState → HexState
  | [], s => s
  | c :: data, s =>
    if !isspace c then
      match strchr HEXC (tolower c) with
      | none => s
      | some j =>
        if s.state = 0 then
          hex_decode_loop data
            { decoded := store s.decoded s.n_decoded ((j &&& 0xf) <<< 4),
              n_decoded := s.n_decoded, state := 1 }
        else
          hex_decode_loop data
            { decoded := store s.decoded s.n_decoded
                (s.decoded.getD s.n_decoded 0 ||| (j &&& 0xf)),
              n_decoded := s.n_decoded + 1, state := 0 }
    else hex_decode_loop data s

/-- Result of `gkr_crypto_hex_decode`: the returned boolean, the cells stored into
`decoded`, and the final value of `*n_decoded`. -/
structure HexDecoded where
  ret : Bool
  decoded : List Nat
  n_decoded : Nat
deriving DecidableEq, Repr

/-- The function `gkr_crypto_hex_decode (data, n_data, decoded, n_decoded)`; the argument
`n_decoded` is the capacity the caller passes in `*n_decoded`. -/
def gkr_crypto_hex_decode (data : List Nat) (n_decoded : Nat) : HexDecoded :=
  if n_decoded ≥ data.length / 2 then
    let s := hex_decode_loop data { decoded := [], n_decoded := 0, state := 0 }
    if s.state = 0 then { ret := true, decoded := s.decoded, n_decoded := s.n_decoded }
    else { ret := false, decoded := s.decoded, n_decoded := s.n_decoded }
  else { ret := false, decoded := [], n_decoded := n_decoded }

/-! ### Reference notions for the hex codec -/

/-- A character is a hexadecimal digit, of either case. -/
def isHexDigit (c : Nat) : Bool :=
  (48 ≤ c && c ≤ 57) || (97 ≤ c && c ≤ 102) || (65 ≤ c && c ≤ 70)

/-- The value of a hexadecimal digit. -/
def hexval (c : Nat) : Nat :=
  if 48 ≤ c ∧ c ≤ 57 then c - 48 else if 97 ≤ c ∧ c ≤ 102 then c - 87 else c - 55

/-- Bytes built from consecutive pairs of nibble values, high nibble first; an unpaired last
value is dropped. -/
def pair_vals : List Nat → List Nat
  | a :: b :: rest => (16 * a + b) :: pair_vals rest
  | _ => []

/-- The nibble left unpaired at the end of a list of nibble values, if any. -/
def leftover : List Nat → Option Nat
  | [] => none
  | [a] => some a
  | _ :: _ :: rest => leftover rest

/-- The loop state of the decoder that has completed the bytes `D` and holds the pending
high nibble `pend`. -/
def hexSt (D : List Nat) : Option Nat → HexState
  | none => { decoded := D, n_decoded := D.length, state := 0 }
  | some hv => { decoded := D ++ [hv <<< 4], n_decoded := D.length, state := 1 }

/-! ## Primitive registry and buffers -/

/-- A hash algorithm of the primitive registry: the digest length reported by
`gcry_md_get_algo_dlen`, the digest function, the HMAC function (key first), and whether
`gcry_md_open` can create a context for it. -/
structure HashAlgo where
  dlen : Nat
  hash : List Nat → List Nat
  hmac : List Nat → List Nat → List Nat
  open_ok : Bool

/-- The registry keeps its word: every digest and every HMAC value has `dlen` bytes. -/
def HashAlgo.WF (h : HashAlgo) : Prop :=
  (∀ m, (h.hash m).length = h.dlen) ∧ (∀ k m, (h.hmac k m).length = h.dlen)

/-- A cipher algorithm of the primitive registry: `gcry_cipher_get_algo_keylen` and
`gcry_cipher_get_algo_blklen`. -/
structure CipherAlgo where
  keylen : Nat
  blklen : Nat

/-- What a derivation does besides computing its result, in program order. -/
inductive Event
  | md_open
  | secure_alloc (n : Nat)
  | g_alloc (n : Nat)
  | hash
  | nonce (n : Nat)
deriving DecidableEq, Repr

/-- The caller's pointer variable behind an output argument (`*key`, `*iv`) when the call
is over: never stored to, `NULL`, pointing to a buffer, or pointing to a buffer that has
been released. -/
inductive OutPtr
  | untouched
  | null
  | buf (cells : List (Option Nat))
  | freed
deriving DecidableEq, Repr

/-- The cells of the buffer an output pointer leads to (none for a pointer that leads to no
live buffer). -/
def OutPtr.cells : OutPtr → List (Option Nat)
  | OutPtr.buf c => c
  | _ => []

/-- Effect of `g_free (p)` on the variable that held `p`: the variable is not reset. -/
def OutPtr.g_free : OutPtr → OutPtr
  | OutPtr.buf _ => OutPtr.freed
  | p => p

/-- What a derivation function leaves behind when it returns. -/
structure Derived where
  ret : Bool
  key : OutPtr
  iv : OutPtr
  log : List Event
deriving DecidableEq, Repr

/-- How a call ends: it returns, the process stops (failed `g_assert`, division by zero),
or the loop budget of the embedding is used up. -/
inductive Outcome (α : Type)
  | done (a : α)
  | crashed
  | out_of_fuel
deriving DecidableEq, Repr

/-- Modelled from the spec: the Secure Buffer Provider (gkr-secure-memory.c is not among
the sources), `alloc(n) -> buffer`: a fresh buffer of `n` cells. -/
def gkr_secure_alloc (n : Nat) : Option (List (Option Nat)) := some (List.replicate n none)

/-- The glib allocators `g_new0 (guchar, n)` and `g_malloc (n)`: `NULL` for `n = 0`,
otherwise a fresh buffer of `n` cells. -/
def g_malloc (n : Nat) : OutPtr := if n = 0 then OutPtr.null else OutPtr.buf (List.replicate n none)

/-- The bytes of a C string: the memory up to the first zero byte. -/
def c_str (s : List Nat) : List Nat := s.takeWhile (fun b => b != 0)

/-- The bytes `gcry_md_write` receives for `if (password) gcry_md_write (mdh, password,
strlen (password))`. -/
def password_bytes : Option (List Nat) → List Nat
  | some p => c_str p
  | none => []

/-- The bytes `gcry_md_write` receives for `if (salt && n_salt) gcry_md_write (mdh, salt,
n_salt)`. -/
def salt_bytes : Option (List Nat) → List Nat
  | some s => if s.length ≠ 0 then s else []
  | none => []

/-- The loop `for (i = 1; i < iterations; ++i)` that replaces the digest by its hash. -/
def rehash (h : HashAlgo) (iterations : Nat) (digest : List Nat) : List Nat :=
  (List.range' 1 (iterations - 1)).foldl (fun d _ => h.hash d) digest

/-- A moving output pointer (`at_key`, `at_iv`, `output`): the cells of the buffer it walks
through and its offset from the start. -/
structure OutCur where
  cells : List (Option Nat)
  pos : Nat
deriving DecidableEq, Repr

/-- The store `*(at++) = v`. -/
def OutCur.put (c : OutCur) (v : Nat) : OutCur :=
  { cells := c.cells.set c.pos (some v), pos := c.pos + 1 }

/-- The moving pointer derived from an output pointer (`at_key = key ? *key : NULL`). -/
def OutPtr.cursor : OutPtr → Option OutCur
  | OutPtr.buf c => some { cells := c, pos := 0 }
  | _ => none

/-- The output pointer with the cells the moving pointer has stored to. -/
def OutPtr.withCells (p : OutPtr) (c : Option OutCur) : OutPtr :=
  match p, c with
  | OutPtr.buf _, some c => OutPtr.buf c.cells
  | p, _ => p

/-- The copy `memcpy (dst + off, src, n)` into a buffer of cells. -/
def memcpy (dst : List (Option Nat)) (off : Nat) (src : List Nat) (n : Nat) : List (Option Nat) :=
  dst.take off ++ (src.take n).map some ++ dst.drop (off + n)

/-- The copy `memcpy (*p, src, n)` through an output pointer; nothing happens for a pointer
without buffer (the length is then zero). -/
def OutPtr.memcpy (p : OutPtr) (src : List Nat) (n : Nat) : OutPtr :=
  match p with
  | OutPtr.buf c => OutPtr.buf (GkrCrypto.memcpy c 0 src n)
  | p => p

/-- The copy loops `while (needed && i < n_digest) { if (at) *(at++) = digest[i]; needed--;
i++; }` of the simple scheme and `for (i = 0; i < n_hash && n_output; ++i) { *(output++) =
hash[i]; --n_output; }` of the PKCS#12 scheme: the final `i`, what is still needed, and the
moving pointer. -/
def copy_out (digest : List Nat) (n_digest : Nat) :
    Nat → Nat → Option OutCur → Nat × Nat × Option OutCur
  | 0, i, cur => (i, 0, cur)
  | needed + 1, i, cur =>
    if i < n_digest then
      copy_out digest n_digest needed (i + 1) (cur.map (fun c => c.put (digest.getD i 0)))
    else (i, needed + 1, cur)

/-! ## Simple scheme -/

/-- Local state of the pass loop of `gkr_crypto_generate_symkey_simple`. -/
structure SimpleState where
  digest : List Nat
  needed_key : Nat
  needed_iv : Nat
  at_key : Option OutCur
  at_iv : Option OutCur
  log : List Event

/-- One pass of the loop `for (pass = 0; TRUE; ++pass)`, up to the copies. -/
def simple_pass (h : HashAlgo) (password salt : Option (List Nat)) (iterations pass : Nat)
    (s : SimpleState) : SimpleState :=
  let input := (if pass > 0 then s.digest else []) ++ password_bytes password ++ salt_bytes salt
  let digest := rehash h iterations (h.hash input)
  let log := s.log ++ Event.hash :: List.replicate (iterations - 1) Event.hash
  let (i, needed_key, at_key) := copy_out digest h.dlen s.needed_key 0 s.at_key
  let (_, needed_iv, at_iv) := copy_out digest h.dlen s.needed_iv i s.at_iv
  { digest := digest, needed_key := needed_key, needed_iv := needed_iv,
    at_key := at_key, at_iv := at_iv, log := log }

/-- The loop `for (pass = 0; TRUE; ++pass)` with its exit test, on a budget of passes. -/
def simple_loop (h : HashAlgo) (password salt : Option (List Nat)) (iterations : Nat) :
    Nat → Nat → SimpleState → Option SimpleState
  | 0, _, _ => none
  | fuel + 1, pass, s =>
    let s1 := simple_pass h password salt iterations pass s
    if s1.needed_key = 0 ∧ s1.needed_iv = 0 then some s1
    else simple_loop h password salt iterations fuel (pass + 1) s1

/-- The function `gkr_crypto_generate_symkey_simple`; `want_key` and `want_iv` tell whether
the arguments `key` and `iv` are non-NULL. -/
def gkr_crypto_generate_symkey_simple (cipher : CipherAlgo) (h : HashAlgo)
    (password salt : Option (List Nat)) (iterations : Int) (want_key want_iv : Bool) :
    Outcome Derived :=
  if ¬ (iterations ≥ 1) then
    Outcome.done { ret := false, key := OutPtr.untouched, iv := OutPtr.untouched, log := [] }
  else
  let needed_key := cipher.keylen
  let needed_iv := cipher.blklen
  if ¬ h.open_ok then
    Outcome.done { ret := false, key := OutPtr.untouched, iv := OutPtr.untouched, log := [] }
  else
  let n_digest := h.dlen
  if ¬ (n_digest > 0) then
    Outcome.done { ret := false, key := OutPtr.untouched, iv := OutPtr.untouched,
                   log := [Event.md_open] }
  else
  match gkr_secure_alloc n_digest with
  | none =>
    Outcome.done { ret := false, key := OutPtr.untouched, iv := OutPtr.untouched,
                   log := [Event.md_open] }
  | some _ =>
  let log := [Event.md_open, Event.secure_alloc n_digest]
  match (if want_key then (gkr_secure_alloc needed_key).map OutPtr.buf else some OutPtr.untouched) with
  | none =>
    Outcome.done { ret := false, key := OutPtr.null, iv := OutPtr.untouched, log := log }
  | some key =>
  let log := if want_key then log ++ [Event.secure_alloc needed_key] else log
  let iv := if want_iv then g_malloc needed_iv else OutPtr.untouched
  let log := if want_iv then log ++ [Event.g_alloc needed_iv] else log
  match simple_loop h password salt iterations.toNat (needed_key + needed_iv + 1) 0
      { digest := [], needed_key := needed_key, needed_iv := needed_iv,
        at_key := key.cursor, at_iv := iv.cursor, log := log } with
  | none => Outcome.out_of_fuel
  | some s =>
    Outcome.done { ret := true, key := key.withCells s.at_key, iv := iv.withCells s.at_iv,
                   log := s.log }

/-! ## PBE scheme -/

/-- The function `gkr_crypto_generate_symkey_pbe`. -/
def gkr_crypto_generate_symkey_pbe (cipher : CipherAlgo) (h : HashAlgo)
    (password salt : Option (List Nat)) (iterations : Int) (want_key want_iv : Bool) :
    Outcome Derived :=
  if ¬ (iterations ≥ 1) then
    Outcome.done { ret := false, key := OutPtr.untouched, iv := OutPtr.untouched, log := [] }
  else
  let n_digest := h.dlen
  if ¬ (n_digest > 0) then
    Outcome.done { ret := false, key := OutPtr.untouched, iv := OutPtr.untouched, log := [] }
  else
  let needed_key := cipher.keylen
  let needed_iv := cipher.blklen
  if needed_iv + needed_key > 16 ∨ needed_iv + needed_key > n_digest then
    Outcome.done { ret := false, key := OutPtr.untouched, iv := OutPtr.untouched, log := [] }
  else
  if ¬ h.open_ok then
    Outcome.done { ret := false, key := OutPtr.untouched, iv := OutPtr.untouched, log := [] }
  else
  match gkr_secure_alloc n_digest with
  | none =>
    Outcome.done { ret := false, key := OutPtr.untouched, iv := OutPtr.untouched,
                   log := [Event.md_open] }
  | some _ =>
  let log := [Event.md_open, Event.secure_alloc n_digest]
  match (if want_key then (gkr_secure_alloc needed_key).map OutPtr.buf else some OutPtr.untouched) with
  | none =>
    Outcome.done { ret := false, key := OutPtr.null, iv := OutPtr.untouched, log := log }
  | some key =>
  let log := if want_key then log ++ [Event.secure_alloc needed_key] else log
  let iv := if want_iv then g_malloc needed_iv else OutPtr.untouched
  let log := if want_iv then log ++ [Event.g_alloc needed_iv] else log
  let digest := h.hash (password_bytes password ++ salt_bytes salt)
  let digest := rehash h iterations.toNat digest
  let log := log ++ Event.hash :: List.replicate (iterations.toNat - 1) Event.hash
  if want_key ∧ ¬ (needed_key ≤ n_digest) then Outcome.crashed
  else
  let key := if want_key then key.memcpy digest needed_key else key
  if want_iv ∧ ¬ (needed_iv ≤ n_digest ∧ n_digest ≥ 16) then Outcome.crashed
  else
  let iv := if want_iv then iv.memcpy (digest.drop (16 - needed_iv)) needed_iv else iv
  Outcome.done { ret := true, key := key, iv := iv, log := log }

/-! ## UTF-8 routines of glib -/

/-- The macro `UTF8_COMPUTE` of glib: length and mask of the sequence a lead byte opens. -/
def utf8_compute (c : Nat) : Option (Nat × Nat) :=
  if c < 128 then some (1, 0x7f)
  else if c &&& 0xe0 = 0xc0 then some (2, 0x1f)
  else if c &&& 0xf0 = 0xe0 then some (3, 0x0f)
  else if c &&& 0xf8 = 0xf0 then some (4, 0x07)
  else if c &&& 0xfc = 0xf8 then some (5, 0x03)
  else if c &&& 0xfe = 0xfc then some (6, 0x01)
  else none

/-- The loop of the macro `UTF8_GET` of glib over the continuation bytes; `0xFFFFFFFF` is
`(gunichar) -1`. -/
def utf8_get (s : List Nat) (p : Nat) : Nat → Nat → Nat → Nat
  | 0, _, result => result
  | n + 1, count, result =>
    if s.getD (p + count) 0 &&& 0xc0 ≠ 0x80 then 0xFFFFFFFF
    else utf8_get s p n (count + 1) ((result <<< 6) ||| (s.getD (p + count) 0 &&& 0x3f))

/-- The glib function `g_utf8_get_char` applied to the pointer `s + p`. -/
def g_utf8_get_char (s : List Nat) (p : Nat) : Nat :=
  match utf8_compute (s.getD p 0) with
  | none => 0xFFFFFFFF
  | some (len, mask) => utf8_get s p (len - 1) 1 (s.getD p 0 &&& mask)

/-- The glib table `g_utf8_skip`. -/
def g_utf8_skip (c : Nat) : Nat :=
  if c < 0xc0 then 1 else if c < 0xe0 then 2 else if c < 0xf0 then 3 else if c < 0xf8 then 4
  else if c < 0xfc then 5 else if c < 0xfe then 6 else 1

/-- The glib macro `g_utf8_next_char` applied to the pointer `s + p`: the next offset. -/
def g_utf8_next_char (s : List Nat) (p : Nat) : Nat := p + g_utf8_skip (s.getD p 0)

/-- One character of `g_utf8_validate`: a sequence of at most four bytes with proper
continuation bytes, in shortest form, no surrogate, at most U+10FFFF. -/
def utf8_char_ok (s : List Nat) (p : Nat) : Bool :=
  let c := s.getD p 0
  let u := g_utf8_get_char s p
  if c < 0x80 then true
  else if c &&& 0xe0 = 0xc0 then u != 0xFFFFFFFF && 0x80 ≤ u
  else if c &&& 0xf0 = 0xe0 then u != 0xFFFFFFFF && 0x800 ≤ u && (u &&& 0xFFFFF800 != 0xD800)
  else if c &&& 0xf8 = 0xf0 then u != 0xFFFFFFFF && 0x10000 ≤ u && u < 0x110000
  else false

/-- The character loop of `g_utf8_validate (s, -1, NULL)`, which stops at the zero byte. -/
def utf8_validate_loop (s : List Nat) : Nat → Nat → Bool
  | 0, _ => false
  | fuel + 1, p =>
    if s.getD p 0 = 0 then true
    else if utf8_char_ok s p then utf8_validate_loop s fuel (g_utf8_next_char s p)
    else false

/-- The glib function `g_utf8_validate (s, -1, NULL)`. -/
def g_utf8_validate (s : List Nat) : Bool := utf8_validate_loop s (s.length + 1) 0

/-! ## Multi-precision integers of libgcrypt -/

/-- The libgcrypt function `gcry_mpi_scan` for `GCRYMPI_FMT_USG`: the unsigned big-endian
value of the bytes. -/
def gcry_mpi_scan (bytes : List Nat) : Nat := bytes.foldl (fun acc b => acc * 256 + b) 0

/-- The big-endian bytes of a number without leading zero byte, at most `fuel` of them. -/
def usg_bytes : Nat → Nat → List Nat
  | 0, _ => []
  | fuel + 1, v => if v = 0 then [] else usg_bytes fuel (v / 256) ++ [v % 256]

/-- The libgcrypt function `gcry_mpi_print` for `GCRYMPI_FMT_USG` and a buffer of `len`
bytes: the `(nbits + 7) / 8` significant bytes, which it stores at the start of the buffer,
or nothing (`GPG_ERR_TOO_SHORT`) when they are more than `len`. -/
def gcry_mpi_print (len a : Nat) : Option (List Nat) :=
  let bytes := usg_bytes (len + 1) a
  if bytes.length > len then none else some bytes

/-- The libgcrypt function `gcry_mpi_clear_highbit (a, n)`: bit `n` and all bits above it
are cleared. -/
@[irreducible] def gcry_mpi_clear_highbit (a n : Nat) : Nat := a % 2 ^ n

/-! ## PKCS#12 scheme -/

/-- The loop `for (i = 0; i < 64; i += 2)` that brings the password in as 16 bit units;
`p2` is the offset of the read pointer in the password and `buf` what has been stored
through `p`. -/
def password_loop (utf8_password : List Nat) : Nat → Nat → List Nat → List Nat
  | 0, _, buf => buf
  | n + 1, p2, buf =>
    let unich := g_utf8_get_char utf8_password p2
    let buf := buf ++ [(unich &&& 0xFF00) >>> 8, unich &&& 0xFF]
    let p2 := if utf8_password.getD p2 0 ≠ 0 then g_utf8_next_char utf8_password p2 else 0
    password_loop utf8_password n p2 buf

/-- One turn of the loop `for (i = 0; i < 128; i += 64)`: the segment of `buf_i` at offset
`i` is read as a number, `num_b1` is added, the bits from 512 up are cleared, and the
number is printed back at the start of the segment. -/
def pkcs12_add_segment (num_b1 : Nat) (buf_i : List Nat) (i : Nat) : Option (List Nat) :=
  let num_ij := gcry_mpi_scan ((buf_i.drop i).take 64)
  let num_ij := num_ij + num_b1
  let num_ij := gcry_mpi_clear_highbit num_ij (64 * 8)
  match gcry_mpi_print 64 num_ij with
  | none => none
  | some bytes => some (buf_i.take i ++ bytes ++ buf_i.drop (i + bytes.length))

/-- The statements after `Need more bytes, do some voodoo`: the new contents of `buf_i`,
or nothing when a `g_return_val_if_fail (gcry == 0, FALSE)` fires. -/
def pkcs12_bash (hash : List Nat) (n_hash : Nat) (buf_i : List Nat) : Option (List Nat) :=
  let buf_b := (List.range 64).map (fun i => hash.getD (i % n_hash) 0)
  let num_b1 := gcry_mpi_scan buf_b
  let num_b1 := num_b1 + 1
  match pkcs12_add_segment num_b1 buf_i 0 with
  | none => none
  | some buf_i => pkcs12_add_segment num_b1 buf_i 64

/-- Local state of the loop `for (;;)` of `generate_pkcs12`. -/
structure Pkcs12State where
  buf_i : List Nat
  output : Option OutCur
  n_output : Nat
  log : List Event

/-- Result of the static generators: the returned boolean, the cells of the buffer behind
`output`, and the events. -/
structure Generated where
  ret : Bool
  output : List (Option Nat)
  log : List Event
deriving DecidableEq, Repr

/-- The cells behind a moving pointer that is not NULL. -/
def cells_of (c : Option OutCur) : List (Option Nat) :=
  match c with
  | some c => c.cells
  | none => []

/-- The loop `for (;;)` (`Hash and bash`) of `generate_pkcs12` on a budget of turns. -/
def pkcs12_loop (h : HashAlgo) (type : Nat) (with_password : Bool) (iterations : Nat) :
    Nat → Pkcs12State → Outcome Generated
  | 0, _ => Outcome.out_of_fuel
  | fuel + 1, s =>
    let hash := h.hash (List.replicate 64 (type % 256) ++
      s.buf_i.take (if with_password then 128 else 64))
    let hash := rehash h iterations hash
    let log := s.log ++ Event.hash :: List.replicate (iterations - 1) Event.hash
    let (_, n_output, output) := copy_out hash h.dlen s.n_output 0 s.output
    if n_output = 0 then
      Outcome.done { ret := true, output := cells_of output, log := log }
    else
      match pkcs12_bash hash h.dlen s.buf_i with
      | none => Outcome.done { ret := false, output := cells_of output, log := log }
      | some buf_i =>
        pkcs12_loop h type with_password iterations fuel
          { buf_i := buf_i, output := output, n_output := n_output, log := log }

/-- The 64 bytes stored by `Bring in the salt`, or nothing when `i % n_salt` divides by
zero. -/
def pkcs12_salt_block : Option (List Nat) → Option (List Nat)
  | some salt =>
    if salt.length = 0 then none
    else some ((List.range 64).map (fun i => salt.getD (i % salt.length) 0))
  | none => some (List.replicate 64 0)

/-- The 64 bytes stored by `Bring in the password`, and whether `utf8_password` is still
non-NULL after `Empty password is treated as a NULL password`. -/
def pkcs12_password_block (utf8_password : List Nat) : Bool × List Nat :=
  if utf8_password.getD 0 0 = 0 then (false, List.replicate 64 0)
  else (true, password_loop utf8_password 32 0 [])

/-- The static function `generate_pkcs12`, called with a positive `iterations`. -/
def generate_pkcs12 (h : HashAlgo) (type : Nat) (utf8_password : List Nat)
    (salt : Option (List Nat)) (iterations : Nat) (output : List (Option Nat))
    (n_output : Nat) : Outcome Generated :=
  let n_hash := h.dlen
  if ¬ (n_hash > 0) then Outcome.done { ret := false, output := output, log := [] }
  else if ¬ h.open_ok then Outcome.done { ret := false, output := output, log := [] }
  else
  match gkr_secure_alloc n_hash, gkr_secure_alloc 128, gkr_secure_alloc 64 with
  | some _, some _, some _ =>
    let log := [Event.md_open, Event.secure_alloc n_hash, Event.secure_alloc 128,
      Event.secure_alloc 64]
    match pkcs12_salt_block salt with
    | none => Outcome.crashed
    | some salt_block =>
      let (with_password, password_block) := pkcs12_password_block utf8_password
      pkcs12_loop h type with_password iterations (n_output + 1)
        { buf_i := salt_block ++ password_block,
          output := some { cells := output, pos := 0 }, n_output := n_output, log := log }
  | _, _, _ => Outcome.done { ret := false, output := output, log := [Event.md_open] }

/-- The function `gkr_crypto_generate_symkey_pkcs12`. -/
def gkr_crypto_generate_symkey_pkcs12 (cipher : CipherAlgo) (h : HashAlgo)
    (password salt : Option (List Nat)) (iterations : Int) (want_key want_iv : Bool) :
    Outcome Derived :=
  let untouched : Derived :=
    { ret := false, key := OutPtr.untouched, iv := OutPtr.untouched, log := [] }
  match password with
  | none => Outcome.done untouched
  | some password =>
  if ¬ (iterations > 0) then Outcome.done untouched
  else
  let n_key := cipher.keylen
  let n_block := cipher.blklen
  if ¬ g_utf8_validate password then Outcome.done untouched
  else
  let key0 := if want_key then OutPtr.null else OutPtr.untouched
  let iv0 := if want_iv then OutPtr.null else OutPtr.untouched
  -- Generate us an key
  let key_step : Outcome (Bool × OutPtr × List Event) :=
    if want_key then
      match gkr_secure_alloc n_key with
      | none => Outcome.done (false, OutPtr.null, [])
      | some cells =>
        match generate_pkcs12 h 1 password salt iterations.toNat cells n_key with
        | Outcome.done g =>
          Outcome.done (g.ret, OutPtr.buf g.output, Event.secure_alloc n_key :: g.log)
        | Outcome.crashed => Outcome.crashed
        | Outcome.out_of_fuel => Outcome.out_of_fuel
    else Outcome.done (true, key0, [])
  match key_step with
  | Outcome.crashed => Outcome.crashed
  | Outcome.out_of_fuel => Outcome.out_of_fuel
  | Outcome.done (ret, key, log) =>
  if want_key ∧ key = OutPtr.null then
    Outcome.done { ret := false, key := OutPtr.null, iv := iv0, log := log }
  else
  -- Generate us an iv
  let iv_step : Outcome (Bool × OutPtr × List Event) :=
    if ret ∧ want_iv then
      if n_block > 1 then
        match generate_pkcs12 h 2 password salt iterations.toNat (List.replicate n_block none)
            n_block with
        | Outcome.done g =>
          Outcome.done (g.ret, OutPtr.buf g.output, log ++ Event.g_alloc n_block :: g.log)
        | Outcome.crashed => Outcome.crashed
        | Outcome.out_of_fuel => Outcome.out_of_fuel
      else Outcome.done (ret, OutPtr.null, log)
    else Outcome.done (ret, iv0, log)
  match iv_step with
  | Outcome.crashed => Outcome.crashed
  | Outcome.out_of_fuel => Outcome.out_of_fuel
  | Outcome.done (ret, iv, log) =>
  -- Cleanup in case of failure
  if ¬ ret then
    Outcome.done { ret := ret, key := key.g_free, iv := iv.g_free, log := log }
  else Outcome.done { ret := ret, key := key, iv := iv, log := log }

/-! ## PBKDF2 scheme -/

/-- The four bytes stored into `buf[n_salt + 0 .. 3]` for the block number `i`. -/
def block_number_bytes (i : Nat) : List Nat :=
  [(i &&& 0xff000000) >>> 24, (i &&& 0x00ff0000) >>> 16, (i &&& 0x0000ff00) >>> 8,
   (i &&& 0x000000ff) >>> 0]

/-- The loop `for (k = 0; k < n_hash; k++) T[k] ^= U[k]`. -/
def xor_into (T U : List Nat) : List Nat := List.zipWith (fun t u => t ^^^ u) T U

/-- The loop `for (u = 1; u <= iterations; u++)` for block `i`: the buffers `T` and `U`. -/
def pbkdf2_inner (h : HashAlgo) (password salt : List Nat) (iterations i : Nat)
    (T U : List Nat) : List Nat × List Nat :=
  (List.range' 1 iterations).foldl
    (fun (TU : List Nat × List Nat) u =>
      let U := h.hmac password (if u = 1 then salt ++ block_number_bytes i else TU.2)
      (xor_into TU.1 U, U))
    (T, U)

/-- Local state of the block loop of `generate_pbkdf2`. -/
structure Pbkdf2State where
  output : List (Option Nat)
  U : List Nat
  log : List Event

/-- The body of the loop `for (i = 1; i <= l; i++)`. -/
def pbkdf2_block (h : HashAlgo) (password salt : List Nat) (iterations l r : Nat)
    (s : Pbkdf2State) (i : Nat) : Pbkdf2State :=
  let n_hash := h.dlen
  let T := List.replicate n_hash 0
  let (T, U) := pbkdf2_inner h password salt iterations i T s.U
  { output := memcpy s.output ((i - 1) * n_hash) T (if i = l then r else n_hash),
    U := U, log := s.log ++ List.replicate iterations Event.hash }

/-- The static function `generate_pbkdf2`; `password` holds the `n_password` bytes of the
key and `salt` the `n_salt` bytes of the salt. -/
def generate_pbkdf2 (h : HashAlgo) (password salt : List Nat) (iterations : Nat)
    (output : List (Option Nat)) (n_output : Nat) : Generated :=
  if ¬ (iterations > 0) then { ret := false, output := output, log := [] }
  else if ¬ (n_output > 0) then { ret := false, output := output, log := [] }
  else if ¬ (n_output < 4294967295) then { ret := false, output := output, log := [] }
  else
  let n_hash := h.dlen
  if ¬ (n_hash > 0) then { ret := false, output := output, log := [] }
  else if ¬ h.open_ok then { ret := false, output := output, log := [] }
  else
  let n_buf := salt.length + 4
  match gkr_secure_alloc n_hash, gkr_secure_alloc n_hash, gkr_secure_alloc n_buf with
  | some _, some _, some _ =>
    let log := [Event.md_open, Event.secure_alloc n_hash, Event.secure_alloc n_hash,
      Event.secure_alloc n_buf]
    let l := ((n_output - 1) / n_hash) + 1
    let r := n_output - (l - 1) * n_hash
    let s := (List.range' 1 l).foldl (pbkdf2_block h password salt iterations l r)
      { output := output, U := List.replicate n_hash 0, log := log }
    { ret := true, output := s.output, log := s.log }
  | _, _, _ => { ret := false, output := output, log := [Event.md_open] }

/-- The function `gkr_crypto_generate_symkey_pbkdf2`; `nonce n` is what `gcry_create_nonce`
delivers for a buffer of `n` bytes. -/
def gkr_crypto_generate_symkey_pbkdf2 (cipher : CipherAlgo) (h : HashAlgo)
    (nonce : Nat → List Nat) (password salt : Option (List Nat)) (iterations : Int)
    (want_key want_iv : Bool) : Outcome Derived :=
  let untouched : Derived :=
    { ret := false, key := OutPtr.untouched, iv := OutPtr.untouched, log := [] }
  match password with
  | none => Outcome.done untouched
  | some password =>
  if ¬ (iterations > 0) then Outcome.done untouched
  else
  let n_key := cipher.keylen
  let n_block := cipher.blklen
  let key0 := if want_key then OutPtr.null else OutPtr.untouched
  let iv0 := if want_iv then OutPtr.null else OutPtr.untouched
  let n_password := (c_str password).length
  -- Generate us an key
  let key_step : Option (Bool × OutPtr × List Event) :=
    if want_key then
      match gkr_secure_alloc n_key with
      | none => none
      | some cells =>
        let g := generate_pbkdf2 h (password.take n_password) (salt.getD []) iterations.toNat
          cells n_key
        some (g.ret, OutPtr.buf g.output, Event.secure_alloc n_key :: g.log)
    else some (true, key0, [])
  match key_step with
  | none => Outcome.done { ret := false, key := OutPtr.null, iv := iv0, log := [] }
  | some (ret, key, log) =>
  -- Generate us an iv
  let (iv, log) :=
    if ret ∧ want_iv then
      if n_block > 1 then
        (OutPtr.buf (memcpy (List.replicate n_block none) 0 (nonce n_block) n_block),
          log ++ [Event.g_alloc n_block, Event.nonce n_block])
      else (OutPtr.null, log)
    else (iv0, log)
  -- Cleanup in case of failure
  if ¬ ret then
    Outcome.done { ret := ret, key := key.g_free, iv := iv.g_free, log := log }
  else Outcome.done { ret := ret, key := key, iv := iv, log := log }

/-! ## Key expressions

The S-expressions of libgcrypt and the functions of `common/gkr-crypto.c` on them.  The
library functions are written after the documented behaviour of libgcrypt and glib; a C
string argument (a token name) is the list of its bytes.  The text that `gcry_sexp_sprint`
writes for an expression is a parameter of the functions that print. -/

/-- An S-expression: a data element (an octet string) or a list of S-expressions. -/
inductive Sexp
  | atom (data : List Nat)
  | list (items : List Sexp)
deriving Repr

/-- The libgcrypt function `gcry_sexp_nth_data (list, number, &datalen)`: the data of the
element with index `number` when that element is data, otherwise NULL. -/
def gcry_sexp_nth_data : Sexp → Nat → Option (List Nat)
  | Sexp.atom d, 0 => some d
  | Sexp.atom _, _ + 1 => none
  | Sexp.list items, number =>
    match items.get? number with
    | some (Sexp.atom d) => some d
    | _ => none

/-- The libgcrypt function `gcry_sexp_nth (list, number)`: the element with index `number`
as a new S-expression (a data element comes as a list of one element), NULL when there is
no such element or it is the empty list. -/
def gcry_sexp_nth : Sexp → Nat → Option Sexp
  | Sexp.atom _, _ => none
  | Sexp.list items, number =>
    match items.get? number with
    | some (Sexp.atom d) => some (Sexp.list [Sexp.atom d])
    | some (Sexp.list []) => none
    | some (Sexp.list l) => some (Sexp.list l)
    | none => none

mutual
/-- The libgcrypt function `gcry_sexp_find_token (list, tok, 0)`: the first list, in the
order of the printed expression and the expression itself included, whose first element is
data equal to `tok`; NULL when there is none. -/
def gcry_sexp_find_token : Sexp → List Nat → Option Sexp
  | Sexp.atom _, _ => none
  | Sexp.list items, tok =>
    match items with
    | Sexp.atom d :: _ =>
      if d = tok then some (Sexp.list items) else sexp_find_token_in items tok
    | _ => sexp_find_token_in items tok
/-- The search of `gcry_sexp_find_token` through the elements of a list. -/
def sexp_find_token_in : List Sexp → List Nat → Option Sexp
  | [], _ => none
  | x :: rest, tok =>
    match gcry_sexp_find_token x tok with
    | some r => some r
    | none => sexp_find_token_in rest tok
end

/-- The libgcrypt function `gcry_sexp_nth_mpi (list, number, GCRYMPI_FMT_USG)`: the data of
element `number` read as an unsigned big-endian number, NULL when that element is not
data. -/
def gcry_sexp_nth_mpi (list : Sexp) (number : Nat) : Option Nat :=
  (gcry_sexp_nth_data list number).map gcry_mpi_scan

/-- The bytes `gcry_mpi_print (GCRYMPI_FMT_STD, ...)` produces for a number that is not
negative: the significant bytes in big-endian order, after a zero byte when the first of
them has its top bit set. -/
def gcry_mpi_print_std (a : Nat) : List Nat :=
  let bytes := usg_bytes a a
  if bytes.headD 0 ≥ 128 then 0 :: bytes else bytes

/-- The identifier `GCRY_PK_RSA` of libgcrypt. -/
def GCRY_PK_RSA : Nat := 1

/-- The identifier `GCRY_PK_DSA` of libgcrypt. -/
def GCRY_PK_DSA : Nat := 17

/-- The string `PUBLIC_KEY`, `"public-key"`. -/
def PUBLIC_KEY : List Nat := [112, 117, 98, 108, 105, 99, 45, 107, 101, 121]

/-- The string `PRIVATE_KEY`, `"private-key"`. -/
def PRIVATE_KEY : List Nat := [112, 114, 105, 118, 97, 116, 101, 45, 107, 101, 121]

/-- The loop of `sexp_get_childv` over the names of the argument list; `cur` is the local
`at`. -/
def sexp_get_childv_loop (sexp : Sexp) : Option Sexp → List (List Nat) → Option Sexp
  | cur, [] => cur
  | cur, name :: va =>
    match gcry_sexp_find_token (cur.getD sexp) name with
    | none => none
    | some child => sexp_get_childv_loop sexp (some child) va

/-- The static function `sexp_get_childv (sexp, va)`; `va` holds the names before the
closing NULL. -/
def sexp_get_childv (sexp : Sexp) (va : List (List Nat)) : Option Sexp :=
  sexp_get_childv_loop sexp none va

/-- The function `gkr_crypto_sexp_get_child (sexp, ...)`. -/
def gkr_crypto_sexp_get_child (sexp : Sexp) (va : List (List Nat)) : Option Sexp :=
  sexp_get_childv sexp va

/-- The function `gkr_crypto_sexp_extract_mpi (sexp, &mpi, ...)`: the returned boolean and
the value stored to `*mpi` (nothing for NULL). -/
def gkr_crypto_sexp_extract_mpi (sexp : Sexp) (va : List (List Nat)) : Bool × Option Nat :=
  let cur := sexp_get_childv sexp va
  let mpi : Option Nat :=
    match cur with
    | some a => gcry_sexp_nth_mpi a 1
    | none => none
  (mpi.isSome, mpi)

/-- How a call ends that prints on its way: it returns, or its behaviour is undefined
(`g_printerr` has been given a format with a conversion specification and no argument). -/
inductive Printed (α : Type)
  | done (a : α)
  | undefined
deriving DecidableEq, Repr

/-- The glib function `g_printerr (format, ...)` called with the format alone: the text it
formats for the error stream, in which `%%` of the format stands as one `%`; `none` when the
format has a `%` that is not part of a `%%`, a conversion specification for which the call
has no argument (undefined behaviour). -/
def g_printerr : List Nat → Option (List Nat)
  | [] => some []
  | [c] => if c = 37 then none else some [c]
  | c :: d :: format =>
    if c = 37 then
      if d = 37 then (g_printerr format).map (fun printed => 37 :: printed) else none
    else (g_printerr (d :: format)).map (fun printed => c :: printed)

/-- The function `gkr_crypto_sexp_dump (sexp)`: what it sends to the error stream.
`gcry_sexp_sprint` gives the text that the library function of this name writes to `buf` in
the advanced format (a zero byte ends it); the function passes `buf` to `g_printerr` as the
format, `g_printerr (buf)`. -/
def gkr_crypto_sexp_dump (gcry_sexp_sprint : Sexp → List Nat) (sexp : Sexp) :
    Printed (List Nat) :=
  let buf := gcry_sexp_sprint sexp
  match g_printerr (c_str buf) with
  | some printed => Printed.done printed
  | none => Printed.undefined

/-- What `gkr_crypto_skey_parse` returns and stores: `none` for an output that has not been
stored to. -/
structure SkeyParsed where
  ret : Bool
  algorithm : Option Nat
  is_priv : Option Bool
  numbers : Option Sexp
deriving Repr

/-- The function `gkr_crypto_skey_parse (s_key, algorithm, is_priv, numbers)`;
`gcry_pk_map_name` is the name table of the registry (0 for a name it does not know), and
the three flags tell which output pointers are non-NULL. -/
def gkr_crypto_skey_parse (gcry_pk_map_name : List Nat → Nat) (s_key : Sexp)
    (want_algorithm want_is_priv want_numbers : Bool) : SkeyParsed :=
  let done : SkeyParsed := { ret := false, algorithm := none, is_priv := none, numbers := none }
  match gcry_sexp_nth_data s_key 0 with
  | none => done
  | some data =>
    if data = PUBLIC_KEY ∨ data = PRIVATE_KEY then
      let priv : Bool := if data = PUBLIC_KEY then false else true
      match gcry_sexp_nth s_key 1 with
      | none => done
      | some child =>
        match gcry_sexp_nth_data child 0 with
        | none => done
        | some data =>
          let algo := gcry_pk_map_name (c_str data)
          if algo = 0 then done
          else
            { ret := true,
              algorithm := if want_algorithm then some algo else none,
              is_priv := if want_is_priv then some priv else none,
              numbers := if want_numbers then some child else none }
    else done

/-- The expression `gcry_sexp_build` makes from `"(public-key (rsa (n %m) (e %m)))"`. -/
def sexp_build_public_rsa (n e : Nat) : Sexp :=
  Sexp.list [Sexp.atom PUBLIC_KEY, Sexp.list [Sexp.atom [114, 115, 97],
    Sexp.list [Sexp.atom [110], Sexp.atom (gcry_mpi_print_std n)],
    Sexp.list [Sexp.atom [101], Sexp.atom (gcry_mpi_print_std e)]]]

/-- The expression `gcry_sexp_build` makes from
`"(public-key (dsa (p %m) (q %m) (g %m) (y %m)))"`. -/
def sexp_build_public_dsa (p q g y : Nat) : Sexp :=
  Sexp.list [Sexp.atom PUBLIC_KEY, Sexp.list [Sexp.atom [100, 115, 97],
    Sexp.list [Sexp.atom [112], Sexp.atom (gcry_mpi_print_std p)],
    Sexp.list [Sexp.atom [113], Sexp.atom (gcry_mpi_print_std q)],
    Sexp.list [Sexp.atom [103], Sexp.atom (gcry_mpi_print_std g)],
    Sexp.list [Sexp.atom [121], Sexp.atom (gcry_mpi_print_std y)]]]

/-- The static function `rsa_numbers_to_public (rsa)`: the expression returned (nothing for
NULL) and what has been sent to the error stream. -/
def rsa_numbers_to_public (gcry_sexp_sprint : Sexp → List Nat) (rsa : Sexp) :
    Printed (Option Sexp × List Nat) :=
  match gkr_crypto_sexp_dump gcry_sexp_sprint rsa with
  | Printed.undefined => Printed.undefined
  | Printed.done emitted =>
    match gkr_crypto_sexp_extract_mpi rsa [[110]] with
    | (true, some n) =>
      match gkr_crypto_sexp_extract_mpi rsa [[101]] with
      | (true, some e) => Printed.done (some (sexp_build_public_rsa n e), emitted)
      | _ => Printed.done (none, emitted)
    | _ => Printed.done (none, emitted)

/-- The static function `dsa_numbers_to_public (dsa)`. -/
def dsa_numbers_to_public (dsa : Sexp) : Option Sexp × List Nat :=
  match gkr_crypto_sexp_extract_mpi dsa [[112]] with
  | (true, some p) =>
    match gkr_crypto_sexp_extract_mpi dsa [[113]] with
    | (true, some q) =>
      match gkr_crypto_sexp_extract_mpi dsa [[103]] with
      | (true, some g) =>
        match gkr_crypto_sexp_extract_mpi dsa [[121]] with
        | (true, some y) => (some (sexp_build_public_dsa p q g y), [])
        | _ => (none, [])
      | _ => (none, [])
    | _ => (none, [])
  | _ => (none, [])

/-- The caller's variable behind `pubkey` when `gkr_crypto_skey_private_to_public` is over:
not stored to, `NULL`, or an expression. -/
inductive OutSexp
  | untouched
  | null
  | expr (s : Sexp)
deriving Repr

/-- What `gkr_crypto_skey_private_to_public` leaves behind: the returned boolean, `*pubkey`,
and the text that `g_printerr` has sent to the error stream (the messages that the checks
`g_return_val_if_fail` and `g_return_val_if_reached` hand to the log of glib are not
recorded). -/
structure PublicDerived where
  ret : Bool
  pubkey : OutSexp
  emitted : List Nat
deriving Repr

/-- The function `gkr_crypto_skey_private_to_public (privkey, pubkey)`; `gcry_pk_map_name`
is the name table of the registry and `gcry_sexp_sprint` the printer of the library, as in
`gkr_crypto_skey_parse` and `gkr_crypto_sexp_dump`. -/
def gkr_crypto_skey_private_to_public (gcry_pk_map_name : List Nat → Nat)
    (gcry_sexp_sprint : Sexp → List Nat) (privkey : Sexp) : Printed PublicDerived :=
  let parsed := gkr_crypto_skey_parse gcry_pk_map_name privkey true false true
  match parsed.ret, parsed.algorithm, parsed.numbers with
  | true, some algorithm, some numbers =>
    if algorithm = GCRY_PK_RSA then
      match rsa_numbers_to_public gcry_sexp_sprint numbers with
      | Printed.undefined => Printed.undefined
      | Printed.done (some pub, emitted) =>
        Printed.done { ret := true, pubkey := OutSexp.expr pub, emitted := emitted }
      | Printed.done (none, emitted) =>
        Printed.done { ret := false, pubkey := OutSexp.null, emitted := emitted }
    else if algorithm = GCRY_PK_DSA then
      match dsa_numbers_to_public numbers with
      | (some pub, emitted) =>
        Printed.done { ret := true, pubkey := OutSexp.expr pub, emitted := emitted }
      | (none, emitted) =>
        Printed.done { ret := false, pubkey := OutSexp.null, emitted := emitted }
    else Printed.done { ret := false, pubkey := OutSexp.untouched, emitted := [] }
  | _, _, _ => Printed.done { ret := false, pubkey := OutSexp.untouched, emitted := [] }

/-! ## The gpg-agent operations (daemon/gpg-agent/gkd-gpg-agent-ops.c)

Memory is a list of bytes that starts at the address an argument points to; the C string is
what comes before the first zero byte, and a read past the end of the list delivers 0. -/

/-- The table `HEX_CHARS`: the character codes of `0123456789ABCDEF`. -/
def HEX_CHARS : List Nat := [48, 49, 50, 51, 52, 53, 54, 55, 56, 57, 65, 66, 67, 68, 69, 70]

/-- The copy `memmove (mem + dst, mem + src, n)` inside one buffer. -/
def memmove (mem : List Nat) (dst src n : Nat) : List Nat :=
  mem.take dst ++ (List.range n).map (fun k => mem.getD (src + k) 0) ++ mem.drop (dst + n)

/-- Local state of `decode_assuan_arg`: the memory from the start of the argument, the
offset of the moving pointer `arg`, the counter `len`, and the offsets the loop has read
from, in order. -/
structure AssuanState where
  mem : List Nat
  arg : Nat
  len : Int
  reads : List Nat
deriving DecidableEq, Repr

/-- The `switch (*arg)` of `decode_assuan_arg`, one turn of its loop before `arg++, len--`. -/
def decode_assuan_switch (s : AssuanState) : AssuanState :=
  let c := s.mem.getD s.arg 0
  let s := { s with reads := s.reads ++ [s.arg] }
  if c = 43 then { s with mem := store s.mem s.arg 32 }
  else if c = 37 then
    let mem := store s.mem s.arg 63
    let reads := s.reads ++ [s.arg + 1]
    let (mem, reads) :=
      match strchr HEX_CHARS (mem.getD (s.arg + 1) 0) with
      | some t =>
        let mem := store mem s.arg ((t &&& 0xf) <<< 4)
        let reads := reads ++ [s.arg + 2]
        match strchr HEX_CHARS (mem.getD (s.arg + 2) 0) with
        | some t => (store mem s.arg (mem.getD s.arg 0 ||| (t &&& 0xf)), reads)
        | none => (mem, reads)
      | none => (mem, reads)
    let len := s.len - 2
    if len < 1 then { mem := store mem (s.arg + 1) 0, arg := s.arg, len := len, reads := reads }
    else
      { mem := memmove mem (s.arg + 1) (s.arg + 3) len.toNat, arg := s.arg, len := len,
        reads := reads ++ List.range' (s.arg + 3) len.toNat }
  else s

/-- The loop `for (len = strlen (arg); len > 0; arg++, len--)` on a budget of turns. -/
def decode_assuan_loop : Nat → AssuanState → AssuanState
  | 0, s => s
  | fuel + 1, s =>
    if s.len > 0 then
      let s1 := decode_assuan_switch s
      decode_assuan_loop fuel { s1 with arg := s1.arg + 1, len := s1.len - 1 }
    else s

/-- The static function `decode_assuan_arg (arg)` on the memory `arg` points to. -/
def decode_assuan_arg (mem : List Nat) : AssuanState :=
  decode_assuan_loop (c_str mem).length
    { mem := mem, arg := 0, len := (c_str mem).length, reads := [] }

/-- The glib predicate `g_ascii_isalnum`: an ASCII letter or digit. -/
def g_ascii_isalnum (c : Nat) : Bool :=
  (48 ≤ c && c ≤ 57) || (65 ≤ c && c ≤ 90) || (97 ≤ c && c ≤ 122)

/-- The `while (*value)` loop of `uri_encode_password`; `result` is what has been stored
through the moving pointer `p++`. A byte is taken as `unsigned char`. -/
def uri_encode_loop : List Nat → List Nat → List Nat
  | [], result => result
  | v :: value, result =>
    if v != 0 && (g_ascii_isalnum v || (strchr [95, 45, 46] v).isSome) then
      uri_encode_loop value (result ++ [v])
    else
      uri_encode_loop value
        (result ++ [37, HEXC.getD ((v % 256) >>> 4) 0, HEXC.getD ((v % 256) &&& 0x0F) 0])

/-- The function `uri_encode_password`: the cells stored in the fresh buffer, the
terminating zero byte included. -/
def uri_encode_password (value : List Nat) : List Nat :=
  uri_encode_loop (c_str value) [] ++ [0]

/-- The loop `for (p = d + l; *p != '.'; --p)` of `x11_display_dot_offset`, started with
`p` at the given offset: the offset `p` has when the loop is left (at a dot, at the start
of the string, or at a colon). -/
def x11_dot_loop (d : List Nat) : Nat → Nat
  | 0 => 0
  | p + 1 =>
    if d.getD (p + 1) 0 = 46 then p + 1
    else if d.getD (p + 1) 0 = 58 then p + 1
    else x11_dot_loop d p

/-- The function `x11_display_dot_offset`; `l` is a `guint`. -/
def x11_display_dot_offset (d : List Nat) : Nat :=
  let l := (c_str d).length % 2 ^ 32
  let p := x11_dot_loop d l
  if d.getD p 0 = 46 then p else l

/-- The glib function `g_ascii_strncasecmp`: compares at most `n` characters, ignoring the
case of ASCII letters, and stops at the end of either string. -/
def g_ascii_strncasecmp : List Nat → List Nat → Nat → Int
  | _, _, 0 => 0
  | s1, s2, n + 1 =>
    if s1.headD 0 ≠ 0 ∧ s2.headD 0 ≠ 0 then
      if tolower (s1.headD 0) ≠ tolower (s2.headD 0) then
        (tolower (s1.headD 0) : Int) - (tolower (s2.headD 0) : Int)
      else g_ascii_strncasecmp s1.tail s2.tail n
    else (s1.headD 0 : Int) - (s2.headD 0 : Int)

/-- The function `x11_displays_eq`. -/
def x11_displays_eq (d1 d2 : List Nat) : Bool :=
  let l1 := x11_display_dot_offset d1
  let l2 := x11_display_dot_offset d2
  g_ascii_strncasecmp d1 d2 (if l1 > l2 then l1 else l2) == 0

/-! ### The operations of the agent

The call structure, the constants of the protocol and the functions that send replies are
declared outside `gkd-gpg-agent-ops.c`; the constants and the results of the outside world
are the fields of `AgentEnv`, and what an operation does to the outside world is the list
of `AgentEvent` it leaves. -/

/-- The character codes of a text. -/
def text (s : String) : List Nat := s.toList.map Char.toNat

/-- What an operation does that can be seen from outside, in program order. A message is
named by its format string. -/
inductive AgentEvent
  | g_message (format : List Nat)
  | g_warning (format : List Nat)
  | g_critical
  | send_reply (ok : Bool) (response : Option (List Nat))
  | send_data (data : List Nat)
  | checkout_session
  | checkin_session
  | lookup_password (keyid : Option (List Nat))
  | open_prompt (keyid errmsg prompt_text description : Option (List Nat)) (confirm : Bool)
  | store_password (keyid password : List Nat)
  | clear_password (keyid : Option (List Nat))
deriving DecidableEq, Repr

/-- The constants of `gkd-gpg-agent-private.h` and the answers of the collaborators of the
operations: the environment variable `DISPLAY`, the value `gkd_gpg_agent_send_reply`
returns, whether a main session can be checked out, the password the login keyring holds
for a key id, whether a prompt can be opened, the password the prompt delivers (none when
it is cancelled or fails, `prompt_cancelled` telling which). -/
structure AgentEnv where
  GPG_AGENT_OPT_DISPLAY : List Nat
  GPG_AGENT_FLAG_DATA : List Nat
  GPG_AGENT_FLAG_REPEAT : List Nat
  GPG_AGENT_GETPASS : List Nat
  display : Option (List Nat)
  send_reply_result : Bool → Option (List Nat) → Bool
  session : Bool
  login_password : Option (List Nat) → Option (List Nat)
  prompt_opens : Bool
  prompt_password : Option (List Nat)
  prompt_cancelled : Bool

/-- The field of `GkdGpgAgentCall` the operations use. -/
structure GkdGpgAgentCall where
  terminal_ok : Bool
deriving DecidableEq, Repr

/-- The flag `GKD_GPG_AGENT_PASS_AS_DATA`. -/
def GKD_GPG_AGENT_PASS_AS_DATA : Nat := 0x00000001

/-- The flag `GKD_GPG_AGENT_REPEAT`. -/
def GKD_GPG_AGENT_REPEAT : Nat := 0x00000002

/-- The function `is_null_argument`: `strcmp (arg, "X") == 0`. -/
def is_null_argument (arg : List Nat) : Bool := c_str arg == [88]

/-- The digits of C `atoi`, most significant first, added to the value read so far. -/
def atoi_digits : List Nat → Int → Int
  | [], acc => acc
  | c :: rest, acc =>
    if 48 ≤ c ∧ c ≤ 57 then atoi_digits rest (10 * acc + ((c : Int) - 48)) else acc

/-- C `atoi`: white space, an optional sign, then decimal digits. The value is the
mathematical one; C leaves the result open when it does not fit an `int`. -/
def atoi (s : List Nat) : Int :=
  match (c_str s).dropWhile isspace with
  | 45 :: rest => - atoi_digits rest 0
  | 43 :: rest => atoi_digits rest 0
  | rest => atoi_digits rest 0

/-- The function `parse_assuan_flag`: the flag bit, and the warning it may log. -/
def parse_assuan_flag (env : AgentEnv) (flag : List Nat) : Nat × List AgentEvent :=
  if c_str flag = c_str env.GPG_AGENT_FLAG_DATA then (GKD_GPG_AGENT_PASS_AS_DATA, [])
  else if (c_str env.GPG_AGENT_FLAG_REPEAT).isPrefixOf (c_str flag) then
    let flag := (c_str flag).drop (c_str env.GPG_AGENT_FLAG_REPEAT).length
    let (count, events) :=
      if flag.headD 0 = 61 then
        let count := atoi (flag.drop 1)
        (count,
          if ¬ (count = 0 ∨ count = 1) then
            [AgentEvent.g_warning (text "--repeat=%d treated as --repeat=1")]
          else [])
      else ((1 : Int), [])
    if count ≠ 0 then (GKD_GPG_AGENT_REPEAT, events) else (0, events)
  else (0, [])

/-- The loop `while (*line && isspace (*line)) line++`: the new offset `line`. -/
def skip_space : Nat → List Nat → Nat → Nat
  | 0, _, line => line
  | fuel + 1, mem, line =>
    if mem.getD line 0 ≠ 0 ∧ isspace (mem.getD line 0) = true then skip_space fuel mem (line + 1)
    else line

/-- The loop `while (*line && !isspace (*line)) line++`: the new offset `line`. -/
def skip_word : Nat → List Nat → Nat → Nat
  | 0, _, line => line
  | fuel + 1, mem, line =>
    if mem.getD line 0 ≠ 0 ∧ ¬ isspace (mem.getD line 0) = true then
      skip_word fuel mem (line + 1)
    else line

/-- The loop `while (*line && isspace (*line)) { *line = 0; line++; }`: the new memory and
the new offset `line`. -/
def null_space : Nat → List Nat → Nat → List Nat × Nat
  | 0, mem, line => (mem, line)
  | fuel + 1, mem, line =>
    if mem.getD line 0 ≠ 0 ∧ isspace (mem.getD line 0) = true then
      null_space fuel (store mem line 0) (line + 1)
    else (mem, line)

/-- Local state of `split_arguments`: the memory of the line, the offset of the moving
pointer `line`, the word `*flags`, and the messages logged. -/
structure SplitState where
  mem : List Nat
  line : Nat
  flags : Nat
  events : List AgentEvent
deriving DecidableEq, Repr

/-- The loop `while (*line)` of `split_arguments` that reads the flags. -/
def split_flags_loop (env : AgentEnv) : Nat → SplitState → SplitState
  | 0, s => s
  | fuel + 1, s =>
    if s.mem.getD s.line 0 ≠ 0 then
      if ¬ (s.mem.getD s.line 0 = 45 ∧ s.mem.getD (s.line + 1) 0 = 45) then s
      else
        let flag := s.line + 2
        let line := skip_word s.mem.length s.mem flag
        let (mem, line) := null_space s.mem.length s.mem line
        let (bit, events) := parse_assuan_flag env (mem.drop flag)
        split_flags_loop env fuel
          { mem := mem, line := line, flags := s.flags ||| bit, events := s.events ++ events }
    else s

/-- The loop `while ((cur = va_arg (ap, gchar **)) != NULL)` of `split_arguments` over
`n` output pointers: the final state and, for each pointer in turn, the offset stored
through it (none for `NULL`). -/
def split_args_loop : Nat → SplitState → SplitState × List (Option Nat)
  | 0, s => (s, [])
  | n + 1, s =>
    if s.mem.getD s.line 0 ≠ 0 then
      let cur := s.line
      let line := skip_word s.mem.length s.mem s.line
      let (mem, line) := null_space s.mem.length s.mem line
      let mem := mem.take cur ++ (decode_assuan_arg (mem.drop cur)).mem
      let (s2, rest) := split_args_loop n { s with mem := mem, line := line }
      (s2, some cur :: rest)
    else
      let (s2, rest) := split_args_loop n s
      (s2, none :: rest)

/-- What `split_arguments` leaves: the word `*flags` (0 when `flags` is `NULL`), the
messages logged, and for each output pointer the C string it points to when the call is
over (none for `NULL`). -/
structure SplitArguments where
  flags : Nat
  events : List AgentEvent
  args : List (Option (List Nat))
deriving DecidableEq, Repr

/-- The function `split_arguments` on a line, with `want_flags` telling whether `flags`
is not `NULL` and `n` the number of output pointers before the closing `NULL`. -/
def split_arguments (env : AgentEnv) (line : List Nat) (want_flags : Bool) (n : Nat) :
    SplitArguments :=
  let s : SplitState :=
    { mem := line, line := skip_space line.length line 0, flags := 0, events := [] }
  let s := if want_flags then split_flags_loop env line.length s else s
  let (s, offsets) := split_args_loop n s
  { flags := s.flags, events := s.events,
    args := offsets.map (fun o => o.map (fun cur => c_str (s.mem.drop cur))) }
/-- The function `command_has_option`. -/
def command_has_option (env : AgentEnv) (command option : List Nat) : Bool :=
  if c_str command = c_str env.GPG_AGENT_GETPASS then
    c_str option == c_str env.GPG_AGENT_FLAG_DATA ||
      c_str option == c_str env.GPG_AGENT_FLAG_REPEAT
  else false

/-- The `while (*pass)` loop of `hex_encode_password`; `enc` is what has been stored
through the moving pointer `k++`. -/
def hex_encode_password_loop : List Nat → List Nat → List Nat
  | [], enc => enc
  | c :: pass, enc =>
    hex_encode_password_loop pass
      (enc ++ [HEXC.getD (((c % 256) >>> 4) &&& 0xf) 0, HEXC.getD ((c % 256) &&& 0xf) 0])

/-- The function `hex_encode_password`: the cells stored in the fresh buffer, which
`egg_secure_alloc` hands out filled with zero bytes. -/
def hex_encode_password (pass : List Nat) : List Nat :=
  hex_encode_password_loop (c_str pass) []

/-- What an operation leaves behind when it returns: the call structure, what it did, and
its return value. -/
structure OpResult where
  call : GkdGpgAgentCall
  events : List AgentEvent
  ret : Bool
deriving DecidableEq, Repr

/-- The call `gkd_gpg_agent_send_reply (call, ok, response)` as the last statement
`return gkd_gpg_agent_send_reply (...)` of an operation that has left `events`. -/
def return_send_reply (env : AgentEnv) (call : GkdGpgAgentCall) (events : List AgentEvent)
    (ok : Bool) (response : Option (List Nat)) : OpResult :=
  { call := call, events := events ++ [AgentEvent.send_reply ok response],
    ret := env.send_reply_result ok response }

/-- The function `do_clear_password`. -/
def do_clear_password (keyid : Option (List Nat)) : List AgentEvent :=
  [AgentEvent.clear_password keyid]

/-- The function `do_get_password`: the password (none for `NULL`) and what was done. The
label, the method and the lifetime the password is stored with come from the settings and
the translations and are not part of the `store_password` event. -/
def do_get_password (env : AgentEnv) (keyid errmsg prompt_text description : Option (List Nat))
    (confirm : Bool) : Option (List Nat) × List AgentEvent :=
  match env.login_password keyid with
  | some password => (some password, [AgentEvent.lookup_password keyid])
  | none =>
    let events :=
      [AgentEvent.lookup_password keyid,
        AgentEvent.open_prompt keyid errmsg prompt_text description confirm]
    let (password, events) :=
      if env.prompt_opens then
        match env.prompt_password with
        | some password => (some password, events)
        | none =>
          (none,
            if ¬ env.prompt_cancelled then
              events ++ [AgentEvent.g_warning (text "couldn't prompt for password: %s")]
            else events)
      else
        (none,
          events ++
            [AgentEvent.g_warning (text "couldn't create prompt for gnupg passphrase: %s")])
    match password, keyid with
    | some password, some keyid =>
      (some password, events ++ [AgentEvent.store_password keyid password])
    | password, _ => (password, events)

/-- The function `gkd_gpg_agent_ops_options`. With `DISPLAY` not set, `x11_displays_eq`
takes the length of a null pointer. -/
def gkd_gpg_agent_ops_options (env : AgentEnv) (call : GkdGpgAgentCall) (args : List Nat) :
    Outcome OpResult :=
  let split := split_arguments env args false 1
  match split.args.headD none with
  | none =>
    Outcome.done
      (return_send_reply env call
        (split.events ++ [AgentEvent.g_message (text "received invalid option argument")])
        false (some (text "105 parameter error")))
  | some option =>
    let len := (c_str env.GPG_AGENT_OPT_DISPLAY).length
    if g_ascii_strncasecmp option env.GPG_AGENT_OPT_DISPLAY len = 0 then
      let option := option.drop len
      match env.display with
      | none => Outcome.crashed
      | some display =>
        if x11_displays_eq option display = true then
          Outcome.done
            (return_send_reply env { call with terminal_ok := true } split.events true none)
        else
          Outcome.done
            (return_send_reply env call
              (split.events ++
                [AgentEvent.g_message (text "received request different display: %s")])
              false (some (text "105 parameter conflict")))
    else Outcome.done (return_send_reply env call split.events true none)

/-- The statement `if (is_null_argument (arg)) arg = NULL;`. -/
def null_if_null_argument (arg : Option (List Nat)) : Option (List Nat) :=
  arg.bind (fun a => if is_null_argument a then none else some a)

/-- The function `gkd_gpg_agent_ops_getpass`. -/
def gkd_gpg_agent_ops_getpass (env : AgentEnv) (call : GkdGpgAgentCall) (args : List Nat) :
    Outcome OpResult :=
  if ¬ call.terminal_ok = true then
    Outcome.done
      (return_send_reply env call
        [AgentEvent.g_message (text "received passphrase request from wrong terminal")]
        false (some (text "113 Server Resource Problem")))
  else
    let split := split_arguments env args true 4
    let id := split.args.getD 0 none
    let errmsg := split.args.getD 1 none
    let prompt := split.args.getD 2 none
    let description := split.args.getD 3 none
    if id = none ∨ errmsg = none ∨ prompt = none ∨ description = none then
      Outcome.done
        (return_send_reply env call
          (split.events ++
            [AgentEvent.g_message (text "received invalid passphrase request")])
          false (some (text "105 parameter error")))
    else
      let id := null_if_null_argument id
      let errmsg := null_if_null_argument errmsg
      let prompt := null_if_null_argument prompt
      let description := null_if_null_argument description
      if ¬ env.session = true then
        Outcome.done
          { call := call, events := split.events ++ [AgentEvent.g_critical], ret := false }
      else
        let got :=
          do_get_password env id errmsg prompt description
            (split.flags &&& GKD_GPG_AGENT_REPEAT != 0)
        let events :=
          split.events ++ [AgentEvent.checkout_session] ++ got.2 ++
            [AgentEvent.checkin_session]
        match got.1 with
        | none =>
          Outcome.done
            { call := call,
              events := events ++ [AgentEvent.send_reply false (some (text "111 cancelled"))],
              ret := true }
        | some password =>
          if split.flags &&& GKD_GPG_AGENT_PASS_AS_DATA ≠ 0 then
            Outcome.done
              { call := call,
                events := events ++
                  [AgentEvent.send_data (c_str (uri_encode_password password)),
                    AgentEvent.send_reply true none],
                ret := true }
          else
            Outcome.done
              { call := call,
                events := events ++
                  [AgentEvent.send_reply true (some (hex_encode_password password))],
                ret := true }

/-- The function `gkd_gpg_agent_ops_clrpass`. -/
def gkd_gpg_agent_ops_clrpass (env : AgentEnv) (call : GkdGpgAgentCall) (args : List Nat) :
    Outcome OpResult :=
  if ¬ call.terminal_ok = true then
    Outcome.done
      (return_send_reply env call
        [AgentEvent.g_message (text "received passphrase request from wrong terminal")]
        false (some (text "113 Server Resource Problem")))
  else
    let split := split_arguments env args false 1
    let id := split.args.headD none
    let events :=
      split.events ++
        (if id = none then
          [AgentEvent.send_reply false (some (text "105 parameter error")),
            AgentEvent.g_warning (text "received invalid clear pass request: %s")]
        else [])
    if ¬ env.session = true then
      Outcome.done { call := call, events := events ++ [AgentEvent.g_critical], ret := false }
    else
      Outcome.done
        { call := call,
          events := events ++ [AgentEvent.checkout_session] ++ do_clear_password id ++
            [AgentEvent.checkin_session, AgentEvent.send_reply true none],
          ret := true }

/-- The function `gkd_gpg_agent_ops_getinfo`. -/
def gkd_gpg_agent_ops_getinfo (env : AgentEnv) (call : GkdGpgAgentCall) (request : List Nat) :
    Outcome OpResult :=
  let line := c_str request
  let (request, args) :=
    if 32 ∈ line then
      (line.take (line.indexOf 32),
        some ((line.drop (line.indexOf 32 + 1)).dropWhile isspace))
    else (line, none)
  if request = text "cmd_has_option" then
    match args with
    | none => Outcome.done (return_send_reply env call [] false (some (text "105 parameter error")))
    | some command =>
      if command = [] then
        Outcome.done (return_send_reply env call [] false (some (text "105 parameter error")))
      else if 32 ∈ command then
        let option := (command.drop (command.indexOf 32 + 1)).dropWhile isspace
        let command := command.take (command.indexOf 32)
        if command_has_option env command option then
          Outcome.done (return_send_reply env call [] true none)
        else
          Outcome.done (return_send_reply env call [] false (some (text "280 not implemented")))
      else
        Outcome.done (return_send_reply env call [] false (some (text "105 parameter error")))
  else Outcome.done (return_send_reply env call [] false (some (text "280 not implemented")))

/-- The function `gkd_gpg_agent_ops_nop`. -/
def gkd_gpg_agent_ops_nop (env : AgentEnv) (call : GkdGpgAgentCall) (_args : List Nat) :
    Outcome OpResult :=
  Outcome.done (return_send_reply env call [] true none)

/-- The function `gkd_gpg_agent_ops_bye`. -/
def gkd_gpg_agent_ops_bye (_env : AgentEnv) (call : GkdGpgAgentCall) (_args : List Nat) :
    Outcome OpResult :=
  Outcome.done
    { call := call,
      events := [AgentEvent.send_reply true (some (text "closing connection"))],
      ret := false }

/-- The function `gkd_gpg_agent_ops_reset`. -/
def gkd_gpg_agent_ops_reset (env : AgentEnv) (call : GkdGpgAgentCall) (_args : List Nat) :
    Outcome OpResult :=
  Outcome.done (return_send_reply env call [] true none)

/-- The function `gkd_gpg_agent_ops_id`. -/
def gkd_gpg_agent_ops_id (env : AgentEnv) (call : GkdGpgAgentCall) (_args : List Nat) :
    Outcome OpResult :=
  Outcome.done (return_send_reply env call [] true (some (text "gnome-keyring-daemon")))

/-! ## Integers and times of ASN.1 (egg/egg-asn1.c)

The functions of libtasn1 and of the C library are not part of the repository: a value
written into a node is taken as the bytes handed to `asn1_write_value`, and the clock and
the calendar functions are the fields of `TimeEnv`. A `time_t` is an `Int`. -/

/-- The loop `for (bytes = 3; bytes >= 0; --bytes) if (!buf[bytes]) break;` of
`egg_asn1_write_uint`, started with `bytes` at the given index: the value `bytes` has when
the loop is left. -/
def write_uint_scan (buf : List Nat) : Nat → Int
  | 0 => if buf.getD 0 0 = 0 then 0 else -1
  | bytes + 1 =>
    if buf.getD (bytes + 1) 0 = 0 then ((bytes + 1 : Nat) : Int)
    else write_uint_scan buf bytes

/-- The function `egg_asn1_write_uint` on a `guint32`: the bytes it hands to
`asn1_write_value`, which are `buf + (4 - bytes)` of length `bytes`. -/
def egg_asn1_write_uint (val : Nat) : List Nat :=
  let buf := [(val >>> 24) &&& 0xff, (val >>> 16) &&& 0xff, (val >>> 8) &&& 0xff,
    (val >>> 0) &&& 0xff]
  let bytes := write_uint_scan buf 3
  let bytes := 4 - (bytes + 1)
  let bytes := if bytes = 0 then 1 else bytes
  (buf.drop (4 - bytes).toNat).take bytes.toNat

/-- The loop `for (i = 0; i < n_buf; ++i) *val |= buf[i] << (8 * ((n_buf - 1) - i))` of
`egg_asn1_read_uint`, from index `i` on, with `fuel` the number of rounds left. -/
def read_uint_loop (buf : List Nat) : Nat → Nat → Nat → Nat
  | 0, _, val => val
  | fuel + 1, i, val =>
    read_uint_loop buf fuel (i + 1)
      ((val ||| (buf.getD i 0 <<< (8 * ((buf.length - 1) - i)))) % 2 ^ 32)

/-- The function `egg_asn1_read_uint` on what `asn1_read_value` delivers (none when it
does not return `ASN1_SUCCESS`, as for a value of more than 4 bytes): the value stored to
`*val`, none for `FALSE`. -/
def egg_asn1_read_uint (value : Option (List Nat)) : Option Nat :=
  match value with
  | none => none
  | some buf =>
    if buf.length > 4 ∨ buf.length < 1 then none
    else some (read_uint_loop buf buf.length 0 0)

/-- The loop of `atoin`: `digits` counts down, `ret` and `base` are the locals. -/
def atoin_loop (p : List Nat) : Nat → Int → Int → Int
  | 0, ret, _ => ret
  | digits + 1, ret, base =>
    if p.getD digits 0 < 48 ∨ p.getD digits 0 > 57 then -1
    else atoin_loop p digits (ret + ((p.getD digits 0 : Int) - 48) * base) (base * 10)

/-- The function `atoin` on the memory from `p` on. -/
def atoin (p : List Nat) (digits : Nat) : Int := atoin_loop p digits 0 1

/-- The fields of `struct tm`. -/
structure Tm where
  tm_sec : Int
  tm_min : Int
  tm_hour : Int
  tm_mday : Int
  tm_mon : Int
  tm_year : Int
  tm_wday : Int
  tm_yday : Int
  tm_isdst : Int
deriving DecidableEq, Repr

/-- The clock and the calendar of the C library: the value of `time (NULL)`, the function
`gmtime_r` (none when it fails), the function `timegm`, and `sizeof (time_t)`. -/
structure TimeEnv where
  now : Int
  gmtime_r : Int → Option Tm
  timegm : Tm → Int
  sizeof_time_t : Nat

/-- The function `two_to_four_digit_year`. -/
def two_to_four_digit_year (env : TimeEnv) (year : Int) : Int :=
  if ¬ (year ≥ 0 ∧ year ≤ 99) then -1
  else if ¬ env.now ≥ 0 then -1
  else
    match env.gmtime_r env.now with
    | none => -1
    | some tm =>
      let current := tm.tm_year.tmod 100
      let century := (tm.tm_year + 1900) - current
      if current < 40 ∧ year < current then century + year
      else if current < 40 ∧ year > 100 - (40 - current) then (century - 100) + year
      else if ¬ current < 40 ∧ (year < current ∧ year > current - 40) then century + year
      else if year < current then century + 100 + year
      else century + year

/-- The locals `when` and `p` (as an offset into `time`) while the digits are read. -/
structure TimeFields where
  when : Tm
  p : Nat
deriving DecidableEq, Repr

/-- The statement `memset (&when, 0, sizeof (when)); when.tm_mday = 1;`. -/
def tm_default : Tm :=
  { tm_sec := 0, tm_min := 0, tm_hour := 0, tm_mday := 1, tm_mon := 0, tm_year := 0,
    tm_wday := 0, tm_yday := 0, tm_isdst := 0 }

/-- The loop `for (e = p; *e >= '0' && *e <= '9'; ++e);`: the offset `e`. -/
def digits_end (time : List Nat) : Nat :=
  (time.takeWhile (fun c => 48 ≤ c && c ≤ 57)).length

/-- One statement `if (p + digits <= e) { when.field = ...atoin (p, digits)...; p += digits; }`,
with `set` storing the field from the value of `atoin`. -/
def time_field (time : List Nat) (e digits : Nat) (set : Tm → Int → Tm) (s : TimeFields) :
    TimeFields :=
  if s.p + digits ≤ e then
    { when := set s.when (atoin (time.drop s.p) digits), p := s.p + digits }
  else s

/-- The test of the ranges of the fields; true when the function goes on. -/
def tm_in_range (when : Tm) : Bool :=
  ! (decide (when.tm_year < 0) || decide (when.tm_year > 9999) ||
    decide (when.tm_mon < 0) || decide (when.tm_mon > 11) ||
    decide (when.tm_mday < 1) || decide (when.tm_mday > 31) ||
    decide (when.tm_hour < 0) || decide (when.tm_hour > 23) ||
    decide (when.tm_min < 0) || decide (when.tm_min > 59) ||
    decide (when.tm_sec < 0) || decide (when.tm_sec > 59))

/-- The statements from `/* See if it's UTC */` to the end, the same in
`egg_asn1_parse_utc_time` and `egg_asn1_parse_general_time`: the zone, and the test that
everything got parsed; `e` and `p` are offsets into `time`, `off2` is `off` and `q` is
`p` after the statement that reads the minutes, and `neg` is `time[p] == '-'`. -/
def time_zone_part (time : List Nat) (e p : Nat) (result : Int) : Int :=
  if p < e ∧ time.getD p 0 = 90 then
    if p + 1 ≠ e then -1 else result
  else if (time.getD p 0 = 45 ∨ time.getD p 0 = 43) ∧ p + 3 ≤ e then
    let off := atoin (time.drop (p + 1)) 2 * 3600
    if off < 0 ∨ off > 86400 then -1
    else
      let off2 := if p + 1 + 2 + 2 ≤ e then off + atoin (time.drop (p + 1 + 2)) 2 * 60 else off
      let q := if p + 1 + 2 + 2 ≤ e then p + 1 + 2 + 2 else p + 1 + 2
      if q ≠ e then -1
      else if time.getD p 0 = 45 then result - off2
      else result + off2
  else if p ≠ e then -1
  else result

/-- The statements from `e = time + n_time;` to the end, the same in both functions: the
fraction is skipped, then comes the zone. -/
def time_rest_part (time : List Nat) (n_time p : Nat) (result : Int) : Int :=
  let e := n_time
  let p := if p < e ∧ time.getD p 0 = 46 ∧ p + 5 ≤ e then p + 5 else p
  time_zone_part time e p result

/-- The six statements of `egg_asn1_parse_utc_time` that read the fields. -/
def utc_time_fields (env : TimeEnv) (time : List Nat) (e : Nat) : TimeFields :=
  let s : TimeFields := { when := tm_default, p := 0 }
  let s := time_field time e 2
    (fun when year => { when with tm_year := two_to_four_digit_year env year - 1900 }) s
  let s := time_field time e 2 (fun when v => { when with tm_mon := v - 1 }) s
  let s := time_field time e 2 (fun when v => { when with tm_mday := v }) s
  let s := time_field time e 2 (fun when v => { when with tm_hour := v }) s
  let s := time_field time e 2 (fun when v => { when with tm_min := v }) s
  time_field time e 2 (fun when v => { when with tm_sec := v }) s

/-- The function `egg_asn1_parse_utc_time`. -/
def egg_asn1_parse_utc_time (env : TimeEnv) (time : List Nat) : Int :=
  let n_time := (c_str time).length % 2 ^ 32
  if n_time < 6 ∨ n_time ≥ 28 then -1
  else
    let e := digits_end time
    let s := utc_time_fields env time e
    if ¬ tm_in_range s.when = true then -1
    else if s.p ≠ e then -1
    else if env.sizeof_time_t ≤ 4 ∧ s.when.tm_year ≥ 2038 then 2145914603
    else time_rest_part time n_time s.p (env.timegm s.when)

/-- The six statements of `egg_asn1_parse_general_time` that read the fields. -/
def general_time_fields (time : List Nat) (e : Nat) : TimeFields :=
  let s : TimeFields := { when := tm_default, p := 0 }
  let s := time_field time e 4 (fun when v => { when with tm_year := v - 1900 }) s
  let s := time_field time e 2 (fun when v => { when with tm_mon := v - 1 }) s
  let s := time_field time e 2 (fun when v => { when with tm_mday := v }) s
  let s := time_field time e 2 (fun when v => { when with tm_hour := v }) s
  let s := time_field time e 2 (fun when v => { when with tm_min := v }) s
  time_field time e 2 (fun when v => { when with tm_sec := v }) s

/-- The function `egg_asn1_parse_general_time`. -/
def egg_asn1_parse_general_time (env : TimeEnv) (time : List Nat) : Int :=
  let n_time := (c_str time).length % 2 ^ 32
  if n_time < 8 ∨ n_time ≥ 30 then -1
  else
    let e := digits_end time
    let s := general_time_fields time e
    if ¬ tm_in_range s.when = true then -1
    else if s.p ≠ e then -1
    else time_rest_part time n_time s.p (env.timegm s.when)

/-! ## Reference notions for the derivations

What the specification prescribes (`simple_D`, `pbkdf2_T`, `pkcs12_next_segment`, ...),
toy algorithms for concrete runs, and the vocabulary of the proofs. -/

/-- The moving pointer into a buffer of `n` cells after the bytes `w` have been stored
through it. -/
def curAt (n : Nat) (w : List Nat) : OutCur :=
  { cells := w.map some ++ List.replicate (n - w.length) none, pos := w.length }

/-- The moving pointer `curAt n w`, or NULL when the output was not requested. -/
def curOpt (want : Bool) (n : Nat) (w : List Nat) : Option OutCur :=
  if want then some (curAt n w) else none

/-- The digest `D_k` of pass `k` of the simple scheme, after the words of the
specification: `D_0 = H^(c-1) (H (password || salt))` and
`D_k = H^(c-1) (H (D_(k-1) || password || salt))`. -/
def simple_D (h : HashAlgo) (password salt : List Nat) (c : Nat) : Nat → List Nat
  | 0 => h.hash^[c - 1] (h.hash (password ++ salt))
  | k + 1 => h.hash^[c - 1] (h.hash (simple_D h password salt c k ++ password ++ salt))

/-- The bytes `D_0 || D_1 || ... || D_(N-1)`. -/
def simple_stream (h : HashAlgo) (password salt : List Nat) (c N : Nat) : List Nat :=
  (List.range N).flatMap (simple_D h password salt c)

/-- The four bytes `big-endian-32 (i)`. -/
def be32 (i : Nat) : List Nat := [i / 2 ^ 24 % 256, i / 2 ^ 16 % 256, i / 2 ^ 8 % 256, i % 256]

/-- Bytewise exclusive or of two byte strings. -/
def xor_bytes (a b : List Nat) : List Nat := List.zipWith Nat.xor a b

/-- The value `U_(j+1)` of PBKDF2 for block `i`, after the words of the specification:
`U_1 = HMAC (password, salt || big-endian-32 (i))`, `U_j = HMAC (password, U_(j-1))`. -/
def pbkdf2_U (h : HashAlgo) (password salt : List Nat) (i : Nat) : Nat → List Nat
  | 0 => h.hmac password (salt ++ be32 i)
  | j + 1 => h.hmac password (pbkdf2_U h password salt i j)

/-- The block `T_i = U_1 xor U_2 xor ... xor U_c` of PBKDF2. -/
def pbkdf2_T (h : HashAlgo) (password salt : List Nat) (c i : Nat) : List Nat :=
  ((List.range (c - 1)).map (fun j => pbkdf2_U h password salt i (j + 1))).foldl xor_bytes
    (pbkdf2_U h password salt i 0)

/-- The bytes `T_1 || T_2 || ... || T_L`. -/
def pbkdf2_stream (h : HashAlgo) (password salt : List Nat) (c L : Nat) : List Nat :=
  (List.range L).flatMap (fun k => pbkdf2_T h password salt c (k + 1))

/-- The byte `k` of the toy digests: a fold of the message that mixes every byte in. -/
def toy_mix (seed k : Nat) (m : List Nat) : Nat :=
  m.foldl (fun a b => ((a * 5 + b + k + 1) % 256) ^^^ (((a * 5 + b + k + 1) % 256) >>> 3))
    ((seed + 13 * k) % 256)

/-- A toy hash algorithm with four byte digests, for concrete runs. -/
def toyHash : HashAlgo where
  dlen := 4
  hash := fun m => (List.range 4).map (fun k => toy_mix 7 k m)
  hmac := fun key m => (List.range 4).map (fun k => toy_mix 11 k (key ++ 255 :: m))
  open_ok := true

/-- A toy hash algorithm with sixteen byte digests, for concrete runs. -/
def toyHash16 : HashAlgo where
  dlen := 16
  hash := fun m => (List.range 16).map (fun k => toy_mix 5 k m)
  hmac := fun key m => (List.range 16).map (fun k => toy_mix 9 k (key ++ 255 :: m))
  open_ok := true

/-- The moving pointer into the buffer `buf` after the bytes `w` have been stored through
it from the start of the buffer. -/
def curOn (buf : List (Option Nat)) (w : List Nat) : OutCur :=
  { cells := w.map some ++ buf.drop w.length, pos := w.length }

/-- The number a byte string denotes in big-endian order. -/
def be_value : List Nat → Nat
  | [] => 0
  | b :: rest => b * 256 ^ rest.length + be_value rest

/-- The big-endian encoding of a number on exactly `len` bytes. -/
def be_encode (len v : Nat) : List Nat :=
  (List.range len).map (fun k => v / 256 ^ (len - 1 - k) % 256)

/-- The digest `A` repeated cyclically to 64 bytes. -/
def repeat_to_64 (A : List Nat) : List Nat := (List.range 64).map (fun i => A.getD (i % A.length) 0)

/-- The segment the PKCS#12 derivation prescribes after a digest `A` for a segment `I`: the
64 byte big-endian encoding of `(I + B + 1) mod 2^512`, `B` the number of `A` repeated to
64 bytes. -/
def pkcs12_next_segment (I A : List Nat) : List Nat :=
  be_encode 64 ((be_value I + be_value (repeat_to_64 A) + 1) % 2 ^ 512)

/-- The output pointer leads to exactly `n` cells and every one of them has been stored
to. -/
def OutPtr.filled (p : OutPtr) (n : Nat) : Prop :=
  p.cells.length = n ∧ ∀ x ∈ p.cells, x ≠ none

/-- The state of the pass loop of the simple scheme at the start of pass `p`, in terms of
the byte stream `S`. -/
def SimpleInv (h : HashAlgo) (pw sl : List Nat) (c K V : Nat) (wk wiv : Bool) (S : List Nat)
    (p : Nat) (s : SimpleState) : Prop :=
  (0 < p → s.digest = simple_D h pw sl c (p - 1)) ∧
  s.needed_key = K - p * h.dlen ∧
  s.needed_iv = V - (p * h.dlen - K) ∧
  s.at_key = curOpt wk K (S.take (min K (p * h.dlen))) ∧
  s.at_iv = curOpt wiv V ((S.drop K).take (min V (p * h.dlen - K)))

/-- What a call has left behind when it returned; for a call that did not return, the
outputs are untouched. -/
def Outcome.result : Outcome Derived → Derived
  | Outcome.done r => r
  | _ => { ret := false, key := OutPtr.untouched, iv := OutPtr.untouched, log := [] }

/-! ## Algorithms the registry does not know -/

/-- A hash identifier the registry does not know: digest length 0, no context. -/
def unknownHash : HashAlgo where
  dlen := 0
  hash := fun _ => []
  hmac := fun _ _ => []
  open_ok := false

/-! ## Reference notions for UTF-8 text and the password block -/

/-- The UTF-8 encoding of a code point (one to four bytes). -/
def utf8_encode (c : Nat) : List Nat :=
  if c < 0x80 then [c]
  else if c < 0x800 then [0xC0 + c / 64, 0x80 + c % 64]
  else if c < 0x10000 then [0xE0 + c / 4096, 0x80 + c / 64 % 64, 0x80 + c % 64]
  else [0xF0 + c / 262144, 0x80 + c / 4096 % 64, 0x80 + c / 64 % 64, 0x80 + c % 64]

/-- A code point a UTF-8 text may hold before its terminator: a Unicode scalar value (at most
U+10FFFF, no surrogate) other than 0. -/
def is_scalar (c : Nat) : Bool := 0 < c && c < 0x110000 && !(0xD800 ≤ c && c < 0xE000)

/-- The two bytes of a big-endian 16 bit unit holding the low 16 bits of `c`. -/
def be16 (c : Nat) : List Nat := [c % 65536 / 256, c % 65536 % 256]

/-- The password block the specification prescribes for the code points `cs`: 32 big-endian
16 bit units, unit `k` taken from the code points followed by the terminator 0, cyclically. -/
def password_units (cs : List Nat) : List Nat :=
  (List.range 32).flatMap (fun k => be16 ((cs ++ [0]).getD (k % (cs.length + 1)) 0))

/-- The offset at which code point `j` of the text with code points `cs` starts. -/
def utf8_offset (cs : List Nat) (j : Nat) : Nat := ((cs.take j).flatMap utf8_encode).length

/-! ## Reference notions for key expressions -/

/-- A component `(name value)` of a key expression. -/
def key_component (c : List Nat × List Nat) : Sexp := Sexp.list [Sexp.atom c.1, Sexp.atom c.2]

/-- The list `(alg (name value) ...)` of the numbers of a key, with the components `comps`
in order. -/
def key_numbers (alg : List Nat) (comps : List (List Nat × List Nat)) : Sexp :=
  Sexp.list (Sexp.atom alg :: comps.map key_component)

/-- The key expression `(private-key (alg (name value) ...) rest ...)`. -/
def private_key (alg : List Nat) (comps : List (List Nat × List Nat)) (rest : List Sexp) : Sexp :=
  Sexp.list (Sexp.atom PRIVATE_KEY :: key_numbers alg comps :: rest)

/-- A name table that knows `rsa` and `dsa`, for concrete runs. -/
def toy_pk_map_name (name : List Nat) : Nat :=
  if name = [114, 115, 97] then GCRY_PK_RSA
  else if name = [100, 115, 97] then GCRY_PK_DSA else 0

/-! ## Reference notions for the printed form of key expressions

The advanced format of `gcry_sexp_sprint`, after `sexp.c` of libgcrypt 1.10, for concrete
runs. -/

/-- A unit of the stored form of an S-expression: the start of a list, the end of a list, a
data element. -/
inductive SexpUnit
  | st_open
  | st_close
  | st_data (d : List Nat)
deriving Repr

mutual
/-- The stored form of an S-expression, in the order of the printed expression. -/
def sexp_units : Sexp → List SexpUnit
  | Sexp.atom d => [SexpUnit.st_data d]
  | Sexp.list items => SexpUnit.st_open :: (sexp_units_of items ++ [SexpUnit.st_close])
/-- The stored form of the elements of a list. -/
def sexp_units_of : List Sexp → List SexpUnit
  | [] => []
  | x :: rest => sexp_units x ++ sexp_units_of rest
end

/-- The characters `TOKEN_SPECIALS`, `-./_:*+=`. -/
def TOKEN_SPECIALS : List Nat := [45, 46, 47, 95, 58, 42, 43, 61]

/-- The characters a quoted string shows with a backslash and a letter or sign: backspace,
tab, vertical tab, line feed, form feed, carriage return, `"`, the single quote and the
backslash. -/
def STRING_ESCAPES : List Nat := [8, 9, 11, 10, 12, 13, 34, 39, 92]

/-- The letters of ASCII. -/
def alphap (c : Nat) : Bool := (65 ≤ c && c ≤ 90) || (97 ≤ c && c ≤ 122)

/-- The digits of ASCII. -/
def digitp (c : Nat) : Bool := 48 ≤ c && c ≤ 57

/-- The byte is a control character or lies in `0x7f .. 0xa0`. -/
def unprintable (c : Nat) : Bool := c < 0x20 || (0x7f ≤ c && c ≤ 0xa0)

/-- The choice `suitable_encoding (buffer, length)` of the printer: 0 for hexadecimal, 1 for
a quoted string, 2 for a token. -/
def suitable_encoding (buffer : List Nat) : Nat :=
  if buffer.length = 0 then 1
  else if buffer.headD 0 ≥ 0x80 then 0
  else if buffer.headD 0 = 0 then 0
  else if buffer.any (fun c => unprintable c && (strchr STRING_ESCAPES c).isNone) then 0
  else if buffer.all (fun c => alphap c || digitp c || (strchr TOKEN_SPECIALS c).isSome)
      && !digitp (buffer.headD 0) then 2
  else 1

/-- The characters `convert_to_string` writes for one byte. -/
def string_char (c : Nat) : List Nat :=
  if c = 8 then [92, 98]
  else if c = 9 then [92, 116]
  else if c = 11 then [92, 118]
  else if c = 10 then [92, 110]
  else if c = 12 then [92, 102]
  else if c = 13 then [92, 114]
  else if c = 34 then [92, 34]
  else if c = 39 then [92, 39]
  else if c = 92 then [92, 92]
  else if unprintable c then [92, 120, HEXC.getD (c / 16) 0, HEXC.getD (c % 16) 0]
  else [c]

/-- The text of a data element in the advanced format: a token as it is, a string between
double quotes, anything else as hexadecimal digits between two `#`. -/
def sexp_data_text (d : List Nat) : List Nat :=
  if suitable_encoding d = 1 then 34 :: (d.flatMap string_char ++ [34])
  else if suitable_encoding d = 2 then d
  else 35 :: (d.flatMap (fun c => [HEX_CHARS.getD (c / 16) 0, HEX_CHARS.getD (c % 16) 0])
    ++ [35])

/-- The loop of the printer over the stored form; `indent` is the depth of the open
lists. -/
def sexp_sprint_units : List SexpUnit → Nat → List Nat
  | [], _ => [10]
  | SexpUnit.st_open :: s, indent =>
    (if indent ≠ 0 then 10 :: List.replicate indent 32 else []) ++
      40 :: sexp_sprint_units s (indent + 1)
  | SexpUnit.st_close :: s, indent =>
    41 :: ((match s with
      | SexpUnit.st_open :: _ => []
      | [] => []
      | _ => 10 :: List.replicate (indent - 1) 32) ++ sexp_sprint_units s (indent - 1))
  | SexpUnit.st_data d :: s, indent =>
    sexp_data_text d ++ ((match s with
      | SexpUnit.st_close :: _ => []
      | _ => [32]) ++ sexp_sprint_units s indent)

/-- The text `gcry_sexp_sprint (sexp, GCRYSEXP_FMT_ADVANCED, buf, len)` writes, before the
terminating zero byte. -/
def sexp_sprint_advanced (sexp : Sexp) : List Nat := sexp_sprint_units (sexp_units sexp) 0

/-! ## Reference notions for the windows of the PBE scheme -/

/-- The key window `[0, key_length)` and the IV window `[16 - iv_length, 16)` of the digest
have an offset in common. -/
def pbe_windows_overlap (key_length iv_length : Nat) : Bool :=
  (List.range 16).any (fun i => decide (i < key_length) && decide (16 - iv_length ≤ i))

/-! ## Reference notions for parsing and walking key expressions -/

/-- The key expression `(tag (alg (name value) ...) rest ...)`. -/
def tagged_key (tag alg : List Nat) (comps : List (List Nat × List Nat)) (rest : List Sexp) :
    Sexp :=
  Sexp.list (Sexp.atom tag :: key_numbers alg comps :: rest)

/-- An element of a list as `gcry_sexp_nth` hands it out: a list as it is, a data element as
the list of that one element. -/
def sexp_as_list : Sexp → Sexp
  | Sexp.atom d => Sexp.list [Sexp.atom d]
  | s => s

/-- The node a path of names leads to, after the words of the specification: `path[0]` is
looked up under the expression, `path[1]` under the node found for it, and so on; nothing
when a name is not found. -/
def sexp_walk : Sexp → List (List Nat) → Option Sexp
  | sexp, [] => some sexp
  | sexp, name :: path =>
    match gcry_sexp_find_token sexp name with
    | none => none
    | some node => sexp_walk node path

/-! ## Reference notions for assuan arguments -/

/-- An uppercase hexadecimal digit. -/
def is_upper_hex (c : Nat) : Bool := (48 ≤ c && c ≤ 57) || (65 ≤ c && c ≤ 70)

/-- Every `%` of the string is followed by two uppercase hexadecimal digits. -/
def assuan_escapes_ok : List Nat → Bool
  | [] => true
  | c :: rest =>
    if c = 37 then
      match rest with
      | x :: y :: rest2 => is_upper_hex x && is_upper_hex y && assuan_escapes_ok rest2
      | _ => false
    else assuan_escapes_ok rest

/-- The decoded argument, after the words of the specification: in one pass from the left,
`+` becomes a space, `%XY` the byte `0xXY`, every other character stays. -/
def assuan_decoded : List Nat → List Nat
  | [] => []
  | c :: rest =>
    let plain := (if c = 43 then 32 else c) :: assuan_decoded rest
    if c = 37 then
      match rest with
      | x :: y :: rest2 => (16 * hexval x + hexval y) :: assuan_decoded rest2
      | _ => plain
    else plain

/-! ## Reference notions for the percent-encoding of passwords -/

/-- A byte that `uri_encode_password` writes in a form `decode_assuan_arg` reads back: a
letter, a digit, one of `_-.`, or a byte whose two hexadecimal digits are both decimal. -/
def uri_decodable (c : Nat) : Bool :=
  g_ascii_isalnum c || c == 95 || c == 45 || c == 46 || (c / 16 ≤ 9 && c % 16 ≤ 9)

/-! ## Reference notions for display names -/

/-- An environment for examples: the constants of the protocol, `DISPLAY` set to `:0`, a
login keyring without passwords and a prompt that delivers `pw`. -/
def toyEnv : AgentEnv :=
  { GPG_AGENT_OPT_DISPLAY := text "display=", GPG_AGENT_FLAG_DATA := text "data",
    GPG_AGENT_FLAG_REPEAT := text "repeat", GPG_AGENT_GETPASS := text "GET_PASSPHRASE",
    display := some (text ":0"), send_reply_result := fun _ _ => true, session := true,
    login_password := fun _ => none, prompt_opens := true,
    prompt_password := some (text "pw"), prompt_cancelled := false }

/-- One call of an operation on a connection, with the rest of the request line. -/
inductive AgentRequest
  | options (args : List Nat)
  | getpass (args : List Nat)
  | clrpass (args : List Nat)
  | getinfo (request : List Nat)
  | nop (args : List Nat)
  | bye (args : List Nat)
  | reset (args : List Nat)
  | id (args : List Nat)
deriving DecidableEq, Repr

/-- The operation a request calls. -/
def run_operation (env : AgentEnv) (call : GkdGpgAgentCall) : AgentRequest → Outcome OpResult
  | AgentRequest.options args => gkd_gpg_agent_ops_options env call args
  | AgentRequest.getpass args => gkd_gpg_agent_ops_getpass env call args
  | AgentRequest.clrpass args => gkd_gpg_agent_ops_clrpass env call args
  | AgentRequest.getinfo request => gkd_gpg_agent_ops_getinfo env call request
  | AgentRequest.nop args => gkd_gpg_agent_ops_nop env call args
  | AgentRequest.bye args => gkd_gpg_agent_ops_bye env call args
  | AgentRequest.reset args => gkd_gpg_agent_ops_reset env call args
  | AgentRequest.id args => gkd_gpg_agent_ops_id env call args

/-- What the operations called in turn on one call structure do, up to the end of the
requests or the operation that stops the process. -/
def run_connection (env : AgentEnv) : GkdGpgAgentCall → List AgentRequest → List AgentEvent
  | _, [] => []
  | call, request :: rest =>
    match run_operation env call request with
    | Outcome.done r => r.events ++ run_connection env r.call rest
    | _ => []

/-- The argument line of an OPTION request carries a display option that
`x11_displays_eq` finds equivalent to the `DISPLAY` of the daemon. -/
def display_option_matches (env : AgentEnv) (args : List Nat) : Bool :=
  match (split_arguments env args false 1).args.headD none, env.display with
  | some option, some display =>
    g_ascii_strncasecmp option env.GPG_AGENT_OPT_DISPLAY
        (c_str env.GPG_AGENT_OPT_DISPLAY).length == 0 &&
      x11_displays_eq (option.drop (c_str env.GPG_AGENT_OPT_DISPLAY).length) display
  | _, _ => false

/-- The request is an OPTION with a matching display option. -/
def AgentRequest.grants (env : AgentEnv) : AgentRequest → Bool
  | AgentRequest.options args => display_option_matches env args
  | _ => false

/-- The event looks up, prompts for, stores, clears or sends out a passphrase. -/
def AgentEvent.on_passphrase : AgentEvent → Bool
  | AgentEvent.lookup_password _ => true
  | AgentEvent.open_prompt _ _ _ _ _ => true
  | AgentEvent.store_password _ _ => true
  | AgentEvent.clear_password _ => true
  | AgentEvent.send_data _ => true
  | _ => false

/-- The replies among the events. -/
def replies (events : List AgentEvent) : List AgentEvent :=
  events.filter (fun e => match e with
    | AgentEvent.send_reply _ _ => true
    | _ => false)

/-! ## Reference notions for times -/

/-- Days from 1970-01-01 to the first day of a month of the proleptic Gregorian calendar
(`mon` counted from 0). -/
def days_before_month (year mon : Int) : Int :=
  let y := if mon < 2 then year - 1 else year
  let era := y / 400
  let yoe := y - era * 400
  let mp := (mon + 10) % 12
  let doy := (153 * mp + 2) / 5
  let doe := yoe * 365 + yoe / 4 - yoe / 100 + doy
  era * 146097 + doe - 719468

/-- A calendar for examples: `timegm` of the C library, seconds since 1970-01-01 00:00:00
UTC, for a month field in `0 .. 11`. -/
def toy_timegm (t : Tm) : Int :=
  ((days_before_month (t.tm_year + 1900) t.tm_mon + (t.tm_mday - 1)) * 24 + t.tm_hour) * 3600
    + t.tm_min * 60 + t.tm_sec

/-- A clock for examples: the current time is 1262304000 (2010-01-01 00:00:00 UTC), and
`time_t` has 8 bytes. -/
def toyTimeEnv : TimeEnv :=
  { now := 1262304000,
    gmtime_r := fun _ => some { tm_default with tm_year := 110 },
    timegm := toy_timegm,
    sizeof_time_t := 8 }

/-- A clock for examples that stands at 1969-12-31 00:00:00 UTC, one day before the
epoch. -/
def toyEarlyTimeEnv : TimeEnv :=
  { now := -86400,
    gmtime_r := fun _ => some { tm_default with tm_year := 69, tm_mon := 11, tm_mday := 31 },
    timegm := toy_timegm,
    sizeof_time_t := 8 }

/-- A decimal digit. -/
def is_digit (c : Nat) : Bool := 48 ≤ c && c ≤ 57

/-- The value of a string of decimal digits. -/
def decimal (s : List Nat) : Int := s.foldl (fun acc c => 10 * acc + ((c : Int) - 48)) 0

/-- The zone part of a time as the parsers take it: nothing, `Z`, or a sign followed by
two decimal digits and then nothing or two more characters. -/
def zone_form : List Nat → Bool
  | [] => true
  | [90] => true
  | [s, h1, h2] => (s == 43 || s == 45) && is_digit h1 && is_digit h2
  | [s, h1, h2, _, _] => (s == 43 || s == 45) && is_digit h1 && is_digit h2
  | _ => false

/-- What may follow the digits of a time as the parsers take it: an optional dot with four
characters, then the zone part. -/
def time_rest_form : List Nat → Bool
  | 46 :: _ :: _ :: _ :: _ :: zone => zone_form zone
  | rest => zone_form rest

/-- The form of a time as the parsers take it: digits, an optional dot with four
characters, then the zone part. -/
def time_form (time : List Nat) : Bool := time_rest_form (time.dropWhile is_digit)

/-- The zone of the documented form: `Z`, or a sign followed by two or four decimal
digits. -/
def documented_zone : List Nat → Bool
  | [90] => true
  | [s, h1, h2] => (s == 43 || s == 45) && is_digit h1 && is_digit h2
  | [s, h1, h2, m1, m2] =>
    (s == 43 || s == 45) && is_digit h1 && is_digit h2 && is_digit m1 && is_digit m2
  | _ => false

/-- The documented form of a time: digits, an optional fraction of a dot and four
characters, then `Z` or a sign followed by two or four decimal digits. -/
def documented_time_form (time : List Nat) : Bool :=
  match time.dropWhile is_digit with
  | 46 :: _ :: _ :: _ :: _ :: zone => documented_zone zone
  | rest => documented_zone rest

/-! ## Theorems: hex codec -/

set_option maxRecDepth 1000000 in
theorem hex_byte_facts : ∀ d, d < 256 →
    (isspace (HEXC.getD ((d >>> 4) &&& 0xf) 0) = false ∧ isspace (HEXC.getD (d &&& 0xf) 0) = false ∧
     strchr HEXC (tolower (HEXC.getD ((d >>> 4) &&& 0xf) 0)) = some ((d >>> 4) &&& 0xf) ∧
     strchr HEXC (tolower (HEXC.getD (d &&& 0xf) 0)) = some (d &&& 0xf) ∧
     ((((d >>> 4) &&& 0xf) &&& 0xf) <<< 4) ||| ((d &&& 0xf) &&& 0xf) = d) := by
  decide

set_option maxRecDepth 1000000 in
theorem hex_digit_facts : ∀ c, c < 103 → isHexDigit c = true →
    (isspace c = false ∧ strchr HEXC (tolower c) = some (hexval c) ∧ hexval c < 16) := by
  decide

theorem isHexDigit_lt {c : Nat} (h : isHexDigit c = true) : c < 103 := by
  simp only [isHexDigit, Bool.or_eq_true, Bool.and_eq_true, decide_eq_true_eq] at h
  omega

theorem isspace_not_hex {c : Nat} (h : isspace c = true) : isHexDigit c = false := by
  simp only [isspace, Bool.or_eq_true, Bool.and_eq_true, decide_eq_true_eq, beq_iff_eq] at h
  cases hd : isHexDigit c with
  | false => rfl
  | true =>
    simp only [isHexDigit, Bool.or_eq_true, Bool.and_eq_true, decide_eq_true_eq] at hd
    omega

theorem nibble_facts : ∀ hv, hv < 16 → ∀ v, v < 16 →
    (v &&& 0xf = v ∧ (hv <<< 4) ||| v = 16 * hv + v) := by
  decide

theorem store_end (D : List Nat) (v : Nat) : store D D.length v = D ++ [v] := by
  simp [store]

theorem store_last (D : List Nat) (w v : Nat) : store (D ++ [w]) D.length v = D ++ [v] := by
  simp [store]

theorem getD_last (D : List Nat) (w : Nat) : (D ++ [w]).getD D.length 0 = w := by
  simp [List.getD]

theorem hex_encode_loop_acc (data acc : List Nat) :
    hex_encode_loop data acc = acc ++ hex_encode_loop data [] := by
  induction data generalizing acc with
  | nil => simp [hex_encode_loop]
  | cons d data ih =>
    simp only [hex_encode_loop]
    rw [ih, ih ([] ++ _ ++ _)]
    simp

theorem hex_encode_loop_length (data : List Nat) :
    (hex_encode_loop data []).length = 2 * data.length := by
  induction data with
  | nil => simp [hex_encode_loop]
  | cons d data ih =>
    simp only [hex_encode_loop]
    rw [hex_encode_loop_acc]
    simp [ih]
    omega

theorem hex_decode_encode_loop (b : List Nat) (hb : ∀ x ∈ b, x < 256) (D : List Nat) :
    hex_decode_loop (hex_encode_loop b []) (hexSt D none) = hexSt (D ++ b) none := by
  induction b generalizing D with
  | nil => simp [hex_encode_loop, hex_decode_loop]
  | cons d b ih =>
    have hd : d < 256 := hb d (List.mem_cons_self _ _)
    obtain ⟨h1, h2, h3, h4, h5⟩ := hex_byte_facts d hd
    simp only [hex_encode_loop]
    rw [hex_encode_loop_acc]
    simp only [List.nil_append, List.cons_append, hex_decode_loop, hexSt, h1, h2, h3, h4,
      Bool.not_false, if_true, store_end, store_last, getD_last, h5]
    have := ih (fun x hx => hb x (List.mem_cons_of_mem _ hx)) (D ++ [d])
    simp only [hexSt, List.length_append, List.length_singleton, List.append_assoc,
      List.singleton_append] at this
    simpa using this

theorem hex_decode_loop_valid (data : List Nat)
    (hv : ∀ c ∈ data, isHexDigit c = true ∨ isspace c = true)
    (D : List Nat) (pend : Option Nat) (hp : ∀ x ∈ pend, x < 16) :
    hex_decode_loop data (hexSt D pend) =
      hexSt (D ++ pair_vals (pend.toList ++ (data.filter isHexDigit).map hexval))
        (leftover (pend.toList ++ (data.filter isHexDigit).map hexval)) := by
  induction data generalizing D pend with
  | nil => cases pend <;> simp [hex_decode_loop, pair_vals, leftover]
  | cons c data ih =>
    have hrest : ∀ c ∈ data, isHexDigit c = true ∨ isspace c = true :=
      fun x hx => hv x (List.mem_cons_of_mem _ hx)
    rcases hv c (List.mem_cons_self _ _) with hc | hc
    · obtain ⟨h1, h2, h3⟩ := hex_digit_facts c (isHexDigit_lt hc) hc
      cases pend with
      | none =>
        have := ih hrest D (some (hexval c)) (by simpa using h3)
        simp only [hex_decode_loop, h1, h2, hexSt, Bool.not_false, if_true, store_end,
          (nibble_facts 0 (by decide) _ h3).1, List.filter_cons, hc, List.map_cons,
          Option.toList, List.nil_append]
        simpa [hexSt] using this
      | some w =>
        have hw : w < 16 := hp w rfl
        have := ih hrest (D ++ [16 * w + hexval c]) none (by simp)
        simp only [hex_decode_loop, h1, h2, hexSt, Bool.not_false, if_true, store_last,
          getD_last, (nibble_facts w hw _ h3).1, (nibble_facts w hw _ h3).2,
          List.filter_cons, hc, List.map_cons, Option.toList, List.singleton_append,
          pair_vals, leftover]
        simpa [hexSt] using this
    · have hnh := isspace_not_hex hc
      have := ih hrest D pend hp
      simp only [hex_decode_loop, hc, Bool.not_true, List.filter_cons, hnh]
      simpa using this

theorem leftover_eq_none (l : List Nat) : leftover l = none ↔ l.length % 2 = 0 := by
  induction l using pair_vals.induct with
  | case1 a b rest ih => simp [leftover, ih]; omega
  | case2 l h =>
    match l, h with
    | [], _ => simp [leftover]
    | [a], _ => simp [leftover]
    | a :: b :: rest, h => exact absurd rfl (h a b rest)

theorem pair_vals_length (l : List Nat) : (pair_vals l).length = l.length / 2 := by
  induction l using pair_vals.induct with
  | case1 a b rest ih => simp [pair_vals, ih]; omega
  | case2 l h =>
    match l, h with
    | [], _ => simp [pair_vals]
    | [a], _ => simp [pair_vals]
    | a :: b :: rest, h => exact absurd rfl (h a b rest)

theorem pair_vals_getD (l : List Nat) : ∀ k, k < l.length / 2 →
    (pair_vals l).getD k 0 = 16 * l.getD (2 * k) 0 + l.getD (2 * k + 1) 0 := by
  induction l using pair_vals.induct with
  | case1 a b rest ih =>
    intro k hk
    cases k with
    | zero => simp [pair_vals]
    | succ k =>
      have hk2 : k < rest.length / 2 := by simp at hk; omega
      have e1 : 2 * (k + 1) = (2 * k) + 1 + 1 := by ring
      rw [e1]
      simpa [pair_vals] using ih k hk2
  | case2 l h =>
    intro k hk
    match l, h with
    | [], _ => simp at hk
    | [a], _ => exact absurd hk (by simp)
    | a :: b :: rest, h => exact absurd rfl (h a b rest)

/-- C7. Decoding the characters produced by `gkr_crypto_hex_encode` for a byte sequence
`b` (both calls with sufficient capacity) succeeds and gives back `b`, with
`n_decoded = |b|`; the encoder stores `2 * |b|` characters. -/
theorem hex_decode_encode (b : List Nat) (hb : ∀ x ∈ b, x < 256) (cap_e cap_d : Nat)
    (he : 2 * b.length + 1 ≤ cap_e) (hd : b.length ≤ cap_d) :
    (gkr_crypto_hex_encode b cap_e).1 = true ∧
    (gkr_crypto_hex_encode b cap_e).2.length = 2 * b.length ∧
    gkr_crypto_hex_decode (gkr_crypto_hex_encode b cap_e).2 cap_d =
      { ret := true, decoded := b, n_decoded := b.length } := by
  have hc : cap_e ≥ b.length * 2 + 1 := by omega
  have hl := hex_encode_loop_length b
  have hloop := hex_decode_encode_loop b hb []
  simp only [hexSt, List.nil_append, List.length_nil] at hloop
  refine ⟨by simp [gkr_crypto_hex_encode, hc], by simp [gkr_crypto_hex_encode, hc, hl], ?_⟩
  have hc2 : cap_d ≥ (hex_encode_loop b []).length / 2 := by rw [hl]; omega
  simp [gkr_crypto_hex_encode, hc, gkr_crypto_hex_decode, hc2, hloop]

theorem hex_decode_encode_witness :
    (gkr_crypto_hex_encode [0, 18, 171, 255] 9).1 = true ∧
    (gkr_crypto_hex_encode [0, 18, 171, 255] 9).2.length = 2 * [0, 18, 171, 255].length ∧
    gkr_crypto_hex_decode (gkr_crypto_hex_encode [0, 18, 171, 255] 9).2 4 =
      { ret := true, decoded := [0, 18, 171, 255], n_decoded := [0, 18, 171, 255].length } :=
  hex_decode_encode [0, 18, 171, 255] (by decide) 9 4 (by decide) (by decide)

/-- C8 (code at the failing input). On the four characters `12zz` the decoder stops at the
first `z`, which is neither whitespace nor a hexadecimal digit, and returns TRUE with one
decoded byte; on two zero bytes it returns TRUE as well, the zero byte being found in the
table at its terminator. -/
theorem hex_decode_invalid_char_accepted :
    isspace 122 = false ∧ isHexDigit 122 = false ∧
    gkr_crypto_hex_decode [49, 50, 122, 122] 2 = { ret := true, decoded := [18], n_decoded := 1 } ∧
    isspace 0 = false ∧ isHexDigit 0 = false ∧
    gkr_crypto_hex_decode [0, 0] 1 = { ret := true, decoded := [0], n_decoded := 1 } := by
  decide

/-- C9. On an input made only of hexadecimal digits (either case) and whitespace, and with
the capacity the entry check asks for, `gkr_crypto_hex_decode` returns TRUE exactly when the
number of digits is even; it then has stored (number of digits)/2 bytes, byte `k` being
`16 * value (digit 2k) + value (digit 2k+1)` of the digits with the whitespace removed. The
empty input gives zero bytes and the one-character input `a` fails. -/
theorem hex_decode_digits_and_space (data : List Nat) (cap : Nat)
    (hv : ∀ c ∈ data, isHexDigit c = true ∨ isspace c = true)
    (hcap : data.length / 2 ≤ cap) :
    ((gkr_crypto_hex_decode data cap).ret = true ↔ (data.filter isHexDigit).length % 2 = 0) ∧
    ((data.filter isHexDigit).length % 2 = 0 →
      (gkr_crypto_hex_decode data cap).decoded = pair_vals ((data.filter isHexDigit).map hexval) ∧
      (gkr_crypto_hex_decode data cap).decoded.length = (data.filter isHexDigit).length / 2 ∧
      (gkr_crypto_hex_decode data cap).n_decoded = (data.filter isHexDigit).length / 2 ∧
      ∀ k, k < (data.filter isHexDigit).length / 2 →
        (gkr_crypto_hex_decode data cap).decoded.getD k 0 =
          16 * hexval ((data.filter isHexDigit).getD (2 * k) 0) +
            hexval ((data.filter isHexDigit).getD (2 * k + 1) 0)) ∧
    gkr_crypto_hex_decode [] cap = { ret := true, decoded := [], n_decoded := 0 } ∧
    (gkr_crypto_hex_decode [97] cap).ret = false := by
  have hloop := hex_decode_loop_valid data hv [] none (by simp)
  simp only [hexSt, List.nil_append, Option.toList, List.length_nil] at hloop
  have hc : cap ≥ data.length / 2 := hcap
  have hlen := pair_vals_length ((data.filter isHexDigit).map hexval)
  rw [List.length_map] at hlen
  have hleft := leftover_eq_none ((data.filter isHexDigit).map hexval)
  rw [List.length_map] at hleft
  have hst : (gkr_crypto_hex_decode data cap).ret = true ↔
      (data.filter isHexDigit).length % 2 = 0 := by
    rw [← hleft]
    simp only [gkr_crypto_hex_decode, hc, if_true, hloop]
    cases hlo : leftover ((data.filter isHexDigit).map hexval) <;> simp [hexSt]
  refine ⟨hst, ?_, ?_, ?_⟩
  · intro heven
    have hnone := hleft.mpr heven
    have hdec : (gkr_crypto_hex_decode data cap).decoded =
        pair_vals ((data.filter isHexDigit).map hexval) := by
      simp [gkr_crypto_hex_decode, hc, hloop, hnone, hexSt]
    have hn : (gkr_crypto_hex_decode data cap).n_decoded = (data.filter isHexDigit).length / 2 := by
      simp [gkr_crypto_hex_decode, hc, hloop, hnone, hexSt, hlen]
    refine ⟨hdec, by rw [hdec, hlen], hn, ?_⟩
    intro k hk
    rw [hdec, pair_vals_getD _ k (by rw [List.length_map]; exact hk)]
    have h1 : 2 * k < (data.filter isHexDigit).length := by omega
    have h2 : 2 * k + 1 < (data.filter isHexDigit).length := by omega
    simp [List.getD_eq_getElem, h1, h2]
  · simp [gkr_crypto_hex_decode, hex_decode_loop]
  · simp [gkr_crypto_hex_decode]
    decide

theorem hex_decode_digits_and_space_witness :
    ((gkr_crypto_hex_decode [65, 32, 98, 10, 48, 70] 3).ret = true ↔
        ([65, 32, 98, 10, 48, 70].filter isHexDigit).length % 2 = 0) ∧
    (([65, 32, 98, 10, 48, 70].filter isHexDigit).length % 2 = 0 →
      (gkr_crypto_hex_decode [65, 32, 98, 10, 48, 70] 3).decoded =
        pair_vals (([65, 32, 98, 10, 48, 70].filter isHexDigit).map hexval) ∧
      (gkr_crypto_hex_decode [65, 32, 98, 10, 48, 70] 3).decoded.length =
        ([65, 32, 98, 10, 48, 70].filter isHexDigit).length / 2 ∧
      (gkr_crypto_hex_decode [65, 32, 98, 10, 48, 70] 3).n_decoded =
        ([65, 32, 98, 10, 48, 70].filter isHexDigit).length / 2 ∧
      ∀ k, k < ([65, 32, 98, 10, 48, 70].filter isHexDigit).length / 2 →
        (gkr_crypto_hex_decode [65, 32, 98, 10, 48, 70] 3).decoded.getD k 0 =
          16 * hexval (([65, 32, 98, 10, 48, 70].filter isHexDigit).getD (2 * k) 0) +
            hexval (([65, 32, 98, 10, 48, 70].filter isHexDigit).getD (2 * k + 1) 0)) ∧
    gkr_crypto_hex_decode [] 3 = { ret := true, decoded := [], n_decoded := 0 } ∧
    (gkr_crypto_hex_decode [97] 3).ret = false :=
  hex_decode_digits_and_space [65, 32, 98, 10, 48, 70] 3 (by decide) (by decide)

/-! ## Theorems: shared lemmas on digests and buffers -/

theorem foldl_const_iterate {α : Type} (f : α → α) (n s : Nat) (d : α) :
    (List.range' s n).foldl (fun d _ => f d) d = f^[n] d := by
  induction n generalizing s d with
  | zero => simp
  | succ n ih => simp [List.range'_succ, ih]

theorem rehash_eq (h : HashAlgo) (n : Nat) (d : List Nat) :
    rehash h n d = h.hash^[n - 1] d := by
  simp [rehash, foldl_const_iterate]

theorem rehash_hash (h : HashAlgo) (c : Nat) (hc : 1 ≤ c) (m : List Nat) :
    rehash h c (h.hash m) = h.hash^[c] m := by
  rw [rehash_eq, ← Function.iterate_succ_apply]
  congr 1
  omega

theorem iterate_hash_length (h : HashAlgo) (hwf : h.WF) (c : Nat) (hc : 1 ≤ c) (m : List Nat) :
    (h.hash^[c] m).length = h.dlen := by
  obtain ⟨c, rfl⟩ : ∃ k, c = k + 1 := ⟨c - 1, by omega⟩
  rw [Function.iterate_succ_apply']
  exact hwf.1 _

theorem toyHash_WF : toyHash.WF := by
  constructor <;> intros <;> simp [toyHash]

theorem toyHash16_WF : toyHash16.WF := by
  constructor <;> intros <;> simp [toyHash16]

/-! ## Theorems: PBE scheme -/

theorem pbe_run_spec (cipher : CipherAlgo) (h : HashAlgo) (password salt : Option (List Nat))
    (c : Nat) (r : Derived) (hwf : h.WF) (hc : 1 ≤ c)
    (hacc : gkr_crypto_generate_symkey_pbe cipher h password salt c true true = Outcome.done r)
    (hret : r.ret = true) :
    r.key.cells = ((h.hash^[c] (password_bytes password ++ salt_bytes salt)).take
      cipher.keylen).map some ∧
    r.iv.cells = (((h.hash^[c] (password_bytes password ++ salt_bytes salt)).drop
      (16 - cipher.blklen)).take cipher.blklen).map some ∧
    r.key.cells.length = cipher.keylen ∧ r.iv.cells.length = cipher.blklen := by
  have hD := iterate_hash_length h hwf c hc (password_bytes password ++ salt_bytes salt)
  have hci : ((c : Int) ≥ 1) := by exact_mod_cast hc
  unfold gkr_crypto_generate_symkey_pbe at hacc
  simp only [hci, not_true_eq_false, if_false, gkr_secure_alloc, Option.map_some', if_true,
    true_and, Int.toNat_ofNat, rehash_hash h c hc] at hacc
  split_ifs at hacc with h1 h2 h3 h4 h5
  all_goals first
    | (simp only [Outcome.done.injEq] at hacc; subst hacc; simp at hret; done)
    | skip
  simp only [Outcome.done.injEq] at hacc
  subst hacc
  have hk : cipher.keylen ≤ h.dlen := by omega
  have hd16 : 16 ≤ h.dlen := h5.2
  by_cases hb : cipher.blklen = 0
  · simp [OutPtr.memcpy, OutPtr.cells, g_malloc, hb, memcpy, hD, hk]
  · have hiv : cipher.blklen ≤ (List.drop (16 - cipher.blklen)
        (h.hash^[c] (password_bytes password ++ salt_bytes salt))).length := by
      rw [List.length_drop, hD]; omega
    simp [OutPtr.memcpy, OutPtr.cells, g_malloc, hb, memcpy, hD, hk]
    omega

theorem c_str_terminated (s beyond : List Nat) (hs : ∀ c ∈ s, c ≠ 0) :
    c_str (s ++ 0 :: beyond) = s := by
  induction s with
  | nil => simp [c_str]
  | cons a s ih =>
    have ha : a ≠ 0 := hs a (List.mem_cons_self _ _)
    have ih1 := ih (fun c hc => hs c (List.mem_cons_of_mem _ hc))
    simp only [c_str] at ih1 ⊢
    simp [List.takeWhile_cons, ha, ih1]

theorem password_bytes_of (password : Option (List Nat)) (pw beyond : List Nat)
    (hpw : ∀ b ∈ pw, b ≠ 0)
    (hp : password = some (pw ++ 0 :: beyond) ∨ (password = none ∧ pw = [])) :
    password_bytes password = pw := by
  rcases hp with rfl | ⟨rfl, rfl⟩
  · exact c_str_terminated pw beyond hpw
  · rfl

theorem salt_bytes_of (salt : Option (List Nat)) (sl : List Nat)
    (hs : salt = some sl ∨ (salt = none ∧ sl = [])) : salt_bytes salt = sl := by
  rcases hs with rfl | ⟨rfl, rfl⟩
  · cases sl <;> simp [salt_bytes]
  · rfl

/-- C5. For a request with `c ≥ 1` iterations that `gkr_crypto_generate_symkey_pbe` accepts
(it returns TRUE, key and IV requested), where the password is the string of the characters
`pw` (they are followed by the terminating zero byte; a NULL password has no characters) and
the salt is the `n_salt` bytes `sl` (a NULL salt has no bytes), with `D = H^c (pw || sl)`:
the key is bytes `[0, key_length)` of `D` and the IV is bytes `[16 - iv_length, 16)` of
`D`. -/
theorem pbe_key_and_iv (cipher : CipherAlgo) (h : HashAlgo) (password salt : Option (List Nat))
    (pw beyond sl : List Nat) (c : Nat) (r : Derived) (hwf : h.WF) (hc : 1 ≤ c)
    (hpw : ∀ b ∈ pw, b ≠ 0)
    (hpassword : password = some (pw ++ 0 :: beyond) ∨ (password = none ∧ pw = []))
    (hsalt : salt = some sl ∨ (salt = none ∧ sl = []))
    (hacc : gkr_crypto_generate_symkey_pbe cipher h password salt c true true = Outcome.done r)
    (hret : r.ret = true) :
    r.key.cells = ((h.hash^[c] (pw ++ sl)).take cipher.keylen).map some ∧
    r.iv.cells = (((h.hash^[c] (pw ++ sl)).drop (16 - cipher.blklen)).take
      cipher.blklen).map some ∧
    r.key.cells.length = cipher.keylen ∧ r.iv.cells.length = cipher.blklen :=
  password_bytes_of password pw beyond hpw hpassword ▸ salt_bytes_of salt sl hsalt ▸
    pbe_run_spec cipher h password salt c r hwf hc hacc hret

theorem pbe_key_and_iv_witness :
    ((Outcome.result (gkr_crypto_generate_symkey_pbe (CipherAlgo.mk 8 8) toyHash16
      (some [116, 101, 0, 9]) (some [1, 2]) (2 : Nat) true true)).key.cells =
      ((toyHash16.hash^[2] ([116, 101] ++ [1, 2])).take (CipherAlgo.mk 8 8).keylen).map some ∧
    (Outcome.result (gkr_crypto_generate_symkey_pbe (CipherAlgo.mk 8 8) toyHash16
      (some [116, 101, 0, 9]) (some [1, 2]) (2 : Nat) true true)).iv.cells =
      (((toyHash16.hash^[2] ([116, 101] ++ [1, 2])).drop
        (16 - (CipherAlgo.mk 8 8).blklen)).take (CipherAlgo.mk 8 8).blklen).map some ∧
    (Outcome.result (gkr_crypto_generate_symkey_pbe (CipherAlgo.mk 8 8) toyHash16
      (some [116, 101, 0, 9]) (some [1, 2]) (2 : Nat) true true)).key.cells.length
      = (CipherAlgo.mk 8 8).keylen ∧
    (Outcome.result (gkr_crypto_generate_symkey_pbe (CipherAlgo.mk 8 8) toyHash16
      (some [116, 101, 0, 9]) (some [1, 2]) (2 : Nat) true true)).iv.cells.length
      = (CipherAlgo.mk 8 8).blklen) ∧
    toyHash16.hash^[2] [116, 101, 1, 2] =
      [34, 105, 29, 210, 24, 133, 215, 57, 156, 247, 63, 212, 4, 0, 128, 233] ∧
    (Outcome.result (gkr_crypto_generate_symkey_pbe (CipherAlgo.mk 8 8) toyHash16
      (some [116, 101, 0, 9]) (some [1, 2]) (2 : Nat) true true)).key =
      OutPtr.buf [some 34, some 105, some 29, some 210, some 24, some 133, some 215, some 57] ∧
    (Outcome.result (gkr_crypto_generate_symkey_pbe (CipherAlgo.mk 8 8) toyHash16
      (some [116, 101, 0, 9]) (some [1, 2]) (2 : Nat) true true)).iv =
      OutPtr.buf [some 156, some 247, some 63, some 212, some 4, some 0, some 128, some 233] :=
  ⟨pbe_key_and_iv (CipherAlgo.mk 8 8) toyHash16 (some [116, 101, 0, 9]) (some [1, 2])
    [116, 101] [9] [1, 2] 2
    (Outcome.result (gkr_crypto_generate_symkey_pbe (CipherAlgo.mk 8 8) toyHash16
      (some [116, 101, 0, 9]) (some [1, 2]) (2 : Nat) true true))
    toyHash16_WF (by decide) (by decide) (Or.inl rfl) (Or.inl rfl) (by decide) (by decide),
   by decide, by decide, by decide⟩

/-- C10. When `key_length + iv_length` exceeds 16 or the digest length,
`gkr_crypto_generate_symkey_pbe` returns FALSE with an empty event log (no hash context
opened, no buffer allocated, no hash computed) and stores to neither `*key` nor `*iv`. -/
theorem pbe_rejects_long_material (cipher : CipherAlgo) (h : HashAlgo)
    (password salt : Option (List Nat)) (iterations : Int) (want_key want_iv : Bool)
    (hlen : cipher.keylen + cipher.blklen > 16 ∨ cipher.keylen + cipher.blklen > h.dlen) :
    gkr_crypto_generate_symkey_pbe cipher h password salt iterations want_key want_iv =
      Outcome.done { ret := false, key := OutPtr.untouched, iv := OutPtr.untouched, log := [] } := by
  unfold gkr_crypto_generate_symkey_pbe
  have h3 : cipher.blklen + cipher.keylen > 16 ∨ cipher.blklen + cipher.keylen > h.dlen := by omega
  simp only [h3, if_true]
  split_ifs <;> rfl

theorem pbe_rejects_long_material_witness :
    gkr_crypto_generate_symkey_pbe (CipherAlgo.mk 16 16) toyHash16 (some [116, 101])
      (some [1, 2]) 2 true true =
      Outcome.done { ret := false, key := OutPtr.untouched, iv := OutPtr.untouched, log := [] } :=
  pbe_rejects_long_material (CipherAlgo.mk 16 16) toyHash16 (some [116, 101]) (some [1, 2]) 2
    true true (Or.inl (by decide))

/-! ## Theorems: moving pointers -/

theorem curAt_put (n : Nat) (w : List Nat) (v : Nat) (hw : w.length < n) :
    (curAt n w).put v = curAt n (w ++ [v]) := by
  have h1 : n - w.length = (n - (w.length + 1)) + 1 := by omega
  simp only [curAt, OutCur.put, List.map_append, List.map_cons, List.map_nil,
    List.length_append, List.length_singleton, OutCur.mk.injEq, and_true]
  rw [h1, List.replicate_succ]
  have h2 : w.length = (w.map some).length := by simp
  rw [List.set_append_right _ _ (by simp)]
  simp

theorem curOpt_put (want : Bool) (n : Nat) (w : List Nat) (v : Nat) (hw : w.length < n) :
    (curOpt want n w).map (fun c => c.put v) = curOpt want n (w ++ [v]) := by
  cases want <;> simp [curOpt, curAt_put n w v hw]

theorem copy_out_spec (d : List Nat) (nd : Nat) (hd : d.length = nd) (want : Bool) (n : Nat) :
    ∀ (needed i : Nat) (w : List Nat), i ≤ nd → w.length + needed ≤ n →
      copy_out d nd needed i (curOpt want n w) =
        (i + min needed (nd - i), needed - min needed (nd - i),
          curOpt want n (w ++ (d.drop i).take (min needed (nd - i)))) := by
  intro needed
  induction needed with
  | zero => intro i w _ _; simp [copy_out]
  | succ needed ih =>
    intro i w hi hroom
    by_cases hlt : i < nd
    · have hm : min (needed + 1) (nd - i) = min needed (nd - (i + 1)) + 1 := by omega
      have hid : i < d.length := by omega
      simp only [copy_out, hlt, if_true]
      rw [curOpt_put want n w _ (by omega), ih (i + 1) _ (by omega) (by simp; omega), hm]
      rw [List.drop_eq_getElem_cons hid, List.take_succ_cons]
      simp [List.getD_eq_getElem, hid]
      omega
    · have hz : nd - i = 0 := by omega
      simp [copy_out, hlt, hz]

/-! ## Theorems: simple scheme -/

theorem simple_D_length (h : HashAlgo) (hwf : h.WF) (pw sl : List Nat) (c : Nat) (hc : 1 ≤ c)
    (k : Nat) : (simple_D h pw sl c k).length = h.dlen := by
  cases k <;> simp only [simple_D] <;> rw [← rehash_eq, rehash_hash h c hc] <;>
    exact iterate_hash_length h hwf c hc _

theorem simple_stream_succ (h : HashAlgo) (pw sl : List Nat) (c N : Nat) :
    simple_stream h pw sl c (N + 1) = simple_stream h pw sl c N ++ simple_D h pw sl c N := by
  simp [simple_stream, List.range_succ, List.flatMap_append]

theorem simple_stream_length (h : HashAlgo) (hwf : h.WF) (pw sl : List Nat) (c : Nat)
    (hc : 1 ≤ c) (N : Nat) : (simple_stream h pw sl c N).length = N * h.dlen := by
  induction N with
  | zero => simp [simple_stream]
  | succ N ih =>
    rw [simple_stream_succ, List.length_append, ih, simple_D_length h hwf pw sl c hc]
    ring

theorem simple_stream_block (h : HashAlgo) (hwf : h.WF) (pw sl : List Nat) (c : Nat)
    (hc : 1 ≤ c) (N p : Nat) (hp : p < N) :
    ((simple_stream h pw sl c N).drop (p * h.dlen)).take h.dlen = simple_D h pw sl c p := by
  induction N with
  | zero => omega
  | succ N ih =>
    have hlen := simple_stream_length h hwf pw sl c hc N
    have hD := simple_D_length h hwf pw sl c hc
    rw [simple_stream_succ]
    by_cases hpN : p < N
    · have h1 : p * h.dlen + h.dlen ≤ N * h.dlen := by
        have : (p + 1) * h.dlen ≤ N * h.dlen := Nat.mul_le_mul_right _ hpN
        linarith [this]
      rw [List.drop_append_of_le_length (by omega),
        List.take_append_of_le_length (by rw [List.length_drop]; omega)]
      exact ih hpN
    · have hpe : p = N := by omega
      subst hpe
      rw [List.drop_append_eq_append_drop, List.drop_of_length_le (by omega)]
      simp [hlen, ← hD p]

theorem simple_key_step (S d : List Nat) (x K V dl : Nat)
    (hblk : x < K + V → d = (S.drop x).take dl) :
    S.take (min K x) ++ (d.drop 0).take (min (K - x) (dl - 0)) = S.take (min K (x + dl)) := by
  by_cases hfin : K ≤ x
  · have e0 : min (K - x) (dl - 0) = 0 := by omega
    have e1 : min K x = K := by omega
    have e2 : min K (x + dl) = K := by omega
    rw [e0, e1, e2, List.take_zero, List.append_nil]
  · have e1 : min K x = x := by omega
    have e2 : min (min (K - x) (dl - 0)) dl = min (K - x) dl := by omega
    have e3 : min K (x + dl) = x + min (K - x) dl := by omega
    rw [hblk (by omega), List.drop_zero, List.take_take, e1, e2, e3, List.take_add]

theorem simple_iv_step (S d : List Nat) (x K V dl : Nat)
    (hblk : x < K + V → d = (S.drop x).take dl) :
    (S.drop K).take (min V (x - K)) ++
      (d.drop (0 + min (K - x) (dl - 0))).take
        (min (V - (x - K)) (dl - (0 + min (K - x) (dl - 0)))) =
    (S.drop K).take (min V (x + dl - K)) := by
  by_cases hk2 : min (V - (x - K)) (dl - (0 + min (K - x) (dl - 0))) = 0
  · have e1 : min V (x - K) = min V (x + dl - K) := by omega
    rw [hk2, e1, List.take_zero, List.append_nil]
  · have e0 : 0 + min (K - x) (dl - 0) = min (K - x) dl := by omega
    rw [e0] at hk2 ⊢
    have e1 : min (min (V - (x - K)) (dl - min (K - x) dl)) (dl - min (K - x) dl)
        = min (V - (x - K)) (dl - min (K - x) dl) := by omega
    have e2 : x + min (K - x) dl = K + min V (x - K) := by omega
    have e3 : min V (x + dl - K) = min V (x - K) + min (V - (x - K)) (dl - min (K - x) dl) := by
      omega
    rw [hblk (by omega), List.drop_take, List.take_take, List.drop_drop, e1, e2, e3,
      List.take_add, List.drop_drop]

theorem simple_needed_step (x K V dl : Nat) :
    K - x - min (K - x) (dl - 0) = K - (x + dl) ∧
    V - (x - K) - min (V - (x - K)) (dl - (0 + min (K - x) (dl - 0))) = V - (x + dl - K) := by
  omega

theorem simple_pass_fields (h : HashAlgo) (password salt : Option (List Nat)) (c p : Nat)
    (s : SimpleState) (d : List Nat) (i1 nk ni nk0 ni0 : Nat) (ak ai ak0 ai0 : Option OutCur)
    (hdig : rehash h c (h.hash ((if p > 0 then s.digest else []) ++ password_bytes password ++
      salt_bytes salt)) = d)
    (hnk : s.needed_key = nk0) (hni : s.needed_iv = ni0) (hak : s.at_key = ak0)
    (hai : s.at_iv = ai0)
    (hk : copy_out d h.dlen nk0 0 ak0 = (i1, nk, ak))
    (hv : ∃ i2, copy_out d h.dlen ni0 i1 ai0 = (i2, ni, ai)) :
    (simple_pass h password salt c p s).digest = d ∧
    (simple_pass h password salt c p s).needed_key = nk ∧
    (simple_pass h password salt c p s).needed_iv = ni ∧
    (simple_pass h password salt c p s).at_key = ak ∧
    (simple_pass h password salt c p s).at_iv = ai := by
  obtain ⟨i2, hv⟩ := hv
  simp only [simple_pass, hdig, hnk, hni, hak, hai, hk, hv, and_self]

theorem simple_pass_inv (h : HashAlgo) (hwf : h.WF) (password salt : Option (List Nat))
    (c : Nat) (hc : 1 ≤ c) (K V N : Nat) (wk wiv : Bool)
    (hN : K + V ≤ N * h.dlen) (p : Nat) (s : SimpleState)
    (hinv : SimpleInv h (password_bytes password) (salt_bytes salt) c K V wk wiv
      (simple_stream h (password_bytes password) (salt_bytes salt) c N) p s) :
    SimpleInv h (password_bytes password) (salt_bytes salt) c K V wk wiv
      (simple_stream h (password_bytes password) (salt_bytes salt) c N) (p + 1)
      (simple_pass h password salt c p s) := by
  obtain ⟨hdig, hnk, hni, hak, hai⟩ := hinv
  generalize hpw : password_bytes password = pw at *
  generalize hsl : salt_bytes salt = sl at *
  generalize hS : simple_stream h pw sl c N = S at *
  have hSlen : S.length = N * h.dlen := by
    rw [← hS]; exact simple_stream_length h hwf pw sl c hc N
  have hdlen : (simple_D h pw sl c p).length = h.dlen := simple_D_length h hwf pw sl c hc p
  have hsucc : (p + 1) * h.dlen = p * h.dlen + h.dlen := by ring
  have hdigest : rehash h c (h.hash ((if p > 0 then s.digest else []) ++
      password_bytes password ++ salt_bytes salt)) = simple_D h pw sl c p := by
    rw [rehash_eq, hpw, hsl]
    cases p with
    | zero => simp [simple_D]
    | succ k => simp [simple_D, hdig (by omega)]
  have hblk : p * h.dlen < K + V → simple_D h pw sl c p = (S.drop (p * h.dlen)).take h.dlen := by
    intro hlt
    have hpN : p < N := by
      by_contra hge
      have : N * h.dlen ≤ p * h.dlen := Nat.mul_le_mul_right _ (by omega)
      omega
    rw [← hS]
    exact (simple_stream_block h hwf pw sl c hc N p hpN).symm
  generalize hdD : simple_D h pw sl c p = d at hdlen hdigest hblk
  generalize p * h.dlen = x at *
  have hroomk : (S.take (min K x)).length + (K - x) ≤ K := by
    rw [List.length_take]; omega
  have hroomv : ((S.drop K).take (min V (x - K))).length + (V - (x - K)) ≤ V := by
    rw [List.length_take]; omega
  have hk := copy_out_spec d h.dlen hdlen wk K (K - x) 0 (S.take (min K x)) (by omega) hroomk
  have hv := copy_out_spec d h.dlen hdlen wiv V (V - (x - K)) (0 + min (K - x) (h.dlen - 0))
    ((S.drop K).take (min V (x - K))) (by omega) hroomv
  obtain ⟨f1, f2, f3, f4, f5⟩ := simple_pass_fields h password salt c p s d _ _ _ _ _ _ _ _ _
    hdigest hnk hni hak hai hk ⟨_, hv⟩
  obtain ⟨a1, a2⟩ := simple_needed_step x K V h.dlen
  refine ⟨fun _ => ?_, ?_, ?_, ?_, ?_⟩
  · rw [f1, ← hdD]; simp
  · rw [f2, hsucc, a1]
  · rw [f3, hsucc, a2]
  · rw [f4, hsucc, simple_key_step S d x K V h.dlen hblk]
  · rw [f5, hsucc, simple_iv_step S d x K V h.dlen hblk]

theorem simple_loop_spec (h : HashAlgo) (hwf : h.WF) (password salt : Option (List Nat))
    (c : Nat) (hc : 1 ≤ c) (K V N : Nat) (wk wiv : Bool) (hN : K + V ≤ N * h.dlen) :
    ∀ (fuel p : Nat) (s : SimpleState),
      SimpleInv h (password_bytes password) (salt_bytes salt) c K V wk wiv
        (simple_stream h (password_bytes password) (salt_bytes salt) c N) p s →
      K + V ≤ (p + fuel) * h.dlen → 1 ≤ fuel →
      ∃ s1 q, simple_loop h password salt c fuel p s = some s1 ∧ K + V ≤ q * h.dlen ∧
        SimpleInv h (password_bytes password) (salt_bytes salt) c K V wk wiv
          (simple_stream h (password_bytes password) (salt_bytes salt) c N) q s1 := by
  intro fuel
  induction fuel with
  | zero => intro p s _ _ h1; omega
  | succ fuel ih =>
    intro p s hinv hfuel _
    have hnext := simple_pass_inv h hwf password salt c hc K V N wk wiv hN p s hinv
    have hsucc : (p + 1) * h.dlen = p * h.dlen + h.dlen := by ring
    by_cases hfin : (simple_pass h password salt c p s).needed_key = 0 ∧
        (simple_pass h password salt c p s).needed_iv = 0
    · refine ⟨simple_pass h password salt c p s, p + 1, by simp [simple_loop, hfin], ?_, hnext⟩
      obtain ⟨_, hnk, hni, _, _⟩ := hnext
      rw [hnk, hni] at hfin
      omega
    · have hnot : ¬ (K + V ≤ (p + 1) * h.dlen) := by
        intro hle
        apply hfin
        obtain ⟨_, hnk, hni, _, _⟩ := hnext
        rw [hnk, hni]
        omega
      have hf1 : 1 ≤ fuel := by
        cases fuel with
        | zero => exact absurd hfuel hnot
        | succ k => omega
      have hfuel2 : K + V ≤ (p + 1 + fuel) * h.dlen := by
        have : p + 1 + fuel = p + (fuel + 1) := by ring
        rw [this]; exact hfuel
      obtain ⟨s1, q, hs1, hq, hinv1⟩ := ih (p + 1) _ hnext hfuel2 hf1
      exact ⟨s1, q, by simp only [simple_loop, hfin, if_false]; exact hs1, hq, hinv1⟩

theorem curAt_full_cells (n : Nat) (w : List Nat) (hw : w.length = n) :
    (curAt n w).cells = w.map some := by
  simp [curAt, hw]

theorem simple_run_spec (cipher : CipherAlgo) (h : HashAlgo)
    (password salt : Option (List Nat)) (c N : Nat) (hwf : h.WF) (hopen : h.open_ok = true)
    (hc : 1 ≤ c) (hd : 0 < h.dlen) (hN : cipher.keylen + cipher.blklen ≤ N * h.dlen) :
    ∃ r, gkr_crypto_generate_symkey_simple cipher h password salt c true true = Outcome.done r ∧
      r.ret = true ∧
      r.key.cells ++ r.iv.cells =
        ((simple_stream h (password_bytes password) (salt_bytes salt) c N).take
          (cipher.keylen + cipher.blklen)).map some ∧
      r.key.cells =
        ((simple_stream h (password_bytes password) (salt_bytes salt) c N).take
          cipher.keylen).map some ∧
      r.iv.cells =
        (((simple_stream h (password_bytes password) (salt_bytes salt) c N).drop
          cipher.keylen).take cipher.blklen).map some ∧
      r.key.cells.length = cipher.keylen ∧ r.iv.cells.length = cipher.blklen := by
  set S := simple_stream h (password_bytes password) (salt_bytes salt) c N with hS
  have hSlen : S.length = N * h.dlen :=
    simple_stream_length h hwf (password_bytes password) (salt_bytes salt) c hc N
  have hci : ((c : Int) ≥ 1) := by exact_mod_cast hc
  have hinv0 : SimpleInv h (password_bytes password) (salt_bytes salt) c cipher.keylen
      cipher.blklen true (decide (cipher.blklen ≠ 0)) S 0
      { digest := [], needed_key := cipher.keylen, needed_iv := cipher.blklen,
        at_key := (OutPtr.buf (List.replicate cipher.keylen none)).cursor,
        at_iv := (g_malloc cipher.blklen).cursor,
        log := [Event.md_open, Event.secure_alloc h.dlen, Event.secure_alloc cipher.keylen,
          Event.g_alloc cipher.blklen] } := by
    refine ⟨fun h0 => absurd h0 (by omega), by simp, by simp, ?_, ?_⟩
    · simp [OutPtr.cursor, curOpt, curAt]
    · by_cases hb : cipher.blklen = 0
      · simp [g_malloc, hb, OutPtr.cursor, curOpt]
      · simp [g_malloc, hb, OutPtr.cursor, curOpt, curAt]
  have hfuel : cipher.keylen + cipher.blklen ≤
      (0 + (cipher.keylen + cipher.blklen + 1)) * h.dlen := by
    have : (cipher.keylen + cipher.blklen + 1) * 1 ≤ (cipher.keylen + cipher.blklen + 1) * h.dlen :=
      Nat.mul_le_mul_left _ hd
    rw [Nat.zero_add]
    omega
  obtain ⟨s1, q, hs1, hq, hinv1⟩ := simple_loop_spec h hwf password salt c hc cipher.keylen
    cipher.blklen N true (decide (cipher.blklen ≠ 0)) hN (cipher.keylen + cipher.blklen + 1) 0 _
    hinv0 hfuel (by omega)
  obtain ⟨_, _, _, hak, hai⟩ := hinv1
  have hkl : (S.take cipher.keylen).length = cipher.keylen := by
    rw [List.length_take]; omega
  have hvl : ((S.drop cipher.keylen).take cipher.blklen).length = cipher.blklen := by
    rw [List.length_take, List.length_drop]; omega
  have e1 : min cipher.keylen (q * h.dlen) = cipher.keylen := by omega
  have e2 : min cipher.blklen (q * h.dlen - cipher.keylen) = cipher.blklen := by omega
  rw [e1] at hak
  rw [e2] at hai
  have hkey : ((OutPtr.buf (List.replicate cipher.keylen none)).withCells s1.at_key).cells =
      (S.take cipher.keylen).map some := by
    simp [hak, curOpt, OutPtr.withCells, OutPtr.cells, curAt_full_cells _ _ hkl]
  have hiv : ((g_malloc cipher.blklen).withCells s1.at_iv).cells =
      ((S.drop cipher.keylen).take cipher.blklen).map some := by
    by_cases hb : cipher.blklen = 0
    · simp [g_malloc, hb, OutPtr.withCells, OutPtr.cells]
    · simp [hai, g_malloc, hb, curOpt, OutPtr.withCells, OutPtr.cells,
        curAt_full_cells _ _ hvl]
  refine ⟨{ ret := true,
            key := (OutPtr.buf (List.replicate cipher.keylen none)).withCells s1.at_key,
            iv := (g_malloc cipher.blklen).withCells s1.at_iv, log := s1.log }, ?_, rfl, ?_, hkey,
          hiv, ?_, ?_⟩
  · unfold gkr_crypto_generate_symkey_simple
    simp only [hci, hopen, hd, gkr_secure_alloc, Int.toNat_ofNat, not_true_eq_false, if_false,
      Option.map_some', if_true, gt_iff_lt, List.cons_append, List.nil_append, hs1,
      Bool.false_eq_true]
  · simp only [hkey, hiv, ← List.map_append]
    congr 1
    rw [List.take_add]
  · rw [hkey, List.length_map, hkl]
  · rw [hiv, List.length_map, hvl]

/-- C4. For `c ≥ 1` iterations and a digest length above zero (hash context available),
where the password is the string of the characters `pw` (they are followed by the
terminating zero byte; a NULL password has no characters) and the salt is the `n_salt` bytes
`sl` (a NULL salt has no bytes), `gkr_crypto_generate_symkey_simple` with key and IV
requested returns TRUE, and key followed by IV are the first `key_length + iv_length` bytes
of `D_0 || D_1 || ...` (any number `N` of digests that is long enough), with
`D_0 = H^(c-1) (H (pw || sl))` and `D_k = H^(c-1) (H (D_(k-1) || pw || sl))`, the key being
the first `key_length` bytes and the IV the `iv_length` bytes after them. -/
theorem simple_key_iv_stream (cipher : CipherAlgo) (h : HashAlgo)
    (password salt : Option (List Nat)) (pw beyond sl : List Nat) (c N : Nat) (hwf : h.WF)
    (hopen : h.open_ok = true) (hc : 1 ≤ c) (hd : 0 < h.dlen)
    (hN : cipher.keylen + cipher.blklen ≤ N * h.dlen)
    (hpw : ∀ b ∈ pw, b ≠ 0)
    (hpassword : password = some (pw ++ 0 :: beyond) ∨ (password = none ∧ pw = []))
    (hsalt : salt = some sl ∨ (salt = none ∧ sl = [])) :
    ∃ r, gkr_crypto_generate_symkey_simple cipher h password salt c true true = Outcome.done r ∧
      r.ret = true ∧
      r.key.cells ++ r.iv.cells =
        ((simple_stream h pw sl c N).take (cipher.keylen + cipher.blklen)).map some ∧
      r.key.cells = ((simple_stream h pw sl c N).take cipher.keylen).map some ∧
      r.iv.cells =
        (((simple_stream h pw sl c N).drop cipher.keylen).take cipher.blklen).map some ∧
      r.key.cells.length = cipher.keylen ∧ r.iv.cells.length = cipher.blklen :=
  password_bytes_of password pw beyond hpw hpassword ▸ salt_bytes_of salt sl hsalt ▸
    simple_run_spec cipher h password salt c N hwf hopen hc hd hN

theorem simple_key_iv_stream_witness :
    (∃ r, gkr_crypto_generate_symkey_simple (CipherAlgo.mk 5 6) toyHash (some [116, 101, 0, 9])
        (some [1, 2]) (3 : Nat) true true = Outcome.done r ∧
      r.ret = true ∧
      r.key.cells ++ r.iv.cells =
        ((simple_stream toyHash [116, 101] [1, 2] 3 3).take
          ((CipherAlgo.mk 5 6).keylen + (CipherAlgo.mk 5 6).blklen)).map some ∧
      r.key.cells =
        ((simple_stream toyHash [116, 101] [1, 2] 3 3).take (CipherAlgo.mk 5 6).keylen).map
          some ∧
      r.iv.cells =
        (((simple_stream toyHash [116, 101] [1, 2] 3 3).drop (CipherAlgo.mk 5 6).keylen).take
          (CipherAlgo.mk 5 6).blklen).map some ∧
      r.key.cells.length = (CipherAlgo.mk 5 6).keylen ∧
      r.iv.cells.length = (CipherAlgo.mk 5 6).blklen) ∧
    toyHash.hash (toyHash.hash (toyHash.hash [116, 101, 1, 2])) = [232, 40, 181, 240] ∧
    toyHash.hash (toyHash.hash (toyHash.hash ([232, 40, 181, 240] ++ [116, 101, 1, 2])))
      = [126, 7, 181, 54] ∧
    toyHash.hash (toyHash.hash (toyHash.hash ([126, 7, 181, 54] ++ [116, 101, 1, 2])))
      = [234, 139, 25, 138] ∧
    (Outcome.result (gkr_crypto_generate_symkey_simple (CipherAlgo.mk 5 6) toyHash
      (some [116, 101, 0, 9]) (some [1, 2]) (3 : Nat) true true)).key =
      OutPtr.buf [some 232, some 40, some 181, some 240, some 126] ∧
    (Outcome.result (gkr_crypto_generate_symkey_simple (CipherAlgo.mk 5 6) toyHash
      (some [116, 101, 0, 9]) (some [1, 2]) (3 : Nat) true true)).iv =
      OutPtr.buf [some 7, some 181, some 54, some 234, some 139, some 25] :=
  ⟨simple_key_iv_stream (CipherAlgo.mk 5 6) toyHash (some [116, 101, 0, 9]) (some [1, 2])
    [116, 101] [9] [1, 2] 3 3 toyHash_WF rfl (by decide) (by decide) (by decide) (by decide)
    (Or.inl rfl) (Or.inl rfl),
   by decide, by decide, by decide, by decide, by decide⟩

/-! ## Theorems: PBKDF2 scheme -/

theorem and_shiftRight (a b n : Nat) : (a &&& b) >>> n = (a >>> n) &&& (b >>> n) := by
  apply Nat.eq_of_testBit_eq
  intro j
  simp [Nat.testBit_shiftRight, Nat.testBit_and]

theorem block_number_bytes_eq (i : Nat) : block_number_bytes i = be32 i := by
  have h255 : ∀ x : Nat, x &&& 255 = x % 256 := fun x => Nat.and_pow_two_sub_one_eq_mod x 8
  have e1 : (4278190080 : Nat) >>> 24 = 255 := by decide
  have e2 : (16711680 : Nat) >>> 16 = 255 := by decide
  have e3 : (65280 : Nat) >>> 8 = 255 := by decide
  have e4 : (255 : Nat) >>> 0 = 255 := by decide
  simp only [block_number_bytes, be32, and_shiftRight, e1, e2, e3, e4, h255]
  simp only [Nat.shiftRight_eq_div_pow, Nat.pow_zero, Nat.div_one]

theorem xor_zeros (U : List Nat) : xor_into (List.replicate U.length 0) U = U := by
  induction U with
  | nil => simp [xor_into]
  | cons u U ih =>
    simp only [xor_into] at ih
    simp [xor_into, List.replicate_succ, ih]

theorem pbkdf2_U_length (h : HashAlgo) (hwf : h.WF) (P S : List Nat) (i j : Nat) :
    (pbkdf2_U h P S i j).length = h.dlen := by
  cases j <;> exact hwf.2 _ _

theorem pbkdf2_inner_spec (h : HashAlgo) (hwf : h.WF) (P S : List Nat) (i : Nat) (U0 : List Nat) :
    ∀ j, pbkdf2_inner h P S (j + 1) i (List.replicate h.dlen 0) U0 =
      (pbkdf2_T h P S (j + 1) i, pbkdf2_U h P S i j) := by
  intro j
  induction j with
  | zero =>
    have hl := hwf.2 P (S ++ be32 i)
    simp only [pbkdf2_inner, Nat.zero_add, List.range'_one, List.foldl_cons, List.foldl_nil,
      if_true, block_number_bytes_eq, pbkdf2_T, pbkdf2_U, Nat.sub_self, List.range_zero,
      List.map_nil]
    rw [← hl, xor_zeros]
  | succ j ih =>
    have hne : ¬ (1 + (j + 1) = 1) := by omega
    simp only [pbkdf2_inner] at ih ⊢
    rw [List.range'_concat, List.foldl_append, ih]
    simp only [List.foldl_cons, List.foldl_nil, Nat.one_mul, hne, if_false, pbkdf2_T, pbkdf2_U,
      Nat.add_sub_cancel, List.range_succ, List.map_append, List.foldl_append, List.map_cons,
      List.map_nil]
    rfl

theorem pbkdf2_T_length (h : HashAlgo) (hwf : h.WF) (P S : List Nat) (c i : Nat) :
    (pbkdf2_T h P S c i).length = h.dlen := by
  simp only [pbkdf2_T]
  induction (c - 1) with
  | zero => simpa using pbkdf2_U_length h hwf P S i 0
  | succ m ih =>
    simp only [List.range_succ, List.map_append, List.foldl_append, List.map_cons, List.map_nil,
      List.foldl_cons, List.foldl_nil, xor_bytes, List.length_zipWith, ih,
      pbkdf2_U_length h hwf P S i (m + 1)]
    simp

theorem pbkdf2_stream_succ (h : HashAlgo) (P S : List Nat) (c L : Nat) :
    pbkdf2_stream h P S c (L + 1) = pbkdf2_stream h P S c L ++ pbkdf2_T h P S c (L + 1) := by
  simp [pbkdf2_stream, List.range_succ, List.flatMap_append]

theorem pbkdf2_stream_length (h : HashAlgo) (hwf : h.WF) (P S : List Nat) (c L : Nat) :
    (pbkdf2_stream h P S c L).length = L * h.dlen := by
  induction L with
  | zero => simp [pbkdf2_stream]
  | succ L ih =>
    rw [pbkdf2_stream_succ, List.length_append, ih, pbkdf2_T_length h hwf]
    ring

theorem pbkdf2_block_output (h : HashAlgo) (hwf : h.WF) (P S : List Nat) (c l r : Nat)
    (hc : 1 ≤ c) (s : Pbkdf2State) (i : Nat) :
    (pbkdf2_block h P S c l r s i).output =
      memcpy s.output ((i - 1) * h.dlen) (pbkdf2_T h P S c i) (if i = l then r else h.dlen) := by
  obtain ⟨j, rfl⟩ : ∃ j, c = j + 1 := ⟨c - 1, by omega⟩
  simp only [pbkdf2_block, pbkdf2_inner_spec h hwf P S i s.U j]

theorem memcpy_after (A : List Nat) (out : List (Option Nat)) (T : List Nat) (k : Nat) :
    memcpy (A.map some ++ out.drop A.length) A.length T k =
      (A ++ T.take k).map some ++ out.drop (A.length + k) := by
  have h1 : (A.map some ++ out.drop A.length).take A.length = A.map some := by
    rw [List.take_append_of_le_length (by simp), List.take_of_length_le (by simp)]
  have h2 : (A.map some ++ out.drop A.length).drop (A.length + k) = out.drop (A.length + k) := by
    rw [List.drop_append_eq_append_drop, List.drop_of_length_le (by simp)]
    simp [List.drop_drop, Nat.add_comm]
  simp only [memcpy, h1, h2, List.map_append]

theorem pbkdf2_blocks_output (h : HashAlgo) (hwf : h.WF) (P S : List Nat) (c l r : Nat)
    (hc : 1 ≤ c) (out : List (Option Nat)) :
    ∀ (j : Nat) (s : Pbkdf2State), j < l → s.output = out →
      ((List.range' 1 j).foldl (pbkdf2_block h P S c l r) s).output =
        (pbkdf2_stream h P S c j).map some ++ out.drop (j * h.dlen) := by
  intro j
  induction j with
  | zero => intro s _ hs; simp [pbkdf2_stream, hs]
  | succ j ih =>
    intro s hj hs
    have hsucc : (j + 1) * h.dlen = j * h.dlen + h.dlen := by ring
    have hne : ¬ (j + 1 = l) := by omega
    have e1 : 1 + j = j + 1 := by omega
    have hsl := pbkdf2_stream_length h hwf P S c j
    have hT := pbkdf2_T_length h hwf P S c (j + 1)
    rw [List.range'_concat, List.foldl_append]
    simp only [List.foldl_cons, List.foldl_nil, Nat.one_mul, e1]
    rw [pbkdf2_block_output h hwf P S c l r hc, ih s (by omega) hs]
    simp only [hne, if_false, Nat.add_sub_cancel]
    rw [← hsl, memcpy_after, List.take_of_length_le (by omega), pbkdf2_stream_succ, hsl, hsucc]

theorem pbkdf2_counts (n d : Nat) (hn : 1 ≤ n) (hd : 0 < d) :
    ((n - 1) / d + 1 - 1) * d + (n - ((n - 1) / d + 1 - 1) * d) = n ∧
    1 ≤ n - ((n - 1) / d + 1 - 1) * d ∧ n - ((n - 1) / d + 1 - 1) * d ≤ d ∧
    (n - 1) / d + 1 = (n + d - 1) / d := by
  have h1 : (n - 1) / d * d ≤ n - 1 := Nat.div_mul_le_self _ _
  have h2 : n - 1 < d * ((n - 1) / d + 1) := Nat.lt_mul_div_succ _ hd
  have h3 : d * ((n - 1) / d + 1) = (n - 1) / d * d + d := by ring
  have h4 : (n + d - 1) / d = (n - 1) / d + 1 := by
    have : n + d - 1 = (n - 1) + d := by omega
    rw [this, Nat.add_div_right _ hd]
  simp only [Nat.add_sub_cancel]
  omega

theorem pbkdf2_blocks_final (h : HashAlgo) (hwf : h.WF) (P S : List Nat) (c n l r : Nat)
    (out : List (Option Nat)) (hc : 1 ≤ c) (hl : 1 ≤ l) (hsum : (l - 1) * h.dlen + r = n)
    (s : Pbkdf2State) (hs : s.output = out) :
    ((List.range' 1 l).foldl (pbkdf2_block h P S c l r) s).output =
      ((pbkdf2_stream h P S c l).take n).map some ++ out.drop n := by
  obtain ⟨m, rfl⟩ : ∃ m, l = m + 1 := ⟨l - 1, by omega⟩
  simp only [Nat.add_sub_cancel] at hsum
  have hsl := pbkdf2_stream_length h hwf P S c m
  have hT := pbkdf2_T_length h hwf P S c (m + 1)
  have e1 : 1 + m = m + 1 := by omega
  rw [List.range'_concat, List.foldl_append]
  simp only [List.foldl_cons, List.foldl_nil, Nat.one_mul, e1]
  rw [pbkdf2_block_output h hwf P S c _ r hc,
    pbkdf2_blocks_output h hwf P S c _ r hc out m _ (by omega) hs]
  simp only [if_true, Nat.add_sub_cancel]
  have e2 : n - (pbkdf2_stream h P S c m).length = r := by omega
  have e3 : List.take n (pbkdf2_stream h P S c m) = pbkdf2_stream h P S c m :=
    List.take_of_length_le (by omega)
  rw [← hsl, memcpy_after, pbkdf2_stream_succ, List.take_append_eq_append_take, e3, e2, hsl, hsum]

theorem generate_pbkdf2_output (h : HashAlgo) (hwf : h.WF) (hopen : h.open_ok = true)
    (P S : List Nat) (c n : Nat) (out : List (Option Nat)) (hc : 1 ≤ c) (hd : 0 < h.dlen)
    (hn1 : 1 ≤ n) (hn2 : n < 2 ^ 32 - 1) :
    (generate_pbkdf2 h P S c out n).ret = true ∧
    (generate_pbkdf2 h P S c out n).output =
      ((pbkdf2_stream h P S c ((n + h.dlen - 1) / h.dlen)).take n).map some ++ out.drop n := by
  obtain ⟨hsum, hr1, hr2, hL⟩ := pbkdf2_counts n h.dlen hn1 hd
  have hn2b : n < 4294967295 := by simpa using hn2
  have hc0 : c > 0 := hc
  have hn0 : n > 0 := hn1
  simp only [generate_pbkdf2, hc0, hn0, hn2b, hd, hopen, gkr_secure_alloc, not_true_eq_false,
    if_false, gt_iff_lt, Bool.false_eq_true, true_and]
  rw [← hL]
  exact pbkdf2_blocks_final h hwf P S c n ((n - 1) / h.dlen + 1)
    (n - ((n - 1) / h.dlen + 1 - 1) * h.dlen) out hc (Nat.le_add_left 1 _) hsum _ rfl

theorem take_length_c_str (s : List Nat) : s.take (c_str s).length = c_str s := by
  induction s with
  | nil => simp [c_str]
  | cons a s ih =>
    simp only [c_str] at ih ⊢
    by_cases ha : (a != 0) = true
    · simp [List.takeWhile_cons, ha, ih]
    · simp [List.takeWhile_cons, ha]

/-- C1 (amended). For `c ≥ 1`, digest length `h > 0` and output length `1 ≤ n < 2^32 - 1`,
`generate_pbkdf2` returns TRUE and stores exactly the first `n` bytes of
`T_1 || ... || T_L`, `L = ceil (n / h)`, at the start of `output`, leaving the cells after
them alone; `gkr_crypto_generate_symkey_pbkdf2` returns these bytes as the key, with `n`
the key length of the cipher. -/
theorem pbkdf2_key_standard (h : HashAlgo) (P S : List Nat) (c n : Nat)
    (out : List (Option Nat)) (hwf : h.WF) (hopen : h.open_ok = true) (hc : 1 ≤ c)
    (hd : 0 < h.dlen) (hn1 : 1 ≤ n) (hn2 : n < 2 ^ 32 - 1) :
    (generate_pbkdf2 h P S c out n).ret = true ∧
    (generate_pbkdf2 h P S c out n).output =
      ((pbkdf2_stream h P S c ((n + h.dlen - 1) / h.dlen)).take n).map some ++ out.drop n ∧
    ∀ (cipher : CipherAlgo) (nonce : Nat → List Nat) (password : List Nat)
      (salt : Option (List Nat)) (want_iv : Bool),
      cipher.keylen = n → c_str password = P → salt.getD [] = S →
      ∃ r, gkr_crypto_generate_symkey_pbkdf2 cipher h nonce (some password) salt c true want_iv
          = Outcome.done r ∧ r.ret = true ∧
        r.key = OutPtr.buf
          (((pbkdf2_stream h P S c ((n + h.dlen - 1) / h.dlen)).take n).map some) := by
  obtain ⟨hret, hout⟩ := generate_pbkdf2_output h hwf hopen P S c n out hc hd hn1 hn2
  refine ⟨hret, hout, ?_⟩
  intro cipher nonce password salt want_iv hk hP hS
  subst hk hP hS
  obtain ⟨hret2, hout2⟩ := generate_pbkdf2_output h hwf hopen (c_str password) (salt.getD [])
    c cipher.keylen (List.replicate cipher.keylen none) hc hd hn1 hn2
  have hci : ((c : Int) > 0) := by exact_mod_cast hc
  simp only [List.drop_replicate, Nat.sub_self, List.replicate_zero, List.append_nil] at hout2
  unfold gkr_crypto_generate_symkey_pbkdf2
  simp only [hci, not_true_eq_false, if_false, if_true, gkr_secure_alloc,
    take_length_c_str, Int.toNat_ofNat, hret2, hout2, true_and, Bool.false_eq_true]
  split_ifs <;> exact ⟨_, rfl, rfl, rfl⟩

theorem generate_pbkdf2_large (h : HashAlgo) (P S : List Nat) (c n : Nat)
    (out : List (Option Nat)) (hn : ¬ (n < 4294967295)) :
    generate_pbkdf2 h P S c out n = { ret := false, output := out, log := [] } := by
  unfold generate_pbkdf2
  split_ifs <;> rfl

/-- C1 (counterexample). With `n_output = 2^32 - 1` (and `c = 1`, a four byte digest)
`generate_pbkdf2` returns FALSE and stores nothing: every cell of `output` keeps its
allocation value, so the output is not the first `n` bytes of `T_1 || ... || T_L`. -/
theorem generate_pbkdf2_rejects_large_output :
    1 ≤ 1 ∧ 0 < toyHash.dlen ∧ 1 ≤ 4294967295 ∧
    (generate_pbkdf2 toyHash [112] [115] 1 (List.replicate 4294967295 none) 4294967295).ret
      = false ∧
    (generate_pbkdf2 toyHash [112] [115] 1 (List.replicate 4294967295 none) 4294967295).output
      = List.replicate 4294967295 none ∧
    (generate_pbkdf2 toyHash [112] [115] 1 (List.replicate 4294967295 none) 4294967295).output
      ≠ ((pbkdf2_stream toyHash [112] [115] 1 ((4294967295 + toyHash.dlen - 1) / toyHash.dlen)).take
          4294967295).map some := by
  have hrun := generate_pbkdf2_large toyHash [112] [115] 1 4294967295
    (List.replicate 4294967295 none) (Nat.lt_irrefl _)
  refine ⟨Nat.le_refl 1, by decide, by decide, by rw [hrun], by rw [hrun], ?_⟩
  rw [hrun]
  intro heq
  have hmem : (none : Option Nat) ∈ List.replicate 4294967295 (none : Option Nat) :=
    List.mem_replicate.mpr ⟨by decide, rfl⟩
  have heq2 : List.replicate 4294967295 (none : Option Nat) =
      ((pbkdf2_stream toyHash [112] [115] 1 ((4294967295 + toyHash.dlen - 1) / toyHash.dlen)).take
          4294967295).map some := heq
  rw [heq2] at hmem
  obtain ⟨a, _, ha⟩ := List.mem_map.mp hmem
  cases ha

theorem pbkdf2_key_standard_witness :
    (generate_pbkdf2 toyHash [112, 119] [115] 3 (List.replicate 6 none) 6).ret = true ∧
    (generate_pbkdf2 toyHash [112, 119] [115] 3 (List.replicate 6 none) 6).output =
      ((pbkdf2_stream toyHash [112, 119] [115] 3 ((6 + toyHash.dlen - 1) / toyHash.dlen)).take
        6).map some ++ (List.replicate 6 none).drop 6 ∧
    ∀ (cipher : CipherAlgo) (nonce : Nat → List Nat) (password : List Nat)
      (salt : Option (List Nat)) (want_iv : Bool),
      cipher.keylen = 6 → c_str password = [112, 119] → salt.getD [] = [115] →
      ∃ r, gkr_crypto_generate_symkey_pbkdf2 cipher toyHash nonce (some password) salt
          (3 : Nat) true want_iv = Outcome.done r ∧ r.ret = true ∧
        r.key = OutPtr.buf
          (((pbkdf2_stream toyHash [112, 119] [115] 3
            ((6 + toyHash.dlen - 1) / toyHash.dlen)).take 6).map some) :=
  pbkdf2_key_standard toyHash [112, 119] [115] 3 6 (List.replicate 6 none) toyHash_WF rfl
    (by decide) (by decide) (by decide) (by decide)

/-! ## Theorems: PKCS#12 scheme -/

theorem curOn_put (buf : List (Option Nat)) (w : List Nat) (v : Nat) (hw : w.length < buf.length) :
    (curOn buf w).put v = curOn buf (w ++ [v]) := by
  simp only [curOn, OutCur.put, List.map_append, List.map_cons, List.map_nil,
    List.length_append, List.length_singleton, OutCur.mk.injEq, and_true]
  rw [List.set_append_right _ _ (by simp)]
  simp only [List.length_map, Nat.sub_self, List.append_assoc]
  congr 1
  rw [List.drop_eq_getElem_cons hw, List.set_cons_zero]
  simp

theorem copy_out_on (d : List Nat) (nd : Nat) (hd : d.length = nd) (buf : List (Option Nat)) :
    ∀ (needed i : Nat) (w : List Nat), i ≤ nd → w.length + needed ≤ buf.length →
      copy_out d nd needed i (some (curOn buf w)) =
        (i + min needed (nd - i), needed - min needed (nd - i),
          some (curOn buf (w ++ (d.drop i).take (min needed (nd - i))))) := by
  intro needed
  induction needed with
  | zero => intro i w _ _; simp [copy_out]
  | succ needed ih =>
    intro i w hi hroom
    by_cases hlt : i < nd
    · have hm : min (needed + 1) (nd - i) = min needed (nd - (i + 1)) + 1 := by omega
      have hid : i < d.length := by omega
      simp only [copy_out, hlt, if_true, Option.map_some']
      rw [curOn_put buf w _ (by omega), ih (i + 1) _ (by omega) (by simp; omega), hm]
      rw [List.drop_eq_getElem_cons hid, List.take_succ_cons]
      simp [List.getD_eq_getElem, hid]
      omega
    · have hz : nd - i = 0 := by omega
      simp [copy_out, hlt, hz]

theorem usg_bytes_length (fuel : Nat) :
    ∀ (v k : Nat), v < 2 ^ (k * 8) → (usg_bytes fuel v).length ≤ k := by
  induction fuel with
  | zero => intro v k _; simp [usg_bytes]
  | succ fuel ih =>
    intro v k hv
    by_cases h0 : v = 0
    · simp [usg_bytes, h0]
    · cases k with
      | zero => simp at hv; omega
      | succ k =>
        have hdiv : v / 256 < 2 ^ (k * 8) := by
          rw [Nat.div_lt_iff_lt_mul (by decide)]
          have hp : 2 ^ ((k + 1) * 8) = 2 ^ (k * 8) * 256 := by
            rw [Nat.succ_mul, Nat.pow_add]
          rw [hp] at hv
          exact hv
        have := ih (v / 256) k hdiv
        simp [usg_bytes, h0]
        omega

theorem gcry_mpi_clear_highbit_lt (a n : Nat) : gcry_mpi_clear_highbit a n < 2 ^ n := by
  unfold gcry_mpi_clear_highbit
  exact Nat.mod_lt _ (Nat.two_pow_pos n)

theorem gcry_mpi_print_masked (a : Nat) :
    ∃ bytes, gcry_mpi_print 64 (gcry_mpi_clear_highbit a (64 * 8)) = some bytes := by
  have hlen := usg_bytes_length (64 + 1) _ 64 (gcry_mpi_clear_highbit_lt a (64 * 8))
  refine ⟨usg_bytes (64 + 1) (gcry_mpi_clear_highbit a (64 * 8)), ?_⟩
  simp only [gcry_mpi_print]
  rw [if_neg (by omega)]

theorem pkcs12_add_segment_some (num_b1 : Nat) (buf_i : List Nat) (i : Nat) :
    ∃ b, pkcs12_add_segment num_b1 buf_i i = some b := by
  obtain ⟨bytes, hb⟩ := gcry_mpi_print_masked (gcry_mpi_scan ((buf_i.drop i).take 64) + num_b1)
  refine ⟨buf_i.take i ++ bytes ++ buf_i.drop (i + bytes.length), ?_⟩
  simp only [pkcs12_add_segment, hb]

theorem pkcs12_bash_some (hash : List Nat) (n_hash : Nat) (buf_i : List Nat) :
    ∃ b, pkcs12_bash hash n_hash buf_i = some b := by
  unfold pkcs12_bash
  obtain ⟨b1, h1⟩ := pkcs12_add_segment_some
    (gcry_mpi_scan ((List.range 64).map (fun i => hash.getD (i % n_hash) 0)) + 1) buf_i 0
  obtain ⟨b2, h2⟩ := pkcs12_add_segment_some
    (gcry_mpi_scan ((List.range 64).map (fun i => hash.getD (i % n_hash) 0)) + 1) b1 64
  refine ⟨b2, ?_⟩
  simp only []
  rw [h1]
  exact h2

theorem pkcs12_loop_spec (h : HashAlgo) (hwf : h.WF) (hd : 0 < h.dlen) (type : Nat)
    (with_password : Bool) (c : Nat) (hc : 1 ≤ c) (out : List (Option Nat)) :
    ∀ (fuel : Nat) (b w : List Nat) (n : Nat) (L : List Event),
      w.length + n ≤ out.length → n + 1 ≤ fuel →
      ∃ g rest, pkcs12_loop h type with_password c fuel
          { buf_i := b, output := some (curOn out w), n_output := n, log := L }
          = Outcome.done g ∧ g.ret = true ∧
        g.output = (curOn out (w ++ rest)).cells ∧ rest.length = n ∧
        rest.take h.dlen = ((h.hash^[c] (List.replicate 64 (type % 256) ++
          b.take (if with_password then 128 else 64))).take n) := by
  intro fuel
  induction fuel with
  | zero => intro b w n L _ hf; omega
  | succ fuel ih =>
    intro b w n L hroom hfuel
    have hlen : (h.hash^[c] (List.replicate 64 (type % 256) ++
        b.take (if with_password then 128 else 64))).length = h.dlen :=
      iterate_hash_length h hwf c hc _
    rw [pkcs12_loop]
    simp only [rehash_hash h c hc]
    generalize h.hash^[c] (List.replicate 64 (type % 256) ++
        b.take (if with_password then 128 else 64)) = D at hlen ⊢
    have hcopy := copy_out_on D h.dlen hlen out n 0 w (by omega) hroom
    simp only [Nat.sub_zero, List.drop_zero, Nat.zero_add] at hcopy
    rw [hcopy]
    simp only []
    by_cases hfin : n - min n h.dlen = 0
    · rw [if_pos hfin]
      refine ⟨_, D.take (min n h.dlen), rfl, rfl, rfl, ?_, ?_⟩
      · rw [List.length_take]; omega
      · rw [List.take_take]
        congr 1
        omega
    · rw [if_neg hfin]
      obtain ⟨b1, hb⟩ := pkcs12_bash_some D h.dlen b
      rw [hb]
      simp only []
      have hmin : min n h.dlen = h.dlen := by omega
      rw [hmin] at hfin ⊢
      have htl : (D.take h.dlen).length = h.dlen := by
        rw [List.length_take]; omega
      have hroom2 : (w ++ D.take h.dlen).length + (n - h.dlen) ≤ out.length := by
        rw [List.length_append, htl]; omega
      have hfuel2 : n - h.dlen + 1 ≤ fuel := by omega
      obtain ⟨g, rest, hg, hret, hout, hrl, _⟩ := ih b1 (w ++ D.take h.dlen)
        (n - h.dlen) (L ++ Event.hash :: List.replicate (c - 1) Event.hash) hroom2 hfuel2
      refine ⟨g, D.take h.dlen ++ rest, hg, hret, by rw [hout, List.append_assoc], ?_, ?_⟩
      · rw [List.length_append, htl, hrl]; omega
      · rw [List.take_append_of_le_length (by omega), List.take_take,
          List.take_of_length_le (by omega), List.take_of_length_le (by omega)]

theorem password_loop_length (s : List Nat) : ∀ (n p2 : Nat) (buf : List Nat),
    (password_loop s n p2 buf).length = buf.length + 2 * n := by
  intro n
  induction n with
  | zero => intro p2 buf; simp [password_loop]
  | succ n ih =>
    intro p2 buf
    simp only [password_loop, ih]
    simp
    omega

theorem pkcs12_password_block_length (s : List Nat) : (pkcs12_password_block s).2.length = 64 := by
  simp only [pkcs12_password_block]
  split_ifs
  · simp
  · simp [password_loop_length]

theorem pkcs12_salt_block_length (salt : Option (List Nat)) (sb : List Nat)
    (hsb : pkcs12_salt_block salt = some sb) : sb.length = 64 := by
  cases salt with
  | none => simp [pkcs12_salt_block] at hsb; subst hsb; simp
  | some s =>
    simp only [pkcs12_salt_block] at hsb
    split_ifs at hsb
    simp at hsb
    subst hsb
    simp

theorem pkcs12_salt_block_some (salt : Option (List Nat)) (hsalt : salt ≠ some []) :
    ∃ sb, pkcs12_salt_block salt = some sb := by
  cases salt with
  | none => exact ⟨_, rfl⟩
  | some s =>
    have : s.length ≠ 0 := by
      intro h0
      exact hsalt (by rw [List.length_eq_zero.mp h0])
    exact ⟨(List.range 64).map (fun i => s.getD (i % s.length) 0),
      by simp only [pkcs12_salt_block, this, if_false]⟩

theorem generate_pkcs12_first (h : HashAlgo) (t : Nat) (pw : List Nat) (salt : Option (List Nat))
    (c n : Nat) (out : List (Option Nat)) (hwf : h.WF) (hopen : h.open_ok = true)
    (hd : 0 < h.dlen) (hc : 1 ≤ c) (ht : t < 256) (hsalt : salt ≠ some [])
    (hn : n ≤ out.length) :
    ∃ g sb, pkcs12_salt_block salt = some sb ∧
      generate_pkcs12 h t pw salt c out n = Outcome.done g ∧ g.ret = true ∧
      g.output.length = out.length ∧
      (∀ x ∈ g.output.take n, x ≠ none) ∧
      g.output.take (min n h.dlen) =
        ((h.hash^[c] (List.replicate 64 t ++ sb ++
          (if (pkcs12_password_block pw).1 then (pkcs12_password_block pw).2 else []))).take
            (min n h.dlen)).map some := by
  obtain ⟨sb, hsb⟩ := pkcs12_salt_block_some salt hsalt
  have hsbl := pkcs12_salt_block_length salt sb hsb
  have hpbl := pkcs12_password_block_length pw
  have ht256 : t % 256 = t := Nat.mod_eq_of_lt ht
  rcases hpb : pkcs12_password_block pw with ⟨wp, pb⟩
  rw [hpb] at hpbl
  simp only [] at hpbl
  obtain ⟨g, rest, hg, hret, hout, hrl, hrest⟩ := pkcs12_loop_spec h hwf hd t wp c hc out (n + 1)
    (sb ++ pb) [] n [Event.md_open, Event.secure_alloc h.dlen, Event.secure_alloc 128,
        Event.secure_alloc 64] (by simpa using hn) (Nat.le_refl _)
  have hcur0 : curOn out [] = { cells := out, pos := 0 } := by simp [curOn]
  rw [hcur0] at hg
  simp only [List.nil_append, ht256] at hout hrest
  have hbuf : (sb ++ pb).take (if wp = true then 128 else 64) = sb ++ (if wp = true then pb else []) := by
    cases wp
    · simp [List.take_append_of_le_length, hsbl]
    · rw [if_pos rfl, if_pos rfl, List.take_of_length_le (by simp [hsbl, hpbl])]
  rw [hbuf, ← List.append_assoc] at hrest
  refine ⟨g, sb, hsb, ?_, hret, ?_, ?_, ?_⟩
  · simp only [generate_pkcs12, hd, hopen, gkr_secure_alloc, hsb, hpb, not_true_eq_false,
      if_false, gt_iff_lt, Bool.false_eq_true]
    exact hg
  · rw [hout]
    simp [curOn, hrl]
    omega
  · rw [hout]
    simp only [curOn]
    rw [List.take_append_of_le_length (by simp [hrl]), List.take_of_length_le (by simp [hrl])]
    intro x hx
    simp only [List.mem_map] at hx
    obtain ⟨a, _, rfl⟩ := hx
    simp
  · rw [hout]
    simp only [curOn]
    rw [List.take_append_of_le_length (by simp [hrl]), ← List.map_take]
    congr 1
    have e1 : rest.take (min n h.dlen) = (rest.take h.dlen).take (min n h.dlen) := by
      rw [List.take_take]; congr 1; omega
    rw [e1, hrest, List.take_take]
    congr 1
    omega

theorem pkcs12_wrapper_run (cipher : CipherAlgo) (h : HashAlgo) (pw : List Nat)
    (salt : Option (List Nat)) (c : Nat) (hwf : h.WF) (hopen : h.open_ok = true)
    (hd : 0 < h.dlen) (hc : 1 ≤ c) (hsalt : salt ≠ some [])
    (hutf : g_utf8_validate pw = true) :
    ∃ gk gi r,
      generate_pkcs12 h 1 pw salt c (List.replicate cipher.keylen none) cipher.keylen
        = Outcome.done gk ∧
      generate_pkcs12 h 2 pw salt c (List.replicate cipher.blklen none) cipher.blklen
        = Outcome.done gi ∧
      gkr_crypto_generate_symkey_pkcs12 cipher h (some pw) salt c true true = Outcome.done r ∧
      r.ret = true ∧ r.key = OutPtr.buf gk.output ∧
      r.iv = (if cipher.blklen > 1 then OutPtr.buf gi.output else OutPtr.null) := by
  obtain ⟨gk, _, _, hgk, hkret, _, _, _⟩ := generate_pkcs12_first h 1 pw salt c cipher.keylen
    (List.replicate cipher.keylen none) hwf hopen hd hc (by decide) hsalt (by simp)
  obtain ⟨gi, _, _, hgi, hiret, _, _, _⟩ := generate_pkcs12_first h 2 pw salt c cipher.blklen
    (List.replicate cipher.blklen none) hwf hopen hd hc (by decide) hsalt (by simp)
  have hci : ((c : Int) > 0) := by exact_mod_cast hc
  by_cases hb : cipher.blklen > 1
  · refine ⟨gk, gi, Derived.mk true (OutPtr.buf gk.output) (OutPtr.buf gi.output)
      ((Event.secure_alloc cipher.keylen :: gk.log) ++ Event.g_alloc cipher.blklen :: gi.log),
      hgk, hgi, ?_, rfl, rfl, by simp [hb]⟩
    simp [gkr_crypto_generate_symkey_pkcs12, hci, hutf, gkr_secure_alloc, hgk, hgi, hkret,
      hiret, hb]
  · refine ⟨gk, gi, Derived.mk true (OutPtr.buf gk.output) OutPtr.null
      (Event.secure_alloc cipher.keylen :: gk.log), hgk, hgi, ?_, rfl, rfl, by simp [hb]⟩
    simp [gkr_crypto_generate_symkey_pkcs12, hci, hutf, gkr_secure_alloc, hgk, hkret, hb]

/-- C2. For a valid request (`c ≥ 1` iterations, digest length above zero, hash context
available, salt absent or not empty) `generate_pkcs12` with diversifier byte `t` returns
TRUE and the first `min (n_output, digest_length)` cells of `output` hold the prefix of
`H^c (t repeated 64 times || salt block || password block)`, the password block being
absent for the empty password; for a valid UTF-8 password
`gkr_crypto_generate_symkey_pkcs12` returns as key the output of `generate_pkcs12` with
`t = 1` and `n_output` the key length, and as IV (block length above one) that of
`generate_pkcs12` with `t = 2` and `n_output` the block length. -/
theorem pkcs12_first_digest (cipher : CipherAlgo) (h : HashAlgo) (t : Nat) (pw : List Nat)
    (salt : Option (List Nat)) (c n : Nat) (out : List (Option Nat)) (hwf : h.WF)
    (hopen : h.open_ok = true) (hd : 0 < h.dlen) (hc : 1 ≤ c) (ht : t < 256)
    (hsalt : salt ≠ some []) (hn : n ≤ out.length) (hutf : g_utf8_validate pw = true) :
    (∃ g sb, pkcs12_salt_block salt = some sb ∧ sb.length = 64 ∧
      (pkcs12_password_block pw).2.length = 64 ∧
      ((pkcs12_password_block pw).1 = false ↔ c_str pw = []) ∧
      generate_pkcs12 h t pw salt c out n = Outcome.done g ∧ g.ret = true ∧
      g.output.take (min n h.dlen) =
        ((h.hash^[c] (List.replicate 64 t ++ sb ++
          (if (pkcs12_password_block pw).1 then (pkcs12_password_block pw).2 else []))).take
            (min n h.dlen)).map some) ∧
    (∃ gk gi r,
      generate_pkcs12 h 1 pw salt c (List.replicate cipher.keylen none) cipher.keylen
        = Outcome.done gk ∧
      generate_pkcs12 h 2 pw salt c (List.replicate cipher.blklen none) cipher.blklen
        = Outcome.done gi ∧
      gkr_crypto_generate_symkey_pkcs12 cipher h (some pw) salt c true true = Outcome.done r ∧
      r.ret = true ∧ r.key = OutPtr.buf gk.output ∧
      r.iv = (if cipher.blklen > 1 then OutPtr.buf gi.output else OutPtr.null)) := by
  obtain ⟨g, sb, hsb, hg, hret, _, _, hfirst⟩ :=
    generate_pkcs12_first h t pw salt c n out hwf hopen hd hc ht hsalt hn
  refine ⟨⟨g, sb, hsb, pkcs12_salt_block_length salt sb hsb, pkcs12_password_block_length pw,
    ?_, hg, hret, hfirst⟩, pkcs12_wrapper_run cipher h pw salt c hwf hopen hd hc hsalt hutf⟩
  cases pw with
  | nil => simp [pkcs12_password_block, c_str]
  | cons a pw =>
    by_cases ha : a = 0
    · simp [pkcs12_password_block, c_str, ha]
    · simp [pkcs12_password_block, c_str, ha]

theorem pkcs12_first_digest_witness :
    (∃ g sb, pkcs12_salt_block (some [1, 2, 3]) = some sb ∧ sb.length = 64 ∧
      (pkcs12_password_block [116, 195, 169]).2.length = 64 ∧
      ((pkcs12_password_block [116, 195, 169]).1 = false ↔ c_str [116, 195, 169] = []) ∧
      generate_pkcs12 toyHash 1 [116, 195, 169] (some [1, 2, 3]) 3 (List.replicate 6 none) 6
        = Outcome.done g ∧ g.ret = true ∧
      g.output.take (min 6 toyHash.dlen) =
        ((toyHash.hash^[3] (List.replicate 64 1 ++ sb ++
          (if (pkcs12_password_block [116, 195, 169]).1
            then (pkcs12_password_block [116, 195, 169]).2 else []))).take
            (min 6 toyHash.dlen)).map some) ∧
    (∃ gk gi r,
      generate_pkcs12 toyHash 1 [116, 195, 169] (some [1, 2, 3]) 3
        (List.replicate (CipherAlgo.mk 6 8).keylen none) (CipherAlgo.mk 6 8).keylen
        = Outcome.done gk ∧
      generate_pkcs12 toyHash 2 [116, 195, 169] (some [1, 2, 3]) 3
        (List.replicate (CipherAlgo.mk 6 8).blklen none) (CipherAlgo.mk 6 8).blklen
        = Outcome.done gi ∧
      gkr_crypto_generate_symkey_pkcs12 (CipherAlgo.mk 6 8) toyHash (some [116, 195, 169])
        (some [1, 2, 3]) (3 : Nat) true true = Outcome.done r ∧
      r.ret = true ∧ r.key = OutPtr.buf gk.output ∧
      r.iv = (if (CipherAlgo.mk 6 8).blklen > 1 then OutPtr.buf gi.output else OutPtr.null)) :=
  pkcs12_first_digest (CipherAlgo.mk 6 8) toyHash 1 [116, 195, 169] (some [1, 2, 3]) 3 6
    (List.replicate 6 none) toyHash_WF rfl (by decide) (by decide) (by decide) (by decide)
    (by decide) (by decide)

/-! ## Theorems: the PKCS#12 addition step on a concrete digest -/

set_option maxRecDepth 100000 in
set_option exponentiation.threshold 600 in
/-- C3 (code at the failing input). With no salt and an empty password both segments of the
buffer are zero; after the digest `00 01 02 .. 13` (hexadecimal, 20 bytes) the sum
`I + B + 1` has a zero most significant byte. `gcry_mpi_print` then stores only the 63
significant bytes, at the start of the segment, and the last byte keeps its old value: the
segment is the prescribed 64 byte encoding shifted by one byte, not that encoding. -/
theorem pkcs12_bash_loses_leading_zero :
    (pkcs12_bash [0, 1, 2, 3, 4, 5, 6, 7, 8, 9, 10, 11, 12, 13, 14, 15, 16, 17, 18, 19] 20
        (List.replicate 128 0)).map (fun b => b.take 64) =
      some [1, 2, 3, 4, 5, 6, 7, 8, 9, 10, 11, 12, 13, 14, 15, 16, 17, 18, 19,
        0, 1, 2, 3, 4, 5, 6, 7, 8, 9, 10, 11, 12, 13, 14, 15, 16, 17, 18, 19,
        0, 1, 2, 3, 4, 5, 6, 7, 8, 9, 10, 11, 12, 13, 14, 15, 16, 17, 18, 19,
        0, 1, 2, 4, 0] ∧
    pkcs12_next_segment (List.replicate 64 0)
        [0, 1, 2, 3, 4, 5, 6, 7, 8, 9, 10, 11, 12, 13, 14, 15, 16, 17, 18, 19] =
      [0, 1, 2, 3, 4, 5, 6, 7, 8, 9, 10, 11, 12, 13, 14, 15, 16, 17, 18, 19,
        0, 1, 2, 3, 4, 5, 6, 7, 8, 9, 10, 11, 12, 13, 14, 15, 16, 17, 18, 19,
        0, 1, 2, 3, 4, 5, 6, 7, 8, 9, 10, 11, 12, 13, 14, 15, 16, 17, 18, 19,
        0, 1, 2, 4] ∧
    (pkcs12_bash [0, 1, 2, 3, 4, 5, 6, 7, 8, 9, 10, 11, 12, 13, 14, 15, 16, 17, 18, 19] 20
        (List.replicate 128 0)).map (fun b => b.take 64) ≠
      some (pkcs12_next_segment (List.replicate 64 0)
        [0, 1, 2, 3, 4, 5, 6, 7, 8, 9, 10, 11, 12, 13, 14, 15, 16, 17, 18, 19]) := by
  unfold pkcs12_bash pkcs12_add_segment
  simp only [gcry_mpi_clear_highbit]
  decide

/-! ## Theorems: length and filling of the outputs -/

theorem filled_of_cells (p : OutPtr) (n : Nat) (bytes : List Nat) (hc : p.cells = bytes.map some)
    (hl : p.cells.length = n) : p.filled n := by
  refine ⟨hl, ?_⟩
  rw [hc]
  intro x hx
  obtain ⟨a, _, rfl⟩ := List.mem_map.mp hx
  simp

theorem int_of_pos (iterations : Int) (hi : iterations ≥ 1) :
    ∃ c : Nat, 1 ≤ c ∧ iterations = (c : Int) :=
  ⟨iterations.toNat, by omega, by omega⟩

theorem simple_filled (cipher : CipherAlgo) (h : HashAlgo) (password salt : Option (List Nat))
    (iterations : Int) (hwf : h.WF) (r : Derived)
    (hacc : gkr_crypto_generate_symkey_simple cipher h password salt iterations true true
      = Outcome.done r) (hret : r.ret = true) :
    r.key.filled cipher.keylen ∧ r.iv.filled cipher.blklen := by
  by_cases hi : iterations ≥ 1
  · by_cases hopen : h.open_ok = true
    · by_cases hd : 0 < h.dlen
      · obtain ⟨c, hc, rfl⟩ := int_of_pos iterations hi
        have hN : cipher.keylen + cipher.blklen ≤ (cipher.keylen + cipher.blklen) * h.dlen :=
          Nat.le_mul_of_pos_right _ hd
        obtain ⟨r1, hr1, _, _, hk, hv, hkl, hvl⟩ := simple_run_spec cipher h password salt c
          (cipher.keylen + cipher.blklen) hwf hopen hc hd hN
        rw [hr1] at hacc
        cases hacc
        exact ⟨filled_of_cells _ _ _ hk hkl, filled_of_cells _ _ _ hv hvl⟩
      · simp only [gkr_crypto_generate_symkey_simple, hi, hopen, hd, not_true_eq_false,
          not_false_eq_true, if_true, if_false, gt_iff_lt, Outcome.done.injEq] at hacc
        subst hacc
        simp at hret
    · have hf : h.open_ok = false := by simpa using hopen
      simp only [gkr_crypto_generate_symkey_simple, hi, hf, not_true_eq_false,
        not_false_eq_true, if_true, if_false, Bool.false_eq_true, Outcome.done.injEq] at hacc
      subst hacc
      simp at hret
  · simp only [gkr_crypto_generate_symkey_simple, hi, not_false_eq_true, if_true,
      Outcome.done.injEq] at hacc
    subst hacc
    simp at hret

theorem pbe_filled (cipher : CipherAlgo) (h : HashAlgo) (password salt : Option (List Nat))
    (iterations : Int) (hwf : h.WF) (r : Derived)
    (hacc : gkr_crypto_generate_symkey_pbe cipher h password salt iterations true true
      = Outcome.done r) (hret : r.ret = true) :
    r.key.filled cipher.keylen ∧ r.iv.filled cipher.blklen := by
  by_cases hi : iterations ≥ 1
  · obtain ⟨c, hc, rfl⟩ := int_of_pos iterations hi
    obtain ⟨hk, hv, hkl, hvl⟩ := pbe_run_spec cipher h password salt c r hwf hc hacc hret
    exact ⟨filled_of_cells _ _ _ hk hkl, filled_of_cells _ _ _ hv hvl⟩
  · simp only [gkr_crypto_generate_symkey_pbe, hi, not_false_eq_true, if_true,
      Outcome.done.injEq] at hacc
    subst hacc
    simp at hret

theorem generate_pbkdf2_ret (h : HashAlgo) (P S : List Nat) (c n : Nat)
    (out : List (Option Nat)) (hret : (generate_pbkdf2 h P S c out n).ret = true) :
    1 ≤ c ∧ 1 ≤ n ∧ n < 2 ^ 32 - 1 ∧ 0 < h.dlen ∧ h.open_ok = true := by
  have h1 : c > 0 := by
    by_contra hn
    simp [generate_pbkdf2, hn] at hret
  have h2 : n > 0 := by
    by_contra hn
    simp [generate_pbkdf2, h1, hn] at hret
  have h3 : n < 4294967295 := by
    by_contra hn
    simp [generate_pbkdf2, h1, h2, hn] at hret
  have h4 : h.dlen > 0 := by
    by_contra hn
    simp [generate_pbkdf2, h1, h2, h3, hn] at hret
  have h5 : h.open_ok = true := by
    by_contra hn
    simp [generate_pbkdf2, h1, h2, h3, h4, hn] at hret
  have h3b : n < 2 ^ 32 - 1 := by
    have : (2 : Nat) ^ 32 - 1 = 4294967295 := by norm_num
    omega
  exact ⟨h1, h2, h3b, h4, h5⟩

theorem pbkdf2_filled (cipher : CipherAlgo) (h : HashAlgo) (nonce : Nat → List Nat)
    (password salt : Option (List Nat)) (iterations : Int) (hwf : h.WF)
    (hnonce : ∀ n, (nonce n).length = n) (r : Derived)
    (hacc : gkr_crypto_generate_symkey_pbkdf2 cipher h nonce password salt iterations true true
      = Outcome.done r) (hret : r.ret = true) :
    r.key.filled cipher.keylen ∧
    (if cipher.blklen > 1 then r.iv.filled cipher.blklen else r.iv = OutPtr.null) := by
  cases password with
  | none =>
    simp only [gkr_crypto_generate_symkey_pbkdf2, Outcome.done.injEq] at hacc
    subst hacc
    simp at hret
  | some pw =>
    by_cases hi : iterations > 0
    · simp only [gkr_crypto_generate_symkey_pbkdf2, hi, not_true_eq_false, if_false, if_true,
        gkr_secure_alloc, take_length_c_str, true_and] at hacc
      by_cases hg : (generate_pbkdf2 h (c_str pw) (salt.getD []) iterations.toNat
          (List.replicate cipher.keylen none) cipher.keylen).ret = true
      · obtain ⟨hc, hn1, hn2, hd, hopen⟩ := generate_pbkdf2_ret _ _ _ _ _ _ hg
        obtain ⟨_, hout⟩ := generate_pbkdf2_output h hwf hopen (c_str pw) (salt.getD [])
          iterations.toNat cipher.keylen (List.replicate cipher.keylen none) hc hd hn1 hn2
        simp only [List.drop_replicate, Nat.sub_self, List.replicate_zero, List.append_nil] at hout
        obtain ⟨hsum, _, hr2, hL⟩ := pbkdf2_counts cipher.keylen h.dlen hn1 hd
        have hsl := pbkdf2_stream_length h hwf (c_str pw) (salt.getD []) iterations.toNat
          ((cipher.keylen + h.dlen - 1) / h.dlen)
        have hle : cipher.keylen ≤ (pbkdf2_stream h (c_str pw) (salt.getD [])
            iterations.toNat ((cipher.keylen + h.dlen - 1) / h.dlen)).length := by
          rw [hsl, ← hL]
          have : ((cipher.keylen - 1) / h.dlen + 1) * h.dlen =
              ((cipher.keylen - 1) / h.dlen + 1 - 1) * h.dlen + h.dlen := by
            simp only [Nat.add_sub_cancel]; ring
          omega
        simp only [hg, hout, not_true_eq_false, if_false, Outcome.done.injEq, and_self] at hacc
        by_cases hb : cipher.blklen > 1
        · simp only [hb, if_true] at hacc ⊢
          subst hacc
          refine ⟨filled_of_cells _ _ _ rfl (by simp [OutPtr.cells, hle]), ?_⟩
          refine filled_of_cells _ _ ((nonce cipher.blklen).take cipher.blklen) ?_ ?_
          · simp [OutPtr.cells, memcpy]
          · simp [OutPtr.cells, memcpy, hnonce]
        · simp only [hb, if_false] at hacc ⊢
          subst hacc
          exact ⟨filled_of_cells _ _ _ rfl (by simp [OutPtr.cells, hle]), rfl⟩
      · simp only [hg, Bool.false_eq_true, false_and, if_false, not_false_eq_true, if_true,
          Outcome.done.injEq] at hacc
        subst hacc
        simp at hret
    · simp only [gkr_crypto_generate_symkey_pbkdf2, hi, not_false_eq_true, if_true,
        Outcome.done.injEq] at hacc
      subst hacc
      simp at hret

theorem generate_pkcs12_cases (h : HashAlgo) (t : Nat) (pw : List Nat) (salt : Option (List Nat))
    (c n : Nat) (out : List (Option Nat)) :
    (0 < h.dlen ∧ h.open_ok = true ∧ salt ≠ some []) ∨
    generate_pkcs12 h t pw salt c out n = Outcome.done { ret := false, output := out, log := [] } ∨
    generate_pkcs12 h t pw salt c out n = Outcome.crashed := by
  by_cases hd : 0 < h.dlen
  · by_cases hopen : h.open_ok = true
    · by_cases hsalt : salt = some []
      · right; right
        subst hsalt
        simp [generate_pkcs12, hd, hopen, gkr_secure_alloc, pkcs12_salt_block]
      · exact Or.inl ⟨hd, hopen, hsalt⟩
    · right; left
      simp [generate_pkcs12, hd, hopen]
  · right; left
    simp [generate_pkcs12, hd]

theorem all_written_of_take (l : List (Option Nat)) (n : Nat) (hl : l.length = n)
    (hw : ∀ x ∈ l.take n, x ≠ none) : ∀ x ∈ l, x ≠ none := by
  rw [List.take_of_length_le (by omega)] at hw
  exact hw

theorem pkcs12_filled (cipher : CipherAlgo) (h : HashAlgo) (password salt : Option (List Nat))
    (iterations : Int) (hwf : h.WF) (r : Derived)
    (hacc : gkr_crypto_generate_symkey_pkcs12 cipher h password salt iterations true true
      = Outcome.done r) (hret : r.ret = true) :
    r.key.filled cipher.keylen ∧
    (if cipher.blklen > 1 then r.iv.filled cipher.blklen else r.iv = OutPtr.null) := by
  cases password with
  | none =>
    simp only [gkr_crypto_generate_symkey_pkcs12, Outcome.done.injEq] at hacc
    subst hacc
    simp at hret
  | some pw =>
    by_cases hi : iterations > 0
    · by_cases hutf : g_utf8_validate pw = true
      · obtain ⟨c, hc, rfl⟩ := int_of_pos iterations (by omega)
        rcases generate_pkcs12_cases h 1 pw salt c cipher.keylen
          (List.replicate cipher.keylen none) with ⟨hd, hopen, hsalt⟩ | hfail | hcrash
        · obtain ⟨gk, _, _, hgk, _, hkl, hkw, _⟩ := generate_pkcs12_first h 1 pw salt c
            cipher.keylen (List.replicate cipher.keylen none) hwf hopen hd hc (by decide) hsalt
            (by simp)
          obtain ⟨gi, _, _, hgi, _, hil, hiw, _⟩ := generate_pkcs12_first h 2 pw salt c
            cipher.blklen (List.replicate cipher.blklen none) hwf hopen hd hc (by decide) hsalt
            (by simp)
          obtain ⟨gk1, gi1, r1, hgk1, hgi1, hr1, _, hkey, hiv⟩ :=
            pkcs12_wrapper_run cipher h pw salt c hwf hopen hd hc hsalt hutf
          rw [hgk] at hgk1
          rw [hgi] at hgi1
          cases hgk1
          cases hgi1
          rw [hr1] at hacc
          cases hacc
          simp only [List.length_replicate] at hkl hil
          refine ⟨⟨by rw [hkey]; exact hkl,
            by rw [hkey]; exact all_written_of_take _ _ hkl hkw⟩, ?_⟩
          by_cases hb : cipher.blklen > 1
          · simp only [hb, if_true] at hiv ⊢
            exact ⟨by rw [hiv]; exact hil, by rw [hiv]; exact all_written_of_take _ _ hil hiw⟩
          · simp only [hb, if_false] at hiv ⊢
            exact hiv
        · have hci : ((c : Int) > 0) := hi
          simp [gkr_crypto_generate_symkey_pkcs12, hci, hutf, gkr_secure_alloc, hfail] at hacc
          subst hacc
          simp at hret
        · have hci : ((c : Int) > 0) := hi
          simp [gkr_crypto_generate_symkey_pkcs12, hci, hutf, gkr_secure_alloc, hcrash] at hacc
      · have hf : g_utf8_validate pw = false := by simpa using hutf
        simp only [gkr_crypto_generate_symkey_pkcs12, hi, hf, not_true_eq_false,
          not_false_eq_true, if_true, if_false, Bool.false_eq_true, Outcome.done.injEq] at hacc
        subst hacc
        simp at hret
    · simp only [gkr_crypto_generate_symkey_pkcs12, hi, not_false_eq_true, if_true,
        Outcome.done.injEq] at hacc
      subst hacc
      simp at hret

/-- C6 (amended). For each of the four schemes and every hash/cipher pair, when the
derivation with key and IV requested returns TRUE, the key has exactly `key_length` cells
and the IV exactly `block_length` cells, every one of them stored to by the derivation;
except that the PKCS#12 and PBKDF2 schemes return no IV (NULL) when the block length is at
most 1. -/
theorem derived_outputs_filled (cipher : CipherAlgo) (h : HashAlgo) (nonce : Nat → List Nat)
    (password salt : Option (List Nat)) (iterations : Int) (hwf : h.WF)
    (hnonce : ∀ n, (nonce n).length = n) :
    (∀ r, gkr_crypto_generate_symkey_simple cipher h password salt iterations true true
        = Outcome.done r → r.ret = true →
      r.key.filled cipher.keylen ∧ r.iv.filled cipher.blklen) ∧
    (∀ r, gkr_crypto_generate_symkey_pbe cipher h password salt iterations true true
        = Outcome.done r → r.ret = true →
      r.key.filled cipher.keylen ∧ r.iv.filled cipher.blklen) ∧
    (∀ r, gkr_crypto_generate_symkey_pkcs12 cipher h password salt iterations true true
        = Outcome.done r → r.ret = true →
      r.key.filled cipher.keylen ∧
      (if cipher.blklen > 1 then r.iv.filled cipher.blklen else r.iv = OutPtr.null)) ∧
    (∀ r, gkr_crypto_generate_symkey_pbkdf2 cipher h nonce password salt iterations true true
        = Outcome.done r → r.ret = true →
      r.key.filled cipher.keylen ∧
      (if cipher.blklen > 1 then r.iv.filled cipher.blklen else r.iv = OutPtr.null)) :=
  ⟨fun r => simple_filled cipher h password salt iterations hwf r,
   fun r => pbe_filled cipher h password salt iterations hwf r,
   fun r => pkcs12_filled cipher h password salt iterations hwf r,
   fun r => pbkdf2_filled cipher h nonce password salt iterations hwf hnonce r⟩

set_option maxRecDepth 100000 in
theorem derived_outputs_filled_witness :
    ((Outcome.result (gkr_crypto_generate_symkey_simple (CipherAlgo.mk 8 8) toyHash16
        (some [116, 101]) (some [1, 2]) 2 true true)).key.filled (CipherAlgo.mk 8 8).keylen ∧
      (Outcome.result (gkr_crypto_generate_symkey_simple (CipherAlgo.mk 8 8) toyHash16
        (some [116, 101]) (some [1, 2]) 2 true true)).iv.filled (CipherAlgo.mk 8 8).blklen) ∧
    ((Outcome.result (gkr_crypto_generate_symkey_pbe (CipherAlgo.mk 8 8) toyHash16
        (some [116, 101]) (some [1, 2]) 2 true true)).key.filled (CipherAlgo.mk 8 8).keylen ∧
      (Outcome.result (gkr_crypto_generate_symkey_pbe (CipherAlgo.mk 8 8) toyHash16
        (some [116, 101]) (some [1, 2]) 2 true true)).iv.filled (CipherAlgo.mk 8 8).blklen) ∧
    ((Outcome.result (gkr_crypto_generate_symkey_pkcs12 (CipherAlgo.mk 8 8) toyHash16
        (some [116, 101]) (some [1, 2]) 2 true true)).key.filled (CipherAlgo.mk 8 8).keylen ∧
      (if (CipherAlgo.mk 8 8).blklen > 1 then
        (Outcome.result (gkr_crypto_generate_symkey_pkcs12 (CipherAlgo.mk 8 8) toyHash16
          (some [116, 101]) (some [1, 2]) 2 true true)).iv.filled (CipherAlgo.mk 8 8).blklen
      else (Outcome.result (gkr_crypto_generate_symkey_pkcs12 (CipherAlgo.mk 8 8) toyHash16
          (some [116, 101]) (some [1, 2]) 2 true true)).iv = OutPtr.null)) ∧
    ((Outcome.result (gkr_crypto_generate_symkey_pbkdf2 (CipherAlgo.mk 8 8) toyHash16
        (fun n => List.replicate n 7) (some [116, 101]) (some [1, 2]) 2 true true)).key.filled
        (CipherAlgo.mk 8 8).keylen ∧
      (if (CipherAlgo.mk 8 8).blklen > 1 then
        (Outcome.result (gkr_crypto_generate_symkey_pbkdf2 (CipherAlgo.mk 8 8) toyHash16
          (fun n => List.replicate n 7) (some [116, 101]) (some [1, 2]) 2 true true)).iv.filled
          (CipherAlgo.mk 8 8).blklen
      else (Outcome.result (gkr_crypto_generate_symkey_pbkdf2 (CipherAlgo.mk 8 8) toyHash16
          (fun n => List.replicate n 7) (some [116, 101]) (some [1, 2]) 2 true true)).iv
          = OutPtr.null)) :=
  ⟨(derived_outputs_filled (CipherAlgo.mk 8 8) toyHash16 (fun n => List.replicate n 7)
      (some [116, 101]) (some [1, 2]) 2 toyHash16_WF (fun n => List.length_replicate n 7)).1
      _ (by decide) (by decide),
   (derived_outputs_filled (CipherAlgo.mk 8 8) toyHash16 (fun n => List.replicate n 7)
      (some [116, 101]) (some [1, 2]) 2 toyHash16_WF (fun n => List.length_replicate n 7)).2.1
      _ (by decide) (by decide),
   (derived_outputs_filled (CipherAlgo.mk 8 8) toyHash16 (fun n => List.replicate n 7)
      (some [116, 101]) (some [1, 2]) 2 toyHash16_WF (fun n => List.length_replicate n 7)).2.2.1
      _ (by decide) (by decide),
   (derived_outputs_filled (CipherAlgo.mk 8 8) toyHash16 (fun n => List.replicate n 7)
      (some [116, 101]) (some [1, 2]) 2 toyHash16_WF (fun n => List.length_replicate n 7)).2.2.2
      _ (by decide) (by decide)⟩

set_option maxRecDepth 100000 in
/-- C6 (counterexample). With a cipher of block length 1 the PKCS#12 and the PBKDF2
derivation, key and IV requested, return TRUE and no IV: the IV pointer is NULL and leads
to no cell, not to `block_length = 1` cells. -/
theorem pkcs12_pbkdf2_no_iv_for_block_length_one :
    (Outcome.result (gkr_crypto_generate_symkey_pkcs12 (CipherAlgo.mk 4 1) toyHash
      (some [116, 101]) (some [1, 2]) 2 true true)).ret = true ∧
    (Outcome.result (gkr_crypto_generate_symkey_pkcs12 (CipherAlgo.mk 4 1) toyHash
      (some [116, 101]) (some [1, 2]) 2 true true)).iv = OutPtr.null ∧
    (Outcome.result (gkr_crypto_generate_symkey_pkcs12 (CipherAlgo.mk 4 1) toyHash
      (some [116, 101]) (some [1, 2]) 2 true true)).iv.cells.length ≠ (CipherAlgo.mk 4 1).blklen ∧
    (Outcome.result (gkr_crypto_generate_symkey_pbkdf2 (CipherAlgo.mk 4 1) toyHash
      (fun n => List.replicate n 7) (some [116, 101]) (some [1, 2]) 2 true true)).ret = true ∧
    (Outcome.result (gkr_crypto_generate_symkey_pbkdf2 (CipherAlgo.mk 4 1) toyHash
      (fun n => List.replicate n 7) (some [116, 101]) (some [1, 2]) 2 true true)).iv
      = OutPtr.null ∧
    (Outcome.result (gkr_crypto_generate_symkey_pbkdf2 (CipherAlgo.mk 4 1) toyHash
      (fun n => List.replicate n 7) (some [116, 101]) (some [1, 2]) 2 true true)).iv.cells.length
      ≠ (CipherAlgo.mk 4 1).blklen := by
  decide

/-! ## Theorems: the assertions of the PBE scheme -/

/-- C11. Whenever the digest has fewer than 16 bytes, a request that passes the length
test of `gkr_crypto_generate_symkey_pbe` (`iterations ≥ 1`, digest length above 0,
`key_length + iv_length ≤ 16` and `≤ digest_length`, hash context available) with key and IV
requested stops in `g_assert (needed_iv <= n_digest && n_digest >= 16)`: the call does not
return. -/
theorem pbe_short_digest_assertion_fails (cipher : CipherAlgo) (h : HashAlgo)
    (password salt : Option (List Nat)) (iterations : Int) (hi : iterations ≥ 1)
    (hopen : h.open_ok = true) (hd : 0 < h.dlen) (h16 : h.dlen < 16)
    (hsum16 : cipher.keylen + cipher.blklen ≤ 16)
    (hsum : cipher.keylen + cipher.blklen ≤ h.dlen) :
    gkr_crypto_generate_symkey_pbe cipher h password salt iterations true true
      = Outcome.crashed := by
  have h1 : ¬ (cipher.blklen + cipher.keylen > 16 ∨ cipher.blklen + cipher.keylen > h.dlen) := by
    omega
  have h2 : cipher.keylen ≤ h.dlen := by omega
  have h3 : ¬ (cipher.blklen ≤ h.dlen ∧ h.dlen ≥ 16) := by omega
  simp [gkr_crypto_generate_symkey_pbe, hi, hopen, hd, h1, h2, h3, gkr_secure_alloc]

theorem pbe_short_digest_assertion_fails_witness :
    gkr_crypto_generate_symkey_pbe (CipherAlgo.mk 0 0) toyHash (some [116, 101]) (some [1, 2])
      1 true true = Outcome.crashed :=
  pbe_short_digest_assertion_fails (CipherAlgo.mk 0 0) toyHash (some [116, 101]) (some [1, 2]) 1
    (by decide) rfl (by decide) (by decide) (by decide) (by decide)

/-! ## Theorems: the salt block of the PKCS#12 scheme -/

/-- C12. With a salt that is present but has no bytes (`salt` not NULL, `n_salt = 0`),
`Bring in the salt` evaluates `i % n_salt` with `n_salt = 0`: for every valid password,
`iterations > 0` and a usable hash, `gkr_crypto_generate_symkey_pkcs12` with the key
requested does not return. -/
theorem pkcs12_empty_salt_divides_by_zero (cipher : CipherAlgo) (h : HashAlgo) (pw : List Nat)
    (iterations : Int) (want_iv : Bool) (hi : iterations > 0)
    (hutf : g_utf8_validate pw = true) (hopen : h.open_ok = true) (hd : 0 < h.dlen) :
    pkcs12_salt_block (some []) = none ∧
    gkr_crypto_generate_symkey_pkcs12 cipher h (some pw) (some []) iterations true want_iv
      = Outcome.crashed := by
  have hg : ∀ t c n out, generate_pkcs12 h t pw (some []) c out n = Outcome.crashed := by
    intro t c n out
    simp [generate_pkcs12, hd, hopen, gkr_secure_alloc, pkcs12_salt_block]
  refine ⟨rfl, ?_⟩
  simp [gkr_crypto_generate_symkey_pkcs12, hi, hutf, gkr_secure_alloc, hg]

theorem pkcs12_empty_salt_divides_by_zero_witness :
    pkcs12_salt_block (some []) = none ∧
    gkr_crypto_generate_symkey_pkcs12 (CipherAlgo.mk 4 4) toyHash (some [97]) (some []) 1
      true true = Outcome.crashed :=
  pkcs12_empty_salt_divides_by_zero (CipherAlgo.mk 4 4) toyHash [97] 1 true (by decide)
    (by decide) rfl (by decide)

/-! ## Theorems: the simple scheme with one iteration and no salt -/

theorem simple_stream_one (h : HashAlgo) (pw : List Nat) :
    simple_stream h pw [] 1 1 = h.hash pw := by
  have h1 : List.range 1 = [0] := rfl
  simp [simple_stream, simple_D, h1, List.flatMap]

theorem simple_one_run_spec (cipher : CipherAlgo) (h : HashAlgo)
    (password salt : Option (List Nat)) (pw beyond : List Nat) (hwf : h.WF)
    (hopen : h.open_ok = true) (hd : 0 < h.dlen) (hsalt : salt = none ∨ salt = some [])
    (hlen : cipher.keylen + cipher.blklen ≤ h.dlen)
    (hpw : ∀ b ∈ pw, b ≠ 0)
    (hpassword : password = some (pw ++ 0 :: beyond) ∨ (password = none ∧ pw = [])) :
    ∃ r, gkr_crypto_generate_symkey_simple cipher h password salt 1 true true = Outcome.done r ∧
      r.ret = true ∧
      r.key.cells = ((h.hash pw).take cipher.keylen).map some ∧
      r.iv.cells = (((h.hash pw).drop cipher.keylen).take cipher.blklen).map some ∧
      r.key.cells.length = cipher.keylen ∧ r.iv.cells.length = cipher.blklen := by
  have hs : salt_bytes salt = [] := by
    rcases hsalt with rfl | rfl <;> simp [salt_bytes]
  have hp := password_bytes_of password pw beyond hpw hpassword
  obtain ⟨r, hr, hret, _, hk, hi, hkl, hil⟩ :=
    simple_run_spec cipher h password salt 1 1 hwf hopen (le_refl 1) hd (by omega)
  rw [hs, hp, simple_stream_one] at hk hi
  exact ⟨r, hr, hret, hk, hi, hkl, hil⟩

/-- C14. With `iterations = 1`, no salt bytes (`salt` NULL or `n_salt = 0`), a digest length
above zero and `key_length + iv_length ≤ digest_length`, where the password is the string of
the characters `pw` (they are followed by the terminating zero byte; a NULL password has no
characters), `gkr_crypto_generate_symkey_simple` with key and IV requested returns TRUE, the
key is bytes `[0, key_length)` of `hash (pw)` and the IV is bytes
`[key_length, key_length + iv_length)` of it. -/
theorem simple_one_iteration_no_salt (cipher : CipherAlgo) (h : HashAlgo)
    (password salt : Option (List Nat)) (pw beyond : List Nat) (hwf : h.WF)
    (hopen : h.open_ok = true) (hd : 0 < h.dlen) (hsalt : salt = none ∨ salt = some [])
    (hlen : cipher.keylen + cipher.blklen ≤ h.dlen)
    (hpw : ∀ b ∈ pw, b ≠ 0)
    (hpassword : password = some (pw ++ 0 :: beyond) ∨ (password = none ∧ pw = [])) :
    ∃ r, gkr_crypto_generate_symkey_simple cipher h password salt 1 true true = Outcome.done r ∧
      r.ret = true ∧
      r.key.cells = ((h.hash pw).take cipher.keylen).map some ∧
      r.iv.cells = (((h.hash pw).drop cipher.keylen).take cipher.blklen).map some ∧
      r.key.cells.length = cipher.keylen ∧ r.iv.cells.length = cipher.blklen :=
  simple_one_run_spec cipher h password salt pw beyond hwf hopen hd hsalt hlen hpw hpassword

theorem simple_one_iteration_no_salt_witness :
    (∃ r, gkr_crypto_generate_symkey_simple (CipherAlgo.mk 2 1) toyHash
        (some [116, 101, 115, 116, 0]) (some []) 1 true true = Outcome.done r ∧
      r.ret = true ∧
      r.key.cells = ((toyHash.hash [116, 101, 115, 116]).take
        (CipherAlgo.mk 2 1).keylen).map some ∧
      r.iv.cells = (((toyHash.hash [116, 101, 115, 116]).drop
        (CipherAlgo.mk 2 1).keylen).take (CipherAlgo.mk 2 1).blklen).map some ∧
      r.key.cells.length = (CipherAlgo.mk 2 1).keylen ∧
      r.iv.cells.length = (CipherAlgo.mk 2 1).blklen) ∧
    toyHash.hash [116, 101, 115, 116] = [185, 245, 108, 201] ∧
    (Outcome.result (gkr_crypto_generate_symkey_simple (CipherAlgo.mk 2 1) toyHash
      (some [116, 101, 115, 116, 0]) (some []) 1 true true)).key
      = OutPtr.buf [some 185, some 245] ∧
    (Outcome.result (gkr_crypto_generate_symkey_simple (CipherAlgo.mk 2 1) toyHash
      (some [116, 101, 115, 116, 0]) (some []) 1 true true)).iv = OutPtr.buf [some 108] :=
  ⟨simple_one_iteration_no_salt (CipherAlgo.mk 2 1) toyHash (some [116, 101, 115, 116, 0])
    (some []) [116, 101, 115, 116] [] toyHash_WF rfl (by decide) (Or.inr rfl) (by decide)
    (by decide) (Or.inl rfl),
   by decide, by decide, by decide⟩

/-! ## Theorems: the IV for a block length of at most one -/

theorem pkcs12_iv_short_block (cipher : CipherAlgo) (h : HashAlgo)
    (password salt : Option (List Nat)) (iterations : Int) (want_key : Bool) (r : Derived)
    (hb : cipher.blklen ≤ 1)
    (hacc : gkr_crypto_generate_symkey_pkcs12 cipher h password salt iterations want_key true
      = Outcome.done r) (hret : r.ret = true) : r.iv = OutPtr.null := by
  have hnb : ¬ cipher.blklen > 1 := by omega
  cases password with
  | none =>
    simp only [gkr_crypto_generate_symkey_pkcs12, Outcome.done.injEq] at hacc
    subst hacc
    simp at hret
  | some pw =>
    by_cases h1 : iterations > 0
    · by_cases h2 : g_utf8_validate pw = true
      · cases want_key with
        | false =>
          simp [gkr_crypto_generate_symkey_pkcs12, h1, h2, hnb] at hacc
          subst hacc
          rfl
        | true =>
          cases hg : generate_pkcs12 h 1 pw salt iterations.toNat
              (List.replicate cipher.keylen none) cipher.keylen with
          | crashed => simp [gkr_crypto_generate_symkey_pkcs12, h1, h2, gkr_secure_alloc, hg] at hacc
          | out_of_fuel =>
            simp [gkr_crypto_generate_symkey_pkcs12, h1, h2, gkr_secure_alloc, hg] at hacc
          | done g =>
            by_cases hgr : g.ret = true
            · simp [gkr_crypto_generate_symkey_pkcs12, h1, h2, gkr_secure_alloc, hg, hgr, hnb]
                at hacc
              subst hacc
              rfl
            · simp [gkr_crypto_generate_symkey_pkcs12, h1, h2, gkr_secure_alloc, hg, hgr, hnb]
                at hacc
              subst hacc
              simp [hgr] at hret
      · simp [gkr_crypto_generate_symkey_pkcs12, h1, h2] at hacc
        subst hacc
        simp at hret
    · simp [gkr_crypto_generate_symkey_pkcs12, h1] at hacc
      subst hacc
      simp at hret

theorem pbkdf2_iv_short_block (cipher : CipherAlgo) (h : HashAlgo) (nonce : Nat → List Nat)
    (password salt : Option (List Nat)) (iterations : Int) (want_key : Bool) (r : Derived)
    (hb : cipher.blklen ≤ 1)
    (hacc : gkr_crypto_generate_symkey_pbkdf2 cipher h nonce password salt iterations want_key
      true = Outcome.done r) (hret : r.ret = true) : r.iv = OutPtr.null := by
  have hnb : ¬ cipher.blklen > 1 := by omega
  cases password with
  | none =>
    simp only [gkr_crypto_generate_symkey_pbkdf2, Outcome.done.injEq] at hacc
    subst hacc
    simp at hret
  | some pw =>
    by_cases h1 : iterations > 0
    · cases want_key with
      | false =>
        simp [gkr_crypto_generate_symkey_pbkdf2, h1, hnb] at hacc
        subst hacc
        rfl
      | true =>
        by_cases hgr : (generate_pbkdf2 h (pw.take (c_str pw).length) (salt.getD [])
            iterations.toNat (List.replicate cipher.keylen none) cipher.keylen).ret = true
        · simp [gkr_crypto_generate_symkey_pbkdf2, h1, gkr_secure_alloc, hgr, hnb] at hacc
          subst hacc
          rfl
        · simp [gkr_crypto_generate_symkey_pbkdf2, h1, gkr_secure_alloc, hgr, hnb] at hacc
          subst hacc
          simp [hgr] at hret
    · simp [gkr_crypto_generate_symkey_pbkdf2, h1] at hacc
      subst hacc
      simp at hret

theorem withCells_null (c : Option OutCur) : OutPtr.null.withCells c = OutPtr.null := by
  cases c <;> rfl

theorem withCells_untouched (c : Option OutCur) :
    OutPtr.untouched.withCells c = OutPtr.untouched := by
  cases c <;> rfl

theorem simple_iv_no_block (cipher : CipherAlgo) (h : HashAlgo)
    (password salt : Option (List Nat)) (iterations : Int) (want_key : Bool) (r : Derived)
    (hb : cipher.blklen = 0)
    (hacc : gkr_crypto_generate_symkey_simple cipher h password salt iterations want_key true
      = Outcome.done r) (hret : r.ret = true) : r.iv = OutPtr.null := by
  by_cases h1 : iterations ≥ 1
  · by_cases h2 : h.open_ok = true
    · by_cases h3 : h.dlen > 0
      · cases want_key <;>
        · simp only [gkr_crypto_generate_symkey_simple, h1, h2, h3, gkr_secure_alloc, hb, g_malloc,
            not_true_eq_false, if_false, if_true, Option.map_some', Bool.false_eq_true] at hacc
          split at hacc
          · simp at hacc
          · simp only [Outcome.done.injEq] at hacc
            subst hacc
            simp only [withCells_null]
      · simp [gkr_crypto_generate_symkey_simple, h1, h2, h3] at hacc
        subst hacc
        simp at hret
    · simp [gkr_crypto_generate_symkey_simple, h1, h2] at hacc
      subst hacc
      simp at hret
  · simp [gkr_crypto_generate_symkey_simple, h1] at hacc
    subst hacc
    simp at hret

theorem pbe_iv_no_block (cipher : CipherAlgo) (h : HashAlgo)
    (password salt : Option (List Nat)) (iterations : Int) (want_key : Bool) (r : Derived)
    (hb : cipher.blklen = 0)
    (hacc : gkr_crypto_generate_symkey_pbe cipher h password salt iterations want_key true
      = Outcome.done r) (hret : r.ret = true) : r.iv = OutPtr.null := by
  unfold gkr_crypto_generate_symkey_pbe at hacc
  simp only [gkr_secure_alloc, hb, g_malloc, if_true, Option.map_some'] at hacc
  split_ifs at hacc
  all_goals first
    | (simp only [Outcome.done.injEq] at hacc; subst hacc; simp at hret; done)
    | (simp only [Outcome.done.injEq] at hacc; subst hacc; rfl)

/-- C15 (amended). When an IV is requested and the derivation returns TRUE, the PKCS#12 and
the PBKDF2 scheme return no IV (NULL) for a block length of at most 1; the simple and the PBE
scheme return no IV (NULL) for a block length of 0. -/
theorem no_iv_for_short_block (cipher : CipherAlgo) (h : HashAlgo) (nonce : Nat → List Nat)
    (password salt : Option (List Nat)) (iterations : Int) (want_key : Bool) :
    (cipher.blklen ≤ 1 → ∀ r, gkr_crypto_generate_symkey_pkcs12 cipher h password salt
        iterations want_key true = Outcome.done r → r.ret = true → r.iv = OutPtr.null) ∧
    (cipher.blklen ≤ 1 → ∀ r, gkr_crypto_generate_symkey_pbkdf2 cipher h nonce password salt
        iterations want_key true = Outcome.done r → r.ret = true → r.iv = OutPtr.null) ∧
    (cipher.blklen = 0 → ∀ r, gkr_crypto_generate_symkey_simple cipher h password salt
        iterations want_key true = Outcome.done r → r.ret = true → r.iv = OutPtr.null) ∧
    (cipher.blklen = 0 → ∀ r, gkr_crypto_generate_symkey_pbe cipher h password salt
        iterations want_key true = Outcome.done r → r.ret = true → r.iv = OutPtr.null) :=
  ⟨fun hb r => pkcs12_iv_short_block cipher h password salt iterations want_key r hb,
   fun hb r => pbkdf2_iv_short_block cipher h nonce password salt iterations want_key r hb,
   fun hb r => simple_iv_no_block cipher h password salt iterations want_key r hb,
   fun hb r => pbe_iv_no_block cipher h password salt iterations want_key r hb⟩

set_option maxRecDepth 100000 in
theorem no_iv_for_short_block_witness :
    (Outcome.result (gkr_crypto_generate_symkey_pkcs12 (CipherAlgo.mk 4 1) toyHash
      (some [116, 101]) (some [1, 2]) 2 false true)).iv = OutPtr.null ∧
    (Outcome.result (gkr_crypto_generate_symkey_pbkdf2 (CipherAlgo.mk 4 1) toyHash
      (fun n => List.replicate n 7) (some [116, 101]) (some [1, 2]) 2 false true)).iv
      = OutPtr.null ∧
    (Outcome.result (gkr_crypto_generate_symkey_simple (CipherAlgo.mk 4 0) toyHash
      (some [116, 101]) (some [1, 2]) 2 true true)).iv = OutPtr.null ∧
    (Outcome.result (gkr_crypto_generate_symkey_pbe (CipherAlgo.mk 4 0) toyHash16
      (some [116, 101]) (some [1, 2]) 2 true true)).iv = OutPtr.null :=
  ⟨(no_iv_for_short_block (CipherAlgo.mk 4 1) toyHash (fun n => List.replicate n 7)
      (some [116, 101]) (some [1, 2]) 2 false).1 (by decide) _ (by decide) (by decide),
   (no_iv_for_short_block (CipherAlgo.mk 4 1) toyHash (fun n => List.replicate n 7)
      (some [116, 101]) (some [1, 2]) 2 false).2.1 (by decide) _ (by decide) (by decide),
   (no_iv_for_short_block (CipherAlgo.mk 4 0) toyHash (fun n => List.replicate n 7)
      (some [116, 101]) (some [1, 2]) 2 true).2.2.1 (by decide) _ (by decide) (by decide),
   (no_iv_for_short_block (CipherAlgo.mk 4 0) toyHash16 (fun n => List.replicate n 7)
      (some [116, 101]) (some [1, 2]) 2 true).2.2.2 (by decide) _ (by decide) (by decide)⟩

set_option maxRecDepth 100000 in
/-- C15 (counterexample). With a cipher of block length 1 the simple and the PBE
derivation, IV requested, return TRUE and an IV: `*iv` points to a buffer of one byte. -/
theorem simple_pbe_iv_for_block_length_one :
    (Outcome.result (gkr_crypto_generate_symkey_simple (CipherAlgo.mk 2 1) toyHash
      (some [116, 101]) (some [1, 2]) 2 true true)).ret = true ∧
    (Outcome.result (gkr_crypto_generate_symkey_simple (CipherAlgo.mk 2 1) toyHash
      (some [116, 101]) (some [1, 2]) 2 true true)).iv ≠ OutPtr.null ∧
    (Outcome.result (gkr_crypto_generate_symkey_simple (CipherAlgo.mk 2 1) toyHash
      (some [116, 101]) (some [1, 2]) 2 true true)).iv.cells.length = 1 ∧
    (Outcome.result (gkr_crypto_generate_symkey_pbe (CipherAlgo.mk 2 1) toyHash16
      (some [116, 101]) (some [1, 2]) 2 true true)).ret = true ∧
    (Outcome.result (gkr_crypto_generate_symkey_pbe (CipherAlgo.mk 2 1) toyHash16
      (some [116, 101]) (some [1, 2]) 2 true true)).iv ≠ OutPtr.null ∧
    (Outcome.result (gkr_crypto_generate_symkey_pbe (CipherAlgo.mk 2 1) toyHash16
      (some [116, 101]) (some [1, 2]) 2 true true)).iv.cells.length = 1 := by
  decide

/-! ## Theorems: requests that are turned down -/

theorem generate_pkcs12_no_digest (h : HashAlgo) (t : Nat) (pw : List Nat)
    (salt : Option (List Nat)) (c n : Nat) (out : List (Option Nat)) (hd : h.dlen = 0) :
    generate_pkcs12 h t pw salt c out n
      = Outcome.done { ret := false, output := out, log := [] } := by
  simp [generate_pkcs12, hd]

theorem generate_pbkdf2_no_digest (h : HashAlgo) (P S : List Nat) (c n : Nat)
    (out : List (Option Nat)) (hd : h.dlen = 0) :
    (generate_pbkdf2 h P S c out n).ret = false ∧ (generate_pbkdf2 h P S c out n).log = [] := by
  unfold generate_pbkdf2
  split_ifs <;> simp_all

theorem few_iterations_untouched (cipher : CipherAlgo) (h : HashAlgo) (nonce : Nat → List Nat)
    (password salt : Option (List Nat)) (iterations : Int) (want_key want_iv : Bool)
    (hi : iterations < 1) :
    gkr_crypto_generate_symkey_simple cipher h password salt iterations want_key want_iv =
      Outcome.done { ret := false, key := OutPtr.untouched, iv := OutPtr.untouched, log := [] } ∧
    gkr_crypto_generate_symkey_pbe cipher h password salt iterations want_key want_iv =
      Outcome.done { ret := false, key := OutPtr.untouched, iv := OutPtr.untouched, log := [] } ∧
    gkr_crypto_generate_symkey_pkcs12 cipher h password salt iterations want_key want_iv =
      Outcome.done { ret := false, key := OutPtr.untouched, iv := OutPtr.untouched, log := [] } ∧
    gkr_crypto_generate_symkey_pbkdf2 cipher h nonce password salt iterations want_key want_iv =
      Outcome.done { ret := false, key := OutPtr.untouched, iv := OutPtr.untouched, log := [] } := by
  have h1 : ¬ iterations ≥ 1 := by omega
  have h2 : ¬ iterations > 0 := by omega
  refine ⟨?_, ?_, ?_, ?_⟩
  · simp [gkr_crypto_generate_symkey_simple, h1]
  · simp [gkr_crypto_generate_symkey_pbe, h1]
  · cases password <;> simp [gkr_crypto_generate_symkey_pkcs12, h2]
  · cases password <;> simp [gkr_crypto_generate_symkey_pbkdf2, h2]

theorem simple_no_digest (cipher : CipherAlgo) (h : HashAlgo)
    (password salt : Option (List Nat)) (iterations : Int) (want_key want_iv : Bool)
    (hd : h.dlen = 0) :
    ∃ r, gkr_crypto_generate_symkey_simple cipher h password salt iterations want_key want_iv
      = Outcome.done r ∧ r.ret = false ∧ Event.hash ∉ r.log := by
  unfold gkr_crypto_generate_symkey_simple
  simp only [hd, gt_iff_lt, lt_self_iff_false, not_false_eq_true, if_true]
  split_ifs <;> exact ⟨_, rfl, rfl, by simp⟩

theorem pbe_no_digest (cipher : CipherAlgo) (h : HashAlgo)
    (password salt : Option (List Nat)) (iterations : Int) (want_key want_iv : Bool)
    (hd : h.dlen = 0) :
    ∃ r, gkr_crypto_generate_symkey_pbe cipher h password salt iterations want_key want_iv
      = Outcome.done r ∧ r.ret = false ∧ Event.hash ∉ r.log := by
  unfold gkr_crypto_generate_symkey_pbe
  simp only [hd, gt_iff_lt, lt_self_iff_false, not_false_eq_true, if_true]
  split_ifs <;> exact ⟨_, rfl, rfl, by simp⟩

theorem pkcs12_no_digest (cipher : CipherAlgo) (h : HashAlgo)
    (password salt : Option (List Nat)) (iterations : Int) (want_key want_iv : Bool)
    (hd : h.dlen = 0) :
    ∃ r, gkr_crypto_generate_symkey_pkcs12 cipher h password salt iterations want_key want_iv
      = Outcome.done r ∧ Event.hash ∉ r.log ∧
      (want_key = true ∨ (want_iv = true ∧ cipher.blklen > 1) → r.ret = false) := by
  cases password with
  | none => exact ⟨_, rfl, by simp, fun _ => rfl⟩
  | some pw =>
    by_cases h1 : iterations > 0
    · by_cases h2 : g_utf8_validate pw = true
      · cases want_key <;> cases want_iv <;> by_cases hb : cipher.blklen > 1 <;>
          simp [gkr_crypto_generate_symkey_pkcs12, h1, h2, hb, gkr_secure_alloc,
            generate_pkcs12_no_digest _ _ _ _ _ _ _ hd, OutPtr.g_free]
      · simp [gkr_crypto_generate_symkey_pkcs12, h1, h2]
    · simp [gkr_crypto_generate_symkey_pkcs12, h1]

theorem pbkdf2_no_digest (cipher : CipherAlgo) (h : HashAlgo) (nonce : Nat → List Nat)
    (password salt : Option (List Nat)) (iterations : Int) (want_key want_iv : Bool)
    (hd : h.dlen = 0) :
    ∃ r, gkr_crypto_generate_symkey_pbkdf2 cipher h nonce password salt iterations want_key
      want_iv = Outcome.done r ∧ Event.hash ∉ r.log ∧ (want_key = true → r.ret = false) := by
  cases password with
  | none => exact ⟨_, rfl, by simp, fun _ => rfl⟩
  | some pw =>
    by_cases h1 : iterations > 0
    · obtain ⟨hg1, hg2⟩ := generate_pbkdf2_no_digest h (pw.take (c_str pw).length)
        (salt.getD []) iterations.toNat cipher.keylen (List.replicate cipher.keylen none) hd
      cases want_key <;> cases want_iv <;> by_cases hb : cipher.blklen > 1 <;>
        simp [gkr_crypto_generate_symkey_pbkdf2, h1, hb, gkr_secure_alloc, hg1, hg2,
          OutPtr.g_free]
    · simp [gkr_crypto_generate_symkey_pbkdf2, h1]

/-- C16 (amended). In each of the four schemes a request with `iterations < 1` returns
FALSE with nothing done (no hash computed, nothing allocated, `*key` and `*iv` not stored
to).  A request with a hash of digest length 0 computes no hash either; it returns FALSE in
the simple and the PBE scheme, in the PKCS#12 scheme when the key is requested or an IV is
requested for a block length above 1, and in the PBKDF2 scheme when the key is requested. -/
theorem bad_request_computes_no_hash (cipher : CipherAlgo) (h : HashAlgo)
    (nonce : Nat → List Nat) (password salt : Option (List Nat)) (iterations : Int)
    (want_key want_iv : Bool) :
    (iterations < 1 →
      gkr_crypto_generate_symkey_simple cipher h password salt iterations want_key want_iv =
        Outcome.done { ret := false, key := OutPtr.untouched, iv := OutPtr.untouched, log := [] } ∧
      gkr_crypto_generate_symkey_pbe cipher h password salt iterations want_key want_iv =
        Outcome.done { ret := false, key := OutPtr.untouched, iv := OutPtr.untouched, log := [] } ∧
      gkr_crypto_generate_symkey_pkcs12 cipher h password salt iterations want_key want_iv =
        Outcome.done { ret := false, key := OutPtr.untouched, iv := OutPtr.untouched, log := [] } ∧
      gkr_crypto_generate_symkey_pbkdf2 cipher h nonce password salt iterations want_key want_iv =
        Outcome.done { ret := false, key := OutPtr.untouched, iv := OutPtr.untouched, log := [] }) ∧
    (h.dlen = 0 →
      (∃ r, gkr_crypto_generate_symkey_simple cipher h password salt iterations want_key want_iv
        = Outcome.done r ∧ r.ret = false ∧ Event.hash ∉ r.log) ∧
      (∃ r, gkr_crypto_generate_symkey_pbe cipher h password salt iterations want_key want_iv
        = Outcome.done r ∧ r.ret = false ∧ Event.hash ∉ r.log) ∧
      (∃ r, gkr_crypto_generate_symkey_pkcs12 cipher h password salt iterations want_key want_iv
        = Outcome.done r ∧ Event.hash ∉ r.log ∧
        (want_key = true ∨ (want_iv = true ∧ cipher.blklen > 1) → r.ret = false)) ∧
      (∃ r, gkr_crypto_generate_symkey_pbkdf2 cipher h nonce password salt iterations want_key
        want_iv = Outcome.done r ∧ Event.hash ∉ r.log ∧ (want_key = true → r.ret = false))) :=
  ⟨few_iterations_untouched cipher h nonce password salt iterations want_key want_iv,
   fun hd => ⟨simple_no_digest cipher h password salt iterations want_key want_iv hd,
    pbe_no_digest cipher h password salt iterations want_key want_iv hd,
    pkcs12_no_digest cipher h password salt iterations want_key want_iv hd,
    pbkdf2_no_digest cipher h nonce password salt iterations want_key want_iv hd⟩⟩

theorem bad_request_computes_no_hash_witness :
    (gkr_crypto_generate_symkey_simple (CipherAlgo.mk 4 4) toyHash (some [116, 101])
        (some [1, 2]) 0 true true =
        Outcome.done { ret := false, key := OutPtr.untouched, iv := OutPtr.untouched, log := [] } ∧
      gkr_crypto_generate_symkey_pbe (CipherAlgo.mk 4 4) toyHash (some [116, 101])
        (some [1, 2]) 0 true true =
        Outcome.done { ret := false, key := OutPtr.untouched, iv := OutPtr.untouched, log := [] } ∧
      gkr_crypto_generate_symkey_pkcs12 (CipherAlgo.mk 4 4) toyHash (some [116, 101])
        (some [1, 2]) 0 true true =
        Outcome.done { ret := false, key := OutPtr.untouched, iv := OutPtr.untouched, log := [] } ∧
      gkr_crypto_generate_symkey_pbkdf2 (CipherAlgo.mk 4 4) toyHash (fun n => List.replicate n 7)
        (some [116, 101]) (some [1, 2]) 0 true true =
        Outcome.done { ret := false, key := OutPtr.untouched, iv := OutPtr.untouched, log := [] }) ∧
    ((∃ r, gkr_crypto_generate_symkey_simple (CipherAlgo.mk 4 4) unknownHash (some [116, 101])
        (some [1, 2]) 2 true true = Outcome.done r ∧ r.ret = false ∧ Event.hash ∉ r.log) ∧
      (∃ r, gkr_crypto_generate_symkey_pbe (CipherAlgo.mk 4 4) unknownHash (some [116, 101])
        (some [1, 2]) 2 true true = Outcome.done r ∧ r.ret = false ∧ Event.hash ∉ r.log) ∧
      (∃ r, gkr_crypto_generate_symkey_pkcs12 (CipherAlgo.mk 4 4) unknownHash (some [116, 101])
        (some [1, 2]) 2 true true = Outcome.done r ∧ Event.hash ∉ r.log ∧
        (true = true ∨ (true = true ∧ (CipherAlgo.mk 4 4).blklen > 1) → r.ret = false)) ∧
      (∃ r, gkr_crypto_generate_symkey_pbkdf2 (CipherAlgo.mk 4 4) unknownHash
        (fun n => List.replicate n 7) (some [116, 101]) (some [1, 2]) 2 true true
        = Outcome.done r ∧ Event.hash ∉ r.log ∧ (true = true → r.ret = false))) :=
  ⟨(bad_request_computes_no_hash (CipherAlgo.mk 4 4) toyHash (fun n => List.replicate n 7)
      (some [116, 101]) (some [1, 2]) 0 true true).1 (by decide),
   (bad_request_computes_no_hash (CipherAlgo.mk 4 4) unknownHash (fun n => List.replicate n 7)
      (some [116, 101]) (some [1, 2]) 2 true true).2 rfl⟩

/-- C16 (counterexample). With a hash of digest length 0 and the key not requested, the
PBKDF2 derivation (IV requested) and the PKCS#12 derivation (IV requested, block length 1)
return TRUE. -/
theorem no_digest_accepted_without_key :
    unknownHash.dlen = 0 ∧
    gkr_crypto_generate_symkey_pbkdf2 (CipherAlgo.mk 16 16) unknownHash
      (fun n => List.replicate n 7) (some [116, 101]) (some [1, 2]) 2 false true =
      Outcome.done { ret := true, key := OutPtr.untouched,
                     iv := OutPtr.buf (List.replicate 16 (some 7)),
                     log := [Event.g_alloc 16, Event.nonce 16] } ∧
    gkr_crypto_generate_symkey_pkcs12 (CipherAlgo.mk 16 1) unknownHash
      (some [116, 101]) (some [1, 2]) 2 false true =
      Outcome.done { ret := true, key := OutPtr.untouched, iv := OutPtr.null, log := [] } := by
  decide

/-! ## Theorems: a cipher without key length -/

/-- C17 (amended). When the registry reports key length 0 for the cipher and the key is
requested, the PBKDF2 scheme returns FALSE without computing any hash: `generate_pbkdf2`
turns down an output length of 0. -/
theorem pbkdf2_rejects_key_length_zero (cipher : CipherAlgo) (h : HashAlgo)
    (nonce : Nat → List Nat) (password salt : Option (List Nat)) (iterations : Int)
    (want_iv : Bool) (hk : cipher.keylen = 0) :
    ∃ r, gkr_crypto_generate_symkey_pbkdf2 cipher h nonce password salt iterations true want_iv
      = Outcome.done r ∧ r.ret = false ∧ Event.hash ∉ r.log := by
  cases password with
  | none => exact ⟨_, rfl, rfl, by simp⟩
  | some pw =>
    by_cases h1 : iterations > 0
    · have hg : ∀ P S c, generate_pbkdf2 h P S c [] 0 = { ret := false, output := [], log := [] } := by
        intro P S c
        unfold generate_pbkdf2
        split_ifs <;> first | rfl | omega
      simp [gkr_crypto_generate_symkey_pbkdf2, h1, hk, gkr_secure_alloc, hg, OutPtr.g_free]
    · simp [gkr_crypto_generate_symkey_pbkdf2, h1]

theorem pbkdf2_rejects_key_length_zero_witness :
    ∃ r, gkr_crypto_generate_symkey_pbkdf2 (CipherAlgo.mk 0 8) toyHash
      (fun n => List.replicate n 7) (some [116, 101]) (some [1, 2]) 2 true true
      = Outcome.done r ∧ r.ret = false ∧ Event.hash ∉ r.log :=
  pbkdf2_rejects_key_length_zero (CipherAlgo.mk 0 8) toyHash (fun n => List.replicate n 7)
    (some [116, 101]) (some [1, 2]) 2 true rfl

set_option maxRecDepth 100000 in
/-- C17 (counterexample). With a cipher of key length 0 the simple, the PBE and the PKCS#12
derivation return TRUE, whether the key is requested (it then has no byte) or not. -/
theorem key_length_zero_accepted :
    (Outcome.result (gkr_crypto_generate_symkey_simple (CipherAlgo.mk 0 4) toyHash
      (some [116, 101]) (some [1, 2]) 2 false true)).ret = true ∧
    (Outcome.result (gkr_crypto_generate_symkey_pbe (CipherAlgo.mk 0 8) toyHash16
      (some [116, 101]) (some [1, 2]) 2 false true)).ret = true ∧
    (Outcome.result (gkr_crypto_generate_symkey_pkcs12 (CipherAlgo.mk 0 4) toyHash
      (some [116, 101]) (some [1, 2]) 2 false true)).ret = true ∧
    (Outcome.result (gkr_crypto_generate_symkey_simple (CipherAlgo.mk 0 4) toyHash
      (some [116, 101]) (some [1, 2]) 2 true true)).ret = true ∧
    (Outcome.result (gkr_crypto_generate_symkey_pbe (CipherAlgo.mk 0 8) toyHash16
      (some [116, 101]) (some [1, 2]) 2 true true)).ret = true ∧
    (Outcome.result (gkr_crypto_generate_symkey_pkcs12 (CipherAlgo.mk 0 4) toyHash
      (some [116, 101]) (some [1, 2]) 2 true true)).ret = true := by
  decide

/-! ## Theorems: the outputs after a failure -/

/-- C18. With a hash the registry does not know (digest length 0), key and IV requested,
the PBKDF2 and the PKCS#12 derivation return FALSE and leave in `*key` the pointer to the
key buffer they have released (`g_free (key ? *key : NULL)` without `*key = NULL`). -/
theorem failure_leaves_released_key :
    gkr_crypto_generate_symkey_pbkdf2 (CipherAlgo.mk 16 16) unknownHash
      (fun n => List.replicate n 7) (some [116, 101]) (some [1, 2]) 2 true true =
      Outcome.done { ret := false, key := OutPtr.freed, iv := OutPtr.null,
                     log := [Event.secure_alloc 16] } ∧
    gkr_crypto_generate_symkey_pkcs12 (CipherAlgo.mk 16 16) unknownHash
      (some [116, 101]) (some [1, 2]) 2 true true =
      Outcome.done { ret := false, key := OutPtr.freed, iv := OutPtr.null,
                     log := [Event.secure_alloc 16] } := by
  decide

/-! ## Theorems: a password that is not UTF-8 -/

/-- C19. For a password that `g_utf8_validate` turns down, `gkr_crypto_generate_symkey_pkcs12`
returns FALSE with an empty event log (nothing allocated, no hash computed) and stores to
neither `*key` nor `*iv`. -/
theorem pkcs12_rejects_invalid_utf8 (cipher : CipherAlgo) (h : HashAlgo) (pw : List Nat)
    (salt : Option (List Nat)) (iterations : Int) (want_key want_iv : Bool)
    (hutf : g_utf8_validate pw = false) :
    gkr_crypto_generate_symkey_pkcs12 cipher h (some pw) salt iterations want_key want_iv =
      Outcome.done { ret := false, key := OutPtr.untouched, iv := OutPtr.untouched, log := [] } := by
  by_cases h1 : iterations > 0
  · simp [gkr_crypto_generate_symkey_pkcs12, h1, hutf]
  · simp [gkr_crypto_generate_symkey_pkcs12, h1]

theorem pkcs12_rejects_invalid_utf8_witness :
    g_utf8_validate [116, 255, 101] = false ∧
    gkr_crypto_generate_symkey_pkcs12 (CipherAlgo.mk 4 4) toyHash (some [116, 255, 101])
      (some [1, 2]) 2 true true =
      Outcome.done { ret := false, key := OutPtr.untouched, iv := OutPtr.untouched, log := [] } :=
  ⟨by decide, pkcs12_rejects_invalid_utf8 (CipherAlgo.mk 4 4) toyHash [116, 255, 101]
    (some [1, 2]) 2 true true (by decide)⟩

/-! ## Theorems: UTF-8 -/

set_option maxRecDepth 100000 in
theorem utf8_lead2 : ∀ a, a < 32 →
    utf8_compute (192 + a) = some (2, 0x1f) ∧ (192 + a) &&& 0x1f = a ∧
    g_utf8_skip (192 + a) = 2 ∧ (192 + a) &&& 0xe0 = 0xc0 ∧ ¬ (192 + a < 128) := by
  decide

set_option maxRecDepth 100000 in
theorem utf8_lead3 : ∀ a, a < 16 →
    utf8_compute (224 + a) = some (3, 0x0f) ∧ (224 + a) &&& 0x0f = a ∧
    g_utf8_skip (224 + a) = 3 ∧ (224 + a) &&& 0xf0 = 0xe0 ∧ (224 + a) &&& 0xe0 ≠ 0xc0 ∧
    ¬ (224 + a < 128) := by
  decide

set_option maxRecDepth 100000 in
theorem utf8_lead4 : ∀ a, a < 8 →
    utf8_compute (240 + a) = some (4, 0x07) ∧ (240 + a) &&& 0x07 = a ∧
    g_utf8_skip (240 + a) = 4 ∧ (240 + a) &&& 0xf8 = 0xf0 ∧ (240 + a) &&& 0xf0 ≠ 0xe0 ∧
    (240 + a) &&& 0xe0 ≠ 0xc0 ∧ ¬ (240 + a < 128) := by
  decide

set_option maxRecDepth 100000 in
theorem utf8_cont : ∀ r, r < 64 → (128 + r) &&& 0xc0 = 0x80 ∧ (128 + r) &&& 0x3f = r := by
  decide

theorem utf8_lead1 (c : Nat) (hc : c < 128) :
    utf8_compute c = some (1, 0x7f) ∧ c &&& 0x7f = c ∧ g_utf8_skip c = 1 := by
  refine ⟨by simp [utf8_compute, hc], ?_, ?_⟩
  · have := Nat.and_pow_two_sub_one_eq_mod c 7
    simp only [Nat.reducePow, Nat.add_one_sub_one] at this
    rw [this]
    omega
  · have : c < 0xc0 := by omega
    simp [g_utf8_skip, this]

theorem shift6_or (a r : Nat) (hr : r < 64) : (a <<< 6) ||| r = a * 64 + r := by
  have h := Nat.mul_add_lt_is_or (show r < 2 ^ 6 from hr) a
  rw [Nat.shiftLeft_eq, Nat.mul_comm a (2 ^ 6), ← h]

theorem getD_mid (pre mid post : List Nat) (k : Nat) (hk : k < mid.length) :
    (pre ++ mid ++ post).getD (pre.length + k) 0 = mid.getD k 0 := by
  rw [List.append_assoc, List.getD_append_right _ _ _ _ (by omega), Nat.add_sub_cancel_left,
    List.getD_append _ _ _ _ hk]

theorem surrogate_mask (c : Nat) (hc : c < 0x10000) (hs : ¬ (0xD800 ≤ c ∧ c < 0xE000)) :
    c &&& 0xFFFFF800 ≠ 0xD800 := by
  intro h
  have h1 : (c &&& 0xFFFFF800) >>> 11 = 27 := by rw [h]; decide
  have e : (0xFFFFF800 : Nat) >>> 11 = 2 ^ 21 - 1 := by decide
  rw [and_shiftRight, e, Nat.and_pow_two_sub_one_eq_mod, Nat.shiftRight_eq_div_pow] at h1
  simp only [Nat.reducePow] at h1
  omega

theorem utf8_at_1 (s : List Nat) (p c : Nat) (h0 : s.getD p 0 = c) (h1 : c < 0x80) :
    g_utf8_get_char s p = c ∧ g_utf8_next_char s p = p + 1 ∧ utf8_char_ok s p = true := by
  obtain ⟨e1, e2, e3⟩ := utf8_lead1 c h1
  refine ⟨?_, ?_, ?_⟩
  · simp only [g_utf8_get_char, h0, e1, utf8_get, e2, Nat.sub_self]
  · simp only [g_utf8_next_char, h0, e3]
  · simp only [utf8_char_ok, h0, h1, if_true]

theorem utf8_at_2 (s : List Nat) (p c : Nat) (h0 : s.getD p 0 = 0xC0 + c / 64)
    (h1 : s.getD (p + 1) 0 = 0x80 + c % 64) (hlo : 0x80 ≤ c) (hhi : c < 0x800) :
    g_utf8_get_char s p = c ∧ g_utf8_next_char s p = p + 2 ∧ utf8_char_ok s p = true := by
  obtain ⟨e1, e2, e3, e4, e5⟩ := utf8_lead2 (c / 64) (by omega)
  obtain ⟨c1, c2⟩ := utf8_cont (c % 64) (by omega)
  have hu : g_utf8_get_char s p = c := by
    simp only [g_utf8_get_char, h0, e1, utf8_get, e2, h1, c1, c2, ne_eq, not_true_eq_false,
      if_false, Nat.add_one_sub_one, shift6_or _ _ (Nat.mod_lt c (by decide : 64 > 0))]
    omega
  refine ⟨hu, ?_, ?_⟩
  · simp only [g_utf8_next_char, h0, e3]
  · have hne : c ≠ 0xFFFFFFFF := by omega
    simp only [utf8_char_ok, hu, h0]
    simp [e4, e5, hne, hlo]

theorem utf8_at_3 (s : List Nat) (p c : Nat) (h0 : s.getD p 0 = 0xE0 + c / 4096)
    (h1 : s.getD (p + 1) 0 = 0x80 + c / 64 % 64) (h2 : s.getD (p + 2) 0 = 0x80 + c % 64)
    (hlo : 0x800 ≤ c) (hhi : c < 0x10000) (hs : ¬ (0xD800 ≤ c ∧ c < 0xE000)) :
    g_utf8_get_char s p = c ∧ g_utf8_next_char s p = p + 3 ∧ utf8_char_ok s p = true := by
  obtain ⟨e1, e2, e3, e4, e5, e6⟩ := utf8_lead3 (c / 4096) (by omega)
  obtain ⟨c1, c2⟩ := utf8_cont (c / 64 % 64) (by omega)
  obtain ⟨d1, d2⟩ := utf8_cont (c % 64) (by omega)
  have hu : g_utf8_get_char s p = c := by
    simp only [g_utf8_get_char, h0, e1, utf8_get, e2, h1, h2, c1, c2, d1, d2, ne_eq,
      not_true_eq_false, if_false, Nat.add_one_sub_one,
      shift6_or _ _ (Nat.mod_lt _ (by decide : 64 > 0))]
    omega
  refine ⟨hu, ?_, ?_⟩
  · simp only [g_utf8_next_char, h0, e3]
  · have hne : c ≠ 0xFFFFFFFF := by omega
    have hm := surrogate_mask c hhi hs
    simp only [utf8_char_ok, hu, h0]
    simp [e4, e5, e6, hne, hlo, hm]

theorem utf8_at_4 (s : List Nat) (p c : Nat) (h0 : s.getD p 0 = 0xF0 + c / 262144)
    (h1 : s.getD (p + 1) 0 = 0x80 + c / 4096 % 64)
    (h2 : s.getD (p + 2) 0 = 0x80 + c / 64 % 64) (h3 : s.getD (p + 3) 0 = 0x80 + c % 64)
    (hlo : 0x10000 ≤ c) (hhi : c < 0x110000) :
    g_utf8_get_char s p = c ∧ g_utf8_next_char s p = p + 4 ∧ utf8_char_ok s p = true := by
  obtain ⟨e1, e2, e3, e4, e5, e6, e7⟩ := utf8_lead4 (c / 262144) (by omega)
  obtain ⟨b1, b2⟩ := utf8_cont (c / 4096 % 64) (by omega)
  obtain ⟨c1, c2⟩ := utf8_cont (c / 64 % 64) (by omega)
  obtain ⟨d1, d2⟩ := utf8_cont (c % 64) (by omega)
  have hu : g_utf8_get_char s p = c := by
    simp only [g_utf8_get_char, h0, e1, utf8_get, e2, h1, h2, h3, b1, b2, c1, c2, d1, d2, ne_eq,
      not_true_eq_false, if_false, Nat.add_one_sub_one,
      shift6_or _ _ (Nat.mod_lt _ (by decide : 64 > 0))]
    omega
  refine ⟨hu, ?_, ?_⟩
  · simp only [g_utf8_next_char, h0, e3]
  · have hne : c ≠ 0xFFFFFFFF := by omega
    simp only [utf8_char_ok, hu, h0]
    simp [e4, e5, e6, e7, hne, hlo, hhi]

theorem utf8_decode_at (pre post : List Nat) (c : Nat) (hc : is_scalar c = true) :
    (pre ++ utf8_encode c ++ post).getD pre.length 0 ≠ 0 ∧
    g_utf8_get_char (pre ++ utf8_encode c ++ post) pre.length = c ∧
    g_utf8_next_char (pre ++ utf8_encode c ++ post) pre.length
      = pre.length + (utf8_encode c).length ∧
    utf8_char_ok (pre ++ utf8_encode c ++ post) pre.length = true := by
  simp only [is_scalar, Bool.and_eq_true, decide_eq_true_eq, Bool.not_eq_true',
    Bool.and_eq_false_imp, decide_eq_false_iff_not] at hc
  obtain ⟨⟨hpos, hmax⟩, hsur⟩ := hc
  have hs : ¬ (0xD800 ≤ c ∧ c < 0xE000) := fun h => hsur h.1 h.2
  by_cases h1 : c < 0x80
  · have henc : utf8_encode c = [c] := by simp [utf8_encode, h1]
    rw [henc]
    have g0 : (pre ++ [c] ++ post).getD pre.length 0 = c := getD_mid pre [c] post 0 (by simp)
    obtain ⟨a, b, d⟩ := utf8_at_1 _ _ c g0 h1
    exact ⟨by rw [g0]; omega, a, b, d⟩
  · by_cases h2 : c < 0x800
    · have henc : utf8_encode c = [0xC0 + c / 64, 0x80 + c % 64] := by
        simp [utf8_encode, h1, h2]
      rw [henc]
      have g0 := getD_mid pre [0xC0 + c / 64, 0x80 + c % 64] post 0 (by simp)
      have g1 := getD_mid pre [0xC0 + c / 64, 0x80 + c % 64] post 1 (by simp)
      simp only [Nat.add_zero, List.getD_cons_zero, List.getD_cons_succ] at g0 g1
      obtain ⟨a, b, d⟩ := utf8_at_2 _ _ c g0 g1 (by omega) h2
      exact ⟨by rw [g0]; omega, a, b, d⟩
    · by_cases h3 : c < 0x10000
      · have henc : utf8_encode c = [0xE0 + c / 4096, 0x80 + c / 64 % 64, 0x80 + c % 64] := by
          simp [utf8_encode, h1, h2, h3]
        rw [henc]
        have g0 := getD_mid pre [0xE0 + c / 4096, 0x80 + c / 64 % 64, 0x80 + c % 64] post 0
          (by simp)
        have g1 := getD_mid pre [0xE0 + c / 4096, 0x80 + c / 64 % 64, 0x80 + c % 64] post 1
          (by simp)
        have g2 := getD_mid pre [0xE0 + c / 4096, 0x80 + c / 64 % 64, 0x80 + c % 64] post 2
          (by simp)
        simp only [Nat.add_zero, List.getD_cons_zero, List.getD_cons_succ] at g0 g1 g2
        obtain ⟨a, b, d⟩ := utf8_at_3 _ _ c g0 g1 g2 (by omega) h3 hs
        exact ⟨by rw [g0]; omega, a, b, d⟩
      · have henc : utf8_encode c =
            [0xF0 + c / 262144, 0x80 + c / 4096 % 64, 0x80 + c / 64 % 64, 0x80 + c % 64] := by
          simp [utf8_encode, h1, h2, h3]
        rw [henc]
        have g0 := getD_mid pre
          [0xF0 + c / 262144, 0x80 + c / 4096 % 64, 0x80 + c / 64 % 64, 0x80 + c % 64] post 0
          (by simp)
        have g1 := getD_mid pre
          [0xF0 + c / 262144, 0x80 + c / 4096 % 64, 0x80 + c / 64 % 64, 0x80 + c % 64] post 1
          (by simp)
        have g2 := getD_mid pre
          [0xF0 + c / 262144, 0x80 + c / 4096 % 64, 0x80 + c / 64 % 64, 0x80 + c % 64] post 2
          (by simp)
        have g3 := getD_mid pre
          [0xF0 + c / 262144, 0x80 + c / 4096 % 64, 0x80 + c / 64 % 64, 0x80 + c % 64] post 3
          (by simp)
        simp only [Nat.add_zero, List.getD_cons_zero, List.getD_cons_succ] at g0 g1 g2 g3
        obtain ⟨a, b, d⟩ := utf8_at_4 _ _ c g0 g1 g2 g3 (by omega) hmax
        exact ⟨by rw [g0]; omega, a, b, d⟩

theorem utf8_encode_length_pos (c : Nat) : 0 < (utf8_encode c).length := by
  unfold utf8_encode
  split_ifs <;> simp

theorem utf8_offset_succ (cs : List Nat) (j : Nat) (hj : j < cs.length) :
    utf8_offset cs (j + 1) = utf8_offset cs j + (utf8_encode (cs.getD j 0)).length := by
  have ht : cs.take (j + 1) = cs.take j ++ [cs.getD j 0] := by
    rw [List.take_succ, List.getD_eq_getElem?_getD]
    simp [List.getElem?_eq_getElem hj]
  simp [utf8_offset, ht, List.flatMap_append]

theorem utf8_offset_length (cs : List Nat) :
    utf8_offset cs cs.length = (cs.flatMap utf8_encode).length := by
  simp [utf8_offset]

theorem utf8_char_at (cs : List Nat) (hs : ∀ c ∈ cs, is_scalar c = true) (j : Nat)
    (hj : j < cs.length) :
    (cs.flatMap utf8_encode).getD (utf8_offset cs j) 0 ≠ 0 ∧
    g_utf8_get_char (cs.flatMap utf8_encode) (utf8_offset cs j) = cs.getD j 0 ∧
    g_utf8_next_char (cs.flatMap utf8_encode) (utf8_offset cs j) = utf8_offset cs (j + 1) ∧
    utf8_char_ok (cs.flatMap utf8_encode) (utf8_offset cs j) = true := by
  have hget : cs.getD j 0 = cs[j] := by
    rw [List.getD_eq_getElem?_getD, List.getElem?_eq_getElem hj]; rfl
  have hsplit : cs = cs.take j ++ cs.getD j 0 :: cs.drop (j + 1) := by
    rw [hget, ← List.drop_eq_getElem_cons hj, List.take_append_drop]
  have hpw : cs.flatMap utf8_encode = (cs.take j).flatMap utf8_encode ++
      utf8_encode (cs.getD j 0) ++ (cs.drop (j + 1)).flatMap utf8_encode := by
    conv_lhs => rw [hsplit]
    simp [List.flatMap_append, List.flatMap_cons]
  have hc : is_scalar (cs.getD j 0) = true := by
    apply hs
    rw [hget]
    exact List.getElem_mem hj
  rw [utf8_offset_succ cs j hj, hpw]
  exact utf8_decode_at _ _ _ hc

theorem utf8_end_at (cs : List Nat) :
    (cs.flatMap utf8_encode).getD (utf8_offset cs cs.length) 0 = 0 ∧
    g_utf8_get_char (cs.flatMap utf8_encode) (utf8_offset cs cs.length) = 0 := by
  have h0 : (cs.flatMap utf8_encode).getD (utf8_offset cs cs.length) 0 = 0 := by
    rw [utf8_offset_length]
    exact List.getD_eq_default _ _ (le_refl _)
  exact ⟨h0, (utf8_at_1 _ _ 0 h0 (by decide)).1⟩

/-! ## Theorems: the password block of the PKCS#12 scheme -/

theorem unit_bytes_eq (u : Nat) : [(u &&& 0xFF00) >>> 8, u &&& 0xFF] = be16 u := by
  have h255 : ∀ x : Nat, x &&& 255 = x % 256 := fun x => Nat.and_pow_two_sub_one_eq_mod x 8
  have e : (0xFF00 : Nat) >>> 8 = 255 := by decide
  have h1 : (u &&& 0xFF00) >>> 8 = u % 65536 / 256 := by
    rw [and_shiftRight, e, h255, Nat.shiftRight_eq_div_pow]
    omega
  have h2 : u &&& 0xFF = u % 65536 % 256 := by
    rw [h255]
    omega
  rw [h1, h2, be16]

theorem password_loop_units (cs : List Nat) (hs : ∀ c ∈ cs, is_scalar c = true) :
    ∀ (m j : Nat) (buf : List Nat), j ≤ cs.length →
      password_loop (cs.flatMap utf8_encode) m (utf8_offset cs j) buf =
        buf ++ (List.range m).flatMap
          (fun i => be16 ((cs ++ [0]).getD ((j + i) % (cs.length + 1)) 0)) := by
  intro m
  induction m with
  | zero => intro j buf _; simp [password_loop]
  | succ m ih =>
    intro j buf hj
    have hrange : List.range (m + 1) = 0 :: (List.range m).map Nat.succ :=
      List.range_succ_eq_map m
    rw [hrange, List.flatMap_cons, List.flatMap_map]
    simp only [password_loop, unit_bytes_eq, Nat.add_zero]
    have hjmod : j % (cs.length + 1) = j := Nat.mod_eq_of_lt (by omega)
    rcases Nat.lt_or_ge j cs.length with hlt | hge
    · obtain ⟨hnz, hget, hnext, _⟩ := utf8_char_at cs hs j hlt
      have hcj : (cs ++ [0]).getD j 0 = cs.getD j 0 := List.getD_append _ _ _ _ hlt
      rw [if_pos hnz, hget, hnext, ih (j + 1) _ (by omega), hjmod, hcj, List.append_assoc]
      congr 2
      apply List.flatMap_congr
      intro i _
      simp only [Function.comp, Nat.succ_eq_add_one]
      rw [Nat.add_assoc, Nat.add_comm 1 i]
    · have hjn : j = cs.length := by omega
      subst hjn
      obtain ⟨hz, hget⟩ := utf8_end_at cs
      have hcj : (cs ++ [0]).getD cs.length 0 = 0 := by
        rw [List.getD_append_right _ _ _ _ (le_refl _)]; simp
      have hoff0 : (0 : Nat) = utf8_offset cs 0 := by simp [utf8_offset]
      rw [if_neg (by simpa using hz), hget, hjmod, hcj]
      conv_lhs => rw [hoff0]
      rw [ih 0 _ (by omega), List.append_assoc]
      congr 2
      apply List.flatMap_congr
      intro i _
      simp only [Function.comp, Nat.succ_eq_add_one, Nat.zero_add]
      congr 2
      rw [← Nat.add_assoc, Nat.add_comm cs.length i, Nat.add_assoc, Nat.add_mod_right]

theorem utf8_text_length (cs : List Nat) : cs.length ≤ (cs.flatMap utf8_encode).length := by
  induction cs with
  | nil => simp
  | cons c cs ih =>
    have := utf8_encode_length_pos c
    simp only [List.flatMap_cons, List.length_append, List.length_cons]
    omega

theorem utf8_validate_loop_text (cs : List Nat) (hs : ∀ c ∈ cs, is_scalar c = true) :
    ∀ (fuel j : Nat), j ≤ cs.length → cs.length - j < fuel →
      utf8_validate_loop (cs.flatMap utf8_encode) fuel (utf8_offset cs j) = true := by
  intro fuel
  induction fuel with
  | zero => intro j _ h; omega
  | succ fuel ih =>
    intro j hj hf
    rcases Nat.lt_or_ge j cs.length with hlt | hge
    · obtain ⟨hnz, _, hnext, hok⟩ := utf8_char_at cs hs j hlt
      simp only [utf8_validate_loop, if_neg hnz, hok, if_true, hnext]
      exact ih (j + 1) (by omega) (by omega)
    · have hjn : j = cs.length := by omega
      subst hjn
      simp only [utf8_validate_loop, (utf8_end_at cs).1, if_true]

theorem utf8_text_valid (cs : List Nat) (hs : ∀ c ∈ cs, is_scalar c = true) :
    g_utf8_validate (cs.flatMap utf8_encode) = true := by
  have h := utf8_validate_loop_text cs hs ((cs.flatMap utf8_encode).length + 1) 0 (by omega)
    (by have := utf8_text_length cs; omega)
  have hoff0 : utf8_offset cs 0 = 0 := by simp [utf8_offset]
  rw [hoff0] at h
  exact h

theorem password_units_length (cs : List Nat) : (password_units cs).length = 64 := by
  have : ∀ (f : Nat → Nat) (m : Nat), ((List.range m).flatMap (fun k => be16 (f k))).length
      = 2 * m := by
    intro f m
    induction m with
    | zero => simp
    | succ m ih =>
      rw [List.range_succ, List.flatMap_append, List.length_append, ih]
      simp [be16]
      omega
  exact this _ 32

theorem pkcs12_password_block_text (cs : List Nat) (hne : cs ≠ [])
    (hs : ∀ c ∈ cs, is_scalar c = true) :
    pkcs12_password_block (cs.flatMap utf8_encode) = (true, password_units cs) := by
  obtain ⟨c, rest, rfl⟩ := List.exists_cons_of_ne_nil hne
  have h0 := (utf8_char_at (c :: rest) hs 0 (by simp)).1
  have hoff0 : utf8_offset (c :: rest) 0 = 0 := by simp [utf8_offset]
  rw [hoff0] at h0
  have hl := password_loop_units (c :: rest) hs 32 0 [] (by omega)
  rw [hoff0] at hl
  simp only [pkcs12_password_block, if_neg h0, hl, List.nil_append, password_units,
    Nat.zero_add]

/-- C13. For a password that is the UTF-8 encoding of the code points `cs` (at least one,
each a Unicode scalar value other than 0), `g_utf8_validate` accepts it and the password
block of `generate_pkcs12` consists of 32 big-endian 16 bit units, unit `k` holding the low
16 bits of `c'_(k mod (n + 1))`, where `c'` are the code points followed by the terminator
0; this block is hashed after the salt block.  For the empty password the message hashed
ends with the salt block: no password block is hashed. -/
theorem pkcs12_password_units (cs : List Nat) (h : HashAlgo) (t : Nat)
    (salt : Option (List Nat)) (c n : Nat) (out : List (Option Nat)) (hne : cs ≠ [])
    (hs : ∀ x ∈ cs, is_scalar x = true) (hwf : h.WF) (hopen : h.open_ok = true)
    (hd : 0 < h.dlen) (hc : 1 ≤ c) (ht : t < 256) (hsalt : salt ≠ some [])
    (hn : n ≤ out.length) :
    g_utf8_validate (cs.flatMap utf8_encode) = true ∧
    pkcs12_password_block (cs.flatMap utf8_encode) = (true, password_units cs) ∧
    (password_units cs).length = 64 ∧
    (∃ g sb, pkcs12_salt_block salt = some sb ∧
      generate_pkcs12 h t (cs.flatMap utf8_encode) salt c out n = Outcome.done g ∧
      g.ret = true ∧
      g.output.take (min n h.dlen) =
        ((h.hash^[c] (List.replicate 64 t ++ sb ++ password_units cs)).take
          (min n h.dlen)).map some) ∧
    (∃ g sb, pkcs12_salt_block salt = some sb ∧
      generate_pkcs12 h t [] salt c out n = Outcome.done g ∧ g.ret = true ∧
      g.output.take (min n h.dlen) =
        ((h.hash^[c] (List.replicate 64 t ++ sb)).take (min n h.dlen)).map some) := by
  have hblock := pkcs12_password_block_text cs hne hs
  refine ⟨utf8_text_valid cs hs, hblock, password_units_length cs, ?_, ?_⟩
  · obtain ⟨g, sb, hsb, hg, hret, _, _, hfirst⟩ :=
      generate_pkcs12_first h t (cs.flatMap utf8_encode) salt c n out hwf hopen hd hc ht hsalt hn
    rw [hblock] at hfirst
    exact ⟨g, sb, hsb, hg, hret, hfirst⟩
  · obtain ⟨g, sb, hsb, hg, hret, _, _, hfirst⟩ :=
      generate_pkcs12_first h t [] salt c n out hwf hopen hd hc ht hsalt hn
    have he : pkcs12_password_block [] = (false, List.replicate 64 0) := rfl
    rw [he] at hfirst
    simp only [Bool.false_eq_true, if_false, List.append_nil] at hfirst
    exact ⟨g, sb, hsb, hg, hret, hfirst⟩

theorem pkcs12_password_units_witness :
    [116, 233, 8364, 128512].flatMap utf8_encode
      = [116, 195, 169, 226, 130, 172, 240, 159, 152, 128] ∧
    (password_units [116, 233, 8364, 128512]).take 12
      = [0, 116, 0, 233, 32, 172, 246, 0, 0, 0, 0, 116] ∧
    g_utf8_validate ([116, 233, 8364, 128512].flatMap utf8_encode) = true ∧
    pkcs12_password_block ([116, 233, 8364, 128512].flatMap utf8_encode)
      = (true, password_units [116, 233, 8364, 128512]) ∧
    (password_units [116, 233, 8364, 128512]).length = 64 ∧
    (∃ g sb, pkcs12_salt_block (some [1, 2, 3]) = some sb ∧
      generate_pkcs12 toyHash 1 ([116, 233, 8364, 128512].flatMap utf8_encode) (some [1, 2, 3])
        2 (List.replicate 4 none) 4 = Outcome.done g ∧
      g.ret = true ∧
      g.output.take (min 4 toyHash.dlen) =
        ((toyHash.hash^[2] (List.replicate 64 1 ++ sb
          ++ password_units [116, 233, 8364, 128512])).take (min 4 toyHash.dlen)).map some) ∧
    (∃ g sb, pkcs12_salt_block (some [1, 2, 3]) = some sb ∧
      generate_pkcs12 toyHash 1 [] (some [1, 2, 3]) 2 (List.replicate 4 none) 4
        = Outcome.done g ∧ g.ret = true ∧
      g.output.take (min 4 toyHash.dlen) =
        ((toyHash.hash^[2] (List.replicate 64 1 ++ sb)).take (min 4 toyHash.dlen)).map some) :=
  ⟨by decide, by decide,
   pkcs12_password_units [116, 233, 8364, 128512] toyHash 1 (some [1, 2, 3]) 2 4
    (List.replicate 4 none) (by decide) (by decide) toyHash_WF rfl (by decide) (by decide)
    (by decide) (by decide) (by decide)⟩

/-! ## Theorems: multi-precision integers in key expressions -/

theorem gcry_mpi_scan_append (l : List Nat) (b : Nat) :
    gcry_mpi_scan (l ++ [b]) = gcry_mpi_scan l * 256 + b := by
  simp [gcry_mpi_scan, List.foldl_append]

theorem gcry_mpi_scan_usg (fuel : Nat) :
    ∀ v, v < 256 ^ fuel → gcry_mpi_scan (usg_bytes fuel v) = v := by
  induction fuel with
  | zero =>
    intro v hv
    have : v = 0 := by simpa using hv
    subst this
    rfl
  | succ fuel ih =>
    intro v hv
    by_cases h0 : v = 0
    · subst h0
      simp [usg_bytes, gcry_mpi_scan]
    · have hdiv : v / 256 < 256 ^ fuel := by
        rw [Nat.div_lt_iff_lt_mul (by decide)]
        rw [Nat.pow_succ] at hv
        exact hv
      simp only [usg_bytes, h0, if_false, gcry_mpi_scan_append, ih _ hdiv]
      omega

theorem gcry_mpi_scan_zero_cons (l : List Nat) : gcry_mpi_scan (0 :: l) = gcry_mpi_scan l := by
  simp [gcry_mpi_scan]

theorem gcry_mpi_scan_print_std (a : Nat) : gcry_mpi_scan (gcry_mpi_print_std a) = a := by
  have hlt : a < 256 ^ a := by
    have h1 : a < 2 ^ a := Nat.lt_two_pow a
    have h2 : 2 ^ a ≤ 256 ^ a := Nat.pow_le_pow_left (by decide) a
    omega
  unfold gcry_mpi_print_std
  simp only
  split_ifs
  · rw [gcry_mpi_scan_zero_cons, gcry_mpi_scan_usg a a hlt]
  · exact gcry_mpi_scan_usg a a hlt

/-! ## Theorems: the public key of an RSA private key -/

theorem find_token_component (c : List Nat × List Nat) (tok : List Nat) :
    gcry_sexp_find_token (key_component c) tok =
      if c.1 = tok then some (key_component c) else none := by
  simp [key_component, gcry_sexp_find_token, sexp_find_token_in]

theorem find_token_in_components (comps : List (List Nat × List Nat)) (tok : List Nat) :
    sexp_find_token_in (comps.map key_component) tok =
      (comps.lookup tok).map (fun v => key_component (tok, v)) := by
  induction comps with
  | nil => simp [sexp_find_token_in]
  | cons c comps ih =>
    obtain ⟨name, v⟩ := c
    simp only [List.map_cons, sexp_find_token_in, find_token_component, List.lookup_cons]
    by_cases hname : name = tok
    · subst hname
      simp
    · have hne : (tok == name) = false := by
        simp only [beq_eq_false_iff_ne, ne_eq]
        exact fun h => hname h.symm
      simp [hname, hne, ih]

theorem find_token_numbers (alg : List Nat) (comps : List (List Nat × List Nat))
    (tok : List Nat) (halg : alg ≠ tok) :
    gcry_sexp_find_token (key_numbers alg comps) tok =
      (comps.lookup tok).map (fun v => key_component (tok, v)) := by
  simp [key_numbers, gcry_sexp_find_token, sexp_find_token_in, halg, find_token_in_components]

theorem extract_mpi_numbers (alg : List Nat) (comps : List (List Nat × List Nat))
    (tok v : List Nat) (halg : alg ≠ tok) (hv : comps.lookup tok = some v) :
    gkr_crypto_sexp_extract_mpi (key_numbers alg comps) [tok] =
      (true, some (gcry_mpi_scan v)) := by
  simp [gkr_crypto_sexp_extract_mpi, sexp_get_childv, sexp_get_childv_loop,
    find_token_numbers alg comps tok halg, hv, key_component, gcry_sexp_nth_mpi,
    gcry_sexp_nth_data]

theorem skey_parse_private (gcry_pk_map_name : List Nat → Nat) (alg : List Nat)
    (comps : List (List Nat × List Nat)) (rest : List Sexp)
    (hmap : gcry_pk_map_name (c_str alg) ≠ 0) :
    gkr_crypto_skey_parse gcry_pk_map_name (private_key alg comps rest) true false true =
      { ret := true, algorithm := some (gcry_pk_map_name (c_str alg)), is_priv := none,
        numbers := some (key_numbers alg comps) } := by
  have hpriv : PRIVATE_KEY ≠ PUBLIC_KEY := by decide
  simp [gkr_crypto_skey_parse, private_key, key_numbers, gcry_sexp_nth_data, gcry_sexp_nth,
    hmap, hpriv]

theorem g_printerr_plain (format : List Nat) (h : ∀ c ∈ format, c ≠ 37) :
    g_printerr format = some format := by
  induction format with
  | nil => rfl
  | cons c format ih =>
    have hc : c ≠ 37 := h c (List.mem_cons_self _ _)
    have ih1 := ih (fun d hd => h d (List.mem_cons_of_mem _ hd))
    cases format with
    | nil => simp [g_printerr, hc]
    | cons d format => simp [g_printerr, hc, ih1]

theorem rsa_numbers_undefined (gcry_sexp_sprint : Sexp → List Nat) (rsa : Sexp)
    (hf : g_printerr (c_str (gcry_sexp_sprint rsa)) = none) :
    rsa_numbers_to_public gcry_sexp_sprint rsa = Printed.undefined := by
  simp only [rsa_numbers_to_public, gkr_crypto_sexp_dump, hf]

theorem rsa_numbers_public (gcry_sexp_sprint : Sexp → List Nat) (alg : List Nat)
    (comps : List (List Nat × List Nat)) (vn ve printed : List Nat)
    (hn1 : alg ≠ [110]) (he1 : alg ≠ [101])
    (hn : comps.lookup [110] = some vn) (he : comps.lookup [101] = some ve)
    (hf : g_printerr (c_str (gcry_sexp_sprint (key_numbers alg comps))) = some printed) :
    rsa_numbers_to_public gcry_sexp_sprint (key_numbers alg comps) =
      Printed.done (some (sexp_build_public_rsa (gcry_mpi_scan vn) (gcry_mpi_scan ve)),
        printed) := by
  simp only [rsa_numbers_to_public, gkr_crypto_sexp_dump, hf,
    extract_mpi_numbers alg comps [110] vn hn1 hn,
    extract_mpi_numbers alg comps [101] ve he1 he]

theorem private_to_public_rsa (gcry_pk_map_name : List Nat → Nat)
    (gcry_sexp_sprint : Sexp → List Nat) (alg : List Nat)
    (comps : List (List Nat × List Nat)) (rest : List Sexp) (vn ve printed : List Nat)
    (hmap : gcry_pk_map_name (c_str alg) = GCRY_PK_RSA) (hn1 : alg ≠ [110]) (he1 : alg ≠ [101])
    (hn : comps.lookup [110] = some vn) (he : comps.lookup [101] = some ve)
    (hf : g_printerr (c_str (gcry_sexp_sprint (key_numbers alg comps))) = some printed) :
    gkr_crypto_skey_private_to_public gcry_pk_map_name gcry_sexp_sprint
        (private_key alg comps rest) =
      Printed.done { ret := true,
                     pubkey := OutSexp.expr
                       (sexp_build_public_rsa (gcry_mpi_scan vn) (gcry_mpi_scan ve)),
                     emitted := printed } := by
  have hp := skey_parse_private gcry_pk_map_name alg comps rest (by rw [hmap]; decide)
  unfold gkr_crypto_skey_private_to_public
  rw [hp, hmap]
  simp only [if_true, rsa_numbers_public gcry_sexp_sprint alg comps vn ve printed hn1 he1 hn he hf]

theorem private_to_public_rsa_percent (gcry_pk_map_name : List Nat → Nat)
    (gcry_sexp_sprint : Sexp → List Nat) (alg : List Nat)
    (comps : List (List Nat × List Nat)) (rest : List Sexp)
    (hmap : gcry_pk_map_name (c_str alg) = GCRY_PK_RSA)
    (hf : g_printerr (c_str (gcry_sexp_sprint (key_numbers alg comps))) = none) :
    gkr_crypto_skey_private_to_public gcry_pk_map_name gcry_sexp_sprint
        (private_key alg comps rest) = Printed.undefined := by
  have hp := skey_parse_private gcry_pk_map_name alg comps rest (by rw [hmap]; decide)
  unfold gkr_crypto_skey_private_to_public
  rw [hp, hmap]
  simp only [if_true, rsa_numbers_undefined gcry_sexp_sprint (key_numbers alg comps) hf]

theorem public_rsa_extract (n e : Nat) :
    gkr_crypto_sexp_extract_mpi (sexp_build_public_rsa n e) [[110]] = (true, some n) ∧
    gkr_crypto_sexp_extract_mpi (sexp_build_public_rsa n e) [[101]] = (true, some e) := by
  have h1 : PUBLIC_KEY ≠ [110] := by decide
  have h2 : PUBLIC_KEY ≠ [101] := by decide
  constructor <;>
    simp [gkr_crypto_sexp_extract_mpi, sexp_get_childv, sexp_get_childv_loop,
      sexp_build_public_rsa, gcry_sexp_find_token, sexp_find_token_in, gcry_sexp_nth_mpi,
      gcry_sexp_nth_data, gcry_mpi_scan_print_std, h1, h2]

theorem public_rsa_no_other (n e : Nat) (tok : List Nat) (h1 : tok ≠ PUBLIC_KEY)
    (h2 : tok ≠ [114, 115, 97]) (h3 : tok ≠ [110]) (h4 : tok ≠ [101]) :
    gcry_sexp_find_token (sexp_build_public_rsa n e) tok = none := by
  simp [sexp_build_public_rsa, gcry_sexp_find_token, sexp_find_token_in, Ne.symm h1,
    Ne.symm h2, Ne.symm h3, Ne.symm h4]

theorem extract_mpi_private (alg : List Nat) (comps : List (List Nat × List Nat))
    (rest : List Sexp) (tok v : List Nat) (hp : PRIVATE_KEY ≠ tok) (halg : alg ≠ tok)
    (hv : comps.lookup tok = some v) :
    gkr_crypto_sexp_extract_mpi (private_key alg comps rest) [tok] =
      (true, some (gcry_mpi_scan v)) := by
  simp [gkr_crypto_sexp_extract_mpi, sexp_get_childv, sexp_get_childv_loop, private_key,
    key_numbers, gcry_sexp_find_token, sexp_find_token_in, hp, halg, find_token_in_components,
    hv, key_component, gcry_sexp_nth_mpi, gcry_sexp_nth_data]

/-- C20. For a private-key expression `(private-key (alg (name value) ...) ...)` whose
algorithm name the registry maps to RSA (a name other than `n` and `e`) and whose components
include `n` and `e` (with any others): when the text of the list of numbers, which
`rsa_numbers_to_public` hands to `g_printerr` as the format, has a `%` outside of `%%`, the
call of `gkr_crypto_skey_private_to_public` is undefined; otherwise it returns TRUE and
stores the expression `(public-key (rsa (n N) (e E)))`, where `N` and `E` are the numbers
`gkr_crypto_sexp_extract_mpi` reads for `n` and `e` in the input and reads again in the
result; the result has no list named otherwise than `public-key`, `rsa`, `n`, `e`, so no
component `d`. -/
theorem rsa_private_to_public_format_string (gcry_pk_map_name : List Nat → Nat)
    (gcry_sexp_sprint : Sexp → List Nat) (alg : List Nat)
    (comps : List (List Nat × List Nat)) (rest : List Sexp) (vn ve : List Nat)
    (hmap : gcry_pk_map_name (c_str alg) = GCRY_PK_RSA) (hn1 : alg ≠ [110]) (he1 : alg ≠ [101])
    (hn : comps.lookup [110] = some vn) (he : comps.lookup [101] = some ve) :
    (g_printerr (c_str (gcry_sexp_sprint (key_numbers alg comps))) = none →
      gkr_crypto_skey_private_to_public gcry_pk_map_name gcry_sexp_sprint
        (private_key alg comps rest) = Printed.undefined) ∧
    (∀ printed, g_printerr (c_str (gcry_sexp_sprint (key_numbers alg comps))) = some printed →
      gkr_crypto_skey_private_to_public gcry_pk_map_name gcry_sexp_sprint
          (private_key alg comps rest) =
        Printed.done { ret := true,
                       pubkey := OutSexp.expr
                         (sexp_build_public_rsa (gcry_mpi_scan vn) (gcry_mpi_scan ve)),
                       emitted := printed }) ∧
    gkr_crypto_sexp_extract_mpi (private_key alg comps rest) [[110]]
      = (true, some (gcry_mpi_scan vn)) ∧
    gkr_crypto_sexp_extract_mpi (private_key alg comps rest) [[101]]
      = (true, some (gcry_mpi_scan ve)) ∧
    gkr_crypto_sexp_extract_mpi
      (sexp_build_public_rsa (gcry_mpi_scan vn) (gcry_mpi_scan ve)) [[110]]
      = (true, some (gcry_mpi_scan vn)) ∧
    gkr_crypto_sexp_extract_mpi
      (sexp_build_public_rsa (gcry_mpi_scan vn) (gcry_mpi_scan ve)) [[101]]
      = (true, some (gcry_mpi_scan ve)) ∧
    (∀ tok, tok ≠ PUBLIC_KEY → tok ≠ [114, 115, 97] → tok ≠ [110] → tok ≠ [101] →
      gcry_sexp_find_token
        (sexp_build_public_rsa (gcry_mpi_scan vn) (gcry_mpi_scan ve)) tok = none) ∧
    gcry_sexp_find_token
      (sexp_build_public_rsa (gcry_mpi_scan vn) (gcry_mpi_scan ve)) [100] = none :=
  ⟨fun hf => private_to_public_rsa_percent gcry_pk_map_name gcry_sexp_sprint alg comps rest
      hmap hf,
   fun printed hf => private_to_public_rsa gcry_pk_map_name gcry_sexp_sprint alg comps rest vn
      ve printed hmap hn1 he1 hn he hf,
   extract_mpi_private alg comps rest [110] vn (by decide) hn1 hn,
   extract_mpi_private alg comps rest [101] ve (by decide) he1 he,
   (public_rsa_extract _ _).1, (public_rsa_extract _ _).2,
   fun tok => public_rsa_no_other _ _ tok,
   public_rsa_no_other _ _ [100] (by decide) (by decide) (by decide) (by decide)⟩

theorem rsa_private_to_public_format_string_witness :
    gcry_mpi_scan [43, 1] = 11009 ∧ gcry_mpi_scan [37, 115] = 9587 ∧
    gcry_mpi_scan [17, 171] = 4523 ∧
    101 * 109 = 11009 ∧ 9587 * 4523 % ((101 - 1) * (109 - 1)) = 1 ∧
    sexp_sprint_advanced (key_numbers [114, 115, 97]
      [([110], [43, 1]), ([101], [37, 115]), ([100], [17, 171])]) =
      [40, 114, 115, 97, 32, 10,
       32, 40, 110, 32, 35, 50, 66, 48, 49, 35, 41, 10,
       32, 40, 101, 32, 34, 37, 115, 34, 41, 10,
       32, 40, 100, 32, 35, 49, 49, 65, 66, 35, 41, 10,
       32, 41, 10] ∧
    gkr_crypto_skey_private_to_public toy_pk_map_name sexp_sprint_advanced
      (private_key [114, 115, 97] [([110], [43, 1]), ([101], [37, 115]), ([100], [17, 171])] [])
      = Printed.undefined ∧
    gkr_crypto_skey_private_to_public toy_pk_map_name sexp_sprint_advanced
      (private_key [114, 115, 97]
        [([110], [12, 161]), ([101], [17]), ([100], [10, 193]), ([112], [61]), ([113], [53]),
          ([117], [38])] []) =
      Printed.done { ret := true,
                     pubkey := OutSexp.expr
                       (sexp_build_public_rsa (gcry_mpi_scan [12, 161]) (gcry_mpi_scan [17])),
                     emitted :=
                       [40, 114, 115, 97, 32, 10,
                        32, 40, 110, 32, 34, 92, 102, 161, 34, 41, 10,
                        32, 40, 101, 32, 35, 49, 49, 35, 41, 10,
                        32, 40, 100, 32, 34, 92, 110, 193, 34, 41, 10,
                        32, 40, 112, 32, 61, 41, 10,
                        32, 40, 113, 32, 34, 53, 34, 41, 10,
                        32, 40, 117, 32, 34, 38, 34, 41, 10,
                        32, 41, 10] } :=
  ⟨by decide, by decide, by decide, by decide, by decide, by decide,
   (rsa_private_to_public_format_string toy_pk_map_name sexp_sprint_advanced [114, 115, 97]
    [([110], [43, 1]), ([101], [37, 115]), ([100], [17, 171])] [] [43, 1] [37, 115] (by decide)
    (by decide) (by decide) (by decide) (by decide)).1 (by decide),
   (rsa_private_to_public_format_string toy_pk_map_name sexp_sprint_advanced [114, 115, 97]
    [([110], [12, 161]), ([101], [17]), ([100], [10, 193]), ([112], [61]), ([113], [53]),
      ([117], [38])] [] [12, 161] [17] (by decide) (by decide) (by decide) (by decide)
    (by decide)).2.1 _ (by decide)⟩

/-! ## Theorems: the hex encoder -/

theorem hexc_nibbles (d : Nat) (hd : d < 256) :
    (d >>> 4) &&& 0xf = d / 16 ∧ d &&& 0xf = d % 16 := by
  have h15 : ∀ x : Nat, x &&& 15 = x % 16 := fun x => Nat.and_pow_two_sub_one_eq_mod x 4
  refine ⟨?_, h15 d⟩
  rw [h15, Nat.shiftRight_eq_div_pow]
  omega

theorem hex_encode_loop_spec (b : List Nat) (hb : ∀ x ∈ b, x < 256) :
    hex_encode_loop b [] = b.flatMap (fun d => [HEXC.getD (d / 16) 0, HEXC.getD (d % 16) 0]) := by
  induction b with
  | nil => simp [hex_encode_loop]
  | cons d b ih =>
    obtain ⟨e1, e2⟩ := hexc_nibbles d (hb d (List.mem_cons_self _ _))
    simp only [hex_encode_loop, List.flatMap_cons]
    rw [hex_encode_loop_acc, ih (fun x hx => hb x (List.mem_cons_of_mem _ hx)), e1, e2]
    simp

theorem flatMap_pair_getD (f g : Nat → Nat) (b : List Nat) (i : Nat) (hi : i < b.length) :
    (b.flatMap (fun d => [f d, g d])).getD (2 * i) 0 = f (b.getD i 0) ∧
    (b.flatMap (fun d => [f d, g d])).getD (2 * i + 1) 0 = g (b.getD i 0) := by
  induction b generalizing i with
  | nil => simp at hi
  | cons d b ih =>
    cases i with
    | zero => simp
    | succ i =>
      have := ih i (by simpa using hi)
      have e1 : 2 * (i + 1) = 2 * i + 1 + 1 := by omega
      have e2 : 2 * (i + 1) + 1 = 2 * i + 1 + 1 + 1 := by omega
      simp only [List.flatMap_cons, e1, e2, List.cons_append, List.nil_append,
        List.getD_cons_succ]
      exact this

set_option maxRecDepth 100000 in
theorem hexc_lowercase : ∀ v, v < 16 → HEXC.getD v 0 ∈ HEXC ∧
    HEXC.getD v 0 = (if v < 10 then 48 + v else 87 + v) := by
  decide

/-- C26. For bytes `b` (values below 256) of length `n`: with a stated capacity of at least
`2n + 1`, `gkr_crypto_hex_encode` returns TRUE and stores exactly `2n` characters, all from
`0123456789abcdef`, characters `2i` and `2i + 1` being the digits of the high and the low
nibble of `b[i]`; with a smaller capacity it returns FALSE and stores nothing. -/
theorem hex_encode_nibbles (b : List Nat) (cap : Nat) (hb : ∀ x ∈ b, x < 256) :
    (cap ≥ 2 * b.length + 1 →
      (gkr_crypto_hex_encode b cap).1 = true ∧
      (gkr_crypto_hex_encode b cap).2.length = 2 * b.length ∧
      (∀ ch ∈ (gkr_crypto_hex_encode b cap).2, ch ∈ HEXC) ∧
      (∀ i, i < b.length →
        (gkr_crypto_hex_encode b cap).2.getD (2 * i) 0 = HEXC.getD (b.getD i 0 / 16) 0 ∧
        (gkr_crypto_hex_encode b cap).2.getD (2 * i + 1) 0 = HEXC.getD (b.getD i 0 % 16) 0)) ∧
    (cap < 2 * b.length + 1 → gkr_crypto_hex_encode b cap = (false, [])) := by
  constructor
  · intro hcap
    have hc : cap ≥ b.length * 2 + 1 := by omega
    simp only [gkr_crypto_hex_encode, hc, if_true]
    refine ⟨trivial, hex_encode_loop_length b, ?_, ?_⟩
    · rw [hex_encode_loop_spec b hb]
      intro ch hch
      simp only [List.mem_flatMap, List.mem_cons, List.mem_singleton, List.not_mem_nil,
        or_false] at hch
      obtain ⟨d, hd, rfl | rfl⟩ := hch
      · exact (hexc_lowercase (d / 16) (by have := hb d hd; omega)).1
      · exact (hexc_lowercase (d % 16) (by omega)).1
    · intro i hi
      rw [hex_encode_loop_spec b hb]
      exact flatMap_pair_getD (fun d => HEXC.getD (d / 16) 0) (fun d => HEXC.getD (d % 16) 0) b i hi
  · intro hcap
    have hc : ¬ cap ≥ b.length * 2 + 1 := by omega
    simp only [gkr_crypto_hex_encode, hc, if_false]

theorem hex_encode_nibbles_witness :
    gkr_crypto_hex_encode [0, 171, 255] 7 = (true, [48, 48, 97, 98, 102, 102]) ∧
    ((gkr_crypto_hex_encode [0, 171, 255] 7).1 = true ∧
      (gkr_crypto_hex_encode [0, 171, 255] 7).2.length = 2 * [0, 171, 255].length ∧
      (∀ ch ∈ (gkr_crypto_hex_encode [0, 171, 255] 7).2, ch ∈ HEXC) ∧
      (∀ i, i < [0, 171, 255].length →
        (gkr_crypto_hex_encode [0, 171, 255] 7).2.getD (2 * i) 0
          = HEXC.getD ([0, 171, 255].getD i 0 / 16) 0 ∧
        (gkr_crypto_hex_encode [0, 171, 255] 7).2.getD (2 * i + 1) 0
          = HEXC.getD ([0, 171, 255].getD i 0 % 16) 0)) ∧
    gkr_crypto_hex_encode [0, 171, 255] 6 = (false, []) :=
  ⟨by decide,
   (hex_encode_nibbles [0, 171, 255] 7 (by decide)).1 (by decide),
   (hex_encode_nibbles [0, 171, 255] 6 (by decide)).2 (by decide)⟩

/-! ## Theorems: the windows of the PBE scheme -/

theorem pbe_windows_overlap_iff (K V : Nat) :
    pbe_windows_overlap K V = true ↔ ∃ i, i < 16 ∧ i < K ∧ 16 - V ≤ i := by
  simp [pbe_windows_overlap, List.any_eq_true]

theorem pbe_accepts_lengths (cipher : CipherAlgo) (h : HashAlgo)
    (password salt : Option (List Nat)) (iterations : Int) (want_key want_iv : Bool)
    (r : Derived)
    (hacc : gkr_crypto_generate_symkey_pbe cipher h password salt iterations want_key want_iv
      = Outcome.done r) (hret : r.ret = true) :
    cipher.keylen + cipher.blklen ≤ 16 ∧ cipher.keylen + cipher.blklen ≤ h.dlen := by
  by_contra hn
  have h3 : cipher.blklen + cipher.keylen > 16 ∨ cipher.blklen + cipher.keylen > h.dlen := by
    omega
  unfold gkr_crypto_generate_symkey_pbe at hacc
  simp only [h3, if_true] at hacc
  split_ifs at hacc <;>
    (simp only [Outcome.done.injEq] at hacc; subst hacc; simp at hret)

/-- C27 (amended). For every request that `gkr_crypto_generate_symkey_pbe` accepts, the
lengths satisfy `key_length + iv_length ≤ 16` and `≤ digest_length`, and the key window
`[0, key_length)` and the IV window `[16 - iv_length, 16)` of the digest have no offset in
common. -/
theorem pbe_windows_disjoint (cipher : CipherAlgo) (h : HashAlgo)
    (password salt : Option (List Nat)) (iterations : Int) (want_key want_iv : Bool)
    (r : Derived)
    (hacc : gkr_crypto_generate_symkey_pbe cipher h password salt iterations want_key want_iv
      = Outcome.done r) (hret : r.ret = true) :
    cipher.keylen + cipher.blklen ≤ 16 ∧ cipher.keylen + cipher.blklen ≤ h.dlen ∧
    cipher.keylen ≤ 16 - cipher.blklen ∧
    pbe_windows_overlap cipher.keylen cipher.blklen = false := by
  obtain ⟨h1, h2⟩ := pbe_accepts_lengths cipher h password salt iterations want_key want_iv r
    hacc hret
  refine ⟨h1, h2, by omega, ?_⟩
  rw [Bool.eq_false_iff]
  intro ho
  obtain ⟨i, _, hk, hv⟩ := (pbe_windows_overlap_iff _ _).mp ho
  omega

theorem pbe_windows_disjoint_witness :
    (Outcome.result (gkr_crypto_generate_symkey_pbe (CipherAlgo.mk 8 8) toyHash16
      (some [116, 101]) (some [1, 2]) 2 true true)).ret = true ∧
    (CipherAlgo.mk 8 8).keylen + (CipherAlgo.mk 8 8).blklen ≤ 16 ∧
    (CipherAlgo.mk 8 8).keylen + (CipherAlgo.mk 8 8).blklen ≤ toyHash16.dlen ∧
    (CipherAlgo.mk 8 8).keylen ≤ 16 - (CipherAlgo.mk 8 8).blklen ∧
    pbe_windows_overlap (CipherAlgo.mk 8 8).keylen (CipherAlgo.mk 8 8).blklen = false :=
  ⟨by decide,
   pbe_windows_disjoint (CipherAlgo.mk 8 8) toyHash16 (some [116, 101]) (some [1, 2]) 2 true true
    (Outcome.result (gkr_crypto_generate_symkey_pbe (CipherAlgo.mk 8 8) toyHash16
      (some [116, 101]) (some [1, 2]) 2 true true)) (by decide) (by decide)⟩

/-- C27 (counterexample). There are no lengths that pass the length test of
`gkr_crypto_generate_symkey_pbe` (`key_length + iv_length ≤ 16` and `≤ digest_length`) and
whose key and IV windows overlap; lengths whose windows overlap, such as key 9 and IV 8 with
a digest of 16 bytes, are turned down. -/
theorem pbe_no_accepted_overlap :
    (¬ ∃ key_length iv_length digest_length : Nat,
      key_length + iv_length ≤ 16 ∧ key_length + iv_length ≤ digest_length ∧
      pbe_windows_overlap key_length iv_length = true) ∧
    pbe_windows_overlap 9 8 = true ∧
    gkr_crypto_generate_symkey_pbe (CipherAlgo.mk 9 8) toyHash16 (some [116, 101])
      (some [1, 2]) 2 true true =
      Outcome.done { ret := false, key := OutPtr.untouched, iv := OutPtr.untouched, log := [] } := by
  refine ⟨?_, by decide, by decide⟩
  rintro ⟨K, V, D, h1, _, ho⟩
  obtain ⟨i, _, hk, hv⟩ := (pbe_windows_overlap_iff _ _).mp ho
  omega

/-! ## Theorems: the hex decoder at its smallest capacity -/

/-- C29. With one hex digit (`n_data = 1`) and the capacity `n_data / 2 = 0` that the entry
test accepts, `gkr_crypto_hex_decode` stores the high nibble to `decoded[0]`, a position
that is not below the capacity, and returns FALSE; with three digits and capacity 1 it
stores to `decoded[1]`. -/
theorem hex_decode_writes_past_capacity :
    [97].length / 2 = 0 ∧
    gkr_crypto_hex_decode [97] ([97].length / 2)
      = { ret := false, decoded := [160], n_decoded := 0 } ∧
    (gkr_crypto_hex_decode [97] ([97].length / 2)).decoded.length > [97].length / 2 ∧
    gkr_crypto_hex_decode [97, 98, 99] ([97, 98, 99].length / 2)
      = { ret := false, decoded := [171, 192], n_decoded := 1 } ∧
    (gkr_crypto_hex_decode [97, 98, 99] ([97, 98, 99].length / 2)).decoded.length
      > [97, 98, 99].length / 2 := by
  decide

/-! ## Theorems: the block arithmetic of PBKDF2 -/

/-- C28. In `generate_pbkdf2`, for `1 ≤ n_output < 2^32 - 1` and a digest length
`n_hash ≥ 1` (hash context available, `iterations ≥ 1`), with
`l = ((n_output - 1) / n_hash) + 1` and `r = n_output - (l - 1) * n_hash` as the code
computes them: `l` is `ceil (n_output / n_hash)` and fits 32 bits, `1 ≤ r ≤ n_hash`,
`(l - 1) * n_hash + r = n_output`; the run is the block loop with these `l` and `r`, and it
stores to exactly the first `n_output` cells of `output`, all cells after them keeping what
they held. -/
theorem pbkdf2_block_arithmetic (h : HashAlgo) (P S : List Nat) (c n : Nat)
    (out : List (Option Nat)) (hwf : h.WF) (hopen : h.open_ok = true) (hc : 1 ≤ c)
    (hd : 1 ≤ h.dlen) (hn1 : 1 ≤ n) (hn2 : n < 2 ^ 32 - 1) (hout : n ≤ out.length) :
    (n - 1) / h.dlen + 1 = (n + h.dlen - 1) / h.dlen ∧
    ((n - 1) / h.dlen + 1 - 1) * h.dlen < n ∧ n ≤ ((n - 1) / h.dlen + 1) * h.dlen ∧
    (n - 1) / h.dlen + 1 < 2 ^ 32 ∧
    1 ≤ n - ((n - 1) / h.dlen + 1 - 1) * h.dlen ∧
    n - ((n - 1) / h.dlen + 1 - 1) * h.dlen ≤ h.dlen ∧
    ((n - 1) / h.dlen + 1 - 1) * h.dlen + (n - ((n - 1) / h.dlen + 1 - 1) * h.dlen) = n ∧
    (generate_pbkdf2 h P S c out n).ret = true ∧
    (generate_pbkdf2 h P S c out n).output =
      ((List.range' 1 ((n - 1) / h.dlen + 1)).foldl
        (pbkdf2_block h P S c ((n - 1) / h.dlen + 1)
          (n - ((n - 1) / h.dlen + 1 - 1) * h.dlen))
        { output := out, U := List.replicate h.dlen 0,
          log := [Event.md_open, Event.secure_alloc h.dlen, Event.secure_alloc h.dlen,
            Event.secure_alloc (S.length + 4)] }).output ∧
    (generate_pbkdf2 h P S c out n).output.length = out.length ∧
    (∀ x ∈ (generate_pbkdf2 h P S c out n).output.take n, x ≠ none) ∧
    (generate_pbkdf2 h P S c out n).output.drop n = out.drop n := by
  obtain ⟨hsum, hr1, hr2, hL⟩ := pbkdf2_counts n h.dlen hn1 hd
  obtain ⟨hret, hgo⟩ := generate_pbkdf2_output h hwf hopen P S c n out hc hd hn1 hn2
  have hsl := pbkdf2_stream_length h hwf P S c ((n + h.dlen - 1) / h.dlen)
  have hdiv : (n - 1) / h.dlen ≤ n - 1 := Nat.div_le_self _ _
  have hmul : ((n - 1) / h.dlen + 1) * h.dlen =
      ((n - 1) / h.dlen + 1 - 1) * h.dlen + h.dlen := by
    simp only [Nat.add_sub_cancel]; ring
  have hle : n ≤ (pbkdf2_stream h P S c ((n + h.dlen - 1) / h.dlen)).length := by
    rw [hsl, ← hL]; omega
  have h32 : (2 : Nat) ^ 32 - 1 = 4294967295 := by norm_num
  have hn2b : n < 4294967295 := by omega
  have htl : (List.take n (pbkdf2_stream h P S c ((n + h.dlen - 1) / h.dlen))).length = n := by
    rw [List.length_take]; omega
  refine ⟨hL, by omega, by omega, by omega, hr1, hr2, hsum, hret, ?_, ?_, ?_, ?_⟩
  · have hc0 : c > 0 := hc
    have hn0 : n > 0 := hn1
    have hd0 : h.dlen > 0 := hd
    simp only [generate_pbkdf2, hc0, hn0, hn2b, hd0, hopen, gkr_secure_alloc, not_true_eq_false,
      if_false, gt_iff_lt, Bool.false_eq_true]
  · rw [hgo]
    simp only [List.length_append, List.length_map, htl, List.length_drop]
    omega
  · rw [hgo, List.take_append_of_le_length (by rw [List.length_map, htl])]
    intro x hx
    obtain ⟨y, _, rfl⟩ := List.mem_map.mp (List.mem_of_mem_take hx)
    simp
  · rw [hgo, List.drop_append_of_le_length (by rw [List.length_map, htl])]
    have : List.drop n (List.map some
        (List.take n (pbkdf2_stream h P S c ((n + h.dlen - 1) / h.dlen)))) = [] := by
      apply List.drop_of_length_le
      rw [List.length_map, htl]
    rw [this, List.nil_append]

theorem pbkdf2_block_arithmetic_witness :
    (10 - 1) / toyHash.dlen + 1 = 3 ∧ 10 - ((10 - 1) / toyHash.dlen + 1 - 1) * toyHash.dlen = 2 ∧
    ((10 - 1) / toyHash.dlen + 1 = (10 + toyHash.dlen - 1) / toyHash.dlen ∧
    ((10 - 1) / toyHash.dlen + 1 - 1) * toyHash.dlen < 10 ∧
    10 ≤ ((10 - 1) / toyHash.dlen + 1) * toyHash.dlen ∧
    (10 - 1) / toyHash.dlen + 1 < 2 ^ 32 ∧
    1 ≤ 10 - ((10 - 1) / toyHash.dlen + 1 - 1) * toyHash.dlen ∧
    10 - ((10 - 1) / toyHash.dlen + 1 - 1) * toyHash.dlen ≤ toyHash.dlen ∧
    ((10 - 1) / toyHash.dlen + 1 - 1) * toyHash.dlen
      + (10 - ((10 - 1) / toyHash.dlen + 1 - 1) * toyHash.dlen) = 10 ∧
    (generate_pbkdf2 toyHash [116, 101] [1, 2] 2 (List.replicate 12 none) 10).ret = true ∧
    (generate_pbkdf2 toyHash [116, 101] [1, 2] 2 (List.replicate 12 none) 10).output =
      ((List.range' 1 ((10 - 1) / toyHash.dlen + 1)).foldl
        (pbkdf2_block toyHash [116, 101] [1, 2] 2 ((10 - 1) / toyHash.dlen + 1)
          (10 - ((10 - 1) / toyHash.dlen + 1 - 1) * toyHash.dlen))
        { output := List.replicate 12 none, U := List.replicate toyHash.dlen 0,
          log := [Event.md_open, Event.secure_alloc toyHash.dlen,
            Event.secure_alloc toyHash.dlen, Event.secure_alloc ([1, 2].length + 4)] }).output ∧
    (generate_pbkdf2 toyHash [116, 101] [1, 2] 2 (List.replicate 12 none) 10).output.length
      = (List.replicate 12 (none : Option Nat)).length ∧
    (∀ x ∈ (generate_pbkdf2 toyHash [116, 101] [1, 2] 2 (List.replicate 12 none) 10).output.take
      10, x ≠ none) ∧
    (generate_pbkdf2 toyHash [116, 101] [1, 2] 2 (List.replicate 12 none) 10).output.drop 10
      = (List.replicate 12 none).drop 10) :=
  ⟨by decide, by decide,
   pbkdf2_block_arithmetic toyHash [116, 101] [1, 2] 2 10 (List.replicate 12 none) toyHash_WF rfl
    (by decide) (by decide) (by decide) (by norm_num) (by decide)⟩

/-! ## Theorems: what the PBKDF2 key and IV depend on -/

theorem pbkdf2_iv_form (cipher : CipherAlgo) (h : HashAlgo) (nonce : Nat → List Nat)
    (password salt : Option (List Nat)) (iterations : Int) (want_key : Bool) (r : Derived)
    (hacc : gkr_crypto_generate_symkey_pbkdf2 cipher h nonce password salt iterations want_key
      true = Outcome.done r) (hret : r.ret = true) :
    r.iv = (if cipher.blklen > 1 then
      OutPtr.buf (memcpy (List.replicate cipher.blklen none) 0 (nonce cipher.blklen)
        cipher.blklen)
      else OutPtr.null) := by
  cases password with
  | none =>
    simp only [gkr_crypto_generate_symkey_pbkdf2, Outcome.done.injEq] at hacc
    subst hacc
    simp at hret
  | some pw =>
    by_cases h1 : iterations > 0
    · cases want_key with
      | false =>
        by_cases hb : cipher.blklen > 1 <;>
        · simp [gkr_crypto_generate_symkey_pbkdf2, h1, hb] at hacc
          subst hacc
          simp [hb]
      | true =>
        by_cases hgr : (generate_pbkdf2 h (pw.take (c_str pw).length) (salt.getD [])
            iterations.toNat (List.replicate cipher.keylen none) cipher.keylen).ret = true
        · by_cases hb : cipher.blklen > 1 <;>
          · simp [gkr_crypto_generate_symkey_pbkdf2, h1, gkr_secure_alloc, hgr, hb] at hacc
            subst hacc
            simp [hb]
        · simp [gkr_crypto_generate_symkey_pbkdf2, h1, gkr_secure_alloc, hgr] at hacc
          subst hacc
          simp [hgr] at hret
    · simp [gkr_crypto_generate_symkey_pbkdf2, h1] at hacc
      subst hacc
      simp at hret

theorem pbkdf2_key_form (cipher : CipherAlgo) (h : HashAlgo) (nonce : Nat → List Nat)
    (password salt : Option (List Nat)) (iterations : Int) (want_key want_iv : Bool) :
    ∃ r, gkr_crypto_generate_symkey_pbkdf2 cipher h nonce password salt iterations want_key
        want_iv = Outcome.done r ∧
      r.key = (Outcome.result (gkr_crypto_generate_symkey_pbkdf2 cipher h (fun _ => []) password
        salt iterations want_key false)).key ∧
      r.ret = (Outcome.result (gkr_crypto_generate_symkey_pbkdf2 cipher h (fun _ => []) password
        salt iterations want_key false)).ret := by
  cases password with
  | none => exact ⟨_, rfl, rfl, rfl⟩
  | some pw =>
    by_cases h1 : iterations > 0
    · cases want_key with
      | false =>
        cases want_iv <;> by_cases hb : cipher.blklen > 1 <;>
          simp [gkr_crypto_generate_symkey_pbkdf2, h1, hb, Outcome.result]
      | true =>
        by_cases hgr : (generate_pbkdf2 h (pw.take (c_str pw).length) (salt.getD [])
            iterations.toNat (List.replicate cipher.keylen none) cipher.keylen).ret = true
        · cases want_iv <;> by_cases hb : cipher.blklen > 1 <;>
            simp [gkr_crypto_generate_symkey_pbkdf2, h1, hb, gkr_secure_alloc, hgr,
              Outcome.result]
        · cases want_iv <;> by_cases hb : cipher.blklen > 1 <;>
            simp [gkr_crypto_generate_symkey_pbkdf2, h1, hb, gkr_secure_alloc, hgr,
              Outcome.result]
    · simp [gkr_crypto_generate_symkey_pbkdf2, h1, Outcome.result]

/-- C25. For `gkr_crypto_generate_symkey_pbkdf2`: two runs that return TRUE with the IV
requested, for ciphers of the same block length and with the same random bytes delivered,
return the same IV, whatever their hash, password, salt, iteration count and key request;
and two runs with the same cipher, hash, password, salt, iteration count and key request
return the same key pointer state and the same boolean, whatever the random bytes and
whether or not the IV is requested. -/
theorem pbkdf2_iv_random_key_derived (c1 c2 : CipherAlgo) (h1 h2 : HashAlgo)
    (nonce1 nonce2 : Nat → List Nat) (pw1 pw2 salt1 salt2 : Option (List Nat)) (it1 it2 : Int)
    (wk1 wk2 : Bool) (r1 r2 : Derived)
    (hblk : c1.blklen = c2.blklen) (hrand : nonce1 c1.blklen = nonce2 c2.blklen)
    (hacc1 : gkr_crypto_generate_symkey_pbkdf2 c1 h1 nonce1 pw1 salt1 it1 wk1 true
      = Outcome.done r1) (hret1 : r1.ret = true)
    (hacc2 : gkr_crypto_generate_symkey_pbkdf2 c2 h2 nonce2 pw2 salt2 it2 wk2 true
      = Outcome.done r2) (hret2 : r2.ret = true) :
    r1.iv = r2.iv ∧
    (∀ (na nb : Nat → List Nat) (wiv1 wiv2 : Bool), ∃ a b,
      gkr_crypto_generate_symkey_pbkdf2 c1 h1 na pw1 salt1 it1 wk1 wiv1 = Outcome.done a ∧
      gkr_crypto_generate_symkey_pbkdf2 c1 h1 nb pw1 salt1 it1 wk1 wiv2 = Outcome.done b ∧
      a.key = b.key ∧ a.ret = b.ret) := by
  constructor
  · rw [pbkdf2_iv_form c1 h1 nonce1 pw1 salt1 it1 wk1 r1 hacc1 hret1,
      pbkdf2_iv_form c2 h2 nonce2 pw2 salt2 it2 wk2 r2 hacc2 hret2, hrand, hblk]
  · intro na nb wiv1 wiv2
    obtain ⟨a, ha, hak, har⟩ := pbkdf2_key_form c1 h1 na pw1 salt1 it1 wk1 wiv1
    obtain ⟨b, hb, hbk, hbr⟩ := pbkdf2_key_form c1 h1 nb pw1 salt1 it1 wk1 wiv2
    exact ⟨a, b, ha, hb, by rw [hak, hbk], by rw [har, hbr]⟩

set_option maxRecDepth 100000 in
theorem pbkdf2_iv_random_key_derived_witness :
    (Outcome.result (gkr_crypto_generate_symkey_pbkdf2 (CipherAlgo.mk 4 4) toyHash
      (fun n => List.replicate n 7) (some [116, 101]) (some [1, 2]) 2 true true)).iv =
    (Outcome.result (gkr_crypto_generate_symkey_pbkdf2 (CipherAlgo.mk 6 4) toyHash16
      (fun n => List.replicate n 7) (some [112, 119]) (some [3]) 5 false true)).iv ∧
    (∀ (na nb : Nat → List Nat) (wiv1 wiv2 : Bool), ∃ a b,
      gkr_crypto_generate_symkey_pbkdf2 (CipherAlgo.mk 4 4) toyHash
        na (some [116, 101]) (some [1, 2]) 2 true wiv1 = Outcome.done a ∧
      gkr_crypto_generate_symkey_pbkdf2 (CipherAlgo.mk 4 4) toyHash
        nb (some [116, 101]) (some [1, 2]) 2 true wiv2 = Outcome.done b ∧
      a.key = b.key ∧ a.ret = b.ret) :=
  pbkdf2_iv_random_key_derived (CipherAlgo.mk 4 4) (CipherAlgo.mk 6 4) toyHash toyHash16
    (fun n => List.replicate n 7) (fun n => List.replicate n 7) (some [116, 101])
    (some [112, 119]) (some [1, 2]) (some [3]) 2 5 true false
    (Outcome.result (gkr_crypto_generate_symkey_pbkdf2 (CipherAlgo.mk 4 4) toyHash
      (fun n => List.replicate n 7) (some [116, 101]) (some [1, 2]) 2 true true))
    (Outcome.result (gkr_crypto_generate_symkey_pbkdf2 (CipherAlgo.mk 6 4) toyHash16
      (fun n => List.replicate n 7) (some [112, 119]) (some [3]) 5 false true))
    rfl rfl (by decide) (by decide) (by decide) (by decide)

/-! ## Theorems: keys without a public part -/

theorem extract_mpi_numbers_none (alg : List Nat) (comps : List (List Nat × List Nat))
    (tok : List Nat) (halg : alg ≠ tok) (hv : comps.lookup tok = none) :
    gkr_crypto_sexp_extract_mpi (key_numbers alg comps) [tok] = (false, none) := by
  simp [gkr_crypto_sexp_extract_mpi, sexp_get_childv, sexp_get_childv_loop,
    find_token_numbers alg comps tok halg, hv]

theorem skey_parse_tagged (gcry_pk_map_name : List Nat → Nat) (tag alg : List Nat)
    (comps : List (List Nat × List Nat)) (rest : List Sexp)
    (htag : tag = PUBLIC_KEY ∨ tag = PRIVATE_KEY)
    (hmap : gcry_pk_map_name (c_str alg) ≠ 0) :
    gkr_crypto_skey_parse gcry_pk_map_name (tagged_key tag alg comps rest) true false true =
      { ret := true, algorithm := some (gcry_pk_map_name (c_str alg)), is_priv := none,
        numbers := some (key_numbers alg comps) } := by
  simp [gkr_crypto_skey_parse, tagged_key, key_numbers, gcry_sexp_nth_data, gcry_sexp_nth,
    hmap, htag]

theorem skey_parse_tagged_unknown (gcry_pk_map_name : List Nat → Nat) (tag alg : List Nat)
    (comps : List (List Nat × List Nat)) (rest : List Sexp)
    (hmap : gcry_pk_map_name (c_str alg) = 0) :
    gkr_crypto_skey_parse gcry_pk_map_name (tagged_key tag alg comps rest) true false true =
      { ret := false, algorithm := none, is_priv := none, numbers := none } := by
  by_cases htag : tag = PUBLIC_KEY ∨ tag = PRIVATE_KEY
  · simp [gkr_crypto_skey_parse, tagged_key, key_numbers, gcry_sexp_nth_data, gcry_sexp_nth,
      hmap, htag]
  · simp [gkr_crypto_skey_parse, tagged_key, key_numbers, gcry_sexp_nth_data, htag]

theorem rsa_numbers_missing (gcry_sexp_sprint : Sexp → List Nat) (alg : List Nat)
    (comps : List (List Nat × List Nat)) (printed : List Nat)
    (hn1 : alg ≠ [110]) (he1 : alg ≠ [101])
    (hmiss : comps.lookup [110] = none ∨ comps.lookup [101] = none)
    (hf : g_printerr (c_str (gcry_sexp_sprint (key_numbers alg comps))) = some printed) :
    rsa_numbers_to_public gcry_sexp_sprint (key_numbers alg comps) =
      Printed.done (none, printed) := by
  cases hn : comps.lookup [110] with
  | none =>
    simp only [rsa_numbers_to_public, gkr_crypto_sexp_dump, hf,
      extract_mpi_numbers_none alg comps [110] hn1 hn]
  | some vn =>
    have he : comps.lookup [101] = none := by
      rcases hmiss with h | h
      · rw [hn] at h; cases h
      · exact h
    simp only [rsa_numbers_to_public, gkr_crypto_sexp_dump, hf,
      extract_mpi_numbers alg comps [110] vn hn1 hn,
      extract_mpi_numbers_none alg comps [101] he1 he]

theorem dsa_numbers_missing (alg : List Nat) (comps : List (List Nat × List Nat))
    (h1 : alg ≠ [112]) (h2 : alg ≠ [113]) (h3 : alg ≠ [103]) (h4 : alg ≠ [121])
    (hmiss : comps.lookup [112] = none ∨ comps.lookup [113] = none ∨
      comps.lookup [103] = none ∨ comps.lookup [121] = none) :
    dsa_numbers_to_public (key_numbers alg comps) = (none, []) := by
  cases hp : comps.lookup [112] with
  | none => simp only [dsa_numbers_to_public, extract_mpi_numbers_none alg comps [112] h1 hp]
  | some vp =>
    cases hq : comps.lookup [113] with
    | none =>
      simp only [dsa_numbers_to_public, extract_mpi_numbers alg comps [112] vp h1 hp,
        extract_mpi_numbers_none alg comps [113] h2 hq]
    | some vq =>
      cases hg : comps.lookup [103] with
      | none =>
        simp only [dsa_numbers_to_public, extract_mpi_numbers alg comps [112] vp h1 hp,
          extract_mpi_numbers alg comps [113] vq h2 hq,
          extract_mpi_numbers_none alg comps [103] h3 hg]
      | some vg =>
        have hy : comps.lookup [121] = none := by
          rcases hmiss with h | h | h | h
          · rw [hp] at h; cases h
          · rw [hq] at h; cases h
          · rw [hg] at h; cases h
          · exact h
        simp only [dsa_numbers_to_public, extract_mpi_numbers alg comps [112] vp h1 hp,
          extract_mpi_numbers alg comps [113] vq h2 hq,
          extract_mpi_numbers alg comps [103] vg h3 hg,
          extract_mpi_numbers_none alg comps [121] h4 hy]

theorem dsa_numbers_public (alg : List Nat) (comps : List (List Nat × List Nat))
    (vp vq vg vy : List Nat)
    (h1 : alg ≠ [112]) (h2 : alg ≠ [113]) (h3 : alg ≠ [103]) (h4 : alg ≠ [121])
    (hp : comps.lookup [112] = some vp) (hq : comps.lookup [113] = some vq)
    (hg : comps.lookup [103] = some vg) (hy : comps.lookup [121] = some vy) :
    dsa_numbers_to_public (key_numbers alg comps) =
      (some (sexp_build_public_dsa (gcry_mpi_scan vp) (gcry_mpi_scan vq) (gcry_mpi_scan vg)
        (gcry_mpi_scan vy)), []) := by
  simp only [dsa_numbers_to_public, extract_mpi_numbers alg comps [112] vp h1 hp,
    extract_mpi_numbers alg comps [113] vq h2 hq, extract_mpi_numbers alg comps [103] vg h3 hg,
    extract_mpi_numbers alg comps [121] vy h4 hy]

theorem private_to_public_rsa_undefined (gcry_pk_map_name : List Nat → Nat)
    (gcry_sexp_sprint : Sexp → List Nat) (tag alg : List Nat)
    (comps : List (List Nat × List Nat)) (rest : List Sexp)
    (htag : tag = PUBLIC_KEY ∨ tag = PRIVATE_KEY)
    (hmap : gcry_pk_map_name (c_str alg) = GCRY_PK_RSA)
    (hf : g_printerr (c_str (gcry_sexp_sprint (key_numbers alg comps))) = none) :
    gkr_crypto_skey_private_to_public gcry_pk_map_name gcry_sexp_sprint
        (tagged_key tag alg comps rest) = Printed.undefined := by
  have hp := skey_parse_tagged gcry_pk_map_name tag alg comps rest htag (by rw [hmap]; decide)
  unfold gkr_crypto_skey_private_to_public
  rw [hp, hmap]
  simp only [if_true, rsa_numbers_undefined gcry_sexp_sprint (key_numbers alg comps) hf]

theorem private_to_public_rsa_missing (gcry_pk_map_name : List Nat → Nat)
    (gcry_sexp_sprint : Sexp → List Nat) (tag alg : List Nat)
    (comps : List (List Nat × List Nat)) (rest : List Sexp) (printed : List Nat)
    (htag : tag = PUBLIC_KEY ∨ tag = PRIVATE_KEY)
    (hmap : gcry_pk_map_name (c_str alg) = GCRY_PK_RSA) (hn1 : alg ≠ [110]) (he1 : alg ≠ [101])
    (hmiss : comps.lookup [110] = none ∨ comps.lookup [101] = none)
    (hf : g_printerr (c_str (gcry_sexp_sprint (key_numbers alg comps))) = some printed) :
    gkr_crypto_skey_private_to_public gcry_pk_map_name gcry_sexp_sprint
        (tagged_key tag alg comps rest) =
      Printed.done { ret := false, pubkey := OutSexp.null, emitted := printed } := by
  have hp := skey_parse_tagged gcry_pk_map_name tag alg comps rest htag (by rw [hmap]; decide)
  unfold gkr_crypto_skey_private_to_public
  rw [hp, hmap]
  simp only [if_true,
    rsa_numbers_missing gcry_sexp_sprint alg comps printed hn1 he1 hmiss hf]

theorem private_to_public_dsa_missing (gcry_pk_map_name : List Nat → Nat)
    (gcry_sexp_sprint : Sexp → List Nat) (tag alg : List Nat)
    (comps : List (List Nat × List Nat)) (rest : List Sexp)
    (htag : tag = PUBLIC_KEY ∨ tag = PRIVATE_KEY)
    (hmap : gcry_pk_map_name (c_str alg) = GCRY_PK_DSA)
    (h1 : alg ≠ [112]) (h2 : alg ≠ [113]) (h3 : alg ≠ [103]) (h4 : alg ≠ [121])
    (hmiss : comps.lookup [112] = none ∨ comps.lookup [113] = none ∨
      comps.lookup [103] = none ∨ comps.lookup [121] = none) :
    gkr_crypto_skey_private_to_public gcry_pk_map_name gcry_sexp_sprint
        (tagged_key tag alg comps rest) =
      Printed.done { ret := false, pubkey := OutSexp.null, emitted := [] } := by
  have hp := skey_parse_tagged gcry_pk_map_name tag alg comps rest htag (by rw [hmap]; decide)
  have hne : GCRY_PK_DSA ≠ GCRY_PK_RSA := by decide
  unfold gkr_crypto_skey_private_to_public
  rw [hp, hmap]
  simp only [hne, if_false, if_true, dsa_numbers_missing alg comps h1 h2 h3 h4 hmiss]

theorem private_to_public_other (gcry_pk_map_name : List Nat → Nat)
    (gcry_sexp_sprint : Sexp → List Nat) (tag alg : List Nat)
    (comps : List (List Nat × List Nat)) (rest : List Sexp)
    (hrsa : gcry_pk_map_name (c_str alg) ≠ GCRY_PK_RSA)
    (hdsa : gcry_pk_map_name (c_str alg) ≠ GCRY_PK_DSA) :
    gkr_crypto_skey_private_to_public gcry_pk_map_name gcry_sexp_sprint
        (tagged_key tag alg comps rest) =
      Printed.done { ret := false, pubkey := OutSexp.untouched, emitted := [] } := by
  by_cases hmap : gcry_pk_map_name (c_str alg) = 0
  · unfold gkr_crypto_skey_private_to_public
    rw [skey_parse_tagged_unknown gcry_pk_map_name tag alg comps rest hmap]
  · by_cases htag : tag = PUBLIC_KEY ∨ tag = PRIVATE_KEY
    · unfold gkr_crypto_skey_private_to_public
      rw [skey_parse_tagged gcry_pk_map_name tag alg comps rest htag hmap]
      simp only [hrsa, hdsa, if_false]
    · simp [gkr_crypto_skey_private_to_public, gkr_crypto_skey_parse, tagged_key,
        gcry_sexp_nth_data, htag]

theorem private_to_public_dsa (gcry_pk_map_name : List Nat → Nat)
    (gcry_sexp_sprint : Sexp → List Nat) (tag alg : List Nat)
    (comps : List (List Nat × List Nat)) (rest : List Sexp) (vp vq vg vy : List Nat)
    (htag : tag = PUBLIC_KEY ∨ tag = PRIVATE_KEY)
    (hmap : gcry_pk_map_name (c_str alg) = GCRY_PK_DSA)
    (h1 : alg ≠ [112]) (h2 : alg ≠ [113]) (h3 : alg ≠ [103]) (h4 : alg ≠ [121])
    (hp : comps.lookup [112] = some vp) (hq : comps.lookup [113] = some vq)
    (hg : comps.lookup [103] = some vg) (hy : comps.lookup [121] = some vy) :
    gkr_crypto_skey_private_to_public gcry_pk_map_name gcry_sexp_sprint
        (tagged_key tag alg comps rest) =
      Printed.done
        { ret := true,
          pubkey := OutSexp.expr (sexp_build_public_dsa (gcry_mpi_scan vp) (gcry_mpi_scan vq)
            (gcry_mpi_scan vg) (gcry_mpi_scan vy)),
          emitted := [] } := by
  have hpar := skey_parse_tagged gcry_pk_map_name tag alg comps rest htag (by rw [hmap]; decide)
  have hne : GCRY_PK_DSA ≠ GCRY_PK_RSA := by decide
  unfold gkr_crypto_skey_private_to_public
  rw [hpar, hmap]
  simp only [hne, if_false, if_true,
    dsa_numbers_public alg comps vp vq vg vy h1 h2 h3 h4 hp hq hg hy]

theorem public_dsa_extract (p q g y : Nat) :
    gkr_crypto_sexp_extract_mpi (sexp_build_public_dsa p q g y) [[112]] = (true, some p) ∧
    gkr_crypto_sexp_extract_mpi (sexp_build_public_dsa p q g y) [[113]] = (true, some q) ∧
    gkr_crypto_sexp_extract_mpi (sexp_build_public_dsa p q g y) [[103]] = (true, some g) ∧
    gkr_crypto_sexp_extract_mpi (sexp_build_public_dsa p q g y) [[121]] = (true, some y) := by
  have h1 : PUBLIC_KEY ≠ [112] := by decide
  have h2 : PUBLIC_KEY ≠ [113] := by decide
  have h3 : PUBLIC_KEY ≠ [103] := by decide
  have h4 : PUBLIC_KEY ≠ [121] := by decide
  refine ⟨?_, ?_, ?_, ?_⟩ <;>
    simp [gkr_crypto_sexp_extract_mpi, sexp_get_childv, sexp_get_childv_loop,
      sexp_build_public_dsa, gcry_sexp_find_token, sexp_find_token_in, gcry_sexp_nth_mpi,
      gcry_sexp_nth_data, gcry_mpi_scan_print_std, h1, h2, h3, h4]

/-- C21. For a key expression `(tag (alg (name value) ...) ...)` with tag `public-key` or
`private-key`: when `alg` is mapped to RSA and `n` or `e` is missing, the call of
`gkr_crypto_skey_private_to_public` is undefined if the text of the list of numbers, which
`rsa_numbers_to_public` hands to `g_printerr` as the format, has a `%` outside of `%%`, and
otherwise returns FALSE with `*pubkey = NULL`; it returns FALSE with `*pubkey = NULL` when
`alg` is mapped to DSA and one of `p`, `q`, `g`, `y` is missing; it returns FALSE and does
not store to `*pubkey` when `alg` is mapped to neither RSA nor DSA; and for DSA with all
four present it returns TRUE with `(public-key (dsa (p P) (q Q) (g G) (y Y)))`, whose numbers
read back as the input's. -/
theorem private_to_public_failures_format_string (gcry_pk_map_name : List Nat → Nat)
    (gcry_sexp_sprint : Sexp → List Nat) (tag alg : List Nat)
    (comps : List (List Nat × List Nat)) (rest : List Sexp) (vp vq vg vy : List Nat)
    (htag : tag = PUBLIC_KEY ∨ tag = PRIVATE_KEY) :
    (gcry_pk_map_name (c_str alg) = GCRY_PK_RSA →
      g_printerr (c_str (gcry_sexp_sprint (key_numbers alg comps))) = none →
      gkr_crypto_skey_private_to_public gcry_pk_map_name gcry_sexp_sprint
        (tagged_key tag alg comps rest) = Printed.undefined) ∧
    (gcry_pk_map_name (c_str alg) = GCRY_PK_RSA → alg ≠ [110] → alg ≠ [101] →
      (comps.lookup [110] = none ∨ comps.lookup [101] = none) →
      ∀ printed,
        g_printerr (c_str (gcry_sexp_sprint (key_numbers alg comps))) = some printed →
        gkr_crypto_skey_private_to_public gcry_pk_map_name gcry_sexp_sprint
            (tagged_key tag alg comps rest) =
          Printed.done { ret := false, pubkey := OutSexp.null, emitted := printed }) ∧
    (gcry_pk_map_name (c_str alg) = GCRY_PK_DSA →
      alg ≠ [112] → alg ≠ [113] → alg ≠ [103] → alg ≠ [121] →
      (comps.lookup [112] = none ∨ comps.lookup [113] = none ∨
        comps.lookup [103] = none ∨ comps.lookup [121] = none) →
      gkr_crypto_skey_private_to_public gcry_pk_map_name gcry_sexp_sprint
          (tagged_key tag alg comps rest) =
        Printed.done { ret := false, pubkey := OutSexp.null, emitted := [] }) ∧
    (gcry_pk_map_name (c_str alg) ≠ GCRY_PK_RSA → gcry_pk_map_name (c_str alg) ≠ GCRY_PK_DSA →
      gkr_crypto_skey_private_to_public gcry_pk_map_name gcry_sexp_sprint
          (tagged_key tag alg comps rest) =
        Printed.done { ret := false, pubkey := OutSexp.untouched, emitted := [] }) ∧
    (gcry_pk_map_name (c_str alg) = GCRY_PK_DSA →
      alg ≠ [112] → alg ≠ [113] → alg ≠ [103] → alg ≠ [121] →
      comps.lookup [112] = some vp → comps.lookup [113] = some vq →
      comps.lookup [103] = some vg → comps.lookup [121] = some vy →
      gkr_crypto_skey_private_to_public gcry_pk_map_name gcry_sexp_sprint
          (tagged_key tag alg comps rest) =
        Printed.done
          { ret := true,
            pubkey := OutSexp.expr (sexp_build_public_dsa (gcry_mpi_scan vp) (gcry_mpi_scan vq)
              (gcry_mpi_scan vg) (gcry_mpi_scan vy)),
            emitted := [] } ∧
      gkr_crypto_sexp_extract_mpi (sexp_build_public_dsa (gcry_mpi_scan vp) (gcry_mpi_scan vq)
        (gcry_mpi_scan vg) (gcry_mpi_scan vy)) [[112]] = (true, some (gcry_mpi_scan vp)) ∧
      gkr_crypto_sexp_extract_mpi (sexp_build_public_dsa (gcry_mpi_scan vp) (gcry_mpi_scan vq)
        (gcry_mpi_scan vg) (gcry_mpi_scan vy)) [[113]] = (true, some (gcry_mpi_scan vq)) ∧
      gkr_crypto_sexp_extract_mpi (sexp_build_public_dsa (gcry_mpi_scan vp) (gcry_mpi_scan vq)
        (gcry_mpi_scan vg) (gcry_mpi_scan vy)) [[103]] = (true, some (gcry_mpi_scan vg)) ∧
      gkr_crypto_sexp_extract_mpi (sexp_build_public_dsa (gcry_mpi_scan vp) (gcry_mpi_scan vq)
        (gcry_mpi_scan vg) (gcry_mpi_scan vy)) [[121]] = (true, some (gcry_mpi_scan vy))) :=
  ⟨fun hmap hf => private_to_public_rsa_undefined gcry_pk_map_name gcry_sexp_sprint tag alg
      comps rest htag hmap hf,
   fun hmap hn1 he1 hmiss printed hf =>
      private_to_public_rsa_missing gcry_pk_map_name gcry_sexp_sprint tag alg comps rest printed
        htag hmap hn1 he1 hmiss hf,
   fun hmap h1 h2 h3 h4 hmiss =>
      private_to_public_dsa_missing gcry_pk_map_name gcry_sexp_sprint tag alg comps rest htag
        hmap h1 h2 h3 h4 hmiss,
   fun hrsa hdsa =>
      private_to_public_other gcry_pk_map_name gcry_sexp_sprint tag alg comps rest hrsa hdsa,
   fun hmap h1 h2 h3 h4 hp hq hg hy =>
      ⟨private_to_public_dsa gcry_pk_map_name gcry_sexp_sprint tag alg comps rest vp vq vg vy
        htag hmap h1 h2 h3 h4 hp hq hg hy, public_dsa_extract _ _ _ _⟩⟩

theorem private_to_public_failures_format_string_witness :
    sexp_sprint_advanced (key_numbers [114, 115, 97] [([101], [37, 115]), ([100], [17, 171])]) =
      [40, 114, 115, 97, 32, 10,
       32, 40, 101, 32, 34, 37, 115, 34, 41, 10,
       32, 40, 100, 32, 35, 49, 49, 65, 66, 35, 41, 10,
       32, 41, 10] ∧
    gkr_crypto_skey_private_to_public toy_pk_map_name sexp_sprint_advanced
      (tagged_key PRIVATE_KEY [114, 115, 97] [([101], [37, 115]), ([100], [17, 171])] [])
      = Printed.undefined ∧
    gkr_crypto_skey_private_to_public toy_pk_map_name sexp_sprint_advanced
        (tagged_key PRIVATE_KEY [114, 115, 97] [([110], [12, 161]), ([100], [10, 193])] []) =
      Printed.done
        { ret := false, pubkey := OutSexp.null,
          emitted :=
            [40, 114, 115, 97, 32, 10,
             32, 40, 110, 32, 34, 92, 102, 161, 34, 41, 10,
             32, 40, 100, 32, 34, 92, 110, 193, 34, 41, 10,
             32, 41, 10] } ∧
    gkr_crypto_skey_private_to_public toy_pk_map_name sexp_sprint_advanced
        (tagged_key PRIVATE_KEY [100, 115, 97]
          [([112], [23]), ([113], [11]), ([103], [4]), ([120], [7])] []) =
      Printed.done { ret := false, pubkey := OutSexp.null, emitted := [] } ∧
    gkr_crypto_skey_private_to_public toy_pk_map_name sexp_sprint_advanced
        (tagged_key PRIVATE_KEY [101, 108, 103] [([112], [23]), ([103], [4]), ([121], [8])] []) =
      Printed.done { ret := false, pubkey := OutSexp.untouched, emitted := [] } ∧
    (gkr_crypto_skey_private_to_public toy_pk_map_name sexp_sprint_advanced
        (tagged_key PRIVATE_KEY [100, 115, 97]
          [([112], [23]), ([113], [11]), ([103], [4]), ([121], [8]), ([120], [7])] []) =
      Printed.done
        { ret := true,
          pubkey := OutSexp.expr (sexp_build_public_dsa (gcry_mpi_scan [23])
            (gcry_mpi_scan [11]) (gcry_mpi_scan [4]) (gcry_mpi_scan [8])),
          emitted := [] } ∧
      gkr_crypto_sexp_extract_mpi (sexp_build_public_dsa (gcry_mpi_scan [23])
        (gcry_mpi_scan [11]) (gcry_mpi_scan [4]) (gcry_mpi_scan [8])) [[112]]
        = (true, some (gcry_mpi_scan [23])) ∧
      gkr_crypto_sexp_extract_mpi (sexp_build_public_dsa (gcry_mpi_scan [23])
        (gcry_mpi_scan [11]) (gcry_mpi_scan [4]) (gcry_mpi_scan [8])) [[113]]
        = (true, some (gcry_mpi_scan [11])) ∧
      gkr_crypto_sexp_extract_mpi (sexp_build_public_dsa (gcry_mpi_scan [23])
        (gcry_mpi_scan [11]) (gcry_mpi_scan [4]) (gcry_mpi_scan [8])) [[103]]
        = (true, some (gcry_mpi_scan [4])) ∧
      gkr_crypto_sexp_extract_mpi (sexp_build_public_dsa (gcry_mpi_scan [23])
        (gcry_mpi_scan [11]) (gcry_mpi_scan [4]) (gcry_mpi_scan [8])) [[121]]
        = (true, some (gcry_mpi_scan [8]))) :=
  ⟨by decide,
   (private_to_public_failures_format_string toy_pk_map_name sexp_sprint_advanced PRIVATE_KEY
      [114, 115, 97] [([101], [37, 115]), ([100], [17, 171])] [] [] [] [] [] (Or.inr rfl)).1
      (by decide) (by decide),
   (private_to_public_failures_format_string toy_pk_map_name sexp_sprint_advanced PRIVATE_KEY
      [114, 115, 97] [([110], [12, 161]), ([100], [10, 193])] [] [] [] [] [] (Or.inr rfl)).2.1
      (by decide) (by decide) (by decide) (Or.inr (by decide)) _ (by decide),
   (private_to_public_failures_format_string toy_pk_map_name sexp_sprint_advanced PRIVATE_KEY
      [100, 115, 97] [([112], [23]), ([113], [11]), ([103], [4]), ([120], [7])] [] [] [] [] []
      (Or.inr rfl)).2.2.1
      (by decide) (by decide) (by decide) (by decide) (by decide)
      (Or.inr (Or.inr (Or.inr (by decide)))),
   (private_to_public_failures_format_string toy_pk_map_name sexp_sprint_advanced PRIVATE_KEY
      [101, 108, 103] [([112], [23]), ([103], [4]), ([121], [8])] [] [] [] [] []
      (Or.inr rfl)).2.2.2.1
      (by decide) (by decide),
   (private_to_public_failures_format_string toy_pk_map_name sexp_sprint_advanced PRIVATE_KEY
      [100, 115, 97] [([112], [23]), ([113], [11]), ([103], [4]), ([121], [8]), ([120], [7])] []
      [23] [11] [4] [8] (Or.inr rfl)).2.2.2.2
      (by decide) (by decide) (by decide) (by decide) (by decide) (by decide) (by decide)
      (by decide) (by decide)⟩

/-! ## Theorems: parsing a key expression -/

theorem skey_parse_success (gcry_pk_map_name : List Nat → Nat) (tag name : List Nat)
    (second : Sexp) (more rest : List Sexp) (wa wp wn : Bool)
    (htag : tag = PUBLIC_KEY ∨ tag = PRIVATE_KEY)
    (hsecond : second = Sexp.atom name ∨ second = Sexp.list (Sexp.atom name :: more))
    (hmap : gcry_pk_map_name (c_str name) ≠ 0) :
    gkr_crypto_skey_parse gcry_pk_map_name (Sexp.list (Sexp.atom tag :: second :: rest))
      wa wp wn =
      { ret := true,
        algorithm := if wa then some (gcry_pk_map_name (c_str name)) else none,
        is_priv := if wp then some (decide (tag = PRIVATE_KEY)) else none,
        numbers := if wn then
          some (sexp_as_list second)
          else none } := by
  have hpp : PRIVATE_KEY ≠ PUBLIC_KEY := by decide
  rcases htag with rfl | rfl <;> rcases hsecond with rfl | rfl <;>
    simp [gkr_crypto_skey_parse, gcry_sexp_nth_data, gcry_sexp_nth, hmap, hpp, hpp.symm,
      sexp_as_list]

theorem skey_parse_shape (gcry_pk_map_name : List Nat → Nat) (s_key : Sexp) (wa wp wn : Bool)
    (hret : (gkr_crypto_skey_parse gcry_pk_map_name s_key wa wp wn).ret = true) :
    ∃ tag name second more rest,
      s_key = Sexp.list (Sexp.atom tag :: second :: rest) ∧
      (tag = PUBLIC_KEY ∨ tag = PRIVATE_KEY) ∧
      (second = Sexp.atom name ∨ second = Sexp.list (Sexp.atom name :: more)) ∧
      gcry_pk_map_name (c_str name) ≠ 0 := by
  cases s_key with
  | atom d =>
    exfalso
    by_cases htag : d = PUBLIC_KEY ∨ d = PRIVATE_KEY <;>
      simp [gkr_crypto_skey_parse, gcry_sexp_nth_data, gcry_sexp_nth, htag] at hret
  | list items =>
    cases items with
    | nil => simp [gkr_crypto_skey_parse, gcry_sexp_nth_data] at hret
    | cons first rest1 =>
      cases first with
      | list l => simp [gkr_crypto_skey_parse, gcry_sexp_nth_data] at hret
      | atom tag =>
        by_cases htag : tag = PUBLIC_KEY ∨ tag = PRIVATE_KEY
        · cases rest1 with
          | nil => simp [gkr_crypto_skey_parse, gcry_sexp_nth_data, gcry_sexp_nth, htag] at hret
          | cons second rest =>
            cases second with
            | atom name =>
              by_cases hmap : gcry_pk_map_name (c_str name) = 0
              · simp [gkr_crypto_skey_parse, gcry_sexp_nth_data, gcry_sexp_nth, htag, hmap]
                  at hret
              · exact ⟨tag, name, Sexp.atom name, [], rest, rfl, htag, Or.inl rfl, hmap⟩
            | list l =>
              cases l with
              | nil =>
                simp [gkr_crypto_skey_parse, gcry_sexp_nth_data, gcry_sexp_nth, htag] at hret
              | cons y more =>
                cases y with
                | list l2 =>
                  simp [gkr_crypto_skey_parse, gcry_sexp_nth_data, gcry_sexp_nth, htag] at hret
                | atom name =>
                  by_cases hmap : gcry_pk_map_name (c_str name) = 0
                  · simp [gkr_crypto_skey_parse, gcry_sexp_nth_data, gcry_sexp_nth, htag, hmap]
                      at hret
                  · exact ⟨tag, name, Sexp.list (Sexp.atom name :: more), more, rest, rfl,
                      htag, Or.inr rfl, hmap⟩
        · simp [gkr_crypto_skey_parse, gcry_sexp_nth_data, htag] at hret

theorem skey_parse_failure (gcry_pk_map_name : List Nat → Nat) (s_key : Sexp) (wa wp wn : Bool)
    (hret : (gkr_crypto_skey_parse gcry_pk_map_name s_key wa wp wn).ret = false) :
    gkr_crypto_skey_parse gcry_pk_map_name s_key wa wp wn =
      { ret := false, algorithm := none, is_priv := none, numbers := none } := by
  cases hd : gcry_sexp_nth_data s_key 0 with
  | none => simp [gkr_crypto_skey_parse, hd]
  | some data =>
    by_cases htag : data = PUBLIC_KEY ∨ data = PRIVATE_KEY
    · cases hc : gcry_sexp_nth s_key 1 with
      | none => simp [gkr_crypto_skey_parse, hd, htag, hc]
      | some child =>
        cases hd2 : gcry_sexp_nth_data child 0 with
        | none => simp [gkr_crypto_skey_parse, hd, htag, hc, hd2]
        | some data2 =>
          by_cases halgo : gcry_pk_map_name (c_str data2) = 0
          · simp [gkr_crypto_skey_parse, hd, htag, hc, hd2, halgo]
          · simp [gkr_crypto_skey_parse, hd, htag, hc, hd2, halgo] at hret
    · simp [gkr_crypto_skey_parse, hd, htag]

/-- C22 (amended). `gkr_crypto_skey_parse` returns TRUE if and only if the expression is a
list whose first element is an atom equal to `public-key` or `private-key` and whose second
element is an atom, or a list that starts with an atom, and that atom, read as a C string,
is a name the registry knows.  It then stores `is_priv` true exactly for `private-key`, the
mapped identifier as `algorithm`, and as `numbers` the second element (an atom comes as the
list of one element that `gcry_sexp_nth` makes of it).  When it returns FALSE it has stored
to none of the three outputs. -/
theorem skey_parse_characterised (gcry_pk_map_name : List Nat → Nat) (s_key : Sexp)
    (wa wp wn : Bool) :
    ((gkr_crypto_skey_parse gcry_pk_map_name s_key wa wp wn).ret = true ↔
      ∃ tag name second more rest,
        s_key = Sexp.list (Sexp.atom tag :: second :: rest) ∧
        (tag = PUBLIC_KEY ∨ tag = PRIVATE_KEY) ∧
        (second = Sexp.atom name ∨ second = Sexp.list (Sexp.atom name :: more)) ∧
        gcry_pk_map_name (c_str name) ≠ 0) ∧
    (∀ tag name second more rest,
      s_key = Sexp.list (Sexp.atom tag :: second :: rest) →
      (tag = PUBLIC_KEY ∨ tag = PRIVATE_KEY) →
      (second = Sexp.atom name ∨ second = Sexp.list (Sexp.atom name :: more)) →
      gcry_pk_map_name (c_str name) ≠ 0 →
      gkr_crypto_skey_parse gcry_pk_map_name s_key wa wp wn =
        { ret := true,
          algorithm := if wa then some (gcry_pk_map_name (c_str name)) else none,
          is_priv := if wp then some (decide (tag = PRIVATE_KEY)) else none,
          numbers := if wn then
            some (sexp_as_list second)
            else none }) ∧
    ((gkr_crypto_skey_parse gcry_pk_map_name s_key wa wp wn).ret = false →
      gkr_crypto_skey_parse gcry_pk_map_name s_key wa wp wn =
        { ret := false, algorithm := none, is_priv := none, numbers := none }) := by
  refine ⟨⟨skey_parse_shape gcry_pk_map_name s_key wa wp wn, ?_⟩, ?_,
    skey_parse_failure gcry_pk_map_name s_key wa wp wn⟩
  · rintro ⟨tag, name, second, more, rest, rfl, htag, hsecond, hmap⟩
    rw [skey_parse_success gcry_pk_map_name tag name second more rest wa wp wn htag hsecond hmap]
  · rintro tag name second more rest rfl htag hsecond hmap
    exact skey_parse_success gcry_pk_map_name tag name second more rest wa wp wn htag hsecond
      hmap

theorem skey_parse_characterised_witness :
    gkr_crypto_skey_parse toy_pk_map_name
      (Sexp.list [Sexp.atom PRIVATE_KEY,
        Sexp.list [Sexp.atom [100, 115, 97], Sexp.list [Sexp.atom [112], Sexp.atom [23]]]])
      true true true =
      { ret := true, algorithm := some GCRY_PK_DSA, is_priv := some true,
        numbers := some (Sexp.list [Sexp.atom [100, 115, 97],
          Sexp.list [Sexp.atom [112], Sexp.atom [23]]]) } ∧
    gkr_crypto_skey_parse toy_pk_map_name
      (Sexp.list [Sexp.atom [107, 101, 121], Sexp.list [Sexp.atom [100, 115, 97]]])
      true true true =
      { ret := false, algorithm := none, is_priv := none, numbers := none } :=
  ⟨(skey_parse_characterised toy_pk_map_name
      (Sexp.list [Sexp.atom PRIVATE_KEY,
        Sexp.list [Sexp.atom [100, 115, 97], Sexp.list [Sexp.atom [112], Sexp.atom [23]]]])
      true true true).2.1 PRIVATE_KEY [100, 115, 97]
      (Sexp.list [Sexp.atom [100, 115, 97], Sexp.list [Sexp.atom [112], Sexp.atom [23]]])
      [Sexp.list [Sexp.atom [112], Sexp.atom [23]]] [] rfl (Or.inr rfl) (Or.inr rfl)
      (by decide),
   (skey_parse_characterised toy_pk_map_name
      (Sexp.list [Sexp.atom [107, 101, 121], Sexp.list [Sexp.atom [100, 115, 97]]])
      true true true).2.2 (by decide)⟩

/-- C22 (counterexample). For `(private-key rsa)`, whose second element is the atom `rsa`
and so has no first element, `gkr_crypto_skey_parse` returns TRUE, and `numbers` is the
list `(rsa)`, not the second element. -/
theorem skey_parse_accepts_atom_second :
    gkr_crypto_skey_parse toy_pk_map_name
      (Sexp.list [Sexp.atom PRIVATE_KEY, Sexp.atom [114, 115, 97]]) true true true =
      { ret := true, algorithm := some GCRY_PK_RSA, is_priv := some true,
        numbers := some (Sexp.list [Sexp.atom [114, 115, 97]]) } := by
  rfl

/-! ## Theorems: extracting a number along a path -/

theorem sexp_get_childv_loop_walk (sexp : Sexp) (path : List (List Nat)) :
    ∀ node, sexp_get_childv_loop sexp (some node) path = sexp_walk node path := by
  induction path with
  | nil => intro node; rfl
  | cons name path ih =>
    intro node
    simp only [sexp_get_childv_loop, sexp_walk, Option.getD_some]
    cases gcry_sexp_find_token node name with
    | none => rfl
    | some child => exact ih child

theorem sexp_get_childv_walk (sexp : Sexp) (path : List (List Nat)) (hpath : path ≠ []) :
    sexp_get_childv sexp path = sexp_walk sexp path := by
  cases path with
  | nil => exact absurd rfl hpath
  | cons name path =>
    simp only [sexp_get_childv, sexp_get_childv_loop, sexp_walk, Option.getD_none]
    cases gcry_sexp_find_token sexp name with
    | none => rfl
    | some child => exact sexp_get_childv_loop_walk sexp path child

theorem sexp_walk_append (path more : List (List Nat)) :
    ∀ sexp, sexp_walk sexp (path ++ more) =
      (sexp_walk sexp path).bind (fun node => sexp_walk node more) := by
  induction path with
  | nil => intro sexp; rfl
  | cons name path ih =>
    intro sexp
    simp only [List.cons_append, sexp_walk]
    cases gcry_sexp_find_token sexp name with
    | none => rfl
    | some child => exact ih child

theorem extract_mpi_of_walk (sexp : Sexp) (path : List (List Nat)) (hpath : path ≠ []) :
    gkr_crypto_sexp_extract_mpi sexp path =
      (((sexp_walk sexp path).bind (fun node => gcry_sexp_nth_mpi node 1)).isSome,
        (sexp_walk sexp path).bind (fun node => gcry_sexp_nth_mpi node 1)) := by
  simp only [gkr_crypto_sexp_extract_mpi, sexp_get_childv_walk sexp path hpath]
  cases sexp_walk sexp path <;> rfl

/-- C23 (amended). For every expression and every path of at least one name,
`gkr_crypto_sexp_extract_mpi` walks the path, each name looked up with
`gcry_sexp_find_token` under the node found for the name before it: when a name is not found
under the node its predecessors lead to, it returns FALSE with `*mpi = NULL`, whatever
follows in the path; when the whole path leads to a node it returns TRUE with the data of
the node's second element read as an unsigned big-endian number, and FALSE with
`*mpi = NULL` when that element is no data.  For the path without any name it returns FALSE
with `*mpi = NULL`. -/
theorem extract_mpi_walks_path (sexp : Sexp) (path : List (List Nat)) (hpath : path ≠ []) :
    (∀ pre name post node, path = pre ++ name :: post → sexp_walk sexp pre = some node →
      gcry_sexp_find_token node name = none →
      gkr_crypto_sexp_extract_mpi sexp path = (false, none)) ∧
    (∀ node data, sexp_walk sexp path = some node → gcry_sexp_nth_data node 1 = some data →
      gkr_crypto_sexp_extract_mpi sexp path = (true, some (gcry_mpi_scan data))) ∧
    (∀ node, sexp_walk sexp path = some node → gcry_sexp_nth_data node 1 = none →
      gkr_crypto_sexp_extract_mpi sexp path = (false, none)) ∧
    gkr_crypto_sexp_extract_mpi sexp [] = (false, none) := by
  refine ⟨?_, ?_, ?_, rfl⟩
  · intro pre name post node hp hpre hmiss
    rw [extract_mpi_of_walk sexp path hpath, hp, sexp_walk_append, hpre]
    simp [sexp_walk, hmiss]
  · intro node data hw hd
    rw [extract_mpi_of_walk sexp path hpath, hw]
    simp [gcry_sexp_nth_mpi, hd]
  · intro node hw hd
    rw [extract_mpi_of_walk sexp path hpath, hw]
    simp [gcry_sexp_nth_mpi, hd]

theorem extract_mpi_walks_path_witness :
    gkr_crypto_sexp_extract_mpi
      (private_key [114, 115, 97] [([110], [12, 161]), ([101], [17])] [])
      [[114, 115, 97], [120], [110]] = (false, none) ∧
    gkr_crypto_sexp_extract_mpi
      (private_key [114, 115, 97] [([110], [12, 161]), ([101], [17])] [])
      [[114, 115, 97], [110]] = (true, some (gcry_mpi_scan [12, 161])) ∧
    gkr_crypto_sexp_extract_mpi
      (private_key [114, 115, 97] [([110], [12, 161]), ([101], [17])] [])
      [[114, 115, 97]] = (false, none) :=
  ⟨(extract_mpi_walks_path (private_key [114, 115, 97] [([110], [12, 161]), ([101], [17])] [])
      [[114, 115, 97], [120], [110]] (by decide)).1 [[114, 115, 97]] [120] [[110]]
      (key_numbers [114, 115, 97] [([110], [12, 161]), ([101], [17])]) rfl rfl rfl,
   (extract_mpi_walks_path (private_key [114, 115, 97] [([110], [12, 161]), ([101], [17])] [])
      [[114, 115, 97], [110]] (by decide)).2.1
      (key_component ([110], [12, 161])) [12, 161] rfl rfl,
   (extract_mpi_walks_path (private_key [114, 115, 97] [([110], [12, 161]), ([101], [17])] [])
      [[114, 115, 97]] (by decide)).2.2.1
      (key_numbers [114, 115, 97] [([110], [12, 161]), ([101], [17])]) rfl rfl⟩

/-- C23 (counterexample). For the expression `(n 5)` and the path without any name, every
name of the path is found and the node the path leads to, the expression itself, holds the
number 5, but `gkr_crypto_sexp_extract_mpi` returns FALSE with `*mpi = NULL`. -/
theorem extract_mpi_empty_path :
    sexp_walk (key_component ([110], [5])) [] = some (key_component ([110], [5])) ∧
    gcry_sexp_nth_mpi (key_component ([110], [5])) 1 = some 5 ∧
    gkr_crypto_sexp_extract_mpi (key_component ([110], [5])) [] = (false, none) ∧
    gkr_crypto_sexp_extract_mpi (key_component ([110], [5])) [[110]] = (true, some 5) :=
  ⟨rfl, rfl, rfl, rfl⟩

/-! ## Theorems: what deriving the public key sends out -/

/-- C24. For two RSA private keys with the same `n` and `e` and different `d`,
`gkr_crypto_skey_private_to_public` returns the same boolean and the same public key, but
what it sends to the error stream differs: `rsa_numbers_to_public` dumps the whole list of
numbers, `d` included (as `"\n\xc1"` in the first text, as `#019D#` in the second). -/
theorem rsa_dump_reveals_private :
    gkr_crypto_skey_private_to_public toy_pk_map_name sexp_sprint_advanced
        (private_key [114, 115, 97] [([110], [12, 161]), ([101], [17]), ([100], [10, 193])] []) =
      Printed.done
        { ret := true, pubkey := OutSexp.expr (sexp_build_public_rsa 3233 17),
          emitted :=
            [40, 114, 115, 97, 32, 10,
             32, 40, 110, 32, 34, 92, 102, 161, 34, 41, 10,
             32, 40, 101, 32, 35, 49, 49, 35, 41, 10,
             32, 40, 100, 32, 34, 92, 110, 193, 34, 41, 10,
             32, 41, 10] } ∧
    gkr_crypto_skey_private_to_public toy_pk_map_name sexp_sprint_advanced
        (private_key [114, 115, 97] [([110], [12, 161]), ([101], [17]), ([100], [1, 157])] []) =
      Printed.done
        { ret := true, pubkey := OutSexp.expr (sexp_build_public_rsa 3233 17),
          emitted :=
            [40, 114, 115, 97, 32, 10,
             32, 40, 110, 32, 34, 92, 102, 161, 34, 41, 10,
             32, 40, 101, 32, 35, 49, 49, 35, 41, 10,
             32, 40, 100, 32, 35, 48, 49, 57, 68, 35, 41, 10,
             32, 41, 10] } ∧
    gkr_crypto_sexp_dump sexp_sprint_advanced (key_numbers [114, 115, 97]
        [([110], [12, 161]), ([101], [17]), ([100], [10, 193])]) ≠
      gkr_crypto_sexp_dump sexp_sprint_advanced (key_numbers [114, 115, 97]
        [([110], [12, 161]), ([101], [17]), ([100], [1, 157])]) :=
  ⟨rfl, rfl, by decide⟩

/-! ## Theorems: decoding an assuan argument -/

set_option maxRecDepth 100000 in
theorem upper_hex_facts : ∀ c, c < 71 → is_upper_hex c = true →
    strchr HEX_CHARS c = some (hexval c) ∧ hexval c < 16 := by
  decide

theorem upper_hex_strchr (c : Nat) (hc : is_upper_hex c = true) :
    strchr HEX_CHARS c = some (hexval c) ∧ hexval c < 16 := by
  have hlt : c < 71 := by
    simp only [is_upper_hex, Bool.or_eq_true, Bool.and_eq_true, decide_eq_true_eq] at hc
    omega
  exact upper_hex_facts c hlt hc

theorem store_at (done more : List Nat) (c v : Nat) :
    store (done ++ c :: more) done.length v = done ++ v :: more := by
  simp [store]

theorem getD_at (done l : List Nat) (k : Nat) :
    (done ++ l).getD (done.length + k) 0 = l.getD k 0 := by
  rw [List.getD_append_right _ _ _ _ (by omega), Nat.add_sub_cancel_left]

theorem getD_at_zero (done l : List Nat) : (done ++ l).getD done.length 0 = l.getD 0 0 := by
  have := getD_at done l 0
  simpa using this

theorem range_map_getD (B : List Nat) : ∀ n, n ≤ B.length →
    (List.range n).map (fun k => B.getD k 0) = B.take n := by
  intro n
  induction n with
  | zero => intro _; simp
  | succ n ih =>
    intro hn
    have hlt : n < B.length := by omega
    rw [List.range_succ, List.map_append, ih (by omega), List.take_succ]
    simp [List.getD_eq_getElem?_getD, List.getElem?_eq_getElem hlt]

theorem memmove_collapse (done r tail : List Nat) (v x y : Nat) :
    ∃ tail2, memmove (done ++ v :: x :: y :: (r ++ 0 :: tail)) (done.length + 1)
        (done.length + 3) (r.length + 1) = (done ++ [v]) ++ r ++ 0 :: tail2 ∧
      tail2.length = tail.length + 2 := by
  refine ⟨(done ++ v :: x :: y :: (r ++ 0 :: tail)).drop (done.length + 1 + (r.length + 1)),
    ?_, ?_⟩
  · have hsrc : ∀ k, (done ++ v :: x :: y :: (r ++ 0 :: tail)).getD (done.length + 3 + k) 0 =
        (r ++ 0 :: tail).getD k 0 := by
      intro k
      have e : done ++ v :: x :: y :: (r ++ 0 :: tail) = (done ++ [v, x, y]) ++ (r ++ 0 :: tail) := by
        simp
      rw [e]
      have hl : (done ++ [v, x, y]).length = done.length + 3 := by simp
      rw [← hl]
      exact getD_at _ _ k
    have htake : (done ++ v :: x :: y :: (r ++ 0 :: tail)).take (done.length + 1) = done ++ [v] := by
      rw [List.take_append_eq_append_take]
      simp
    have hmid : (r ++ 0 :: tail).take (r.length + 1) = r ++ [0] := by
      rw [List.take_append_eq_append_take]
      simp
    simp only [memmove, hsrc, range_map_getD (r ++ 0 :: tail) (r.length + 1) (by simp), htake,
      hmid]
    simp
  · simp only [List.length_drop, List.length_append, List.length_cons]
    omega

theorem switch_plain (done more reads : List Nat) (c : Nat) (len : Int) (h43 : c ≠ 43)
    (h37 : c ≠ 37) :
    (decode_assuan_switch
      { mem := done ++ c :: more, arg := done.length, len := len, reads := reads }).mem
      = done ++ c :: more ∧
    (decode_assuan_switch
      { mem := done ++ c :: more, arg := done.length, len := len, reads := reads }).arg
      = done.length ∧
    (decode_assuan_switch
      { mem := done ++ c :: more, arg := done.length, len := len, reads := reads }).len
      = len := by
  have g : (done ++ c :: more).getD done.length 0 = c := by rw [getD_at_zero]; rfl
  simp only [decode_assuan_switch, g, h43, h37, if_false, and_self]

theorem switch_plus (done more reads : List Nat) (len : Int) :
    (decode_assuan_switch
      { mem := done ++ 43 :: more, arg := done.length, len := len, reads := reads }).mem
      = done ++ 32 :: more ∧
    (decode_assuan_switch
      { mem := done ++ 43 :: more, arg := done.length, len := len, reads := reads }).arg
      = done.length ∧
    (decode_assuan_switch
      { mem := done ++ 43 :: more, arg := done.length, len := len, reads := reads }).len
      = len := by
  have g : (done ++ 43 :: more).getD done.length 0 = 43 := by rw [getD_at_zero]; rfl
  simp only [decode_assuan_switch, g, if_true, store_at, and_self]

theorem switch_escape (done more reads : List Nat) (x y : Nat) (len : Int)
    (hx : is_upper_hex x = true) (hy : is_upper_hex y = true) (hlen : len ≥ 3) :
    (decode_assuan_switch
      { mem := done ++ 37 :: x :: y :: more, arg := done.length, len := len,
        reads := reads }).mem
      = memmove (done ++ (16 * hexval x + hexval y) :: x :: y :: more) (done.length + 1)
          (done.length + 3) (len - 2).toNat ∧
    (decode_assuan_switch
      { mem := done ++ 37 :: x :: y :: more, arg := done.length, len := len,
        reads := reads }).arg = done.length ∧
    (decode_assuan_switch
      { mem := done ++ 37 :: x :: y :: more, arg := done.length, len := len,
        reads := reads }).len = len - 2 := by
  obtain ⟨sx, hxl⟩ := upper_hex_strchr x hx
  obtain ⟨sy, hyl⟩ := upper_hex_strchr y hy
  obtain ⟨n1, _⟩ := nibble_facts (hexval x) hxl (hexval x) hxl
  obtain ⟨n2, n3⟩ := nibble_facts (hexval x) hxl (hexval y) hyl
  have g1 : ∀ v, (done ++ v :: x :: y :: more).getD (done.length + 1) 0 = x := fun v => by
    rw [getD_at]; rfl
  have g2 : ∀ v, (done ++ v :: x :: y :: more).getD (done.length + 2) 0 = y := fun v => by
    rw [getD_at]; rfl
  have g0 : ∀ v, (done ++ v :: x :: y :: more).getD done.length 0 = v := fun v => by
    rw [getD_at_zero]; rfl
  have hl : ¬ (len - 2 < 1) := by omega
  have h37 : (37 : Nat) ≠ 43 := by decide
  simp only [decode_assuan_switch, g0, store_at, g1, g2, sx, sy, n1, n2, n3, hl, h37, if_false,
    if_true, and_self]

theorem escapes_ok_plain (c : Nat) (r : List Nat) (h : c ≠ 37) :
    assuan_escapes_ok (c :: r) = assuan_escapes_ok r := by
  conv_lhs => unfold assuan_escapes_ok
  simp only [h, if_false]

theorem escapes_ok_escape (r : List Nat) (h : assuan_escapes_ok (37 :: r) = true) :
    ∃ x y r2, r = x :: y :: r2 ∧ is_upper_hex x = true ∧ is_upper_hex y = true ∧
      assuan_escapes_ok r2 = true := by
  cases r with
  | nil => simp [assuan_escapes_ok] at h
  | cons x r1 =>
    cases r1 with
    | nil => simp [assuan_escapes_ok] at h
    | cons y r2 =>
      simp only [assuan_escapes_ok, if_true, Bool.and_eq_true] at h
      exact ⟨x, y, r2, rfl, h.1.1, h.1.2, h.2⟩

theorem assuan_decoded_plain (c : Nat) (r : List Nat) (h : c ≠ 37) :
    assuan_decoded (c :: r) = (if c = 43 then 32 else c) :: assuan_decoded r := by
  conv_lhs => unfold assuan_decoded
  simp only [h, if_false]

theorem assuan_decoded_escape (x y : Nat) (r2 : List Nat) :
    assuan_decoded (37 :: x :: y :: r2) = (16 * hexval x + hexval y) :: assuan_decoded r2 := by
  simp [assuan_decoded]

theorem decode_assuan_loop_exit (fuel : Nat) (s : AssuanState) (h : s.len = 0) :
    decode_assuan_loop fuel s = s := by
  cases fuel with
  | zero => rfl
  | succ f =>
    have : ¬ s.len > 0 := by omega
    simp [decode_assuan_loop, this]

theorem decode_assuan_loop_step (f : Nat) (s : AssuanState) (h : s.len > 0) :
    decode_assuan_loop (f + 1) s =
      decode_assuan_loop f
        { decode_assuan_switch s with
          arg := (decode_assuan_switch s).arg + 1, len := (decode_assuan_switch s).len - 1 } := by
  simp [decode_assuan_loop, h]

theorem decode_assuan_loop_spec : ∀ (n : Nat) (rest : List Nat), rest.length ≤ n →
    (∀ c ∈ rest, c ≠ 0) → assuan_escapes_ok rest = true →
    ∀ (fuel : Nat), rest.length ≤ fuel → ∀ (done tail : List Nat) (s : AssuanState),
      s.mem = done ++ rest ++ 0 :: tail → s.arg = done.length → s.len = rest.length →
      ∃ tail2, (decode_assuan_loop fuel s).mem = done ++ assuan_decoded rest ++ 0 :: tail2 ∧
        tail2.length + (assuan_decoded rest).length = tail.length + rest.length := by
  intro n
  induction n with
  | zero =>
    intro rest hn _ _ fuel _ done tail s hmem _ hlen
    have hr : rest = [] := List.length_eq_zero.mp (by omega)
    subst hr
    refine ⟨tail, ?_, by simp [assuan_decoded]⟩
    rw [decode_assuan_loop_exit fuel s (by simpa using hlen), hmem]
    simp [assuan_decoded]
  | succ n ih =>
    intro rest hn hnz hok fuel hfuel done tail s hmem harg hlen
    cases rest with
    | nil =>
      refine ⟨tail, ?_, by simp [assuan_decoded]⟩
      rw [decode_assuan_loop_exit fuel s (by simpa using hlen), hmem]
      simp [assuan_decoded]
    | cons c r =>
      simp only [List.length_cons] at hn hfuel hlen
      obtain ⟨f, rfl⟩ : ∃ f, fuel = f + 1 := ⟨fuel - 1, by omega⟩
      rw [decode_assuan_loop_step f s (by omega)]
      obtain ⟨mem, arg, len, reads⟩ := s
      simp only at hmem harg hlen
      subst hmem harg
      have hrnz : ∀ d ∈ r, d ≠ 0 := fun d hd => hnz d (List.mem_cons_of_mem _ hd)
      by_cases h37 : c = 37
      · subst h37
        obtain ⟨x, y, r2, rfl, hx, hy, hok2⟩ := escapes_ok_escape r hok
        simp only [List.length_cons] at hn hfuel hlen
        have e0 : done ++ 37 :: x :: y :: r2 ++ 0 :: tail =
            done ++ 37 :: x :: y :: (r2 ++ 0 :: tail) := by simp
        rw [e0]
        obtain ⟨hm, ha, hl⟩ := switch_escape done (r2 ++ 0 :: tail) reads x y len hx hy
          (by omega)
        have hto : (len - 2).toNat = r2.length + 1 := by omega
        obtain ⟨tail2, hmv, htl⟩ := memmove_collapse done r2 tail
          (16 * hexval x + hexval y) x y
        rw [hto, hmv] at hm
        generalize decode_assuan_switch
          { mem := done ++ 37 :: x :: y :: (r2 ++ 0 :: tail), arg := done.length, len := len,
            reads := reads } = S at hm ha hl ⊢
        obtain ⟨tail3, h3, hl3⟩ := ih r2 (by omega)
          (fun d hd => hrnz d (List.mem_cons_of_mem _ (List.mem_cons_of_mem _ hd))) hok2 f
          (by omega) (done ++ [16 * hexval x + hexval y]) tail2
          { S with arg := S.arg + 1, len := S.len - 1 }
          (by show S.mem = _; rw [hm])
          (by show S.arg + 1 = _; rw [ha]; simp)
          (by show S.len - 1 = _; rw [hl]; omega)
        refine ⟨tail3, ?_, ?_⟩
        · rw [h3, assuan_decoded_escape]
          simp
        · rw [assuan_decoded_escape]
          simp only [List.length_cons]
          omega
      · have e0 : done ++ c :: r ++ 0 :: tail = done ++ c :: (r ++ 0 :: tail) := by simp
        rw [e0]
        rw [escapes_ok_plain c r h37] at hok
        by_cases h43 : c = 43
        · subst h43
          obtain ⟨hm, ha, hl⟩ := switch_plus done (r ++ 0 :: tail) reads len
          generalize decode_assuan_switch
            { mem := done ++ 43 :: (r ++ 0 :: tail), arg := done.length, len := len,
              reads := reads } = S at hm ha hl ⊢
          obtain ⟨tail3, h3, hl3⟩ := ih r (by omega) hrnz hok f (by omega) (done ++ [32]) tail
            { S with arg := S.arg + 1, len := S.len - 1 }
            (by show S.mem = _; rw [hm]; simp)
            (by show S.arg + 1 = _; rw [ha]; simp)
            (by show S.len - 1 = _; rw [hl]; omega)
          refine ⟨tail3, ?_, ?_⟩
          · rw [h3, assuan_decoded_plain 43 r h37]
            simp
          · rw [assuan_decoded_plain 43 r h37]
            simp only [List.length_cons]
            omega
        · obtain ⟨hm, ha, hl⟩ := switch_plain done (r ++ 0 :: tail) reads c len h43 h37
          generalize decode_assuan_switch
            { mem := done ++ c :: (r ++ 0 :: tail), arg := done.length, len := len,
              reads := reads } = S at hm ha hl ⊢
          obtain ⟨tail3, h3, hl3⟩ := ih r (by omega) hrnz hok f (by omega) (done ++ [c]) tail
            { S with arg := S.arg + 1, len := S.len - 1 }
            (by show S.mem = _; rw [hm]; simp)
            (by show S.arg + 1 = _; rw [ha]; simp)
            (by show S.len - 1 = _; rw [hl]; omega)
          refine ⟨tail3, ?_, ?_⟩
          · rw [h3, assuan_decoded_plain c r h37]
            simp [h43]
          · rw [assuan_decoded_plain c r h37]
            simp only [List.length_cons]
            omega

theorem upper_hex_not_percent (x : Nat) (hx : is_upper_hex x = true) : x ≠ 37 := by
  intro h
  subst h
  simp [is_upper_hex] at hx

theorem assuan_decoded_length : ∀ (n : Nat) (s : List Nat), s.length ≤ n →
    assuan_escapes_ok s = true → (assuan_decoded s).length + 2 * s.count 37 = s.length := by
  intro n
  induction n with
  | zero =>
    intro s hn _
    have hr : s = [] := List.length_eq_zero.mp (by omega)
    subst hr
    simp [assuan_decoded]
  | succ n ih =>
    intro s hn hok
    cases s with
    | nil => simp [assuan_decoded]
    | cons c r =>
      simp only [List.length_cons] at hn
      by_cases h37 : c = 37
      · subst h37
        obtain ⟨x, y, r2, rfl, hx, hy, hok2⟩ := escapes_ok_escape r hok
        simp only [List.length_cons] at hn
        have h := ih r2 (by omega) hok2
        have hx37 := upper_hex_not_percent x hx
        have hy37 := upper_hex_not_percent y hy
        rw [assuan_decoded_escape]
        simp only [List.length_cons, List.count_cons, beq_self_eq_true, if_true]
        have ex : (x == 37) = false := by simpa using hx37
        have ey : (y == 37) = false := by simpa using hy37
        simp only [ex, ey]
        simp
        omega
      · rw [escapes_ok_plain c r h37] at hok
        have h := ih r (by omega) hok
        rw [assuan_decoded_plain c r h37]
        have ec : (c == 37) = false := by simpa using h37
        simp only [List.length_cons, List.count_cons, ec]
        simp
        omega

theorem decode_assuan_arg_spec (s beyond : List Nat) (hs : ∀ c ∈ s, c ≠ 0)
    (hok : assuan_escapes_ok s = true) :
    ∃ tail, (decode_assuan_arg (s ++ 0 :: beyond)).mem = assuan_decoded s ++ 0 :: tail ∧
      tail.length + (assuan_decoded s).length = beyond.length + s.length := by
  unfold decode_assuan_arg
  rw [c_str_terminated s beyond hs]
  have h := decode_assuan_loop_spec s.length s (le_refl _) hs hok s.length (le_refl _) []
    beyond { mem := s ++ 0 :: beyond, arg := 0, len := (s.length : Int), reads := [] }
    (by simp) rfl rfl
  simpa using h

/-- C30. For every argument string `s` (stored with its terminating zero byte, followed by
any bytes `beyond`) in which each percent sign is followed by two uppercase hexadecimal
digits, `decode_assuan_arg` leaves at the start of the buffer the bytes
`assuan_decoded s` followed by a terminator: read left to right, each plus sign has become
a space, each escape the single byte with the value of its two digits, every other byte is
unchanged, and a byte produced by an escape is not decoded again. The buffer keeps its
size, the decoded bytes are two fewer per escape, they are the resulting C string whenever
no escape produced a zero byte, and the escape of the plus sign yields a plus sign, not a
space. -/
theorem decode_assuan_arg_decodes (s beyond : List Nat) (hs : ∀ c ∈ s, c ≠ 0)
    (hok : assuan_escapes_ok s = true) :
    (∃ tail, (decode_assuan_arg (s ++ 0 :: beyond)).mem = assuan_decoded s ++ 0 :: tail ∧
      tail.length + (assuan_decoded s).length = beyond.length + s.length) ∧
    (assuan_decoded s).length + 2 * s.count 37 = s.length ∧
    ((∀ c ∈ assuan_decoded s, c ≠ 0) →
      c_str (decode_assuan_arg (s ++ 0 :: beyond)).mem = assuan_decoded s) ∧
    (∀ rest, assuan_decoded (37 :: 50 :: 66 :: rest) = 43 :: assuan_decoded rest) ∧
    (∀ c rest, c ≠ 37 →
      assuan_decoded (c :: rest) = (if c = 43 then 32 else c) :: assuan_decoded rest) ∧
    (∀ x y rest,
      assuan_decoded (37 :: x :: y :: rest) = (16 * hexval x + hexval y) :: assuan_decoded rest) := by
  refine ⟨decode_assuan_arg_spec s beyond hs hok,
    assuan_decoded_length s.length s (le_refl _) hok, ?_, ?_, assuan_decoded_plain,
    assuan_decoded_escape⟩
  · intro hnz
    obtain ⟨tail, hm, _⟩ := decode_assuan_arg_spec s beyond hs hok
    rw [hm]
    exact c_str_terminated _ tail hnz
  · intro rest
    rw [assuan_decoded_escape]
    rfl

theorem decode_assuan_arg_decodes_witness :
    (∀ c ∈ [97, 43, 98, 37, 50, 66, 99, 37, 52, 49], c ≠ 0) ∧
    assuan_escapes_ok [97, 43, 98, 37, 50, 66, 99, 37, 52, 49] = true ∧
    assuan_decoded [97, 43, 98, 37, 50, 66, 99, 37, 52, 49] = [97, 32, 98, 43, 99, 65] ∧
    (decode_assuan_arg ([97, 43, 98, 37, 50, 66, 99, 37, 52, 49] ++ 0 :: [9, 9])).mem.take 7 =
      [97, 32, 98, 43, 99, 65, 0] ∧
    c_str (decode_assuan_arg ([97, 43, 98, 37, 50, 66, 99, 37, 52, 49] ++ 0 :: [9, 9])).mem =
      assuan_decoded [97, 43, 98, 37, 50, 66, 99, 37, 52, 49] :=
  ⟨by decide, by decide, by decide, by decide,
    (decode_assuan_arg_decodes [97, 43, 98, 37, 50, 66, 99, 37, 52, 49] [9, 9] (by decide)
      (by decide)).2.2.1 (by decide)⟩

/-! ## Theorems: what decoding an assuan argument reads -/

theorem switch_plain_state (done more reads : List Nat) (c : Nat) (len : Int) (h37 : c ≠ 37) :
    decode_assuan_switch
      { mem := done ++ c :: more, arg := done.length, len := len, reads := reads } =
      { mem := done ++ (if c = 43 then 32 else c) :: more, arg := done.length, len := len,
        reads := reads ++ [done.length] } := by
  have g : (done ++ c :: more).getD done.length 0 = c := by rw [getD_at_zero]; rfl
  by_cases h43 : c = 43
  · subst h43
    simp only [decode_assuan_switch, g, if_true, store_at]
  · simp only [decode_assuan_switch, g, h43, h37, if_false]

theorem decode_assuan_loop_plain : ∀ (s done more reads : List Nat) (k : Int) (fuel : Nat),
    (∀ c ∈ s, c ≠ 37) → 0 ≤ k →
    decode_assuan_loop (fuel + s.length)
      { mem := done ++ s ++ more, arg := done.length, len := s.length + k, reads := reads } =
    decode_assuan_loop fuel
      { mem := done ++ s.map (fun c => if c = 43 then 32 else c) ++ more,
        arg := done.length + s.length, len := k,
        reads := reads ++ List.range' done.length s.length } := by
  intro s
  induction s with
  | nil => intro done more reads k fuel _ _; simp
  | cons c r ih =>
    intro done more reads k fuel hs hk
    have h37 : c ≠ 37 := hs c (List.mem_cons_self _ _)
    have hpos : ((c :: r).length : Int) + k > 0 := by simp only [List.length_cons]; omega
    have e1 : fuel + (c :: r).length = (fuel + r.length) + 1 := by
      simp only [List.length_cons]; omega
    rw [e1, decode_assuan_loop_step _ _ hpos]
    have e0 : done ++ c :: r ++ more = done ++ c :: (r ++ more) := by simp
    rw [e0, switch_plain_state done (r ++ more) reads c _ h37]
    have h := ih (done ++ [if c = 43 then 32 else c]) more (reads ++ [done.length]) k fuel
      (fun d hd => hs d (List.mem_cons_of_mem _ hd)) hk
    have e2 : ((c :: r).length : Int) + k - 1 = (r.length : Int) + k := by
      simp only [List.length_cons]; push_cast; omega
    simp only [e2]
    refine Eq.trans ?_ (Eq.trans h ?_)
    · simp
    · simp [List.range'_succ, Nat.add_assoc, Nat.add_comm 1]

theorem decode_assuan_last_percent (done beyond reads : List Nat) :
    (decode_assuan_loop 1
      { mem := done ++ 37 :: 0 :: beyond, arg := done.length, len := 1, reads := reads }).reads
      = reads ++ [done.length, done.length + 1, done.length + 2] := by
  have g0 : (done ++ 37 :: 0 :: beyond).getD done.length 0 = 37 := by
    rw [getD_at_zero]; rfl
  have g1 : (store (done ++ 37 :: 0 :: beyond) done.length 63).getD (done.length + 1) 0 = 0 := by
    rw [store_at, getD_at]; rfl
  have hz : strchr HEX_CHARS 0 = some 16 := by decide
  have h37 : (37 : Nat) ≠ 43 := by decide
  rw [decode_assuan_loop_step 0 _ (by show (1 : Int) > 0; decide)]
  simp only [decode_assuan_loop, decode_assuan_switch, g0, g1, hz, h37, if_true, if_false]
  cases strchr HEX_CHARS
      ((store (store (done ++ 37 :: 0 :: beyond) done.length 63) done.length
        ((16 &&& 15) <<< 4)).getD (done.length + 2) 0) <;> simp

theorem decode_assuan_arg_reads (s beyond : List Nat) (hs : ∀ c ∈ s, c ≠ 0 ∧ c ≠ 37) :
    c_str (s ++ 37 :: 0 :: beyond) = s ++ [37] ∧
    (decode_assuan_arg (s ++ 37 :: 0 :: beyond)).reads = List.range (s.length + 3) := by
  have hc : c_str (s ++ 37 :: 0 :: beyond) = s ++ [37] := by
    have h := c_str_terminated (s ++ [37]) beyond (by
      intro c hc
      rcases List.mem_append.mp hc with h | h
      · exact (hs c h).1
      · simp at h; omega)
    simpa using h
  refine ⟨hc, ?_⟩
  unfold decode_assuan_arg
  rw [hc]
  have h := decode_assuan_loop_plain s [] (37 :: 0 :: beyond) [] 1 1 (fun c h => (hs c h).2)
    (by decide)
  simp only [List.nil_append, List.length_nil, Nat.zero_add] at h
  have e1 : (s ++ [37]).length = 1 + s.length := by simp; omega
  have e2 : ((1 + s.length : Nat) : Int) = (s.length : Int) + 1 := by push_cast; omega
  rw [e1, e2, h]
  have h2 := decode_assuan_last_percent (s.map (fun c => if c = 43 then 32 else c)) beyond
    (List.range' 0 s.length)
  simp only [List.length_map] at h2
  rw [h2]
  rw [List.range_eq_range', show s.length + 3 = s.length + 1 + 1 + 1 from rfl,
    List.range'_1_concat, List.range'_1_concat, List.range'_1_concat]
  simp [Nat.add_assoc]

/-- C31. A percent sign as the last character of an argument makes `decode_assuan_arg` read
one cell past the terminating zero byte: for every argument `s` followed by a final percent
sign (no zero byte and no percent sign in `s`), the terminator is at offset
`s.length + 1`, and the offsets read are `0 .. s.length + 2`. -/
theorem decode_assuan_arg_reads_past_terminator (s beyond : List Nat)
    (hs : ∀ c ∈ s, c ≠ 0 ∧ c ≠ 37) :
    c_str (s ++ 37 :: 0 :: beyond) = s ++ [37] ∧
    (s ++ 37 :: 0 :: beyond).getD (s.length + 1) 0 = 0 ∧
    (decode_assuan_arg (s ++ 37 :: 0 :: beyond)).reads = List.range (s.length + 3) ∧
    (s.length + 2) ∈ (decode_assuan_arg (s ++ 37 :: 0 :: beyond)).reads := by
  obtain ⟨h1, h2⟩ := decode_assuan_arg_reads s beyond hs
  refine ⟨h1, ?_, h2, ?_⟩
  · have h := getD_at s (37 :: 0 :: beyond) 1
    simpa using h
  · rw [h2]
    exact List.mem_range.mpr (by omega)

theorem decode_assuan_arg_reads_past_terminator_witness :
    (∀ c ∈ [97, 98], c ≠ 0 ∧ c ≠ 37) ∧
    c_str [97, 98, 37, 0] = [97, 98, 37] ∧
    (decode_assuan_arg [97, 98, 37, 0]).reads = [0, 1, 2, 3, 4] ∧
    [97, 98, 37, 0].length = 4 :=
  ⟨by decide,
    (decode_assuan_arg_reads_past_terminator [97, 98] [] (by decide)).1,
    (decode_assuan_arg_reads_past_terminator [97, 98] [] (by decide)).2.2.1,
    rfl⟩

/-! ## Theorems: the percent-encoding of passwords and the assuan decoder -/

set_option maxRecDepth 1000000 in
theorem uri_byte_facts : ∀ c, c < 256 → c ≠ 0 → uri_decodable c = true →
    ((c != 0 && (g_ascii_isalnum c || (strchr [95, 45, 46] c).isSome)) = true ∧ c ≠ 37) ∨
    ((c != 0 && (g_ascii_isalnum c || (strchr [95, 45, 46] c).isSome)) = false ∧
      is_upper_hex (HEXC.getD ((c % 256) >>> 4) 0) = true ∧
      is_upper_hex (HEXC.getD ((c % 256) &&& 0x0F) 0) = true ∧
      16 * hexval (HEXC.getD ((c % 256) >>> 4) 0) + hexval (HEXC.getD ((c % 256) &&& 0x0F) 0)
        = c) := by
  decide

set_option maxRecDepth 1000000 in
theorem uri_verbatim_not_plus : ∀ c, c < 256 →
    (c != 0 && (g_ascii_isalnum c || (strchr [95, 45, 46] c).isSome)) = true → c ≠ 43 := by
  decide

set_option maxRecDepth 1000000 in
theorem uri_roundtrip_byte : ∀ c, c < 256 → c ≠ 0 →
    ((c_str (decode_assuan_arg (uri_encode_password [c])).mem = [c]) ↔
      uri_decodable c = true) := by
  decide

theorem uri_encode_loop_acc : ∀ (value result : List Nat),
    uri_encode_loop value result = result ++ uri_encode_loop value [] := by
  intro value
  induction value with
  | nil => intro result; simp [uri_encode_loop]
  | cons v value ih =>
    intro result
    unfold uri_encode_loop
    split
    · rw [ih (result ++ [v]), ih ([] ++ [v])]; simp
    · rw [ih (result ++ _), ih ([] ++ _)]; simp

theorem upper_hex_ne_zero (x : Nat) (hx : is_upper_hex x = true) : x ≠ 0 := by
  intro h
  subst h
  simp [is_upper_hex] at hx

theorem uri_encode_decodable : ∀ (p : List Nat),
    (∀ c ∈ p, c < 256 ∧ c ≠ 0 ∧ uri_decodable c = true) →
    (∀ c ∈ uri_encode_loop p [], c ≠ 0) ∧ assuan_escapes_ok (uri_encode_loop p []) = true ∧
      assuan_decoded (uri_encode_loop p []) = p := by
  intro p
  induction p with
  | nil => intro _; simp [uri_encode_loop, assuan_escapes_ok, assuan_decoded]
  | cons c p ih =>
    intro hp
    obtain ⟨hlt, hnz, hdec⟩ := hp c (List.mem_cons_self _ _)
    obtain ⟨hz, hok, hd⟩ := ih (fun d hd => hp d (List.mem_cons_of_mem _ hd))
    rcases uri_byte_facts c hlt hnz hdec with ⟨hpass, h37⟩ | ⟨hpass, hx, hy, hv⟩
    · have h43 := uri_verbatim_not_plus c hlt hpass
      have e : uri_encode_loop (c :: p) [] = c :: uri_encode_loop p [] := by
        rw [uri_encode_loop, if_pos hpass, uri_encode_loop_acc]; rfl
      rw [e]
      refine ⟨?_, ?_, ?_⟩
      · intro d hd
        rcases List.mem_cons.mp hd with h | h
        · rw [h]; exact hnz
        · exact hz d h
      · rw [escapes_ok_plain c _ h37]; exact hok
      · rw [assuan_decoded_plain c _ h37, hd, if_neg h43]
    · have e : uri_encode_loop (c :: p) [] =
          37 :: HEXC.getD ((c % 256) >>> 4) 0 :: HEXC.getD ((c % 256) &&& 0x0F) 0 ::
            uri_encode_loop p [] := by
        rw [uri_encode_loop, if_neg (by rw [hpass]; decide), uri_encode_loop_acc]; rfl
      rw [e]
      refine ⟨?_, ?_, ?_⟩
      · intro d hd
        rcases List.mem_cons.mp hd with h | h
        · rw [h]; decide
        · rcases List.mem_cons.mp h with h | h
          · rw [h]; exact upper_hex_ne_zero _ hx
          · rcases List.mem_cons.mp h with h | h
            · rw [h]; exact upper_hex_ne_zero _ hy
            · exact hz d h
      · simp only [assuan_escapes_ok, if_true, hx, hy, hok, Bool.and_self]
      · rw [assuan_decoded_escape, hv, hd]

theorem c_str_of_nonzero (s : List Nat) (hs : ∀ c ∈ s, c ≠ 0) : c_str s = s := by
  unfold c_str
  rw [List.takeWhile_eq_self_iff]
  intro c hc
  simpa using hs c hc

theorem uri_roundtrip (p : List Nat) (hp : ∀ c ∈ p, c < 256 ∧ c ≠ 0 ∧ uri_decodable c = true) :
    c_str (decode_assuan_arg (uri_encode_password p)).mem = p := by
  have hnz : ∀ c ∈ p, c ≠ 0 := fun c hc => (hp c hc).2.1
  obtain ⟨hz, hok, hd⟩ := uri_encode_decodable p hp
  unfold uri_encode_password
  rw [c_str_of_nonzero p hnz]
  obtain ⟨tail, hm, _⟩ := decode_assuan_arg_spec (uri_encode_loop p []) [] hz hok
  rw [hm, hd]
  exact c_str_terminated p tail hnz

/-- C32 (amended). For every password `p` of non-zero bytes in which each byte is a
letter, a digit, one of `_-.`, or a byte whose two hexadecimal digits are both decimal,
decoding `uri_encode_password p` with `decode_assuan_arg` gives back `p`; and a password of
one non-zero byte is given back exactly when its byte is of that kind. -/
theorem uri_encode_decode_roundtrip (p : List Nat)
    (hp : ∀ c ∈ p, c < 256 ∧ c ≠ 0 ∧ uri_decodable c = true) :
    c_str (decode_assuan_arg (uri_encode_password p)).mem = p ∧
    (∀ c, c < 256 → c ≠ 0 →
      ((c_str (decode_assuan_arg (uri_encode_password [c])).mem = [c]) ↔
        uri_decodable c = true)) :=
  ⟨uri_roundtrip p hp, uri_roundtrip_byte⟩

theorem uri_encode_decode_roundtrip_witness :
    (∀ c ∈ [97, 32, 37, 64, 46], c < 256 ∧ c ≠ 0 ∧ uri_decodable c = true) ∧
    uri_encode_password [97, 32, 37, 64, 46] =
      [97, 37, 50, 48, 37, 50, 53, 37, 52, 48, 46, 0] ∧
    c_str (decode_assuan_arg (uri_encode_password [97, 32, 37, 64, 46])).mem =
      [97, 32, 37, 64, 46] :=
  ⟨by decide, by decide,
    (uri_encode_decode_roundtrip [97, 32, 37, 64, 46] (by decide)).1⟩

/-- C32 (counterexample). The password `+` (no zero byte) is encoded as `%2b`, which
`decode_assuan_arg` turns into a space. -/
theorem uri_roundtrip_fails_on_plus :
    (∀ c ∈ [43], c ≠ 0) ∧ uri_encode_password [43] = [37, 50, 98, 0] ∧
    c_str (decode_assuan_arg (uri_encode_password [43])).mem = [32] ∧
    c_str (decode_assuan_arg (uri_encode_password [43])).mem ≠ [43] := by
  decide

/-! ## Theorems: equivalent display names -/

theorem tolower_ne_zero (c : Nat) (h : c ≠ 0) : tolower c ≠ 0 := by
  unfold tolower; split <;> omega

theorem split_args_loop_events : ∀ (n : Nat) (s : SplitState),
    (split_args_loop n s).1.events = s.events ∧ (split_args_loop n s).1.flags = s.flags := by
  intro n
  induction n with
  | zero => intro s; exact ⟨rfl, rfl⟩
  | succ n ih =>
    intro s
    unfold split_args_loop
    split
    · exact ih _
    · exact ih _

theorem split_arguments_no_flags (env : AgentEnv) (line : List Nat) (n : Nat) :
    (split_arguments env line false n).events = [] ∧
      (split_arguments env line false n).flags = 0 := by
  unfold split_arguments
  simp only [Bool.false_eq_true, if_false]
  exact split_args_loop_events n _

theorem wrong_terminal_getpass (env : AgentEnv) (call : GkdGpgAgentCall) (args : List Nat)
    (h : call.terminal_ok = false) :
    gkd_gpg_agent_ops_getpass env call args =
      Outcome.done
        { call := call,
          events :=
            [AgentEvent.g_message (text "received passphrase request from wrong terminal"),
              AgentEvent.send_reply false (some (text "113 Server Resource Problem"))],
          ret := env.send_reply_result false (some (text "113 Server Resource Problem")) } := by
  simp [gkd_gpg_agent_ops_getpass, h, return_send_reply]

theorem wrong_terminal_clrpass (env : AgentEnv) (call : GkdGpgAgentCall) (args : List Nat)
    (h : call.terminal_ok = false) :
    gkd_gpg_agent_ops_clrpass env call args =
      Outcome.done
        { call := call,
          events :=
            [AgentEvent.g_message (text "received passphrase request from wrong terminal"),
              AgentEvent.send_reply false (some (text "113 Server Resource Problem"))],
          ret := env.send_reply_result false (some (text "113 Server Resource Problem")) } := by
  simp [gkd_gpg_agent_ops_clrpass, h, return_send_reply]

theorem options_result (env : AgentEnv) (call : GkdGpgAgentCall) (args : List Nat)
    (r : OpResult) (h : gkd_gpg_agent_ops_options env call args = Outcome.done r) :
    r.call.terminal_ok = (call.terminal_ok || display_option_matches env args) ∧
      ∀ e ∈ r.events, e.on_passphrase = false := by
  have hev := (split_arguments_no_flags env args 1).1
  unfold gkd_gpg_agent_ops_options at h
  unfold display_option_matches
  simp only [hev, List.nil_append] at h
  cases ho : (split_arguments env args false 1).args.headD none with
  | none =>
    simp only [ho, return_send_reply, Outcome.done.injEq] at h
    subst h
    simp [AgentEvent.on_passphrase]
  | some option =>
    simp only [ho] at h
    by_cases hp : g_ascii_strncasecmp option env.GPG_AGENT_OPT_DISPLAY
        (c_str env.GPG_AGENT_OPT_DISPLAY).length = 0
    · simp only [hp, if_true] at h
      cases hd : env.display with
      | none => simp [hd] at h
      | some display =>
        simp only [hd] at h
        by_cases hx : x11_displays_eq
            (List.drop (c_str env.GPG_AGENT_OPT_DISPLAY).length option) display = true
        · simp only [hx, if_true, return_send_reply, Outcome.done.injEq] at h
          subst h
          simp [hp, hx, AgentEvent.on_passphrase]
        · have hx2 : x11_displays_eq
              (List.drop (c_str env.GPG_AGENT_OPT_DISPLAY).length option) display = false := by
            simpa using hx
          simp only [hx2, Bool.false_eq_true, if_false, return_send_reply,
            Outcome.done.injEq] at h
          subst h
          simp [hp, hx2, AgentEvent.on_passphrase]
    · simp only [hp, if_false, return_send_reply, Outcome.done.injEq] at h
      subst h
      cases env.display <;> simp [hp, AgentEvent.on_passphrase]

theorem getpass_keeps_call (env : AgentEnv) (call : GkdGpgAgentCall) (args : List Nat)
    (r : OpResult) (h : gkd_gpg_agent_ops_getpass env call args = Outcome.done r) :
    r.call = call := by
  unfold gkd_gpg_agent_ops_getpass return_send_reply at h
  simp only [] at h
  split_ifs at h <;> first
    | (cases h; rfl)
    | (split at h <;> (cases h; rfl))

theorem clrpass_keeps_call (env : AgentEnv) (call : GkdGpgAgentCall) (args : List Nat)
    (r : OpResult) (h : gkd_gpg_agent_ops_clrpass env call args = Outcome.done r) :
    r.call = call := by
  unfold gkd_gpg_agent_ops_clrpass return_send_reply at h
  simp only [] at h
  split_ifs at h <;> (cases h; rfl)

theorem getinfo_result (env : AgentEnv) (call : GkdGpgAgentCall) (request : List Nat)
    (r : OpResult) (h : gkd_gpg_agent_ops_getinfo env call request = Outcome.done r) :
    r.call = call ∧ ∀ e ∈ r.events, e.on_passphrase = false := by
  unfold gkd_gpg_agent_ops_getinfo return_send_reply at h
  simp only [] at h
  split_ifs at h <;> first
    | (split at h <;> (try split_ifs at h) <;> (cases h; simp [AgentEvent.on_passphrase]))
    | (cases h; simp [AgentEvent.on_passphrase])

theorem operation_keeps_call (env : AgentEnv) (call : GkdGpgAgentCall) (request : AgentRequest)
    (r : OpResult) (hreq : ∀ args, request ≠ AgentRequest.options args)
    (h : run_operation env call request = Outcome.done r) : r.call = call := by
  cases request with
  | options args => exact absurd rfl (hreq args)
  | getpass args => exact getpass_keeps_call env call args r h
  | clrpass args => exact clrpass_keeps_call env call args r h
  | getinfo request => exact (getinfo_result env call request r h).1
  | nop args =>
    simp only [run_operation, gkd_gpg_agent_ops_nop, return_send_reply,
      Outcome.done.injEq] at h
    subst h; rfl
  | bye args =>
    simp only [run_operation, gkd_gpg_agent_ops_bye, Outcome.done.injEq] at h
    subst h; rfl
  | reset args =>
    simp only [run_operation, gkd_gpg_agent_ops_reset, return_send_reply,
      Outcome.done.injEq] at h
    subst h; rfl
  | id args =>
    simp only [run_operation, gkd_gpg_agent_ops_id, return_send_reply,
      Outcome.done.injEq] at h
    subst h; rfl

theorem operation_wrong_terminal (env : AgentEnv) (call : GkdGpgAgentCall)
    (request : AgentRequest) (r : OpResult) (hcall : call.terminal_ok = false)
    (hreq : request.grants env = false)
    (h : run_operation env call request = Outcome.done r) :
    r.call.terminal_ok = false ∧ ∀ e ∈ r.events, e.on_passphrase = false := by
  cases request with
  | options args =>
    obtain ⟨h1, h2⟩ := options_result env call args r h
    simp only [AgentRequest.grants] at hreq
    rw [hcall, hreq] at h1
    exact ⟨h1, h2⟩
  | getpass args =>
    simp only [run_operation, wrong_terminal_getpass env call args hcall,
      Outcome.done.injEq] at h
    subst h
    simp [hcall, AgentEvent.on_passphrase]
  | clrpass args =>
    simp only [run_operation, wrong_terminal_clrpass env call args hcall,
      Outcome.done.injEq] at h
    subst h
    simp [hcall, AgentEvent.on_passphrase]
  | getinfo request =>
    obtain ⟨h1, h2⟩ := getinfo_result env call request r h
    exact ⟨by rw [h1]; exact hcall, h2⟩
  | nop args =>
    simp only [run_operation, gkd_gpg_agent_ops_nop, return_send_reply,
      Outcome.done.injEq] at h
    subst h; simp [hcall, AgentEvent.on_passphrase]
  | bye args =>
    simp only [run_operation, gkd_gpg_agent_ops_bye, Outcome.done.injEq] at h
    subst h; simp [hcall, AgentEvent.on_passphrase]
  | reset args =>
    simp only [run_operation, gkd_gpg_agent_ops_reset, return_send_reply,
      Outcome.done.injEq] at h
    subst h; simp [hcall, AgentEvent.on_passphrase]
  | id args =>
    simp only [run_operation, gkd_gpg_agent_ops_id, return_send_reply,
      Outcome.done.injEq] at h
    subst h; simp [hcall, AgentEvent.on_passphrase]

theorem connection_wrong_terminal (env : AgentEnv) : ∀ (requests : List AgentRequest)
    (call : GkdGpgAgentCall), call.terminal_ok = false →
    (∀ request ∈ requests, request.grants env = false) →
    ∀ e ∈ run_connection env call requests, e.on_passphrase = false := by
  intro requests
  induction requests with
  | nil => intro call _ _ e he; simp [run_connection] at he
  | cons request rest ih =>
    intro call hcall hreq e he
    unfold run_connection at he
    cases hr : run_operation env call request with
    | done r =>
      rw [hr] at he
      obtain ⟨h1, h2⟩ := operation_wrong_terminal env call request r hcall
        (hreq request (List.mem_cons_self _ _)) hr
      rcases List.mem_append.mp he with h | h
      · exact h2 e h
      · exact ih r.call h1 (fun q hq => hreq q (List.mem_cons_of_mem _ hq)) e h
    | crashed => rw [hr] at he; simp at he
    | out_of_fuel => rw [hr] at he; simp at he

/-- C34. In a call state with `terminal_ok` false, `gkd_gpg_agent_ops_getpass` and
`gkd_gpg_agent_ops_clrpass` log a message and send the failure reply
`113 Server Resource Problem`, and nothing else. Every operation other than
`gkd_gpg_agent_ops_options` returns the call state it was given, and
`gkd_gpg_agent_ops_options` leaves `terminal_ok` true exactly when the line carries a
display option that `x11_displays_eq` finds equivalent to `DISPLAY`. So on a connection
that starts with `terminal_ok` false, as long as no such OPTION has come, no operation
looks up, prompts for, stores, clears or sends out a passphrase. -/
theorem passphrase_needs_matching_display (env : AgentEnv) (call : GkdGpgAgentCall)
    (args : List Nat) (hcall : call.terminal_ok = false) :
    gkd_gpg_agent_ops_getpass env call args =
      Outcome.done
        { call := call,
          events :=
            [AgentEvent.g_message (text "received passphrase request from wrong terminal"),
              AgentEvent.send_reply false (some (text "113 Server Resource Problem"))],
          ret := env.send_reply_result false (some (text "113 Server Resource Problem")) } ∧
    gkd_gpg_agent_ops_clrpass env call args =
      Outcome.done
        { call := call,
          events :=
            [AgentEvent.g_message (text "received passphrase request from wrong terminal"),
              AgentEvent.send_reply false (some (text "113 Server Resource Problem"))],
          ret := env.send_reply_result false (some (text "113 Server Resource Problem")) } ∧
    (∀ (state : GkdGpgAgentCall) (request : AgentRequest) (r : OpResult),
      (∀ a, request ≠ AgentRequest.options a) →
      run_operation env state request = Outcome.done r → r.call = state) ∧
    (∀ r, gkd_gpg_agent_ops_options env call args = Outcome.done r →
      r.call.terminal_ok = display_option_matches env args) ∧
    (∀ requests : List AgentRequest, (∀ request ∈ requests, request.grants env = false) →
      ∀ e ∈ run_connection env call requests, e.on_passphrase = false) := by
  refine ⟨wrong_terminal_getpass env call args hcall, wrong_terminal_clrpass env call args hcall,
    fun state request r hreq h => operation_keeps_call env state request r hreq h, ?_,
    fun requests hreq => connection_wrong_terminal env requests call hcall hreq⟩
  intro r h
  have h1 := (options_result env call args r h).1
  rw [hcall] at h1
  simpa using h1

theorem passphrase_needs_matching_display_witness :
    ({ terminal_ok := false } : GkdGpgAgentCall).terminal_ok = false ∧
    gkd_gpg_agent_ops_getpass toyEnv { terminal_ok := false } (text "key X X Desc") =
      Outcome.done
        { call := { terminal_ok := false },
          events :=
            [AgentEvent.g_message (text "received passphrase request from wrong terminal"),
              AgentEvent.send_reply false (some (text "113 Server Resource Problem"))],
          ret := true } :=
  ⟨rfl,
    (passphrase_needs_matching_display toyEnv { terminal_ok := false } (text "key X X Desc")
      rfl).1⟩

theorem clrpass_no_key_id (env : AgentEnv) (call : GkdGpgAgentCall) (args : List Nat)
    (hcall : call.terminal_ok = true) (hsession : env.session = true)
    (hid : (split_arguments env args false 1).args.headD none = none) :
    gkd_gpg_agent_ops_clrpass env call args =
      Outcome.done
        { call := call,
          events :=
            [AgentEvent.send_reply false (some (text "105 parameter error")),
              AgentEvent.g_warning (text "received invalid clear pass request: %s"),
              AgentEvent.checkout_session, AgentEvent.clear_password none,
              AgentEvent.checkin_session, AgentEvent.send_reply true none],
          ret := true } := by
  have hev := (split_arguments_no_flags env args 1).1
  unfold gkd_gpg_agent_ops_clrpass
  simp only [hcall, hsession, hid, hev, do_clear_password, not_true_eq_false, if_false,
    if_true, List.nil_append, List.cons_append, List.append_assoc]

/-- C35. A request without key id makes `gkd_gpg_agent_ops_clrpass` send two replies: in a
call state with `terminal_ok` true and with a main session at hand, it sends the failure
reply `105 parameter error`, logs a warning, goes on to clear the password of the null
key id and then sends the success reply. -/
theorem clrpass_without_key_id_replies_twice (env : AgentEnv) (call : GkdGpgAgentCall)
    (args : List Nat) (hcall : call.terminal_ok = true) (hsession : env.session = true)
    (hid : (split_arguments env args false 1).args.headD none = none) :
    gkd_gpg_agent_ops_clrpass env call args =
      Outcome.done
        { call := call,
          events :=
            [AgentEvent.send_reply false (some (text "105 parameter error")),
              AgentEvent.g_warning (text "received invalid clear pass request: %s"),
              AgentEvent.checkout_session, AgentEvent.clear_password none,
              AgentEvent.checkin_session, AgentEvent.send_reply true none],
          ret := true } ∧
    (∀ r, gkd_gpg_agent_ops_clrpass env call args = Outcome.done r →
      replies r.events =
        [AgentEvent.send_reply false (some (text "105 parameter error")),
          AgentEvent.send_reply true none] ∧
      AgentEvent.clear_password none ∈ r.events) := by
  have h := clrpass_no_key_id env call args hcall hsession hid
  refine ⟨h, ?_⟩
  intro r hr
  rw [h] at hr
  cases hr
  simp [replies]

theorem clrpass_without_key_id_replies_twice_witness :
    ({ terminal_ok := true } : GkdGpgAgentCall).terminal_ok = true ∧
    toyEnv.session = true ∧
    (split_arguments toyEnv [] false 1).args.headD none = none ∧
    gkd_gpg_agent_ops_clrpass toyEnv { terminal_ok := true } [] =
      Outcome.done
        { call := { terminal_ok := true },
          events :=
            [AgentEvent.send_reply false (some (text "105 parameter error")),
              AgentEvent.g_warning (text "received invalid clear pass request: %s"),
              AgentEvent.checkout_session, AgentEvent.clear_password none,
              AgentEvent.checkin_session, AgentEvent.send_reply true none],
          ret := true } :=
  ⟨rfl, rfl, by decide,
    (clrpass_without_key_id_replies_twice toyEnv { terminal_ok := true } [] rfl rfl
      (by decide)).1⟩

/-! ## Theorems: the century of a two-digit year -/

theorem two_to_four_digit_year_spec (env : TimeEnv) (tm : Tm) (year Y : Int)
    (hnow : env.now ≥ 0) (hgm : env.gmtime_r env.now = some tm)
    (htm : tm.tm_year = Y - 1900) (hY : Y ≥ 1900) (hy0 : 0 ≤ year) (hy1 : year ≤ 99) :
    two_to_four_digit_year env year % 100 = year ∧
    Y - 40 < two_to_four_digit_year env year ∧
    two_to_four_digit_year env year ≤ Y + 60 := by
  have hc : (Y - 1900).tmod 100 = (Y - 1900) % 100 :=
    Int.tmod_eq_emod (by omega) (by decide)
  unfold two_to_four_digit_year
  simp only [hy0, hy1, hnow, hgm, htm, hc, ge_iff_le, and_self, not_true_eq_false, if_false]
  split_ifs <;> omega

theorem two_to_four_digit_year_early (env : TimeEnv) (year : Int) (hnow : env.now < 0) :
    two_to_four_digit_year env year = -1 := by
  unfold two_to_four_digit_year
  by_cases h1 : year ≥ 0 ∧ year ≤ 99
  · rw [if_neg (not_not.mpr h1), if_pos (by omega)]
  · rw [if_pos h1]

/-- C36 (amended). For every two-digit year `year` in `0 .. 99` and every current year
`Y >= 1900` that `gmtime_r` delivers (`tm_year = Y - 1900`) for a clock that is not
negative, `two_to_four_digit_year` returns a year `r` with `r` congruent to `year` modulo
100 and `Y - 40 < r <= Y + 60`, and `r` is the only such year; for a negative clock it
returns -1. -/
theorem two_to_four_digit_year_window (env : TimeEnv) (tm : Tm) (year Y : Int)
    (hgm : env.gmtime_r env.now = some tm)
    (htm : tm.tm_year = Y - 1900) (hY : Y ≥ 1900) (hy0 : 0 ≤ year) (hy1 : year ≤ 99) :
    (env.now ≥ 0 →
      two_to_four_digit_year env year % 100 = year ∧
      Y - 40 < two_to_four_digit_year env year ∧
      two_to_four_digit_year env year ≤ Y + 60 ∧
      (∀ r : Int, r % 100 = year → Y - 40 < r → r ≤ Y + 60 →
        r = two_to_four_digit_year env year)) ∧
    (env.now < 0 → two_to_four_digit_year env year = -1) := by
  refine ⟨?_, two_to_four_digit_year_early env year⟩
  intro hnow
  obtain ⟨h1, h2, h3⟩ := two_to_four_digit_year_spec env tm year Y hnow hgm htm hY hy0 hy1
  refine ⟨h1, h2, h3, ?_⟩
  intro r hr1 hr2 hr3
  omega

theorem two_to_four_digit_year_window_witness :
    toyTimeEnv.gmtime_r toyTimeEnv.now = some { tm_default with tm_year := 110 } ∧
    toyTimeEnv.now ≥ 0 ∧
    two_to_four_digit_year toyTimeEnv 70 = 2070 ∧
    two_to_four_digit_year toyTimeEnv 71 = 1971 ∧
    (2010 : Int) - 40 < two_to_four_digit_year toyTimeEnv 71 :=
  ⟨rfl, by decide, by decide, by decide,
    ((two_to_four_digit_year_window toyTimeEnv { tm_default with tm_year := 110 } 71 2010
      rfl rfl (by decide) (by decide) (by decide)).1 (by decide)).2.1⟩

/-- C36 (counterexample). With the clock at 1969-12-31 the current year is 1969, not
before 1900, and for the two-digit year 50 the function returns -1, which is not a year in
the window from 1930 to 2029. -/
theorem two_to_four_digit_year_before_epoch :
    toyEarlyTimeEnv.gmtime_r toyEarlyTimeEnv.now =
      some { tm_default with tm_year := 69, tm_mon := 11, tm_mday := 31 } ∧
    (69 : Int) + 1900 ≥ 1900 ∧
    two_to_four_digit_year toyEarlyTimeEnv 50 = -1 ∧
    ¬ ((69 : Int) + 1900 - 40 < two_to_four_digit_year toyEarlyTimeEnv 50) := by
  refine ⟨rfl, by decide, by decide, by decide⟩

/-! ## Theorems: an unsigned integer written and read back -/

/-- C37. The value 256 does not come back: `egg_asn1_write_uint` looks for a zero byte
from the low end of the four bytes and stores what follows it, so for 256 (bytes
00 00 01 00) it stores the single byte 00, which `egg_asn1_read_uint` reads as 0; for
16777217 (bytes 01 00 00 01) it stores the single byte 01. Values without a zero byte
below their highest non-zero byte, such as 258 and 305419896, come back. -/
theorem write_uint_drops_bytes_above_a_zero :
    egg_asn1_write_uint 256 = [0] ∧
    egg_asn1_read_uint (some (egg_asn1_write_uint 256)) = some 0 ∧
    egg_asn1_write_uint 16777217 = [1] ∧
    egg_asn1_read_uint (some (egg_asn1_write_uint 16777217)) = some 1 ∧
    egg_asn1_read_uint (some (egg_asn1_write_uint 258)) = some 258 ∧
    egg_asn1_read_uint (some (egg_asn1_write_uint 305419896)) = some 305419896 := by
  decide

/-! ## Theorems: the zone of a time -/

theorem atoin_two (a b : Nat) (rest : List Nat) :
    atoin (a :: b :: rest) 2 =
      if b < 48 ∨ b > 57 then -1
      else if a < 48 ∨ a > 57 then -1
      else ((b : Int) - 48) + ((a : Int) - 48) * 10 := by
  simp [atoin, atoin_loop]

theorem atoin_two_digits (a b : Nat) (rest : List Nat) (ha : is_digit a = true)
    (hb : is_digit b = true) : atoin (a :: b :: rest) 2 = decimal [a, b] := by
  simp only [is_digit, Bool.and_eq_true, decide_eq_true_eq] at ha hb
  rw [atoin_two, if_neg (by omega), if_neg (by omega)]
  simp [decimal]
  omega

theorem atoin_two_bad (a b : Nat) (rest : List Nat)
    (h : ¬ (is_digit a = true ∧ is_digit b = true)) : atoin (a :: b :: rest) 2 = -1 := by
  simp only [is_digit, Bool.and_eq_true, decide_eq_true_eq] at h
  rw [atoin_two]
  split_ifs with h1 h2
  · rfl
  · rfl
  · exact absurd ⟨by omega, by omega⟩ h

theorem decimal_two_range (a b : Nat) (ha : is_digit a = true) (hb : is_digit b = true) :
    0 ≤ decimal [a, b] ∧ decimal [a, b] ≤ 99 := by
  simp only [is_digit, Bool.and_eq_true, decide_eq_true_eq] at ha hb
  simp [decimal]
  omega

theorem time_zone_part_shift (pre z : List Nat) (result : Int) :
    time_zone_part (pre ++ z) (pre.length + z.length) pre.length result =
      time_zone_part z z.length 0 result := by
  have g0 : (pre ++ z).getD pre.length 0 = z.getD 0 0 := getD_at_zero pre z
  have d1 : (pre ++ z).drop (pre.length + 1) = z.drop (0 + 1) := by
    rw [List.drop_append]
  have d3 : (pre ++ z).drop (pre.length + 1 + 2) = z.drop (0 + 1 + 2) := by
    rw [Nat.add_assoc, List.drop_append]
  unfold time_zone_part
  rw [g0, d1, d3]
  have c1 : (pre.length < pre.length + z.length) = (0 < z.length) := by
    apply propext; constructor <;> intro h <;> omega
  have c2 : (pre.length + 1 ≠ pre.length + z.length) = (0 + 1 ≠ z.length) := by
    apply propext; constructor <;> intro h <;> omega
  have c3 : (pre.length + 3 ≤ pre.length + z.length) = (0 + 3 ≤ z.length) := by
    apply propext; constructor <;> intro h <;> omega
  have c4 : (pre.length + 1 + 2 + 2 ≤ pre.length + z.length) = (0 + 1 + 2 + 2 ≤ z.length) := by
    apply propext; constructor <;> intro h <;> omega
  have c5 : (pre.length ≠ pre.length + z.length) = (0 ≠ z.length) := by
    apply propext; constructor <;> intro h <;> omega
  simp only [c1, c2, c3, c4, c5]
  by_cases h5 : 0 + 1 + 2 + 2 ≤ z.length
  · have c6 : (pre.length + 1 + 2 + 2 ≠ pre.length + z.length) = (0 + 1 + 2 + 2 ≠ z.length) := by
      apply propext; constructor <;> intro h <;> omega
    simp only [h5, if_true, c6]
  · have c7 : (pre.length + 1 + 2 ≠ pre.length + z.length) = (0 + 1 + 2 ≠ z.length) := by
      apply propext; constructor <;> intro h <;> omega
    simp only [h5, if_false, c7]

theorem time_zone_part_form (z : List Nat) (result : Int) (h : zone_form z = false) :
    time_zone_part z z.length 0 result = -1 := by
  match z, h with
  | [], h => simp [zone_form] at h
  | [a], h =>
    have ha : a ≠ 90 := by intro e; subst e; simp [zone_form] at h
    simp [time_zone_part, ha]
  | [a, b], h =>
    simp [time_zone_part]
  | [s, h1, h2], h =>
    simp only [zone_form, Bool.and_eq_false_iff, Bool.or_eq_false_iff, beq_eq_false_iff_ne] at h
    by_cases hd : is_digit h1 = true ∧ is_digit h2 = true
    · have hs : s ≠ 43 ∧ s ≠ 45 := by
        rcases h with (h | h) | h
        · exact h
        · simp [hd.1] at h
        · simp [hd.2] at h
      simp [time_zone_part, hs.1, hs.2]
    · have hat : atoin ([s, h1, h2].drop (0 + 1)) 2 = -1 := by
        simpa using atoin_two_bad h1 h2 [] hd
      simp only [time_zone_part, hat]
      simp
  | [s, h1, h2, m1], h =>
    simp only [time_zone_part]
    simp
  | [s, h1, h2, m1, m2], h =>
    simp only [zone_form, Bool.and_eq_false_iff, Bool.or_eq_false_iff, beq_eq_false_iff_ne] at h
    by_cases hd : is_digit h1 = true ∧ is_digit h2 = true
    · have hs : s ≠ 43 ∧ s ≠ 45 := by
        rcases h with (h | h) | h
        · exact h
        · simp [hd.1] at h
        · simp [hd.2] at h
      simp [time_zone_part, hs.1, hs.2]
    · have hat : atoin ([s, h1, h2, m1, m2].drop (0 + 1)) 2 = -1 := by
        simpa using atoin_two_bad h1 h2 [m1, m2] hd
      simp only [time_zone_part, hat]
      simp
  | s :: h1 :: h2 :: m1 :: m2 :: x :: rest, h =>
    simp only [time_zone_part]
    simp

theorem time_rest_part_fraction (pre z : List Nat) (a b c d : Nat) (result : Int) :
    time_rest_part (pre ++ 46 :: a :: b :: c :: d :: z)
        (pre.length + (46 :: a :: b :: c :: d :: z).length) pre.length result =
      time_zone_part z z.length 0 result := by
  have g0 : (pre ++ 46 :: a :: b :: c :: d :: z).getD pre.length 0 = 46 := by
    rw [getD_at_zero]; rfl
  have hc : pre.length < pre.length + (46 :: a :: b :: c :: d :: z).length ∧
      (pre ++ 46 :: a :: b :: c :: d :: z).getD pre.length 0 = 46 ∧
      pre.length + 5 ≤ pre.length + (46 :: a :: b :: c :: d :: z).length := by
    refine ⟨by simp, g0, by simp⟩
  unfold time_rest_part
  simp only [hc, and_self, if_true]
  have h := time_zone_part_shift (pre ++ [46, a, b, c, d]) z result
  have e1 : pre ++ [46, a, b, c, d] ++ z = pre ++ 46 :: a :: b :: c :: d :: z := by simp
  have e2 : (pre ++ [46, a, b, c, d]).length + z.length =
      pre.length + (46 :: a :: b :: c :: d :: z).length := by
    simp only [List.length_append, List.length_cons, List.length_nil]; omega
  have e3 : (pre ++ [46, a, b, c, d]).length = pre.length + 5 := by simp
  rw [e1, e2, e3] at h
  exact h

theorem time_rest_part_plain (pre r : List Nat) (result : Int)
    (h : ¬ (r.getD 0 0 = 46 ∧ 5 ≤ r.length)) :
    time_rest_part (pre ++ r) (pre.length + r.length) pre.length result =
      time_zone_part r r.length 0 result := by
  have g0 : (pre ++ r).getD pre.length 0 = r.getD 0 0 := getD_at_zero pre r
  have hc : ¬ (pre.length < pre.length + r.length ∧ (pre ++ r).getD pre.length 0 = 46 ∧
      pre.length + 5 ≤ pre.length + r.length) := by
    rw [g0]
    intro hh
    exact h ⟨hh.2.1, by omega⟩
  unfold time_rest_part
  simp only [hc, if_false]
  exact time_zone_part_shift pre r result

theorem time_rest_part_form (pre r : List Nat) (result : Int)
    (h : time_rest_form r = false) :
    time_rest_part (pre ++ r) (pre.length + r.length) pre.length result = -1 := by
  match r, h with
  | [], h =>
    rw [time_rest_part_plain pre [] result (by simp)]
    exact time_zone_part_form _ result (by simpa [time_rest_form] using h)
  | [x], h =>
    rw [time_rest_part_plain pre [x] result (by simp)]
    exact time_zone_part_form _ result (by
      by_cases hx : x = 46
      · subst hx; simpa [time_rest_form] using h
      · simpa [time_rest_form, hx] using h)
  | [x, a], h =>
    rw [time_rest_part_plain pre [x, a] result (by simp)]
    exact time_zone_part_form _ result (by
      by_cases hx : x = 46
      · subst hx; simpa [time_rest_form] using h
      · simpa [time_rest_form, hx] using h)
  | [x, a, b], h =>
    rw [time_rest_part_plain pre [x, a, b] result (by simp)]
    exact time_zone_part_form _ result (by
      by_cases hx : x = 46
      · subst hx; simpa [time_rest_form] using h
      · simpa [time_rest_form, hx] using h)
  | [x, a, b, c], h =>
    rw [time_rest_part_plain pre [x, a, b, c] result (by simp)]
    exact time_zone_part_form _ result (by
      by_cases hx : x = 46
      · subst hx; simpa [time_rest_form] using h
      · simpa [time_rest_form, hx] using h)
  | x :: a :: b :: c :: d :: z, h =>
    by_cases hx : x = 46
    · subst hx
      rw [time_rest_part_fraction]
      exact time_zone_part_form _ result (by simpa [time_rest_form] using h)
    · rw [time_rest_part_plain pre _ result (by simp [hx])]
      exact time_zone_part_form _ result (by simpa [time_rest_form, hx] using h)

theorem digits_end_eq (time : List Nat) :
    digits_end time = (time.takeWhile is_digit).length := rfl

theorem time_rest_at_digits_end (time : List Nat) (result : Int)
    (h : time_form time = false) :
    time_rest_part time time.length (digits_end time) result = -1 := by
  have hsplit : time.takeWhile is_digit ++ time.dropWhile is_digit = time :=
    List.takeWhile_append_dropWhile _ _
  have h2 := time_rest_part_form (time.takeWhile is_digit) (time.dropWhile is_digit) result h
  rw [← List.length_append, hsplit] at h2
  rw [digits_end_eq]
  exact h2

theorem parse_general_time_form (env : TimeEnv) (time : List Nat) (hz : ∀ c ∈ time, c ≠ 0)
    (hlen : time.length < 2 ^ 32) (h : time_form time = false) :
    egg_asn1_parse_general_time env time = -1 := by
  unfold egg_asn1_parse_general_time
  rw [c_str_of_nonzero time hz, Nat.mod_eq_of_lt hlen]
  simp only []
  by_cases h1 : time.length < 8 ∨ time.length ≥ 30
  · rw [if_pos h1]
  rw [if_neg h1]
  by_cases h2 : tm_in_range (general_time_fields time (digits_end time)).when = true
  swap
  · rw [if_pos h2]
  rw [if_neg (not_not.mpr h2)]
  by_cases h3 : (general_time_fields time (digits_end time)).p = digits_end time
  swap
  · rw [if_pos h3]
  rw [if_neg (not_not.mpr h3), h3]
  exact time_rest_at_digits_end time _ h

theorem parse_utc_time_form (env : TimeEnv) (time : List Nat) (hz : ∀ c ∈ time, c ≠ 0)
    (hlen : time.length < 2 ^ 32) (hsize : 4 < env.sizeof_time_t)
    (h : time_form time = false) :
    egg_asn1_parse_utc_time env time = -1 := by
  unfold egg_asn1_parse_utc_time
  rw [c_str_of_nonzero time hz, Nat.mod_eq_of_lt hlen]
  simp only []
  by_cases h1 : time.length < 6 ∨ time.length ≥ 28
  · rw [if_pos h1]
  rw [if_neg h1]
  by_cases h2 : tm_in_range (utc_time_fields env time (digits_end time)).when = true
  swap
  · rw [if_pos h2]
  rw [if_neg (not_not.mpr h2)]
  by_cases h3 : (utc_time_fields env time (digits_end time)).p = digits_end time
  swap
  · rw [if_pos h3]
  rw [if_neg (not_not.mpr h3), if_neg (fun h4 => absurd h4.1 (by omega)), h3]
  exact time_rest_at_digits_end time _ h

theorem dropWhile_digits (digits rest : List Nat) (hd : ∀ c ∈ digits, is_digit c = true) :
    (digits ++ rest).dropWhile is_digit = rest.dropWhile is_digit := by
  induction digits with
  | nil => rfl
  | cons a digits ih =>
    rw [List.cons_append, List.dropWhile_cons_of_pos (hd a (List.mem_cons_self _ _))]
    exact ih (fun c hc => hd c (List.mem_cons_of_mem _ hc))

theorem zone_form_bad_hour (s h1 h2 : Nat) (rest : List Nat)
    (hbad : ¬ (is_digit h1 = true ∧ is_digit h2 = true)) :
    zone_form (s :: h1 :: h2 :: rest) = false := by
  have hb : (is_digit h1 && is_digit h2) = false := by
    simpa using hbad
  match rest with
  | [] =>
    simp only [zone_form]
    by_cases hs : s = 90
    · subst hs; simp [Bool.and_assoc, hb]
    · simp [Bool.and_assoc, hb]
  | [m1] => simp [zone_form]
  | [m1, m2] => simp [zone_form, Bool.and_assoc, hb]
  | m1 :: m2 :: x :: rest => simp [zone_form]

theorem time_form_bad_hour (digits fraction rest : List Nat) (s h1 h2 : Nat)
    (hd : ∀ c ∈ digits, is_digit c = true)
    (hf : fraction = [] ∨ ∃ a b c d, fraction = [46, a, b, c, d])
    (hs : s = 43 ∨ s = 45) (hbad : ¬ (is_digit h1 = true ∧ is_digit h2 = true)) :
    time_form (digits ++ fraction ++ s :: h1 :: h2 :: rest) = false := by
  have hz := zone_form_bad_hour s h1 h2 rest hbad
  have hs46 : s ≠ 46 := by omega
  have hsd : is_digit s = false := by
    rcases hs with h | h <;> (subst h; rfl)
  unfold time_form
  rw [List.append_assoc, dropWhile_digits digits _ hd]
  rcases hf with hf | ⟨a, b, c, d, hf⟩
  · subst hf
    rw [List.nil_append, List.dropWhile_cons_of_neg (by simp [hsd])]
    match rest, hz with
    | [], hz => simpa [time_rest_form, hs46] using hz
    | [m1], hz => simpa [time_rest_form, hs46] using hz
    | m1 :: m2 :: rest, hz => simpa [time_rest_form, hs46] using hz
  · subst hf
    have h46 : is_digit 46 = false := rfl
    rw [List.cons_append, List.dropWhile_cons_of_neg (by simp [h46])]
    simpa [time_rest_form] using hz

/-! ## Theorems: the digits of a time -/

theorem atoin_loop_append (l z : List Nat) : ∀ (n : Nat) (ret base : Int), n ≤ l.length →
    atoin_loop (l ++ z) n ret base = atoin_loop l n ret base := by
  intro n
  induction n with
  | zero => intro ret base _; rfl
  | succ n ih =>
    intro ret base hn
    have g : (l ++ z).getD n 0 = l.getD n 0 := by
      rw [List.getD_eq_getElem _ _ (by simp; omega), List.getD_eq_getElem _ _ (by omega),
        List.getElem_append_left]
    simp only [atoin_loop, g]
    split_ifs
    · rfl
    · exact ih _ _ (by omega)

theorem atoin_append (l z : List Nat) (n : Nat) (hn : n ≤ l.length) :
    atoin (l ++ z) n = atoin l n :=
  atoin_loop_append l z n 0 1 hn

theorem time_field_append (d z : List Nat) (e digits : Nat) (set : Tm → Int → Tm)
    (s : TimeFields) (he : e ≤ d.length) :
    time_field (d ++ z) e digits set s = time_field d e digits set s := by
  unfold time_field
  by_cases h : s.p + digits ≤ e
  · rw [if_pos h, if_pos h, List.drop_append_of_le_length (by omega),
      atoin_append _ _ _ (by simp; omega)]
  · rw [if_neg h, if_neg h]

theorem time_field_p (time : List Nat) (e digits : Nat) (set : Tm → Int → Tm)
    (s : TimeFields) : (time_field time e digits set s).p ≤ s.p + digits := by
  unfold time_field
  split_ifs
  · exact le_refl _
  · exact Nat.le_add_right _ _

theorem general_time_fields_append (d z : List Nat) (e : Nat) (he : e ≤ d.length) :
    general_time_fields (d ++ z) e = general_time_fields d e := by
  unfold general_time_fields
  simp only [time_field_append d z e _ _ _ he]

theorem utc_time_fields_append (env : TimeEnv) (d z : List Nat) (e : Nat)
    (he : e ≤ d.length) :
    utc_time_fields env (d ++ z) e = utc_time_fields env d e := by
  unfold utc_time_fields
  simp only [time_field_append d z e _ _ _ he]

theorem general_time_fields_p (time : List Nat) (e : Nat) :
    (general_time_fields time e).p ≤ 14 := by
  unfold general_time_fields
  have h1 := time_field_p time e 4 (fun when v => { when with tm_year := v - 1900 })
    { when := tm_default, p := 0 }
  have h2 := time_field_p time e 2 (fun when v => { when with tm_mon := v - 1 })
    (time_field time e 4 (fun when v => { when with tm_year := v - 1900 })
      { when := tm_default, p := 0 })
  have h3 := time_field_p time e 2 (fun when v => { when with tm_mday := v }) _ |>.trans
    (Nat.add_le_add_right h2 2)
  have h4 := time_field_p time e 2 (fun when v => { when with tm_hour := v }) _ |>.trans
    (Nat.add_le_add_right h3 2)
  have h5 := time_field_p time e 2 (fun when v => { when with tm_min := v }) _ |>.trans
    (Nat.add_le_add_right h4 2)
  have h6 := time_field_p time e 2 (fun when v => { when with tm_sec := v }) _ |>.trans
    (Nat.add_le_add_right h5 2)
  simp only [] at h1 h6 ⊢
  omega

theorem utc_time_fields_p (env : TimeEnv) (time : List Nat) (e : Nat) :
    (utc_time_fields env time e).p ≤ 12 := by
  unfold utc_time_fields
  have h1 := time_field_p time e 2
    (fun when year => { when with tm_year := two_to_four_digit_year env year - 1900 })
    { when := tm_default, p := 0 }
  have h2 := time_field_p time e 2 (fun when v => { when with tm_mon := v - 1 })
    (time_field time e 2
      (fun when year => { when with tm_year := two_to_four_digit_year env year - 1900 })
      { when := tm_default, p := 0 })
  have h3 := time_field_p time e 2 (fun when v => { when with tm_mday := v }) _ |>.trans
    (Nat.add_le_add_right h2 2)
  have h4 := time_field_p time e 2 (fun when v => { when with tm_hour := v }) _ |>.trans
    (Nat.add_le_add_right h3 2)
  have h5 := time_field_p time e 2 (fun when v => { when with tm_min := v }) _ |>.trans
    (Nat.add_le_add_right h4 2)
  have h6 := time_field_p time e 2 (fun when v => { when with tm_sec := v }) _ |>.trans
    (Nat.add_le_add_right h5 2)
  simp only [] at h1 h6 ⊢
  omega

theorem digits_end_append (d z : List Nat) (hd : ∀ c ∈ d, is_digit c = true)
    (hz : is_digit (z.headD 0) = false) : digits_end (d ++ z) = d.length := by
  rw [digits_end_eq]
  induction d with
  | nil =>
    cases z with
    | nil => rfl
    | cons a z =>
      have ha : is_digit a = false := by simpa using hz
      simp [List.takeWhile, ha]
  | cons a d ih =>
    rw [List.cons_append, List.takeWhile_cons_of_pos (hd a (List.mem_cons_self _ _)),
      List.length_cons, List.length_cons, ih (fun c hc => hd c (List.mem_cons_of_mem _ hc))]

theorem digits_nonzero (d : List Nat) (hd : ∀ c ∈ d, is_digit c = true) : ∀ c ∈ d, c ≠ 0 := by
  intro c hc h
  have := hd c hc
  subst h
  simp [is_digit] at this

theorem parse_general_time_split (env : TimeEnv) (d z : List Nat)
    (hd : ∀ c ∈ d, is_digit c = true) (hz : is_digit (z.headD 0) = false)
    (hnz : ∀ c ∈ z, c ≠ 0) :
    egg_asn1_parse_general_time env (d ++ z) =
      if (d.length + z.length) % 2 ^ 32 < 8 ∨ (d.length + z.length) % 2 ^ 32 ≥ 30 then -1
      else if ¬ tm_in_range (general_time_fields d d.length).when = true then -1
      else if (general_time_fields d d.length).p ≠ d.length then -1
      else
        time_rest_part (d ++ z) ((d.length + z.length) % 2 ^ 32) d.length
          (env.timegm (general_time_fields d d.length).when) := by
  have hnz2 : ∀ c ∈ d ++ z, c ≠ 0 := by
    intro c hc
    rcases List.mem_append.mp hc with h | h
    · exact digits_nonzero d hd c h
    · exact hnz c h
  unfold egg_asn1_parse_general_time
  simp only []
  rw [c_str_of_nonzero _ hnz2, digits_end_append d z hd hz,
    general_time_fields_append d z d.length (le_refl _), List.length_append]
  by_cases c3 : (general_time_fields d d.length).p = d.length
  · rw [c3]
  · simp only [ne_eq, c3, not_false_eq_true, if_true]

theorem parse_utc_time_split (env : TimeEnv) (d z : List Nat)
    (hd : ∀ c ∈ d, is_digit c = true) (hz : is_digit (z.headD 0) = false)
    (hnz : ∀ c ∈ z, c ≠ 0) :
    egg_asn1_parse_utc_time env (d ++ z) =
      if (d.length + z.length) % 2 ^ 32 < 6 ∨ (d.length + z.length) % 2 ^ 32 ≥ 28 then -1
      else if ¬ tm_in_range (utc_time_fields env d d.length).when = true then -1
      else if (utc_time_fields env d d.length).p ≠ d.length then -1
      else if env.sizeof_time_t ≤ 4 ∧ (utc_time_fields env d d.length).when.tm_year ≥ 2038 then
        2145914603
      else
        time_rest_part (d ++ z) ((d.length + z.length) % 2 ^ 32) d.length
          (env.timegm (utc_time_fields env d d.length).when) := by
  have hnz2 : ∀ c ∈ d ++ z, c ≠ 0 := by
    intro c hc
    rcases List.mem_append.mp hc with h | h
    · exact digits_nonzero d hd c h
    · exact hnz c h
  unfold egg_asn1_parse_utc_time
  simp only []
  rw [c_str_of_nonzero _ hnz2, digits_end_append d z hd hz,
    utc_time_fields_append env d z d.length (le_refl _), List.length_append]
  by_cases c3 : (utc_time_fields env d d.length).p = d.length
  · rw [c3]
  · simp only [ne_eq, c3, not_false_eq_true, if_true]

theorem time_rest_zulu (d : List Nat) (result : Int) :
    time_rest_part (d ++ [90]) (d.length + [90].length) d.length result = result := by
  rw [time_rest_part_plain d [90] result (by simp)]
  simp [time_zone_part]

theorem time_rest_signed (d : List Nat) (s h1 h2 m1 m2 : Nat) (result : Int)
    (hs : s = 43 ∨ s = 45)
    (hh1 : is_digit h1 = true) (hh2 : is_digit h2 = true) (hm1 : is_digit m1 = true)
    (hm2 : is_digit m2 = true) (h24 : decimal [h1, h2] ≤ 24) :
    time_rest_part (d ++ [s, h1, h2, m1, m2]) (d.length + [s, h1, h2, m1, m2].length)
        d.length result =
      if s = 45 then result - (decimal [h1, h2] * 3600 + decimal [m1, m2] * 60)
      else result + (decimal [h1, h2] * 3600 + decimal [m1, m2] * 60) := by
  have hr := decimal_two_range h1 h2 hh1 hh2
  have a1 : atoin ([s, h1, h2, m1, m2].drop (0 + 1)) 2 = decimal [h1, h2] := by
    simpa using atoin_two_digits h1 h2 [m1, m2] hh1 hh2
  have a2 : atoin ([s, h1, h2, m1, m2].drop (0 + 1 + 2)) 2 = decimal [m1, m2] := by
    simpa using atoin_two_digits m1 m2 [] hm1 hm2
  have hoff : ¬ (decimal [h1, h2] * 3600 < 0 ∨ decimal [h1, h2] * 3600 > 86400) := by omega
  have hs46 : ¬ (([s, h1, h2, m1, m2] : List Nat).getD 0 0 = 46 ∧
      5 ≤ [s, h1, h2, m1, m2].length) := by
    simp; omega
  have hs90 : s ≠ 90 := by omega
  have hsign : s = 45 ∨ s = 43 := by omega
  rw [time_rest_part_plain d _ result hs46]
  simp only [time_zone_part, a1, a2, hoff, if_false]
  simp [hs90, hsign]

theorem general_time_valid (env : TimeEnv) (d : List Nat) (hd : ∀ c ∈ d, is_digit c = true)
    (hvalid : egg_asn1_parse_general_time env (d ++ [90]) ≠ -1) :
    7 ≤ d.length ∧ d.length ≤ 14 ∧
    tm_in_range (general_time_fields d d.length).when = true ∧
    (general_time_fields d d.length).p = d.length ∧
    egg_asn1_parse_general_time env (d ++ [90]) =
      env.timegm (general_time_fields d d.length).when := by
  have eZ := parse_general_time_split env d [90] hd rfl (by simp)
  have hp14 := general_time_fields_p d d.length
  rw [eZ] at hvalid ⊢
  by_cases c1 : (d.length + [90].length) % 2 ^ 32 < 8 ∨ (d.length + [90].length) % 2 ^ 32 ≥ 30
  · rw [if_pos c1] at hvalid; exact absurd rfl hvalid
  rw [if_neg c1] at hvalid ⊢
  by_cases c2 : tm_in_range (general_time_fields d d.length).when = true
  swap
  · rw [if_pos c2] at hvalid; exact absurd rfl hvalid
  rw [if_neg (not_not.mpr c2)] at hvalid ⊢
  by_cases c3 : (general_time_fields d d.length).p = d.length
  swap
  · rw [if_pos c3] at hvalid; exact absurd rfl hvalid
  rw [if_neg (not_not.mpr c3)] at hvalid ⊢
  have hlen : d.length ≤ 14 := by omega
  have m1e : (d.length + [90].length) % 2 ^ 32 = d.length + [90].length :=
    Nat.mod_eq_of_lt (by simp; omega)
  rw [m1e] at c1 ⊢
  simp only [List.length_singleton] at c1
  exact ⟨by omega, hlen, c2, c3, time_rest_zulu d _⟩

theorem general_time_signed (env : TimeEnv) (d : List Nat) (s h1 h2 m1 m2 : Nat)
    (hd : ∀ c ∈ d, is_digit c = true) (hs : s = 43 ∨ s = 45)
    (hh1 : is_digit h1 = true) (hh2 : is_digit h2 = true) (hm1 : is_digit m1 = true)
    (hm2 : is_digit m2 = true) (h24 : decimal [h1, h2] ≤ 24)
    (hvalid : egg_asn1_parse_general_time env (d ++ [90]) ≠ -1) :
    egg_asn1_parse_general_time env (d ++ [s, h1, h2, m1, m2]) =
      if s = 45 then
        egg_asn1_parse_general_time env (d ++ [90]) -
          (decimal [h1, h2] * 3600 + decimal [m1, m2] * 60)
      else
        egg_asn1_parse_general_time env (d ++ [90]) +
          (decimal [h1, h2] * 3600 + decimal [m1, m2] * 60) := by
  obtain ⟨l7, l14, c2, c3, ev⟩ := general_time_valid env d hd hvalid
  have hnz : ∀ c ∈ [s, h1, h2, m1, m2], c ≠ 0 := by
    intro c hc
    simp only [List.mem_cons, List.mem_singleton, List.not_mem_nil, or_false] at hc
    simp only [is_digit, Bool.and_eq_true, decide_eq_true_eq] at hh1 hh2 hm1 hm2
    omega
  have hsd : is_digit (([s, h1, h2, m1, m2] : List Nat).headD 0) = false := by
    rcases hs with h | h <;> (subst h; rfl)
  have m5 : (d.length + [s, h1, h2, m1, m2].length) % 2 ^ 32 =
      d.length + [s, h1, h2, m1, m2].length := Nat.mod_eq_of_lt (by simp; omega)
  have c5 : ¬ (d.length + [s, h1, h2, m1, m2].length < 8 ∨
      d.length + [s, h1, h2, m1, m2].length ≥ 30) := by
    simp only [List.length_cons, List.length_nil]; omega
  rw [parse_general_time_split env d _ hd hsd hnz, m5, if_neg c5, if_neg (not_not.mpr c2),
    if_neg (not_not.mpr c3), time_rest_signed d s h1 h2 m1 m2 _ hs hh1 hh2 hm1 hm2 h24, ev]

theorem utc_time_valid (env : TimeEnv) (d : List Nat) (hd : ∀ c ∈ d, is_digit c = true)
    (hsize : 4 < env.sizeof_time_t)
    (hvalid : egg_asn1_parse_utc_time env (d ++ [90]) ≠ -1) :
    5 ≤ d.length ∧ d.length ≤ 12 ∧
    tm_in_range (utc_time_fields env d d.length).when = true ∧
    (utc_time_fields env d d.length).p = d.length ∧
    egg_asn1_parse_utc_time env (d ++ [90]) =
      env.timegm (utc_time_fields env d d.length).when := by
  have eZ := parse_utc_time_split env d [90] hd rfl (by simp)
  have hp12 := utc_time_fields_p env d d.length
  have c4 : ¬ (env.sizeof_time_t ≤ 4 ∧ (utc_time_fields env d d.length).when.tm_year ≥ 2038) :=
    fun h => absurd h.1 (by omega)
  rw [eZ] at hvalid ⊢
  by_cases c1 : (d.length + [90].length) % 2 ^ 32 < 6 ∨ (d.length + [90].length) % 2 ^ 32 ≥ 28
  · rw [if_pos c1] at hvalid; exact absurd rfl hvalid
  rw [if_neg c1] at hvalid ⊢
  by_cases c2 : tm_in_range (utc_time_fields env d d.length).when = true
  swap
  · rw [if_pos c2] at hvalid; exact absurd rfl hvalid
  rw [if_neg (not_not.mpr c2)] at hvalid ⊢
  by_cases c3 : (utc_time_fields env d d.length).p = d.length
  swap
  · rw [if_pos c3] at hvalid; exact absurd rfl hvalid
  rw [if_neg (not_not.mpr c3), if_neg c4] at hvalid ⊢
  have hlen : d.length ≤ 12 := by omega
  have m1e : (d.length + [90].length) % 2 ^ 32 = d.length + [90].length :=
    Nat.mod_eq_of_lt (by simp; omega)
  rw [m1e] at c1 ⊢
  simp only [List.length_singleton] at c1
  exact ⟨by omega, hlen, c2, c3, time_rest_zulu d _⟩

theorem utc_time_signed (env : TimeEnv) (d : List Nat) (s h1 h2 m1 m2 : Nat)
    (hd : ∀ c ∈ d, is_digit c = true) (hs : s = 43 ∨ s = 45)
    (hh1 : is_digit h1 = true) (hh2 : is_digit h2 = true) (hm1 : is_digit m1 = true)
    (hm2 : is_digit m2 = true) (h24 : decimal [h1, h2] ≤ 24)
    (hsize : 4 < env.sizeof_time_t)
    (hvalid : egg_asn1_parse_utc_time env (d ++ [90]) ≠ -1) :
    egg_asn1_parse_utc_time env (d ++ [s, h1, h2, m1, m2]) =
      if s = 45 then
        egg_asn1_parse_utc_time env (d ++ [90]) -
          (decimal [h1, h2] * 3600 + decimal [m1, m2] * 60)
      else
        egg_asn1_parse_utc_time env (d ++ [90]) +
          (decimal [h1, h2] * 3600 + decimal [m1, m2] * 60) := by
  obtain ⟨l5, l12, c2, c3, ev⟩ := utc_time_valid env d hd hsize hvalid
  have c4 : ¬ (env.sizeof_time_t ≤ 4 ∧ (utc_time_fields env d d.length).when.tm_year ≥ 2038) :=
    fun h => absurd h.1 (by omega)
  have hnz : ∀ c ∈ [s, h1, h2, m1, m2], c ≠ 0 := by
    intro c hc
    simp only [List.mem_cons, List.mem_singleton, List.not_mem_nil, or_false] at hc
    simp only [is_digit, Bool.and_eq_true, decide_eq_true_eq] at hh1 hh2 hm1 hm2
    omega
  have hsd : is_digit (([s, h1, h2, m1, m2] : List Nat).headD 0) = false := by
    rcases hs with h | h <;> (subst h; rfl)
  have m5 : (d.length + [s, h1, h2, m1, m2].length) % 2 ^ 32 =
      d.length + [s, h1, h2, m1, m2].length := Nat.mod_eq_of_lt (by simp; omega)
  have c5 : ¬ (d.length + [s, h1, h2, m1, m2].length < 6 ∨
      d.length + [s, h1, h2, m1, m2].length ≥ 28) := by
    simp only [List.length_cons, List.length_nil]; omega
  rw [parse_utc_time_split env d _ hd hsd hnz, m5, if_neg c5, if_neg (not_not.mpr c2),
    if_neg (not_not.mpr c3), if_neg c4,
    time_rest_signed d s h1 h2 m1 m2 _ hs hh1 hh2 hm1 hm2 h24, ev]

/-! ## Theorems: what the time parsers accept -/

/-- C38. A run of two digits is read by `egg_asn1_parse_general_time` as the month: for
`12.0000Z` the year is not read (it needs four digits), the next statement reads `12` as
the month, all digits count as parsed, and the result is `timegm` of December 1900, not
-1. With the calendar of the examples that is -2180131200. -/
theorem general_time_two_digits_read_as_month (env : TimeEnv) :
    digits_end (text "12.0000Z") = 2 ∧
    egg_asn1_parse_general_time env (text "12.0000Z") =
      env.timegm { tm_default with tm_mon := 11 } ∧
    egg_asn1_parse_general_time toyTimeEnv (text "12.0000Z") = -2180131200 := by
  refine ⟨by decide, by rfl, by decide⟩

/-- C39. The zone offset is applied with the sign as written: for every digit string `d`
that `egg_asn1_parse_general_time` accepts when followed by `Z`, and every offset `hhmm`
of decimal digits with `hh <= 24`, the string with `+hhmm` gives the result for `Z` plus
`hh * 3600 + mm * 60` and the string with `-hhmm` gives it minus that; the same for
`egg_asn1_parse_utc_time` and a digit string `u`, for a `time_t` of more than 4 bytes. -/
theorem zone_offset_applied_as_written (env : TimeEnv) (d u : List Nat) (h1 h2 m1 m2 : Nat)
    (hd : ∀ c ∈ d, is_digit c = true) (hu : ∀ c ∈ u, is_digit c = true)
    (hh1 : is_digit h1 = true) (hh2 : is_digit h2 = true) (hm1 : is_digit m1 = true)
    (hm2 : is_digit m2 = true) (h24 : decimal [h1, h2] ≤ 24)
    (hsize : 4 < env.sizeof_time_t)
    (hvalid : egg_asn1_parse_general_time env (d ++ [90]) ≠ -1)
    (hvalid2 : egg_asn1_parse_utc_time env (u ++ [90]) ≠ -1) :
    egg_asn1_parse_general_time env (d ++ [43, h1, h2, m1, m2]) =
      egg_asn1_parse_general_time env (d ++ [90]) +
        (decimal [h1, h2] * 3600 + decimal [m1, m2] * 60) ∧
    egg_asn1_parse_general_time env (d ++ [45, h1, h2, m1, m2]) =
      egg_asn1_parse_general_time env (d ++ [90]) -
        (decimal [h1, h2] * 3600 + decimal [m1, m2] * 60) ∧
    egg_asn1_parse_utc_time env (u ++ [43, h1, h2, m1, m2]) =
      egg_asn1_parse_utc_time env (u ++ [90]) +
        (decimal [h1, h2] * 3600 + decimal [m1, m2] * 60) ∧
    egg_asn1_parse_utc_time env (u ++ [45, h1, h2, m1, m2]) =
      egg_asn1_parse_utc_time env (u ++ [90]) -
        (decimal [h1, h2] * 3600 + decimal [m1, m2] * 60) := by
  have g1 := general_time_signed env d 43 h1 h2 m1 m2 hd (Or.inl rfl) hh1 hh2 hm1 hm2 h24
    hvalid
  have g2 := general_time_signed env d 45 h1 h2 m1 m2 hd (Or.inr rfl) hh1 hh2 hm1 hm2 h24
    hvalid
  have u1 := utc_time_signed env u 43 h1 h2 m1 m2 hu (Or.inl rfl) hh1 hh2 hm1 hm2 h24
    hsize hvalid2
  have u2 := utc_time_signed env u 45 h1 h2 m1 m2 hu (Or.inr rfl) hh1 hh2 hm1 hm2 h24
    hsize hvalid2
  rw [if_neg (by decide)] at g1 u1
  rw [if_pos rfl] at g2 u2
  exact ⟨g1, g2, u1, u2⟩

set_option maxRecDepth 100000 in
theorem zone_offset_applied_as_written_witness :
    egg_asn1_parse_general_time toyTimeEnv (text "20000101000000Z") = 946684800 ∧
    egg_asn1_parse_utc_time toyTimeEnv (text "000101000000Z") = 946684800 ∧
    decimal [48, 49] * 3600 + decimal [51, 48] * 60 = 5400 ∧
    egg_asn1_parse_general_time toyTimeEnv (text "20000101000000" ++ [43, 48, 49, 51, 48]) =
      egg_asn1_parse_general_time toyTimeEnv (text "20000101000000" ++ [90]) +
        (decimal [48, 49] * 3600 + decimal [51, 48] * 60) ∧
    egg_asn1_parse_utc_time toyTimeEnv (text "000101000000" ++ [45, 48, 49, 51, 48]) =
      egg_asn1_parse_utc_time toyTimeEnv (text "000101000000" ++ [90]) -
        (decimal [48, 49] * 3600 + decimal [51, 48] * 60) :=
  ⟨by decide, by decide, by decide,
    (zone_offset_applied_as_written toyTimeEnv (text "20000101000000") (text "000101000000")
      48 49 51 48 (by decide) (by decide) (by decide) (by decide) (by decide) (by decide)
      (by decide) (by decide) (by decide) (by decide)).1,
    (zone_offset_applied_as_written toyTimeEnv (text "20000101000000") (text "000101000000")
      48 49 51 48 (by decide) (by decide) (by decide) (by decide) (by decide) (by decide)
      (by decide) (by decide) (by decide) (by decide)).2.2.2⟩

/-- The minute position of a zone offset is not tested: characters that are not digits
make `atoin` return -1, which is added as -60 seconds. -/
theorem zone_minutes_not_tested :
    egg_asn1_parse_general_time toyTimeEnv (text "20000101000000+01xx") = 946684800 + 3540 ∧
    egg_asn1_parse_utc_time toyTimeEnv (text "000101000000+01xx") = 946684800 + 3540 := by
  decide

/-- C40 (amended). Both parsers return -1 for every string (without zero byte, shorter
than 2^32) that is not of the form: digits, an optional dot with four characters, then
nothing, or `Z`, or a sign followed by two decimal digits and then nothing or two more
characters (for `egg_asn1_parse_utc_time` with a `time_t` of more than 4 bytes). In
particular they return -1 when, after the digits and the optional fraction, a sign is
followed by two characters that are not both decimal digits. -/
theorem time_not_of_form_rejected (env : TimeEnv) (time : List Nat)
    (hz : ∀ c ∈ time, c ≠ 0) (hlen : time.length < 2 ^ 32) :
    (time_form time = false →
      egg_asn1_parse_general_time env time = -1 ∧
      (4 < env.sizeof_time_t → egg_asn1_parse_utc_time env time = -1)) ∧
    (∀ (digits fraction rest : List Nat) (s h1 h2 : Nat),
      time = digits ++ fraction ++ s :: h1 :: h2 :: rest →
      (∀ c ∈ digits, is_digit c = true) →
      (fraction = [] ∨ ∃ a b c d, fraction = [46, a, b, c, d]) →
      (s = 43 ∨ s = 45) → ¬ (is_digit h1 = true ∧ is_digit h2 = true) →
      egg_asn1_parse_general_time env time = -1 ∧
      (4 < env.sizeof_time_t → egg_asn1_parse_utc_time env time = -1)) := by
  have main : time_form time = false →
      egg_asn1_parse_general_time env time = -1 ∧
      (4 < env.sizeof_time_t → egg_asn1_parse_utc_time env time = -1) := fun h =>
    ⟨parse_general_time_form env time hz hlen h,
      fun hsize => parse_utc_time_form env time hz hlen hsize h⟩
  refine ⟨main, ?_⟩
  intro digits fraction rest s h1 h2 ht hd hf hs hbad
  apply main
  rw [ht]
  exact time_form_bad_hour digits fraction rest s h1 h2 hd hf hs hbad

theorem time_not_of_form_rejected_witness :
    (∀ c ∈ text "20000101000000+x100", c ≠ 0) ∧
    (text "20000101000000+x100").length < 2 ^ 32 ∧
    time_form (text "20000101000000+x100") = false ∧
    egg_asn1_parse_general_time toyTimeEnv (text "20000101000000+x100") = -1 :=
  ⟨by decide, by decide, by decide,
    ((time_not_of_form_rejected toyTimeEnv (text "20000101000000+x100") (by decide)
      (by decide)).1 (by decide)).1⟩

/-- C40 (counterexample). A time without zone is not of the documented form and is
accepted by both parsers. -/
theorem time_without_zone_accepted :
    documented_time_form (text "20000101000000") = false ∧
    egg_asn1_parse_general_time toyTimeEnv (text "20000101000000") = 946684800 ∧
    documented_time_form (text "000101000000") = false ∧
    egg_asn1_parse_utc_time toyTimeEnv (text "000101000000") = 946684800 := by
  decide

end GkrCrypto
